import Mathlib

/-!
The program fix-qdf: a line-directed repair pass for QDF files

A shallow embedding of `QdfFixer` (qpdf/fix-qdf.cc) and a verification of its
offset, length, object-stream and cross-reference bookkeeping.

Conventions of the embedding.

* A byte string (`std::string`, `std::string_view`, the output stream) is a
  `List Char`; a byte is the character with the same code.
* `qpdf_offset_t` (signed 64 bit) is `Int`.  Signed overflow is undefined
  behaviour in the source; the embedding stops with `Err.undefined` where an
  addition would leave the range, so a successful run of the model never
  relies on wrap-around.
* `size_t` counters and the `int` object counters only count up from zero and
  are `Nat`; range-checked conversions (`QIntC::to_*`, `std::stoi`) fail with
  `Err.exception` as the library functions do.
* The object `QdfFixer` is the record `QdfFixer`; the stream `out` is its
  field `out`, which only grows.
-/

namespace FixQdf

/-- A byte string. -/
abbrev Bytes := List Char

/-- Largest value of `qpdf_offset_t` (`long long`). -/
def OFFSET_MAX : Int := 9223372036854775807

/-- Largest value of `int`. -/
def INT_MAX : Nat := 2147483647

/-- The value of `sizeof(unsigned long long)`. -/
def SIZEOF_ULL : Nat := 8

/-- Ways in which a run stops early. -/
inductive Err where
  /-- A call of `QdfFixer::fatal`: the message goes to the error stream and the
  process exits with code 2. -/
  | fatal (msg : Bytes)
  /-- A C++ exception that reaches `realmain` (`std::stoi`, `QIntC`, `at`,
  `std::logic_error`). -/
  | exception (what : String)
  /-- Undefined behaviour in the source (signed overflow, `back()` of an empty
  vector, a loop that cannot end). -/
  | undefined (what : String)
  deriving DecidableEq

/-- Outcome of a computation that may stop the run; `fail` keeps the bytes
already written to the output. -/
inductive Result (α : Type) where
  | ok (a : α)
  | fail (e : Err) (written : Bytes)
  deriving DecidableEq

/-- Sequencing of fallible computations. -/
@[inline] def Result.bind {α β : Type} (r : Result α) (f : α → Result β) : Result β :=
  match r with
  | .ok a => f a
  | .fail e w => .fail e w

/-- Modelled from the spec: `QPDFXRefEntry` (qpdf/QPDFXRefEntry.hh) is not among
the sources.  An entry is a tagged variant with two shapes: an uncompressed
object (type 1) with its byte offset, or a compressed object (type 2) with the
number of the containing object stream and the index inside it. -/
inductive XRefEntry where
  | uncompressed (offset : Int)
  | compressed (objstm : Nat) (index : Nat)
  deriving DecidableEq

/-- Modelled from the spec: `QPDFXRefEntry::getType`. -/
def XRefEntry.getType : XRefEntry → Nat
  | .uncompressed _ => 1
  | .compressed _ _ => 2

/-- Modelled from the spec: `QPDFXRefEntry::getOffset`; only an uncompressed
entry has an offset. -/
def XRefEntry.getOffset : XRefEntry → Option Int
  | .uncompressed o => some o
  | .compressed _ _ => none

/-- Modelled from the spec: `QPDFXRefEntry::getObjStreamNumber`. -/
def XRefEntry.getObjStreamNumber : XRefEntry → Option Nat
  | .uncompressed _ => none
  | .compressed s _ => some s

/-- Modelled from the spec: `QPDFXRefEntry::getObjStreamIndex`. -/
def XRefEntry.getObjStreamIndex : XRefEntry → Option Nat
  | .uncompressed _ => none
  | .compressed _ i => some i

/-- The states of the line machine (the anonymous `enum` of `QdfFixer`). -/
inductive State where
  | st_top
  | st_in_obj
  | st_in_stream
  | st_after_stream
  | st_in_ostream_dict
  | st_in_ostream_offsets
  | st_in_ostream_outer
  | st_in_ostream_obj
  | st_in_xref_stream_dict
  | st_in_length
  | st_at_xref
  | st_before_trailer
  | st_in_trailer
  | st_done
  deriving DecidableEq

/-- The data members of `class QdfFixer`, with the output stream as `out`. -/
structure QdfFixer where
  filename : Bytes
  out : Bytes
  state : State
  lineno : Nat
  offset : Int
  last_offset : Int
  last_obj : Nat
  xref : List XRefEntry
  stream_start : Int
  stream_length : Nat
  xref_offset : Int
  xref_f1_nbytes : Nat
  xref_f2_nbytes : Nat
  xref_size : Nat
  ostream : List Bytes
  ostream_offsets : List Int
  ostream_discarded : List Bytes
  ostream_idx : Nat
  ostream_id : Nat
  ostream_extends : Bytes
  deriving DecidableEq

/-- The constructor `QdfFixer::QdfFixer` with the default member initialisers. -/
def QdfFixer.init (filename : Bytes) : QdfFixer where
  filename := filename
  out := []
  state := .st_top
  lineno := 0
  offset := 0
  last_offset := 0
  last_obj := 0
  xref := []
  stream_start := 0
  stream_length := 0
  xref_offset := 0
  xref_f1_nbytes := 0
  xref_f2_nbytes := 0
  xref_size := 0
  ostream := []
  ostream_offsets := []
  ostream_discarded := []
  ostream_idx := 0
  ostream_id := 0
  ostream_extends := []

/-! ## Text helpers -/

/-- Decimal digits of a natural number, most significant first
(`std::to_string` on an unsigned value); `fuel` bounds the number of digits. -/
def toDecAux : Nat → Nat → Bytes → Bytes
  | 0, _, acc => acc
  | fuel + 1, n, acc =>
    let acc1 := Char.ofNat (48 + n % 10) :: acc
    if n / 10 = 0 then acc1 else toDecAux fuel (n / 10) acc1

/-- The function `std::to_string` on an unsigned value. -/
def toDec (n : Nat) : Bytes := toDecAux (n + 1) n []

/-- The function `std::to_string` on a signed value. -/
def intToDec (i : Int) : Bytes :=
  if i < 0 then '-' :: toDec (-i).toNat else toDec i.toNat

/-- Value of a string of decimal digits. -/
def decVal (ds : Bytes) : Nat :=
  ds.foldl (fun acc c => 10 * acc + (c.toNat - 48)) 0

/-- The function `std::stoi` on a non-empty string of decimal digits: the value, or nothing
(`std::out_of_range`) when it does not fit an `int`. -/
def stoi (ds : Bytes) : Option Nat :=
  if decVal ds ≤ INT_MAX then some (decVal ds) else none

/-- Modelled from the spec: `QUtil::int_to_string(num, length)` (qpdf/QUtil.hh)
is not among the sources; the spec gives the format `%010d` for `length = 10`:
decimal, padded on the left with zeros to at least `length` characters. -/
def int_to_string (num : Int) (length : Nat) : Bytes :=
  if num < 0 then
    '-' :: (List.replicate (length - 1 - (toDec (-num).toNat).length) '0' ++ toDec (-num).toNat)
  else
    List.replicate (length - (toDec num.toNat).length) '0' ++ toDec num.toNat

/-- The test `line.find(pat) != npos`: the pattern occurs somewhere in the line. -/
def hasSub (pat : Bytes) : Bytes → Bool
  | [] => pat.isPrefixOf []
  | c :: cs => pat.isPrefixOf (c :: cs) || hasSub pat cs

/-! ## The five regular expressions of `processLines` -/

/-- The regular expression `^(\d+) 0 obj\n$`; the result is group 1. -/
def re_n_0_obj (line : Bytes) : Option Bytes :=
  let d := line.takeWhile Char.isDigit
  if d ≠ [] ∧ line.dropWhile Char.isDigit = " 0 obj\n".toList then some d else none

/-- The regular expression `/Extends (\d+ 0 R)` tried at the head of `l`. -/
def re_extends_here (l : Bytes) : Option Bytes :=
  if "/Extends ".toList.isPrefixOf l then
    let r := l.drop 9
    let d := r.takeWhile Char.isDigit
    if d ≠ [] ∧ " 0 R".toList.isPrefixOf (r.dropWhile Char.isDigit) then
      some (d ++ " 0 R".toList)
    else none
  else none

/-- The regular expression `/Extends (\d+ 0 R)` searched in the line (leftmost
match); the result is group 1. -/
def re_extends : Bytes → Option Bytes
  | [] => none
  | c :: cs =>
    match re_extends_here (c :: cs) with
    | some m => some m
    | none => re_extends cs

/-- The regular expression `^%% Object stream: object (\d+)`; the result is
group 1. -/
def re_ostream_obj (line : Bytes) : Option Bytes :=
  if "%% Object stream: object ".toList.isPrefixOf line then
    let d := (line.drop 25).takeWhile Char.isDigit
    if d ≠ [] then some d else none
  else none

/-- The regular expression `^\d+\n$`. -/
def re_num (line : Bytes) : Bool :=
  decide (line.takeWhile Char.isDigit ≠ [] ∧ line.dropWhile Char.isDigit = ['\n'])

/-- The regular expression `^  /Size \d+\n$`. -/
def re_size_n (line : Bytes) : Bool :=
  "  /Size ".toList.isPrefixOf line && re_num (line.drop 8)

/-! ## Small pieces of `processLines` -/

/-- Number of iterations of `while (t) { t >>= 8; ++n; }` for `t ≥ 0`: the
number of bytes needed to hold `t`.  `fuel` bounds the iterations. -/
def nbytesAux : Nat → Nat → Nat
  | 0, _ => 0
  | fuel + 1, t => if t = 0 then 0 else 1 + nbytesAux fuel (t / 256)

/-- The loop `while (t) { t >>= 8; ++n; }` started at `t ≥ 0`. -/
def nbytes (t : Nat) : Nat := nbytesAux t t

/-- The body of the loop over `xref` that computes `max_objects` (source lines
164-166). -/
def maxObjectsStep (max_objects : Nat) (e : XRefEntry) : Nat :=
  match e with
  | .compressed _ i => if i > max_objects then i else max_objects
  | .uncompressed _ => max_objects

/-- The loop over `xref` that computes `max_objects` (source lines 162-167). -/
def maxObjects (xref : List XRefEntry) : Nat :=
  xref.foldl maxObjectsStep 1

/-- Sum of the lengths of a list of lines. -/
def totalLength (ls : List Bytes) : Nat := (ls.map List.length).sum

/-- The loop of `writeBinary` (source lines 366-369): fills `data[i-1]` for
`i = bytes, ..., 1` with the low byte of `val` and shifts `val`. -/
def writeBinaryLoop : Nat → Nat → Bytes → Bytes
  | 0, _, data => data
  | i + 1, val, data => writeBinaryLoop i (val / 256) (data.set i (Char.ofNat (val % 256)))

/-- The function `QdfFixer::writeBinary`: the bytes appended to the output, or
nothing when `bytes` is too large (`std::logic_error`). -/
def writeBinary (val : Nat) (bytes : Nat) : Option Bytes :=
  if bytes > SIZEOF_ULL then none
  else some (writeBinaryLoop bytes (val % 2 ^ 64) (List.replicate bytes (Char.ofNat 0)))

/-! ## Member functions -/

/-- The statement `out << data`. -/
def QdfFixer.write (s : QdfFixer) (data : Bytes) : QdfFixer :=
  { s with out := s.out ++ data }

/-- Stop the run with error `e`, keeping what was written. -/
def QdfFixer.fail {α : Type} (s : QdfFixer) (e : Err) : Result α :=
  .fail e s.out

/-- The function `QdfFixer::checkObjId` (source lines 300-309). -/
def checkObjId (s : QdfFixer) (cur_obj_str : Bytes) : Result QdfFixer :=
  match stoi cur_obj_str with
  | none => s.fail (.exception "stoi")
  | some n =>
    if s.last_obj ≥ INT_MAX then s.fail (.undefined "signed overflow")
    else
      let s1 := { s with last_obj := s.last_obj + 1 }
      if n ≠ s1.last_obj then
        s1.fail (.fatal (s1.filename ++ ":".toList ++ toDec s1.lineno ++
          ": expected object ".toList ++ toDec s1.last_obj))
      else .ok { s1 with xref := s1.xref ++ [XRefEntry.uncompressed s1.last_offset] }

/-- The function `QdfFixer::adjustOstreamXref` (source lines 311-315). -/
def adjustOstreamXref (s : QdfFixer) : Result QdfFixer :=
  if s.ostream_idx > INT_MAX then s.fail (.exception "integer out of range")
  else
    match s.xref with
    | [] => s.fail (.undefined "back of an empty vector")
    | _ :: _ =>
      .ok { s with
        xref := s.xref.dropLast ++ [XRefEntry.compressed s.ostream_id s.ostream_idx]
        ostream_idx := s.ostream_idx + 1 }

/-- The string `offsets` built by the loop of `writeOstream` (source lines
324-328): one pair `onum iter-first` per contained object. -/
def ostreamHeader (onum : Nat) (first : Int) : List Int → Bytes
  | [] => []
  | iter :: rest =>
    toDec (onum + 1) ++ " ".toList ++ intToDec (iter - first) ++ "\n".toList ++
      ostreamHeader (onum + 1) first rest

/-- The string `dict_data` of `writeOstream` (source lines 332-339). -/
def ostreamDict (stream_length n : Nat) (first : Int) (ostream_extends : Bytes) : Bytes :=
  "  /Length ".toList ++ toDec stream_length ++ "\n".toList ++
  "  /N ".toList ++ toDec n ++ "\n".toList ++
  "  /First ".toList ++ intToDec first ++ "\n".toList ++
  (if ostream_extends ≠ [] then "  /Extends ".toList ++ ostream_extends ++ "\n".toList else []) ++
  ">>\n".toList

/-- The function `QdfFixer::writeOstream` (source lines 317-357). -/
def writeOstream (s : QdfFixer) : Result QdfFixer :=
  match s.ostream_offsets with
  | [] => s.fail (.exception "vector::at")
  | first :: _ =>
    if s.ostream_id + s.ostream_offsets.length > INT_MAX then
      s.fail (.undefined "signed overflow")
    else
      let offsets := ostreamHeader s.ostream_id first s.ostream_offsets
      let n := s.ostream_offsets.length
      let offset_adjust : Int := offsets.length
      if offset_adjust > OFFSET_MAX then s.fail (.exception "integer out of range")
      else if first + offset_adjust > OFFSET_MAX then s.fail (.undefined "signed overflow")
      else
        let first1 := first + offset_adjust
        let stream_length := s.stream_length + offsets.length
        let dict_data := ostreamDict stream_length n first1 s.ostream_extends
        if (dict_data.length : Int) > OFFSET_MAX then s.fail (.exception "integer out of range")
        else if offset_adjust + dict_data.length > OFFSET_MAX then
          s.fail (.undefined "signed overflow")
        else
          let offset_adjust1 : Int := offset_adjust + dict_data.length
          let s1 := (s.write (dict_data ++ "stream\n".toList ++ offsets)).write s.ostream.flatten
          let offset1 : Int := s.offset - (totalLength s.ostream_discarded : Int)
          if offset1 + offset_adjust1 > OFFSET_MAX then s1.fail (.undefined "signed overflow")
          else
            .ok { s1 with
              stream_length := stream_length
              offset := offset1 + offset_adjust1
              ostream_idx := 0
              ostream_id := 0
              ostream := []
              ostream_offsets := []
              ostream_discarded := []
              ostream_extends := [] }

/-- One call `writeBinary(val, bytes)` on the output of `s`. -/
def QdfFixer.writeBinary (s : QdfFixer) (val : Nat) (bytes : Nat) : Result QdfFixer :=
  match FixQdf.writeBinary val bytes with
  | none => s.fail (.exception "fix-qdf::writeBinary called with too many bytes")
  | some data => .ok (s.write data)

/-- The three `writeBinary` calls for one row `(type, f1, f2)` of the XRef
stream. -/
def writeRow (s : QdfFixer) (type f1 f2 : Nat) : Result QdfFixer :=
  (s.writeBinary type 1).bind fun s1 =>
  (s1.writeBinary f1 s1.xref_f1_nbytes).bind fun s2 =>
  s2.writeBinary f2 s2.xref_f2_nbytes

/-- The loop over `xref` that writes the packed entries (source lines
227-240). -/
def writeXRefRows (s : QdfFixer) : List XRefEntry → Result QdfFixer
  | [] => .ok s
  | .uncompressed o :: rest =>
    if o < 0 then s.fail (.exception "integer out of range")
    else (writeRow s 1 o.toNat 0).bind fun s1 => writeXRefRows s1 rest
  | .compressed sn idx :: rest =>
    (writeRow s 2 sn idx).bind fun s1 => writeXRefRows s1 rest

/-- The loop over `xref` that writes the classic table lines (source lines
274-276); `getOffset` throws on an entry that is not of type 1. -/
def writeXRefTable (s : QdfFixer) : List XRefEntry → Result QdfFixer
  | [] => .ok s
  | e :: rest =>
    match e.getOffset with
    | none => s.fail (.exception "getOffset called for xref entry of type != 1")
    | some o => writeXRefTable (s.write (int_to_string o 10 ++ " 00000 n \n".toList)) rest

/-! ## The body of the loop of `processLines`, state by state -/

/-- State `st_top` (source lines 132-140). -/
def stepTop (s : QdfFixer) (line : Bytes) : Result QdfFixer :=
  match re_n_0_obj line with
  | some m1 =>
    (checkObjId s m1).bind fun s1 => .ok ({ s1 with state := .st_in_obj }.write line)
  | none =>
    if line = "xref\n".toList then
      .ok ({ s with xref_offset := s.last_offset, state := .st_at_xref }.write line)
    else .ok (s.write line)

/-- The branch of state `st_in_obj` for a line that contains `/Type /XRef`
(source lines 152-177); the line itself has been written already. -/
def startXRefStream (s : QdfFixer) : Result QdfFixer :=
  match s.xref.getLast? with
  | none => s.fail (.undefined "back of an empty vector")
  | some e =>
    match e.getOffset with
    | none => s.fail (.exception "getOffset called for xref entry of type != 1")
    | some xref_offset =>
      if xref_offset < 0 then s.fail (.undefined "loop without end")
      else
        let f1 := nbytes xref_offset.toNat
        let f2 := s.xref_f2_nbytes + nbytes (maxObjects s.xref)
        let esize := 1 + f1 + f2
        let xref_size := 1 + s.xref.length
        let length := xref_size * esize
        .ok ({ s with
          xref_offset := xref_offset
          xref_f1_nbytes := f1
          xref_f2_nbytes := f2
          xref_size := xref_size
          state := .st_in_xref_stream_dict }.write
            ("  /Length ".toList ++ toDec length ++ "\n".toList ++
             "  /W [ 1 ".toList ++ toDec f1 ++ " ".toList ++ toDec f2 ++ " ]\n".toList))

/-- State `st_in_obj` (source lines 141-178). -/
def stepInObj (s0 : QdfFixer) (line : Bytes) : Result QdfFixer :=
  let s := s0.write line
  if line = "stream\n".toList then
    .ok { s with state := .st_in_stream, stream_start := s.offset }
  else if line = "endobj\n".toList then
    .ok { s with state := .st_top }
  else if hasSub "/Type /ObjStm".toList line then
    .ok { s with state := .st_in_ostream_dict, ostream_id := s.last_obj }
  else if hasSub "/Type /XRef".toList line then
    startXRefStream s
  else .ok s

/-- State `st_in_ostream_dict` (source lines 179-188). -/
def stepInOstreamDict (s : QdfFixer) (line : Bytes) : Result QdfFixer :=
  if line = "stream\n".toList then
    .ok { s with state := .st_in_ostream_offsets }
  else
    let s1 := { s with ostream_discarded := s.ostream_discarded ++ [line] }
    match re_extends line with
    | some m1 => .ok { s1 with ostream_extends := m1 }
    | none => .ok s1

/-- State `st_in_ostream_offsets` (source lines 189-198). -/
def stepInOstreamOffsets (s : QdfFixer) (line : Bytes) : Result QdfFixer :=
  match re_ostream_obj line with
  | some m1 =>
    (checkObjId s m1).bind fun s1 =>
      .ok { s1 with
        stream_start := s1.last_offset
        state := .st_in_ostream_outer
        ostream := s1.ostream ++ [line] }
  | none => .ok { s with ostream_discarded := s.ostream_discarded ++ [line] }

/-- State `st_in_ostream_outer` (source lines 199-203). -/
def stepInOstreamOuter (s : QdfFixer) (line : Bytes) : Result QdfFixer :=
  (adjustOstreamXref s).bind fun s1 =>
    .ok { s1 with
      ostream_offsets := s1.ostream_offsets ++ [s1.last_offset - s1.stream_start]
      state := .st_in_ostream_obj
      ostream := s1.ostream ++ [line] }

/-- State `st_in_ostream_obj` (source lines 204-213). -/
def stepInOstreamObj (s0 : QdfFixer) (line : Bytes) : Result QdfFixer :=
  let s := { s0 with ostream := s0.ostream ++ [line] }
  match re_ostream_obj line with
  | some m1 =>
    (checkObjId s m1).bind fun s1 => .ok { s1 with state := .st_in_ostream_outer }
  | none =>
    if line = "endstream\n".toList then
      if s.last_offset - s.stream_start < 0 then s.fail (.exception "integer out of range")
      else
        (writeOstream { s with stream_length := (s.last_offset - s.stream_start).toNat }).bind
          fun s1 => .ok { s1 with state := .st_in_obj }
    else .ok s

/-- State `st_in_xref_stream_dict` (source lines 214-245). -/
def stepInXRefStreamDict (s0 : QdfFixer) (line : Bytes) : Result QdfFixer :=
  let s :=
    if hasSub "/Length".toList line || hasSub "/W".toList line then s0
    else if hasSub "/Size".toList line then
      s0.write ("  /Size ".toList ++ toDec (1 + s0.xref.length) ++ "\n".toList)
    else s0.write line
  if line = "stream\n".toList then
    (writeRow s 0 0 0).bind fun s1 =>
    (writeXRefRows s1 s1.xref).bind fun s2 =>
      .ok ({ s2 with state := .st_done }.write
        ("\nendstream\nendobj\n\n".toList ++ "startxref\n".toList ++
          intToDec s2.xref_offset ++ "\n%%EOF\n".toList))
  else .ok s

/-- State `st_in_stream` (source lines 246-251). -/
def stepInStream (s : QdfFixer) (line : Bytes) : Result QdfFixer :=
  if line = "endstream\n".toList then
    if s.last_offset - s.stream_start < 0 then s.fail (.exception "integer out of range")
    else
      .ok ({ s with
        stream_length := (s.last_offset - s.stream_start).toNat
        state := .st_after_stream }.write line)
  else .ok (s.write line)

/-- State `st_after_stream` (source lines 252-261). -/
def stepAfterStream (s : QdfFixer) (line : Bytes) : Result QdfFixer :=
  if line = "%QDF: ignore_newline\n".toList then
    if s.stream_length > 0 then
      .ok ({ s with stream_length := s.stream_length - 1 }.write line)
    else .ok (s.write line)
  else
    match re_n_0_obj line with
    | some m1 =>
      (checkObjId s m1).bind fun s1 => .ok ({ s1 with state := .st_in_length }.write line)
    | none => .ok (s.write line)

/-- State `st_in_length` (source lines 262-270). -/
def stepInLength (s : QdfFixer) (line : Bytes) : Result QdfFixer :=
  if !re_num line then
    s.fail (.fatal (s.filename ++ ":".toList ++ toDec s.lineno ++ ": expected integer".toList))
  else
    let new_length := toDec s.stream_length ++ "\n".toList
    let offset1 : Int := s.offset - (line.length : Int)
    if offset1 + new_length.length > OFFSET_MAX then s.fail (.undefined "signed overflow")
    else
      .ok ({ s with offset := offset1 + new_length.length, state := .st_top }.write new_length)

/-- State `st_at_xref` (source lines 271-277). -/
def stepAtXRef (s : QdfFixer) (_line : Bytes) : Result QdfFixer :=
  let n := s.xref.length
  let s1 := s.write ("0 ".toList ++ toDec (1 + n) ++ "\n0000000000 65535 f \n".toList)
  (writeXRefTable s1 s1.xref).bind fun s2 => .ok { s2 with state := .st_before_trailer }

/-- State `st_before_trailer` (source lines 278-283). -/
def stepBeforeTrailer (s : QdfFixer) (line : Bytes) : Result QdfFixer :=
  if line = "trailer <<\n".toList then
    .ok ({ s with state := .st_in_trailer }.write line)
  else .ok s

/-- State `st_in_trailer` (source lines 284-293). -/
def stepInTrailer (s0 : QdfFixer) (line : Bytes) : Result QdfFixer :=
  let s :=
    if re_size_n line then
      s0.write ("  /Size ".toList ++ toDec (1 + s0.xref.length) ++ "\n".toList)
    else s0.write line
  if line = ">>\n".toList then
    .ok ({ s with state := .st_done }.write
      ("startxref\n".toList ++ intToDec s.xref_offset ++ "\n%%EOF\n".toList))
  else .ok s

/-- The head of the loop body (source lines 116-130): count the line, remember
where it starts and move `offset` past it. -/
def advance (s : QdfFixer) (line : Bytes) : QdfFixer :=
  { s with
    lineno := s.lineno + 1
    last_offset := s.offset
    offset := s.offset + (line.length : Int) }

/-- The chain of `if (state == ...)` of the loop body (source lines 132-296). -/
def dispatch (s : QdfFixer) (line : Bytes) : Result QdfFixer :=
  match s.state with
  | .st_top => stepTop s line
  | .st_in_obj => stepInObj s line
  | .st_in_ostream_dict => stepInOstreamDict s line
  | .st_in_ostream_offsets => stepInOstreamOffsets s line
  | .st_in_ostream_outer => stepInOstreamOuter s line
  | .st_in_ostream_obj => stepInOstreamObj s line
  | .st_in_xref_stream_dict => stepInXRefStreamDict s line
  | .st_in_stream => stepInStream s line
  | .st_after_stream => stepAfterStream s line
  | .st_in_length => stepInLength s line
  | .st_at_xref => stepAtXRef s line
  | .st_before_trailer => stepBeforeTrailer s line
  | .st_in_trailer => stepInTrailer s line
  | .st_done => .ok s

/-- One iteration of the `while (more)` loop of `processLines` on the line
`line` (source lines 116-297). -/
def step (s : QdfFixer) (line : Bytes) : Result QdfFixer :=
  if s.offset + (line.length : Int) > OFFSET_MAX then s.fail (.undefined "signed overflow")
  else dispatch (advance s line) line

/-- The successive values of `line` in the loop of `processLines` (source
lines 120-128): each line runs up to and including its newline, and the last
one is what follows the last newline (empty when the input ends in a newline
or is empty). -/
def splitLines : Bytes → List Bytes
  | [] => [[]]
  | c :: cs =>
    if c = '\n' then [c] :: splitLines cs
    else
      match splitLines cs with
      | [] => [[c]]
      | l :: ls => (c :: l) :: ls

/-- The loop of `processLines` over the successive lines. -/
def runLines (s : QdfFixer) : List Bytes → Result QdfFixer
  | [] => .ok s
  | line :: rest => (step s line).bind fun s1 => runLines s1 rest

/-- The function `QdfFixer::processLines` on a fixer in its current state. -/
def QdfFixer.processLines (s : QdfFixer) (input : Bytes) : Result QdfFixer :=
  runLines { s with lineno := 0 } (splitLines input)

/-- The run of `realmain` on an input: construct the fixer and process the
input. -/
def processLines (filename input : Bytes) : Result QdfFixer :=
  (QdfFixer.init filename).processLines input

/-! ## Invariants of the run -/

/-- No object-stream data is buffered. -/
def Clean (s : QdfFixer) : Prop :=
  s.ostream = [] ∧ s.ostream_offsets = [] ∧ s.ostream_discarded = [] ∧ s.ostream_idx = 0 ∧
    s.ostream_extends = []

/-- The bookkeeping that holds at the start of a loop iteration, state by
state: how `offset` relates to the bytes written, and what the object-stream
buffers hold. -/
def Acct (s : QdfFixer) : Prop :=
  match s.state with
  | .st_top | .st_in_obj | .st_in_stream | .st_after_stream | .st_in_length =>
    s.offset = s.out.length ∧ Clean s ∧ s.xref_f2_nbytes = 0
  | .st_in_ostream_dict =>
    s.offset = s.out.length + totalLength s.ostream_discarded ∧
      s.ostream = [] ∧ s.ostream_offsets = [] ∧ s.ostream_idx = 0 ∧ s.xref_f2_nbytes = 0 ∧
      s.last_obj = s.ostream_id
  | .st_in_ostream_offsets =>
    s.offset = s.out.length + totalLength s.ostream_discarded + 7 ∧
      s.ostream = [] ∧ s.ostream_offsets = [] ∧ s.ostream_idx = 0 ∧ s.xref_f2_nbytes = 0 ∧
      s.last_obj = s.ostream_id
  | .st_in_ostream_outer =>
    s.offset = s.out.length + totalLength s.ostream_discarded + 7 + totalLength s.ostream ∧
      s.stream_start = s.out.length + totalLength s.ostream_discarded + 7 ∧
      s.xref_f2_nbytes = 0 ∧ s.ostream_idx = s.ostream_offsets.length ∧
      s.last_obj = s.ostream_id + s.ostream_idx + 1
  | .st_in_ostream_obj =>
    s.offset = s.out.length + totalLength s.ostream_discarded + 7 + totalLength s.ostream ∧
      s.stream_start = s.out.length + totalLength s.ostream_discarded + 7 ∧
      s.xref_f2_nbytes = 0 ∧ s.ostream_idx = s.ostream_offsets.length ∧
      s.last_obj = s.ostream_id + s.ostream_idx
  | .st_in_xref_stream_dict =>
    ∃ p : Int, s.xref.getLast? = some (XRefEntry.uncompressed p) ∧ 0 ≤ p ∧ s.xref_offset = p ∧
      s.xref_f1_nbytes = nbytes p.toNat ∧ s.xref_f2_nbytes = nbytes (maxObjects s.xref)
  | _ => True

/-- Counters, offset range and bookkeeping of a reachable state. -/
structure Inv1 (s : QdfFixer) : Prop where
  xref_len : s.xref.length = s.last_obj
  obj_le : s.last_obj ≤ INT_MAX
  off_nonneg : 0 ≤ s.offset
  off_le : s.offset ≤ OFFSET_MAX
  acct : Acct s

/-- The bytes of `out` from position `p` on begin with a line that matches
`^(\d+) 0 obj\n$` and whose number is `n`. -/
def IsHeaderAt (out : Bytes) (p : Int) (n : Nat) : Prop :=
  0 ≤ p ∧ ∃ line d rest, re_n_0_obj line = some d ∧ decVal d = n ∧
    out.drop p.toNat = line ++ rest

/-- What the entry at position `i` of the table says about the output `out`:
an uncompressed entry points at the header line of object `i + 1`, a compressed
entry names an object stream with a smaller number. -/
def GoodEntry (out : Bytes) (i : Nat) : XRefEntry → Prop
  | .uncompressed p => IsHeaderAt out p (i + 1) ∧ 8 * (i : Int) ≤ p
  | .compressed sid _ => sid ≤ i

/-- The table of a reachable state describes the output.  In state
`st_in_ostream_outer` the last entry is the provisional type-1 entry of the
marker just read, which the next line replaces. -/
structure Inv2 (s : QdfFixer) : Prop where
  entries : ∀ (i : Nat) (e : XRefEntry), s.xref[i]? = some e →
    GoodEntry s.out i e ∨
      (s.state = .st_in_ostream_outer ∧ i + 1 = s.xref.length ∧
        ∃ p, e = XRefEntry.uncompressed p ∧ (s.out.length : Int) ≤ p ∧ p ≤ s.offset)
  sorted : ∀ (i j : Nat) (p q : Int), i < j → s.xref[i]? = some (XRefEntry.uncompressed p) →
    s.xref[j]? = some (XRefEntry.uncompressed q) → p ≤ q
  count : 8 * s.last_obj ≤ s.out.length + totalLength s.ostream

/-- Scan of the buffered lines of an object stream the way the states
`st_in_ostream_outer` and `st_in_ostream_obj` alternate: `after` says that the
previous line was a marker, so that the current line opens a contained object
whatever it looks like.  The result says whether the last line was a marker. -/
def scanFlag : Bool → List Bytes → Bool
  | b, [] => b
  | true, _ :: ls => scanFlag false ls
  | false, l :: ls => scanFlag (re_ostream_obj l).isSome ls

/-- Byte positions, counted from `pos` at the head of the lines, of the lines
that directly follow a marker line. -/
def objectStarts : Nat → Bool → List Bytes → List Nat
  | _, _, [] => []
  | pos, true, l :: ls => pos :: objectStarts (pos + l.length) false ls
  | pos, false, l :: ls => objectStarts (pos + l.length) (re_ostream_obj l).isSome ls

/-- The numbers carried by the marker lines, in order. -/
def markerNumbers : Bool → List Bytes → List Nat
  | _, [] => []
  | true, _ :: ls => markerNumbers false ls
  | false, l :: ls =>
    match re_ostream_obj l with
    | some d => decVal d :: markerNumbers true ls
    | none => markerNumbers false ls

/-- The buffers of an object stream describe the buffered lines. -/
structure Inv3 (s : QdfFixer) : Prop where
  comp : s.state = .st_in_ostream_outer ∨ s.state = .st_in_ostream_obj →
    ∀ k : Nat, k < s.ostream_idx →
      s.xref[s.ostream_id + k]? = some (XRefEntry.compressed s.ostream_id k)
  starts : s.state = .st_in_ostream_outer ∨ s.state = .st_in_ostream_obj →
    s.ostream_offsets = (objectStarts 0 false s.ostream).map (fun n : Nat => (n : Int))
  flag : s.state = .st_in_ostream_outer ∨ s.state = .st_in_ostream_obj →
    scanFlag false s.ostream = decide (s.state = .st_in_ostream_outer)
  nums : s.state = .st_in_ostream_outer ∨ s.state = .st_in_ostream_obj →
    markerNumbers false s.ostream =
      List.range' (s.ostream_id + 1)
        (s.ostream_idx + if s.state = .st_in_ostream_outer then 1 else 0)
  head_marker : s.state = .st_in_ostream_outer ∨ s.state = .st_in_ostream_obj →
    (s.ostream.head?.bind re_ostream_obj).isSome = true
  provisional : s.state = .st_in_ostream_outer →
    ∃ p, s.xref.getLast? = some (XRefEntry.uncompressed p)

/-- The invariants of a state reached from the initial state. -/
structure Inv (s : QdfFixer) : Prop where
  acct : Inv1 s
  table : Inv2 s
  buffers : Inv3 s

/-- The first line of a byte string: up to and including the first newline. -/
def firstLine : Bytes → Bytes
  | [] => []
  | c :: cs => if c = '\n' then [c] else c :: firstLine cs

/-- The result of a run, if it did not stop early. -/
def Result.toOption {α : Type} : Result α → Option α
  | .ok a => some a
  | .fail _ _ => none

/-- The bytes written by a run that did not stop early. -/
def outputOf (r : Result QdfFixer) : Option Bytes :=
  r.toOption.map fun s => s.out

/-- The marker line `%QDF: ignore_newline`. -/
def ignoreMarker : Bytes := "%QDF: ignore_newline\n".toList

/-- Length claim as the specification words it: the byte count of the stream
body, minus one if and only if a marker line follows `endstream`. -/
def claimedLength (count : Nat) (after : List Bytes) : Nat :=
  count - if ignoreMarker ∈ after then 1 else 0

/-- Length that the repaired file carries: the byte count of the stream body
minus the number of marker lines that follow `endstream`, but not below
zero. -/
def repairedLength (count : Nat) (after : List Bytes) : Nat :=
  count - after.count ignoreMarker

/-- The state in which a run ended; for a run that stopped early, a fresh state
that holds the bytes written so far. -/
def Result.final (r : Result QdfFixer) : QdfFixer :=
  match r with
  | .ok s => s
  | .fail _ w => { QdfFixer.init [] with out := w }

/-- Scenario S1/S2: the state after the first two lines of object 3, whose
stream follows. -/
def stateS1 : QdfFixer :=
  (processLines "in.qdf".toList
    "1 0 obj\n<<>>\nendobj\n2 0 obj\n<<>>\nendobj\n3 0 obj\n<<>>\n".toList.dropLast).final

/-- Scenario S3: two objects, a stale classic table and a trailer with a wrong
`/Size`. -/
def inputS3 : Bytes :=
  ("1 0 obj\n<<>>\nendobj\n2 0 obj\n<<>>\nendobj\nxref\n0 1\n0000000000 65535 f \n" ++
    "trailer <<\n  /Size 99\n>>\n").toList

/-- The pairs `(objnum, relative offset)` that the loop of `writeOstream`
renders into the header (source lines 324-328). -/
def headerPairs (onum : Nat) (first : Int) : List Int → List (Nat × Int)
  | [] => []
  | iter :: rest => (onum + 1, iter - first) :: headerPairs (onum + 1) first rest

/-- The text of a header: one line `objnum offset` per pair. -/
def renderPairs (ps : List (Nat × Int)) : Bytes :=
  (ps.map fun q => toDec q.1 ++ " ".toList ++ intToDec q.2 ++ "\n".toList).flatten

/-- The header pairs that a flush in state `s` writes. -/
def flushPairs (s : QdfFixer) : List (Nat × Int) :=
  headerPairs s.ostream_id (s.ostream_offsets.headD 0) s.ostream_offsets

/-- The value that a flush in state `s` prints on the `/First` line. -/
def flushFirst (s : QdfFixer) : Int :=
  s.ostream_offsets.headD 0 + ((renderPairs (flushPairs s)).length : Int)

/-- The value that a flush in state `s` prints on the `/Length` line, when the
line `endstream` is read at offset `s.offset`. -/
def flushLength (s : QdfFixer) : Nat :=
  (s.offset - s.stream_start).toNat + (renderPairs (flushPairs s)).length

/-- The bytes that a flush in state `s` writes between the line `stream` and
the line `endstream`: the header and the buffered lines. -/
def flushBody (s : QdfFixer) : Bytes :=
  renderPairs (flushPairs s) ++ s.ostream.flatten

/-- Scenario S4: object 1 is an object stream that holds objects 2 and 3, of 10
and 17 bytes; object 4 is the XRef stream. -/
def inputS4 : Bytes :=
  ("1 0 obj\n<<\n  /Type /ObjStm\n  /Length 0\n  /N 0\n  /First 0\n>>\nstream\n" ++
    "%% Object stream: object 2\n<< /A 1>>\n%% Object stream: object 3\n<< /B 2345678 >>\n" ++
    "endstream\nendobj\n4 0 obj\n<<\n  /Type /XRef\n  /Length 0\n  /W [ 1 1 1 ]\n" ++
    "  /Size 0\n>>\nstream\nxxx\nendstream\nendobj\n\nstartxref\n0\n%%EOF\n").toList

/-- Scenario S4 after its first `k` lines. -/
def stateS4 (k : Nat) : QdfFixer :=
  (runLines (QdfFixer.init "in.qdf".toList) ((splitLines inputS4).take k)).final

/-- Scenario S4, the header that the code writes for two contained objects
numbered `n1` and `n2` when the first object is 10 bytes long and the marker
line of the second is `m2`: the second relative offset counts the marker line
too. -/
def s4Header (n1 n2 : Nat) (m2 : Bytes) : Bytes :=
  toDec n1 ++ " 0\n".toList ++ toDec n2 ++ " ".toList ++ toDec (10 + m2.length) ++ "\n".toList

/-- Scenario S4, the bytes that the flush of the object stream is to write: the
dictionary lines `/Length`, `/N 2` and `/First`, where `/First` is the length
of the header plus the length of the first marker line, the `/Extends` line if
there is a value `ext`, `>>`, `stream`, the header, the two marker lines with
their objects and `endstream`. -/
def s4Output (n1 n2 : Nat) (m1 m2 : Bytes) (obj1 obj2 : List Bytes) (ext : Bytes) : Bytes :=
  "  /Length ".toList ++
      toDec ((s4Header n1 n2 m2).length + m1.length + 10 + m2.length + 17) ++ "\n".toList ++
    "  /N 2\n".toList ++
    "  /First ".toList ++ toDec ((s4Header n1 n2 m2).length + m1.length) ++ "\n".toList ++
    (if ext ≠ [] then "  /Extends ".toList ++ ext ++ "\n".toList else []) ++
    ">>\n".toList ++
    "stream\n".toList ++ s4Header n1 n2 m2 ++ m1 ++ obj1.flatten ++ m2 ++ obj2.flatten ++
    "endstream\n".toList

/-- Big-endian value of a byte string. -/
def beValue (bs : Bytes) : Nat :=
  bs.foldl (fun acc c => 256 * acc + c.toNat) 0

/-- Big-endian encoding of `v` modulo `256 ^ w` in `w` bytes. -/
def beEncode : Nat → Nat → Bytes
  | 0, _ => []
  | w + 1, v => beEncode w (v / 256) ++ [Char.ofNat (v % 256)]

/-- The three fields of a table entry as the XRef stream stores them. -/
def entryFields : XRefEntry → Nat × Nat × Nat
  | .uncompressed o => (1, o.toNat, 0)
  | .compressed sn idx => (2, sn, idx)

/-- One packed row of the XRef stream with field widths `(1, w1, w2)`. -/
def packRow (w1 w2 : Nat) (row : Nat × Nat × Nat) : Bytes :=
  beEncode 1 row.1 ++ beEncode w1 row.2.1 ++ beEncode w2 row.2.2

/-- The binary body of the XRef stream: the row of object 0 and one row per
table entry. -/
def packXRef (w1 w2 : Nat) (xref : List XRefEntry) : Bytes :=
  (((0, 0, 0) :: xref.map entryFields).map (packRow w1 w2)).flatten

/-- Split a byte string into rows of `1 + w1 + w2` bytes and read each row as
three big-endian fields; `fuel` bounds the number of rows. -/
def decodeRows (w1 w2 : Nat) : Nat → Bytes → List (Nat × Nat × Nat)
  | 0, _ => []
  | fuel + 1, b =>
    if b = [] then []
    else
      (beValue (b.take 1), beValue ((b.drop 1).take w1), beValue ((b.drop (1 + w1)).take w2)) ::
        decodeRows w1 w2 fuel (b.drop (1 + w1 + w2))

/-- Decode a whole XRef stream body. -/
def decodeXRef (w1 w2 : Nat) (body : Bytes) : List (Nat × Nat × Nat) :=
  decodeRows w1 w2 body.length body

/-- The largest offset among the type-1 entries (0 when there is none). -/
def maxType1Offset (xref : List XRefEntry) : Int :=
  (xref.filterMap XRefEntry.getOffset).foldl max 0

/-- The largest index among the type-2 entries (0 when there is none). -/
def maxType2Index (xref : List XRefEntry) : Nat :=
  (xref.filterMap XRefEntry.getObjStreamIndex).foldl max 0

/-- The text that the branch for `/Type /XRef` inserts after the line: the
`/Length` line and the `/W` line. -/
def xrefDictLines (n f1 f2 : Nat) : Bytes :=
  "  /Length ".toList ++ toDec ((1 + n) * (1 + f1 + f2)) ++ "\n".toList ++
    "  /W [ 1 ".toList ++ toDec f1 ++ " ".toList ++ toDec f2 ++ " ]\n".toList

/-- The text that follows the binary body of the XRef stream. -/
def xrefStreamTail (xref_offset : Int) : Bytes :=
  "\nendstream\nendobj\n\n".toList ++ "startxref\n".toList ++ intToDec xref_offset ++
    "\n%%EOF\n".toList

/-- The diagnostic of a run started with filename `f`, as a run started with
filename `g` words it: a `fatal` message carries `g` in place of its first
`f.length` bytes, the other errors are the same. -/
def Err.retag (f g : Bytes) : Err → Err
  | .fatal m => .fatal (g ++ m.drop f.length)
  | e => e

/-- The outcome of a run started with filename `f`, as a run started with
filename `g` produces it. -/
def Result.retag (f g : Bytes) : Result QdfFixer → Result QdfFixer
  | .ok s => .ok { s with filename := g }
  | .fail e w => .fail (e.retag f g) w

/-- The filename `f` is the one of the state of a successful outcome and the
head of the message of a `fatal` one. -/
def Tagged (f : Bytes) : Result QdfFixer → Prop
  | .ok s => s.filename = f
  | .fail (.fatal m) _ => ∃ t, m = f ++ t
  | .fail _ _ => True

/-- The 1-based number of the line at which a run from state `s` stops early,
if it does. -/
def failLine (s : QdfFixer) : List Bytes → Option Nat
  | [] => none
  | l :: rest =>
    match step s l with
    | .ok s1 => (failLine s1 rest).map (· + 1)
    | .fail _ _ => some 1

/-- Two outcomes agree up to the filename: both runs succeed with the same
output, or both stop with the same bytes written and with the same error, where
two `fatal` messages are the filenames `f` and `g` followed by the same text. -/
def SameOutcome (f g : Bytes) : Result QdfFixer → Result QdfFixer → Prop
  | .ok s1, .ok s2 => s1.out = s2.out
  | .fail e1 w1, .fail e2 w2 =>
    w1 = w2 ∧ ((∃ m, e1 = .fatal (f ++ m) ∧ e2 = .fatal (g ++ m)) ∨
      (e1 = e2 ∧ ∀ m, e1 ≠ .fatal m))
  | _, _ => False

/-- The lines of the classic table that `writeXRefTable` writes: one line per
offset, padded to ten digits. -/
def tableText (xref : List XRefEntry) : Bytes :=
  ((xref.filterMap XRefEntry.getOffset).map fun o =>
    int_to_string o 10 ++ " 00000 n \n".toList).flatten

/-- The successful iterations of the loop of `processLines`, branch by branch:
`StepOk s l s1` says that reading the line `l` in state `s` takes one of the
branches of the loop body without stopping and leaves the state `s1`.  Each
constructor names the state and the test that select the branch. -/
inductive StepOk (s : QdfFixer) (l : Bytes) : QdfFixer → Prop
  | top_header (hst : s.state = .st_top) (d : Bytes) (hre : re_n_0_obj l = some d)
      (hn : stoi d = some (s.last_obj + 1)) (hlt : s.last_obj < INT_MAX) :
      StepOk s l { advance s l with
        last_obj := s.last_obj + 1
        xref := s.xref ++ [XRefEntry.uncompressed s.offset]
        state := .st_in_obj
        out := s.out ++ l }
  | top_xref (hst : s.state = .st_top) (hl : l = "xref\n".toList) :
      StepOk s l { advance s l with
        xref_offset := s.offset
        state := .st_at_xref
        out := s.out ++ l }
  | top_other (hst : s.state = .st_top) (hre : re_n_0_obj l = none)
      (hl : l ≠ "xref\n".toList) :
      StepOk s l { advance s l with out := s.out ++ l }
  | obj_stream (hst : s.state = .st_in_obj) (hl : l = "stream\n".toList) :
      StepOk s l { advance s l with
        out := s.out ++ l
        state := .st_in_stream
        stream_start := s.offset + (l.length : Int) }
  | obj_endobj (hst : s.state = .st_in_obj) (hl : l = "endobj\n".toList) :
      StepOk s l { advance s l with out := s.out ++ l, state := .st_top }
  | obj_ostm (hst : s.state = .st_in_obj) (hl1 : l ≠ "stream\n".toList)
      (hl2 : l ≠ "endobj\n".toList) (h3 : hasSub "/Type /ObjStm".toList l = true) :
      StepOk s l { advance s l with
        out := s.out ++ l
        state := .st_in_ostream_dict
        ostream_id := s.last_obj }
  | obj_xref (hst : s.state = .st_in_obj) (hl1 : l ≠ "stream\n".toList)
      (hl2 : l ≠ "endobj\n".toList) (h3 : hasSub "/Type /ObjStm".toList l = false)
      (h4 : hasSub "/Type /XRef".toList l = true) (p : Int)
      (hlast : s.xref.getLast? = some (XRefEntry.uncompressed p)) (hp : 0 ≤ p) :
      StepOk s l { advance s l with
        xref_offset := p
        xref_f1_nbytes := nbytes p.toNat
        xref_f2_nbytes := s.xref_f2_nbytes + nbytes (maxObjects s.xref)
        xref_size := 1 + s.xref.length
        state := .st_in_xref_stream_dict
        out := s.out ++ l ++ xrefDictLines s.xref.length (nbytes p.toNat)
          (s.xref_f2_nbytes + nbytes (maxObjects s.xref)) }
  | obj_other (hst : s.state = .st_in_obj) (hl1 : l ≠ "stream\n".toList)
      (hl2 : l ≠ "endobj\n".toList) (h3 : hasSub "/Type /ObjStm".toList l = false)
      (h4 : hasSub "/Type /XRef".toList l = false) :
      StepOk s l { advance s l with out := s.out ++ l }
  | stream_end (hst : s.state = .st_in_stream) (hl : l = "endstream\n".toList)
      (hge : 0 ≤ s.offset - s.stream_start) :
      StepOk s l { advance s l with
        stream_length := (s.offset - s.stream_start).toNat
        state := .st_after_stream
        out := s.out ++ l }
  | stream_other (hst : s.state = .st_in_stream) (hl : l ≠ "endstream\n".toList) :
      StepOk s l { advance s l with out := s.out ++ l }
  | after_marker (hst : s.state = .st_after_stream) (hl : l = "%QDF: ignore_newline\n".toList) :
      StepOk s l { advance s l with
        stream_length := s.stream_length - 1
        out := s.out ++ l }
  | after_header (hst : s.state = .st_after_stream) (d : Bytes)
      (hre : re_n_0_obj l = some d) (hn : stoi d = some (s.last_obj + 1))
      (hlt : s.last_obj < INT_MAX) :
      StepOk s l { advance s l with
        last_obj := s.last_obj + 1
        xref := s.xref ++ [XRefEntry.uncompressed s.offset]
        state := .st_in_length
        out := s.out ++ l }
  | after_other (hst : s.state = .st_after_stream)
      (hl : l ≠ "%QDF: ignore_newline\n".toList) (hre : re_n_0_obj l = none) :
      StepOk s l { advance s l with out := s.out ++ l }
  | in_length (hst : s.state = .st_in_length) (h : re_num l = true)
      (hov2 : s.offset + (((toDec s.stream_length).length + 1 : Nat) : Int) ≤ OFFSET_MAX) :
      StepOk s l { advance s l with
        offset := s.offset + (((toDec s.stream_length).length + 1 : Nat) : Int)
        state := .st_top
        out := s.out ++ (toDec s.stream_length ++ "\n".toList) }
  | dict_stream (hst : s.state = .st_in_ostream_dict) (hl : l = "stream\n".toList) :
      StepOk s l { advance s l with state := .st_in_ostream_offsets }
  | dict_line (hst : s.state = .st_in_ostream_dict) (hl : l ≠ "stream\n".toList) :
      StepOk s l { advance s l with
        ostream_discarded := s.ostream_discarded ++ [l]
        ostream_extends := (re_extends l).getD s.ostream_extends }
  | offsets_marker (hst : s.state = .st_in_ostream_offsets) (d : Bytes)
      (hre : re_ostream_obj l = some d) (hn : stoi d = some (s.last_obj + 1))
      (hlt : s.last_obj < INT_MAX) :
      StepOk s l { advance s l with
        last_obj := s.last_obj + 1
        xref := s.xref ++ [XRefEntry.uncompressed s.offset]
        stream_start := s.offset
        state := .st_in_ostream_outer
        ostream := s.ostream ++ [l] }
  | offsets_other (hst : s.state = .st_in_ostream_offsets) (hre : re_ostream_obj l = none) :
      StepOk s l { advance s l with ostream_discarded := s.ostream_discarded ++ [l] }
  | outer_line (hst : s.state = .st_in_ostream_outer) (hidx : s.ostream_idx ≤ INT_MAX)
      (hne : s.xref ≠ []) :
      StepOk s l { advance s l with
        xref := s.xref.dropLast ++ [XRefEntry.compressed s.ostream_id s.ostream_idx]
        ostream_idx := s.ostream_idx + 1
        ostream_offsets := s.ostream_offsets ++ [s.offset - s.stream_start]
        state := .st_in_ostream_obj
        ostream := s.ostream ++ [l] }
  | obj_marker (hst : s.state = .st_in_ostream_obj) (d : Bytes)
      (hre : re_ostream_obj l = some d) (hn : stoi d = some (s.last_obj + 1))
      (hlt : s.last_obj < INT_MAX) :
      StepOk s l { advance s l with
        ostream := s.ostream ++ [l]
        last_obj := s.last_obj + 1
        xref := s.xref ++ [XRefEntry.uncompressed s.offset]
        state := .st_in_ostream_outer }
  | obj_flush (hst : s.state = .st_in_ostream_obj) (hl : l = "endstream\n".toList)
      (hge : 0 ≤ s.offset - s.stream_start) (first : Int) (rest : List Int)
      (hoffs : s.ostream_offsets = first :: rest)
      (hmax : s.ostream_id + s.ostream_offsets.length ≤ INT_MAX)
      (hfirst : first + ((ostreamHeader s.ostream_id first s.ostream_offsets).length : Int) ≤
        OFFSET_MAX)
      (hadj : ((ostreamHeader s.ostream_id first s.ostream_offsets).length : Int) +
        ((ostreamDict ((s.offset - s.stream_start).toNat +
            (ostreamHeader s.ostream_id first s.ostream_offsets).length)
          s.ostream_offsets.length
          (first + ((ostreamHeader s.ostream_id first s.ostream_offsets).length : Int))
          s.ostream_extends).length : Int) ≤ OFFSET_MAX)
      (hoff : s.offset + (l.length : Int) - (totalLength s.ostream_discarded : Int) +
        (((ostreamHeader s.ostream_id first s.ostream_offsets).length : Int) +
        ((ostreamDict ((s.offset - s.stream_start).toNat +
            (ostreamHeader s.ostream_id first s.ostream_offsets).length)
          s.ostream_offsets.length
          (first + ((ostreamHeader s.ostream_id first s.ostream_offsets).length : Int))
          s.ostream_extends).length : Int)) ≤ OFFSET_MAX) :
      StepOk s l { advance s l with
        out := s.out ++
          (ostreamDict ((s.offset - s.stream_start).toNat +
              (ostreamHeader s.ostream_id first s.ostream_offsets).length)
            s.ostream_offsets.length
            (first + ((ostreamHeader s.ostream_id first s.ostream_offsets).length : Int))
            s.ostream_extends ++ "stream\n".toList ++
            ostreamHeader s.ostream_id first s.ostream_offsets) ++
          (s.ostream ++ [l]).flatten
        stream_length := (s.offset - s.stream_start).toNat +
          (ostreamHeader s.ostream_id first s.ostream_offsets).length
        offset := s.offset + (l.length : Int) - (totalLength s.ostream_discarded : Int) +
          (((ostreamHeader s.ostream_id first s.ostream_offsets).length : Int) +
          ((ostreamDict ((s.offset - s.stream_start).toNat +
              (ostreamHeader s.ostream_id first s.ostream_offsets).length)
            s.ostream_offsets.length
            (first + ((ostreamHeader s.ostream_id first s.ostream_offsets).length : Int))
            s.ostream_extends).length : Int))
        ostream_idx := 0
        ostream_id := 0
        ostream := []
        ostream_offsets := []
        ostream_discarded := []
        ostream_extends := []
        state := .st_in_obj }
  | obj_line (hst : s.state = .st_in_ostream_obj) (hre : re_ostream_obj l = none)
      (hl : l ≠ "endstream\n".toList) :
      StepOk s l { advance s l with ostream := s.ostream ++ [l] }
  | xdict_skip (hst : s.state = .st_in_xref_stream_dict)
      (h1 : (hasSub "/Length".toList l || hasSub "/W".toList l) = true) :
      StepOk s l (advance s l)
  | xdict_size (hst : s.state = .st_in_xref_stream_dict)
      (h1 : (hasSub "/Length".toList l || hasSub "/W".toList l) = false)
      (h2 : hasSub "/Size".toList l = true) :
      StepOk s l { advance s l with
        out := s.out ++ ("  /Size ".toList ++ toDec (1 + s.xref.length) ++ "\n".toList) }
  | xdict_line (hst : s.state = .st_in_xref_stream_dict)
      (h1 : (hasSub "/Length".toList l || hasSub "/W".toList l) = false)
      (h2 : hasSub "/Size".toList l = false) (hl : l ≠ "stream\n".toList) :
      StepOk s l { advance s l with out := s.out ++ l }
  | xdict_stream (hst : s.state = .st_in_xref_stream_dict) (hl : l = "stream\n".toList)
      (hf1 : s.xref_f1_nbytes ≤ 8) (hf2 : s.xref_f2_nbytes ≤ 8)
      (hnn : ∀ o, XRefEntry.uncompressed o ∈ s.xref → 0 ≤ o) :
      StepOk s l { advance s l with
        state := .st_done
        out := s.out ++ l ++ packXRef s.xref_f1_nbytes s.xref_f2_nbytes s.xref ++
          xrefStreamTail s.xref_offset }
  | at_xref (hst : s.state = .st_at_xref)
      (hall : ∀ e ∈ s.xref, e.getOffset ≠ none) :
      StepOk s l { advance s l with
        state := .st_before_trailer
        out := s.out ++ ("0 ".toList ++ toDec (1 + s.xref.length) ++
          "\n0000000000 65535 f \n".toList) ++ tableText s.xref }
  | before_start (hst : s.state = .st_before_trailer) (hl : l = "trailer <<\n".toList) :
      StepOk s l { advance s l with state := .st_in_trailer, out := s.out ++ l }
  | before_other (hst : s.state = .st_before_trailer) (hl : l ≠ "trailer <<\n".toList) :
      StepOk s l (advance s l)
  | trailer_size (hst : s.state = .st_in_trailer) (h : re_size_n l = true) :
      StepOk s l { advance s l with
        out := s.out ++ ("  /Size ".toList ++ toDec (1 + s.xref.length) ++ "\n".toList) }
  | trailer_end (hst : s.state = .st_in_trailer) (hl : l = ">>\n".toList) :
      StepOk s l { advance s l with
        state := .st_done
        out := s.out ++ l ++
          ("startxref\n".toList ++ intToDec s.xref_offset ++ "\n%%EOF\n".toList) }
  | trailer_line (hst : s.state = .st_in_trailer) (h : re_size_n l = false)
      (hl : l ≠ ">>\n".toList) :
      StepOk s l { advance s l with out := s.out ++ l }
  | done (hst : s.state = .st_done) : StepOk s l (advance s l)

/-- The first seven lines of a file whose object 1 has a stream of six bytes and
whose object 2 holds the stream length; the next line is the length itself. -/
def lengthLines : List Bytes :=
  ["1 0 obj\n".toList, "<<>>\n".toList, "stream\n".toList, "HELLO\n".toList,
    "endstream\n".toList, "endobj\n".toList, "2 0 obj\n".toList]

/-- The state after `lengthLines`. -/
def lengthState : QdfFixer :=
  (runLines (QdfFixer.init "in.qdf".toList) lengthLines).final

/-- Scenario S3 after its first `k` lines. -/
def stateS3 (k : Nat) : QdfFixer :=
  (runLines (QdfFixer.init "in.qdf".toList) ((splitLines inputS3).take k)).final

/-- Scenario S3 with the `/Size` line of the trailer indented by four blanks
instead of two. -/
def inputS3wide : Bytes :=
  ("1 0 obj\n<<>>\nendobj\n2 0 obj\n<<>>\nendobj\nxref\n0 1\n0000000000 65535 f \n" ++
    "trailer <<\n    /Size 99\n>>\n").toList

/-- An XRef stream object whose dictionary has its `/Size` line in front of the
`/Type /XRef` line. -/
def inputSizeFirst : Bytes :=
  "1 0 obj\n<<\n  /Size 99\n  /Type /XRef\n>>\nstream\n".toList

/-- An object stream (object 1, holding object 2) followed by the plain object 3
and a classic `xref` section: the table then holds a type-2 entry between two
type-1 entries. -/
def inputMixed : Bytes :=
  ("1 0 obj\n<< /Type /ObjStm >>\nstream\n%% Object stream: object 2\n<<>>\nendstream\n" ++
    "endobj\n3 0 obj\n<<>>\nendobj\nxref\n0 1\n0000000000 65535 f \ntrailer <<\n>>\n").toList

/-- The line `xref` stands at position `xref_offset` of the output. -/
def XrefLineAt (s : QdfFixer) : Prop :=
  0 ≤ s.xref_offset ∧ "xref\n".toList <+: s.out.drop s.xref_offset.toNat

/-- The output ends with the lines `startxref`, the decimal `xref_offset` and
`%%EOF`. -/
def EndsWithStartxref (s : QdfFixer) : Prop :=
  ("startxref\n".toList ++ intToDec s.xref_offset ++ "\n%%EOF\n".toList) <:+ s.out

/-- Bookkeeping of `xref_offset` on the classic path and at the end of a run. -/
structure XInv (s : QdfFixer) : Prop where
  classic : s.state = .st_at_xref ∨ s.state = .st_before_trailer ∨ s.state = .st_in_trailer →
    XrefLineAt s
  done : s.state = .st_done → EndsWithStartxref s ∧ 0 ≤ s.xref_offset

/-- Two objects, a classic `xref` section and a trailer that is not closed by
`>>` and holds lines that look like the end of a file. -/
def inputS3open : Bytes :=
  ("1 0 obj\n<<>>\nendobj\n2 0 obj\n<<>>\nendobj\nxref\n0 1\n0000000000 65535 f \n" ++
    "trailer <<\nstartxref\n5\n%%EOF\n").toList

/-- Scenario S3 at the end of its run. -/
def finalS3 : QdfFixer := (processLines "in.qdf".toList inputS3).final

/-- The digits of an object line: a header `N 0 obj` read in state `st_top` or
`st_after_stream`, or a marker `%% Object stream: object N` read in state
`st_in_ostream_offsets` or `st_in_ostream_obj`. -/
def objLine (s : QdfFixer) (l : Bytes) : Option Bytes :=
  match s.state with
  | .st_top | .st_after_stream => re_n_0_obj l
  | .st_in_ostream_offsets | .st_in_ostream_obj => re_ostream_obj l
  | _ => none

/-- The numbers that the object lines carry, in the order in which a run from
state `s` reads them. -/
def objectNumbers (s : QdfFixer) : List Bytes → List Nat
  | [] => []
  | l :: rest =>
    (match objLine s l with
      | some d => [decVal d]
      | none => []) ++
    (match step s l with
      | .ok s1 => objectNumbers s1 rest
      | .fail _ _ => [])

/-- The diagnostic of a sequence error. -/
def sequenceMessage (filename : Bytes) (lineno k : Nat) : Bytes :=
  filename ++ ":".toList ++ toDec lineno ++ ": expected object ".toList ++ toDec k

/-- The diagnostic of a length parse error. -/
def integerMessage (filename : Bytes) (lineno : Nat) : Bytes :=
  filename ++ ":".toList ++ toDec lineno ++ ": expected integer".toList

/-- The outcome is a call of `fatal`. -/
def Result.isFatal {α : Type} : Result α → Bool
  | .fail (.fatal _) _ => true
  | _ => false

/-- The digits of the lines `N 0 obj` that stand outside an object: a header
opens an object, the line `endobj` closes it, and a line of the form `N 0 obj`
inside an object is content.  The flag says whether the scan is inside an
object. -/
def topHeaders : Bool → List Bytes → List Bytes
  | _, [] => []
  | false, l :: rest =>
    match re_n_0_obj l with
    | some d => d :: topHeaders true rest
    | none => topHeaders false rest
  | true, l :: rest =>
    if l = "endobj\n".toList then topHeaders false rest else topHeaders true rest

/-- Three lines of the form `N 0 obj` numbered 1, 2, 3, the second of which
stands inside object 1. -/
def inputNested : Bytes := "1 0 obj\n2 0 obj\nendobj\n3 0 obj\n".toList

/-- Two plain objects. -/
def inputPlain : Bytes := "1 0 obj\n<<>>\nendobj\n2 0 obj\n<< /A 1 >>\nendobj\n".toList

/-- The value that the dictionary lines `D` of an object stream leave in
`ostream_extends`: group 1 of the leftmost match in the last line that has
one, or nothing when no line has one. -/
def lastExtends (D : List Bytes) : Bytes :=
  ((D.filterMap re_extends).getLast?).getD []

/-- The states in which the body of an object stream is read. -/
def inBody : State → Bool
  | .st_in_ostream_offsets | .st_in_ostream_outer | .st_in_ostream_obj => true
  | _ => false

/-- An object stream whose dictionary has two `/Extends` lines. -/
def inputTwoExtends : Bytes :=
  ("1 0 obj\n<< /Type /ObjStm\n  /Extends 5 0 R\n  /Extends 7 0 R\n>>\nstream\n" ++
    "%% Object stream: object 2\n<<>>\nendstream\nendobj\n").toList

/-- An object stream with `/Extends`, followed by one without. -/
def inputExtends : Bytes :=
  ("1 0 obj\n<< /Type /ObjStm\n  /Extends 9 0 R\n>>\nstream\n" ++
    "%% Object stream: object 2\n<<>>\nendstream\nendobj\n" ++
    "3 0 obj\n<< /Type /ObjStm\n  /N 1\n>>\nstream\n" ++
    "%% Object stream: object 4\n<<>>\nendstream\nendobj\n").toList

/-- The run of `inputExtends` after its first `k` lines. -/
def stateExtends (k : Nat) : QdfFixer :=
  (runLines (QdfFixer.init "in.qdf".toList) ((splitLines inputExtends).take k)).final

/-- A complete line: it ends with its only newline. -/
def IsLine (l : Bytes) : Prop := ∃ body : Bytes, l = body ++ ['\n'] ∧ '\n' ∉ body

/-- The value of `ostream_extends` is empty or group 1 of a match of
`/Extends (\d+ 0 R)`. -/
def ExtW (e : Bytes) : Prop :=
  e = [] ∨ ∃ M : Bytes, M ≠ [] ∧ (∀ c ∈ M, c.isDigit = true) ∧ e = M ++ " 0 R".toList

/-- The four states of an object stream. -/
def inOstream : State → Bool
  | .st_in_ostream_dict | .st_in_ostream_offsets | .st_in_ostream_outer
  | .st_in_ostream_obj => true
  | _ => false

/-- The state `b` is what reading the buffered lines of `s1` again, from the
state `a` in front of the first marker, leads to. -/
structure Replayed (s1 a b : QdfFixer) : Prop where
  state : b.state = s1.state
  ostream : b.ostream = s1.ostream
  offsets : b.ostream_offsets = s1.ostream_offsets
  idx : b.ostream_idx = s1.ostream_idx
  id : b.ostream_id = s1.ostream_id
  last_obj : b.last_obj = s1.last_obj
  xref_init : b.xref.dropLast = s1.xref.dropLast
  xref_len : b.xref.length = s1.xref.length
  xref_obj : s1.state = .st_in_ostream_obj → b.xref = s1.xref
  out : b.out = a.out
  discarded : b.ostream_discarded = a.ostream_discarded
  ext : b.ostream_extends = a.ostream_extends
  offset : b.offset = a.offset + (totalLength s1.ostream : Int)
  start : b.stream_start = a.offset
  xoff : b.xref_offset = a.xref_offset
  f1 : b.xref_f1_nbytes = a.xref_f1_nbytes
  f2 : b.xref_f2_nbytes = a.xref_f2_nbytes

/-- The buffered lines of `s1` can be read again from any state in front of the
first marker that has the same object counter and table. -/
def Replay (s1 : QdfFixer) : Prop :=
  ∀ a : QdfFixer, a.state = .st_in_ostream_offsets → a.ostream = [] →
    a.ostream_offsets = [] → a.ostream_idx = 0 → a.ostream_id = s1.ostream_id →
    a.last_obj = s1.ostream_id → a.xref = s1.xref.take s1.ostream_id →
    a.offset + (totalLength s1.ostream : Int) ≤ OFFSET_MAX →
    ∃ b, runLines a s1.ostream = .ok b ∧ Replayed s1 a b

/-- The state `s2` of a run on the output of another run, when it has read the
complete lines that the other run has written up to its state `s1`. -/
structure Sim (s1 s2 : QdfFixer) : Prop where
  out : s2.out = s1.out
  off : s2.offset = (s1.out.length : Int)
  xoff : s2.xref_offset = s1.xref_offset
  f1 : s2.xref_f1_nbytes = s1.xref_f1_nbytes
  f2 : s2.xref_f2_nbytes = s1.xref_f2_nbytes
  slen : s2.stream_length = s1.stream_length
  ext : ExtW s1.ostream_extends
  clean : Clean s2
  plain : inOstream s1.state = false →
    s2.state = s1.state ∧ s2.xref = s1.xref ∧ s2.last_obj = s1.last_obj
  sstart : s1.state = .st_in_stream → s2.stream_start = s1.stream_start
  ostm : inOstream s1.state = true →
    s2.state = .st_in_ostream_dict ∧ s2.ostream_id = s1.ostream_id ∧
      s2.last_obj = s1.ostream_id ∧ s2.xref = s1.xref.take s1.ostream_id ∧
      ∀ x ∈ s1.ostream, IsLine x
  replay : s1.state = .st_in_ostream_outer ∨ s1.state = .st_in_ostream_obj → Replay s1

/-- The lines of a rewritten object-stream dictionary. -/
def dictLines (stream_length n : Nat) (first : Int) (ostream_extends : Bytes) : List Bytes :=
  ["  /Length ".toList ++ toDec stream_length ++ "\n".toList,
    "  /N ".toList ++ toDec n ++ "\n".toList,
    "  /First ".toList ++ intToDec first ++ "\n".toList] ++
  (if ostream_extends ≠ [] then ["  /Extends ".toList ++ ostream_extends ++ "\n".toList]
    else []) ++
  [">>\n".toList]

/-- The lines of the header of a rewritten object stream. -/
def headerLines (onum : Nat) (first : Int) : List Int → List Bytes
  | [] => []
  | iter :: rest =>
    (toDec (onum + 1) ++ " ".toList ++ intToDec (iter - first) ++ "\n".toList) ::
      headerLines (onum + 1) first rest

/-- The lines of the classic table. -/
def tableLines (xref : List XRefEntry) : List Bytes :=
  (xref.filterMap XRefEntry.getOffset).map fun o =>
    int_to_string o 10 ++ " 00000 n \n".toList

/-- The value of `ostream_extends` after the dictionary lines `D`, from the
value `e` before them. -/
def extendsAfter (e : Bytes) (D : List Bytes) : Bytes :=
  D.foldl (fun e l => (re_extends l).getD e) e

/-- The last line of an input: what follows its last newline. -/
def lastLine (x : Bytes) : Bytes := (splitLines x).getLast?.getD []

/-- An input with an object stream that carries `/Extends`, a stream whose
length is held by the next object, and an XRef stream. -/
def inputRound : Bytes :=
  ("1 0 obj\n<< /Type /ObjStm >>\n  /Extends 7 0 R\nstream\n%% Object stream: object 2\n" ++
    "<<>>\nendstream\nendobj\n3 0 obj\n<<>>\nstream\nHELLO\nendstream\n" ++
    "%QDF: ignore_newline\nendobj\n4 0 obj\n99\nendobj\n5 0 obj\n<< /Type /XRef\n" ++
    "  /Length 3\n  /W [ 1 1 1 ]\n  /Size 9\n>>\nstream\nxxx\nendstream\nendobj\n" ++
    "startxref\n0\n%%EOF\n").toList

/-- The exception of `writeBinary` for a width above `sizeof(unsigned long long)`. -/
def widthError : Err := .exception "fix-qdf::writeBinary called with too many bytes"

/-- The run stopped with the exception of `writeBinary`. -/
def Result.isWidth {α : Type} : Result α → Bool
  | .fail e _ => decide (e = widthError)
  | .ok _ => false

/-- The numbers held by the table are in the range of their C++ types: a type-1
offset is at most the largest `qpdf_offset_t`, a type-2 index is at most the
largest `int`. -/
structure TableRange (s : QdfFixer) : Prop where
  offs : ∀ o, XRefEntry.uncompressed o ∈ s.xref → o ≤ OFFSET_MAX
  idxs : ∀ sn idx, XRefEntry.compressed sn idx ∈ s.xref → idx ≤ INT_MAX

/-- The row of object 0 as the XRef stream holds it for the widths `(1, w1, w2)`:
`1 + w1 + w2` zero bytes. -/
def nullRow (w1 w2 : Nat) : Bytes := List.replicate (1 + w1 + w2) (Char.ofNat 0)

/-- The first row of a decoded XRef stream body. -/
def firstRow (w1 w2 : Nat) (body : Bytes) : Option (Nat × Nat × Nat) :=
  (decodeXRef w1 w2 body).head?

/-- Length claim with saturation: the byte count `c` of the stream body minus the
number `k` of marker lines, but not below zero, as an integer. -/
def saturatedLength (c k : Nat) : Int := max 0 ((c : Int) - (k : Int))

/-- An object stream without a marker line, followed by a classic `xref`
section. -/
def inputSwallow : Bytes :=
  ("1 0 obj\n<< /Type /ObjStm >>\nstream\n<<>>\nendstream\nendobj\nxref\n0 1\n" ++
    "0000000000 65535 f \ntrailer <<\n>>\n").toList

/-! ## Basic facts -/

@[simp] theorem Result.bind_ok {α β : Type} (a : α) (f : α → Result β) :
    (Result.ok a).bind f = f a := rfl

@[simp] theorem Result.bind_fail {α β : Type} (e : Err) (w : Bytes) (f : α → Result β) :
    (Result.fail e w : Result α).bind f = .fail e w := rfl

theorem Result.bind_eq_ok {α β : Type} {r : Result α} {f : α → Result β} {b : β} :
    r.bind f = .ok b ↔ ∃ a, r = .ok a ∧ f a = .ok b := by
  cases r <;> simp

@[simp] theorem fail_ne_ok {α : Type} (s : QdfFixer) (e : Err) (a : α) :
    (s.fail e : Result α) ≠ .ok a := by
  simp [QdfFixer.fail]

theorem checkObjId_ok {s s1 : QdfFixer} {d : Bytes} (h : checkObjId s d = .ok s1) :
    stoi d = some (s.last_obj + 1) ∧ s.last_obj < INT_MAX ∧
    s1 = { s with last_obj := s.last_obj + 1, xref := s.xref ++ [XRefEntry.uncompressed s.last_offset] } := by
  unfold checkObjId at h
  split at h
  · simp at h
  · rename_i n hn
    dsimp only at h
    split_ifs at h with h1 h2 <;> try (simp at h; done)
    simp only [Result.ok.injEq] at h
    simp only [ne_eq, Decidable.not_not] at h2
    refine ⟨by rw [hn, h2], by omega, h.symm⟩

theorem adjustOstreamXref_ok {s s1 : QdfFixer} (h : adjustOstreamXref s = .ok s1) :
    s.ostream_idx ≤ INT_MAX ∧ s.xref ≠ [] ∧
    s1 = { s with
        xref := s.xref.dropLast ++ [XRefEntry.compressed s.ostream_id s.ostream_idx]
        ostream_idx := s.ostream_idx + 1 } := by
  unfold adjustOstreamXref at h
  split_ifs at h with h1 <;> try (simp at h; done)
  split at h
  · simp at h
  · rename_i hx
    simp only [Result.ok.injEq] at h
    refine ⟨by omega, by simp [hx], h.symm⟩

theorem writeOstream_ok {s s1 : QdfFixer} (h : writeOstream s = .ok s1) :
    ∃ first rest, s.ostream_offsets = first :: rest ∧
      s.ostream_id + s.ostream_offsets.length ≤ INT_MAX ∧
      s1 = { s with
        out := s.out ++ (ostreamDict (s.stream_length + (ostreamHeader s.ostream_id first s.ostream_offsets).length)
                s.ostream_offsets.length (first + ((ostreamHeader s.ostream_id first s.ostream_offsets).length : Int))
                s.ostream_extends ++ "stream\n".toList ++ ostreamHeader s.ostream_id first s.ostream_offsets) ++
              s.ostream.flatten
        stream_length := s.stream_length + (ostreamHeader s.ostream_id first s.ostream_offsets).length
        offset := s.offset - (totalLength s.ostream_discarded : Int) +
          (((ostreamHeader s.ostream_id first s.ostream_offsets).length : Int) +
            ((ostreamDict (s.stream_length + (ostreamHeader s.ostream_id first s.ostream_offsets).length)
                s.ostream_offsets.length (first + ((ostreamHeader s.ostream_id first s.ostream_offsets).length : Int))
                s.ostream_extends).length : Int))
        ostream_idx := 0
        ostream_id := 0
        ostream := []
        ostream_offsets := []
        ostream_discarded := []
        ostream_extends := [] } ∧
      s1.offset ≤ OFFSET_MAX := by
  unfold writeOstream at h
  split at h
  · simp at h
  · rename_i first rest hoff
    dsimp only at h
    split_ifs at h with h1 h2 h3 h4 h5 h6 <;> try (simp at h; done)
    simp only [Result.ok.injEq] at h
    refine ⟨first, rest, hoff, by omega, ?_, ?_⟩
    · rw [← h]; simp [QdfFixer.write, hoff]
    · rw [← h]; simp only [QdfFixer.write]; omega

@[simp] theorem write_nil (s : QdfFixer) : s.write [] = s := by
  simp [QdfFixer.write]

@[simp] theorem write_write (s : QdfFixer) (a b : Bytes) :
    (s.write a).write b = s.write (a ++ b) := by
  simp [QdfFixer.write]

theorem writeBinary_ok {s s1 : QdfFixer} {v b : Nat} (h : s.writeBinary v b = .ok s1) :
    ∃ data, FixQdf.writeBinary v b = some data ∧ s1 = s.write data := by
  unfold QdfFixer.writeBinary at h
  split at h
  · simp at h
  · rename_i data hd
    simp only [Result.ok.injEq] at h
    exact ⟨data, hd, h.symm⟩

theorem writeRow_ok {s s1 : QdfFixer} {t a b : Nat} (h : writeRow s t a b = .ok s1) :
    ∃ d0 d1 d2, FixQdf.writeBinary t 1 = some d0 ∧
      FixQdf.writeBinary a s.xref_f1_nbytes = some d1 ∧
      FixQdf.writeBinary b s.xref_f2_nbytes = some d2 ∧ s1 = s.write (d0 ++ d1 ++ d2) := by
  unfold writeRow at h
  obtain ⟨a1, h1, h⟩ := Result.bind_eq_ok.1 h
  obtain ⟨a2, h2, h⟩ := Result.bind_eq_ok.1 h
  obtain ⟨d0, e0, rfl⟩ := writeBinary_ok h1
  obtain ⟨d1, e1, rfl⟩ := writeBinary_ok h2
  obtain ⟨d2, e2, rfl⟩ := writeBinary_ok h
  exact ⟨d0, d1, d2, e0, e1, e2, by simp [QdfFixer.write]⟩

theorem writeXRefRows_ok {xs : List XRefEntry} : ∀ {s s1 : QdfFixer},
    writeXRefRows s xs = .ok s1 → ∃ body, s1 = s.write body := by
  induction xs with
  | nil =>
    intro s s1 h
    simp only [writeXRefRows, Result.ok.injEq] at h
    exact ⟨[], by simp [h]⟩
  | cons e rest ih =>
    intro s s1 h
    cases e with
    | uncompressed o =>
      simp only [writeXRefRows] at h
      split_ifs at h <;> try (simp at h; done)
      obtain ⟨a, h1, h2⟩ := Result.bind_eq_ok.1 h
      obtain ⟨d0, d1, d2, -, -, -, rfl⟩ := writeRow_ok h1
      obtain ⟨body, rfl⟩ := ih h2
      exact ⟨_, write_write _ _ _⟩
    | compressed sn idx =>
      simp only [writeXRefRows] at h
      obtain ⟨a, h1, h2⟩ := Result.bind_eq_ok.1 h
      obtain ⟨d0, d1, d2, -, -, -, rfl⟩ := writeRow_ok h1
      obtain ⟨body, rfl⟩ := ih h2
      exact ⟨_, write_write _ _ _⟩

theorem writeXRefTable_ok {xs : List XRefEntry} : ∀ {s s1 : QdfFixer},
    writeXRefTable s xs = .ok s1 → ∃ body, s1 = s.write body := by
  induction xs with
  | nil =>
    intro s s1 h
    simp only [writeXRefTable, Result.ok.injEq] at h
    exact ⟨[], by simp [h]⟩
  | cons e rest ih =>
    intro s s1 h
    simp only [writeXRefTable] at h
    split at h
    · simp at h
    · obtain ⟨body, rfl⟩ := ih h
      exact ⟨_, write_write _ _ _⟩

@[simp] theorem totalLength_nil : totalLength [] = 0 := rfl

@[simp] theorem totalLength_append (a b : List Bytes) :
    totalLength (a ++ b) = totalLength a + totalLength b := by
  simp [totalLength]

@[simp] theorem totalLength_cons (a : Bytes) (b : List Bytes) :
    totalLength (a :: b) = a.length + totalLength b := by
  simp [totalLength]

@[simp] theorem length_flatten_bytes (a : List Bytes) :
    a.flatten.length = totalLength a := by
  simp [totalLength, List.length_flatten]

theorem inv1_init (fn : Bytes) : Inv1 (QdfFixer.init fn) := by
  constructor <;> simp [QdfFixer.init, Acct, Clean, INT_MAX, OFFSET_MAX]

set_option maxHeartbeats 1000000 in
theorem step_inv1 {s s1 : QdfFixer} {l : Bytes} (hi : Inv1 s) (h : step s l = .ok s1) :
    Inv1 s1 := by
  unfold step at h
  split_ifs at h with hov <;> try (simp at h; done)
  obtain ⟨hx, ho, hn, hle, ha⟩ := hi
  unfold dispatch at h
  simp only [advance] at h
  cases hst : s.state <;> simp only [hst] at h <;> simp only [Acct, hst] at ha
  · -- top
    unfold stepTop at h
    split at h
    · obtain ⟨a, ha1, ha2⟩ := Result.bind_eq_ok.1 h
      obtain ⟨h1, h2, rfl⟩ := checkObjId_ok ha1
      simp only [Result.ok.injEq] at ha2
      subst ha2
      constructor <;> simp_all [QdfFixer.write, Acct, Clean] <;> omega
    · split_ifs at h <;> simp only [Result.ok.injEq] at h <;> subst h <;>
        constructor <;> simp_all [QdfFixer.write, Acct, Clean] <;> omega
  · -- in_obj
    unfold stepInObj startXRefStream at h
    dsimp only at h
    split_ifs at h
    · simp only [Result.ok.injEq] at h; subst h
      constructor <;> simp_all [QdfFixer.write, Acct, Clean] <;> omega
    · simp only [Result.ok.injEq] at h; subst h
      constructor <;> simp_all [QdfFixer.write, Acct, Clean] <;> omega
    · simp only [Result.ok.injEq] at h; subst h
      constructor <;> simp_all [QdfFixer.write, Acct, Clean] <;> omega
    · split at h
      · simp at h
      · rename_i e he
        split at h
        · simp at h
        · rename_i o ho
          split_ifs at h with hneg <;> try (simp at h; done)
          simp only [Result.ok.injEq] at h; subst h
          cases e with
          | compressed a b => simp [XRefEntry.getOffset] at ho
          | uncompressed p =>
            simp only [XRefEntry.getOffset, Option.some.injEq] at ho
            subst ho
            simp only [QdfFixer.write] at he
            constructor
            · simpa [QdfFixer.write] using hx
            · simpa [QdfFixer.write] using ho
            · simp [QdfFixer.write]; omega
            · simp [QdfFixer.write]; omega
            · simp only [Acct, QdfFixer.write]
              exact ⟨p, he, by omega, rfl, rfl, by simp [ha.2.2]⟩
    · simp only [Result.ok.injEq] at h; subst h
      constructor <;> simp_all [QdfFixer.write, Acct, Clean] <;> omega
  · -- in_stream
    unfold stepInStream at h
    split_ifs at h <;> try (simp at h; done)
    all_goals
      simp only [Result.ok.injEq] at h; subst h
      constructor <;> simp_all [QdfFixer.write, Acct, Clean] <;> omega
  · -- after_stream
    unfold stepAfterStream at h
    split_ifs at h
    · simp only [Result.ok.injEq] at h; subst h
      constructor <;> simp_all [QdfFixer.write, Acct, Clean] <;> omega
    · simp only [Result.ok.injEq] at h; subst h
      constructor <;> simp_all [QdfFixer.write, Acct, Clean] <;> omega
    · split at h
      · obtain ⟨a, ha1, ha2⟩ := Result.bind_eq_ok.1 h
        obtain ⟨h1, h2, rfl⟩ := checkObjId_ok ha1
        simp only [Result.ok.injEq] at ha2
        subst ha2
        constructor <;> simp_all [QdfFixer.write, Acct, Clean] <;> omega
      · simp only [Result.ok.injEq] at h; subst h
        constructor <;> simp_all [QdfFixer.write, Acct, Clean] <;> omega
  · -- in_ostream_dict
    unfold stepInOstreamDict at h
    split_ifs at h
    · simp only [Result.ok.injEq] at h; subst h
      constructor <;> simp_all [QdfFixer.write, Acct, Clean] <;> omega
    · dsimp only at h
      split at h <;>
      · simp only [Result.ok.injEq] at h; subst h
        constructor <;> simp_all [QdfFixer.write, Acct, Clean] <;> omega
  · -- in_ostream_offsets
    unfold stepInOstreamOffsets at h
    split at h
    · obtain ⟨a, ha1, ha2⟩ := Result.bind_eq_ok.1 h
      obtain ⟨h1, h2, rfl⟩ := checkObjId_ok ha1
      simp only [Result.ok.injEq] at ha2
      subst ha2
      constructor <;> simp_all [QdfFixer.write, Acct, Clean] <;> omega
    · simp only [Result.ok.injEq] at h; subst h
      constructor <;> simp_all [QdfFixer.write, Acct, Clean] <;> omega
  · -- in_ostream_outer
    unfold stepInOstreamOuter at h
    obtain ⟨a, ha1, ha2⟩ := Result.bind_eq_ok.1 h
    obtain ⟨h1, h2, rfl⟩ := adjustOstreamXref_ok ha1
    simp only [Result.ok.injEq] at ha2
    subst ha2
    dsimp only at h1 h2
    have hpos := List.length_pos.2 h2
    constructor <;> simp_all [QdfFixer.write, Acct, Clean] <;> omega
  · -- in_ostream_obj
    unfold stepInOstreamObj at h
    dsimp only at h
    split at h
    · obtain ⟨a, ha1, ha2⟩ := Result.bind_eq_ok.1 h
      obtain ⟨h1, h2, rfl⟩ := checkObjId_ok ha1
      simp only [Result.ok.injEq] at ha2
      subst ha2
      constructor <;> simp_all [QdfFixer.write, Acct, Clean] <;> omega
    · split_ifs at h <;> try (simp at h; done)
      · obtain ⟨a, ha1, ha2⟩ := Result.bind_eq_ok.1 h
        obtain ⟨first, rest, hfr, h2, rfl, h3⟩ := writeOstream_ok ha1
        simp only [Result.ok.injEq] at ha2
        subst ha2
        dsimp only at h3
        constructor <;> simp_all [QdfFixer.write, Acct, Clean, -List.length_flatten] <;> omega
      · simp only [Result.ok.injEq] at h; subst h
        constructor <;> simp_all [QdfFixer.write, Acct, Clean] <;> omega
  · -- in_xref_stream_dict
    unfold stepInXRefStreamDict at h
    dsimp only at h
    split_ifs at h
    all_goals first
      | (obtain ⟨a1, h1, h⟩ := Result.bind_eq_ok.1 h
         obtain ⟨a2, h2, h⟩ := Result.bind_eq_ok.1 h
         obtain ⟨d0, d1, d2, -, -, -, rfl⟩ := writeRow_ok h1
         obtain ⟨body, rfl⟩ := writeXRefRows_ok h2
         simp only [Result.ok.injEq] at h; subst h
         constructor <;> simp_all [QdfFixer.write, Acct, Clean] <;> omega)
      | (simp only [Result.ok.injEq] at h; subst h
         constructor <;> simp_all [QdfFixer.write, Acct, Clean] <;> omega)
  · -- in_length
    unfold stepInLength at h
    dsimp only at h
    split_ifs at h <;> try (simp at h; done)
    simp only [Result.ok.injEq] at h; subst h
    constructor <;> simp_all [QdfFixer.write, Acct, Clean] <;> omega
  · -- at_xref
    unfold stepAtXRef at h
    dsimp only at h
    obtain ⟨a1, h1, h⟩ := Result.bind_eq_ok.1 h
    obtain ⟨body, rfl⟩ := writeXRefTable_ok h1
    simp only [Result.ok.injEq] at h; subst h
    constructor <;> simp_all [QdfFixer.write, Acct, Clean] <;> omega
  · -- before_trailer
    unfold stepBeforeTrailer at h
    split_ifs at h <;>
    · simp only [Result.ok.injEq] at h; subst h
      constructor <;> simp_all [QdfFixer.write, Acct, Clean] <;> omega
  · -- in_trailer
    unfold stepInTrailer at h
    dsimp only at h
    split_ifs at h <;>
    · simp only [Result.ok.injEq] at h; subst h
      constructor <;> simp_all [QdfFixer.write, Acct, Clean] <;> omega
  · -- done
    simp only [Result.ok.injEq] at h; subst h
    constructor <;> simp_all [QdfFixer.write, Acct, Clean] <;> omega

theorem re_n_0_obj_some {l d : Bytes} (h : re_n_0_obj l = some d) :
    l = d ++ " 0 obj\n".toList ∧ d ≠ [] ∧ ∀ c ∈ d, c.isDigit = true := by
  unfold re_n_0_obj at h
  dsimp only at h
  split_ifs at h with hc
  simp only [Option.some.injEq] at h
  subst h
  refine ⟨?_, hc.1, ?_⟩
  · conv_lhs => rw [← List.takeWhile_append_dropWhile Char.isDigit l]
    rw [hc.2]
  · intro c hc2
    exact List.mem_takeWhile_imp hc2

theorem re_n_0_obj_length {l d : Bytes} (h : re_n_0_obj l = some d) : 8 ≤ l.length := by
  obtain ⟨h1, h2, -⟩ := re_n_0_obj_some h
  have : 0 < d.length := List.length_pos.2 h2
  rw [h1]
  simp
  omega

theorem isPrefixOf_length {p l : Bytes} (h : p.isPrefixOf l = true) : p.length ≤ l.length := by
  rw [List.isPrefixOf_iff_prefix] at h
  exact h.length_le

theorem re_ostream_obj_length {l d : Bytes} (h : re_ostream_obj l = some d) : 26 ≤ l.length := by
  unfold re_ostream_obj at h
  dsimp only at h
  split_ifs at h with h1 h2
  have h3 := isPrefixOf_length h1
  have h4 : ((l.drop 25).takeWhile Char.isDigit).length ≤ (l.drop 25).length :=
    (List.takeWhile_sublist _).length_le
  have h5 : 0 < ((l.drop 25).takeWhile Char.isDigit).length := List.length_pos.2 h2
  simp at h3 h4
  omega

theorem IsHeaderAt.lt_length {out : Bytes} {p : Int} {n : Nat} (h : IsHeaderAt out p n) :
    p + 8 ≤ out.length := by
  obtain ⟨h0, line, d, rest, h1, -, h3⟩ := h
  have h4 := re_n_0_obj_length h1
  have h5 := congrArg List.length h3
  simp at h5
  omega

theorem IsHeaderAt.append_out {out : Bytes} {p : Int} {n : Nat} (h : IsHeaderAt out p n)
    (c : Bytes) : IsHeaderAt (out ++ c) p n := by
  have hl := h.lt_length
  obtain ⟨h0, line, d, rest, h1, h2, h3⟩ := h
  refine ⟨h0, line, d, rest ++ c, h1, h2, ?_⟩
  rw [List.drop_append_of_le_length (by omega), h3, List.append_assoc]

theorem IsHeaderAt.here {out line d : Bytes} (h : re_n_0_obj line = some d) :
    IsHeaderAt (out ++ line) (out.length : Int) (decVal d) :=
  ⟨by omega, line, d, [], h, rfl, by simp⟩

theorem GoodEntry.append_entry {out : Bytes} {i : Nat} {e : XRefEntry} (h : GoodEntry out i e)
    (c : Bytes) : GoodEntry (out ++ c) i e := by
  cases e with
  | uncompressed p => exact ⟨h.1.append_out c, h.2⟩
  | compressed a b => exact h

theorem getElem?_snoc {α : Type} (xs : List α) (a e : α) (i : Nat)
    (h : (xs ++ [a])[i]? = some e) :
    (i < xs.length ∧ xs[i]? = some e) ∨ (i = xs.length ∧ e = a) := by
  by_cases hi : i < xs.length
  · left
    rw [List.getElem?_append_left hi] at h
    exact ⟨hi, h⟩
  · right
    rw [List.getElem?_append_right (by omega)] at h
    have : i - xs.length = 0 := by
      by_contra hne
      have : (1 : Nat) ≤ i - xs.length := by omega
      simp [List.getElem?_eq_none (l := [a]) (n := i - xs.length) (by simpa using this)] at h
    rw [this] at h
    simp at h
    exact ⟨by omega, h.symm⟩

theorem getElem?_dropLast {α : Type} (xs : List α) (e : α) (i : Nat)
    (h : xs.dropLast[i]? = some e) : i + 1 < xs.length ∧ xs[i]? = some e := by
  have h1 : i < xs.dropLast.length := by
    by_contra hn
    rw [List.getElem?_eq_none (by omega)] at h
    simp at h
  have h2 : i + 1 < xs.length := by
    simp at h1; omega
  refine ⟨h2, ?_⟩
  rw [List.getElem?_eq_getElem h1] at h
  rw [List.getElem?_eq_getElem (by omega)]
  simp [List.getElem_dropLast] at h
  simpa using h

theorem getElem?_lt {α : Type} {xs : List α} {e : α} {i : Nat} (h : xs[i]? = some e) :
    i < xs.length := by
  by_contra hn
  rw [List.getElem?_eq_none (by omega)] at h
  simp at h

/-- A step that only appends to the output, leaves the table alone and does not
start in `st_in_ostream_outer` keeps `Inv2`. -/
theorem Inv2.of_append {s s1 : QdfFixer} (h : Inv2 s) (hst : s.state ≠ .st_in_ostream_outer)
    (hx : s1.xref = s.xref) (ho : s1.last_obj = s.last_obj)
    (hout : s.out <+: s1.out)
    (hcount : s.out.length + totalLength s.ostream ≤ s1.out.length + totalLength s1.ostream) :
    Inv2 s1 := by
  obtain ⟨c, hc⟩ := hout
  constructor
  · intro i e hie
    rw [hx] at hie
    rcases h.entries i e hie with hg | ⟨h1, -⟩
    · left; rw [← hc]; exact hg.append_entry c
    · exact absurd h1 hst
  · rw [hx]; exact h.sorted
  · rw [ho]; have := h.count; omega

/-- Appending the entry of a freshly read object line keeps the table sorted. -/
theorem sorted_snoc {xs : List XRefEntry} {q : Int}
    (hs : ∀ (i j : Nat) (p q : Int), i < j → xs[i]? = some (XRefEntry.uncompressed p) →
      xs[j]? = some (XRefEntry.uncompressed q) → p ≤ q)
    (hb : ∀ (i : Nat) (p : Int), xs[i]? = some (XRefEntry.uncompressed p) → p ≤ q) :
    ∀ (i j : Nat) (p r : Int), i < j → (xs ++ [XRefEntry.uncompressed q])[i]? =
        some (XRefEntry.uncompressed p) →
      (xs ++ [XRefEntry.uncompressed q])[j]? = some (XRefEntry.uncompressed r) → p ≤ r := by
  intro i j p r hij hi hj
  rcases getElem?_snoc _ _ _ _ hj with ⟨hj1, hj2⟩ | ⟨hj1, hj2⟩
  · rcases getElem?_snoc _ _ _ _ hi with ⟨hi1, hi2⟩ | ⟨hi1, hi2⟩
    · exact hs i j p r hij hi2 hj2
    · omega
  · rcases getElem?_snoc _ _ _ _ hi with ⟨hi1, hi2⟩ | ⟨hi1, hi2⟩
    · simp only [XRefEntry.uncompressed.injEq] at hj2
      subst hj2
      exact hb i p hi2
    · omega

/-- In a state other than `st_in_ostream_outer` every offset of the table lies
inside the output. -/
theorem Inv2.offset_le {s : QdfFixer} (h : Inv2 s) (hst : s.state ≠ .st_in_ostream_outer)
    {i : Nat} {p : Int} (hi : s.xref[i]? = some (XRefEntry.uncompressed p)) :
    p + 8 ≤ s.out.length := by
  rcases h.entries i _ hi with hg | ⟨h1, -⟩
  · exact hg.1.lt_length
  · exact absurd h1 hst

/-- Reading an object header line in state `st_top` or `st_after_stream`. -/
theorem Inv2.header {s : QdfFixer} {l d : Bytes} (h : Inv2 s) (h1 : Inv1 s)
    (hst : s.state ≠ .st_in_ostream_outer) (hoff : s.offset = s.out.length)
    (hos : s.ostream = [])
    (hd : re_n_0_obj l = some d) (hv : stoi d = some (s.last_obj + 1)) {s1 : QdfFixer}
    (hx : s1.xref = s.xref ++ [XRefEntry.uncompressed s.offset])
    (ho : s1.last_obj = s.last_obj + 1) (hout : s1.out = s.out ++ l)
    (hos1 : s1.ostream = []) : Inv2 s1 := by
  have hdv : decVal d = s.last_obj + 1 := by
    unfold stoi at hv
    split_ifs at hv
    simpa using hv
  have hlen := re_n_0_obj_length hd
  have hcnt := h.count
  rw [hos] at hcnt
  simp only [totalLength_nil] at hcnt
  constructor
  · intro i e hie
    rw [hx] at hie
    left
    rcases getElem?_snoc _ _ _ _ hie with ⟨hi1, hi2⟩ | ⟨hi1, hi2⟩
    · rcases h.entries i e hi2 with hg | ⟨h2, -⟩
      · rw [hout]; exact hg.append_entry l
      · exact absurd h2 hst
    · subst hi2
      rw [hout, hoff, hi1, h1.xref_len]
      refine ⟨?_, by omega⟩
      rw [← hdv]
      exact IsHeaderAt.here hd
  · rw [hx]
    refine sorted_snoc h.sorted ?_
    intro i p hi
    have := h.offset_le hst hi
    omega
  · rw [ho, hout, hos1]
    simp
    omega



/-- Reading a marker line in state `st_in_ostream_offsets` or
`st_in_ostream_obj`. -/
theorem Inv2.marker_line {s : QdfFixer} {l d : Bytes} (h : Inv2 s)
    (hst : s.state ≠ .st_in_ostream_outer) (hoff : (s.out.length : Int) ≤ s.offset)
    (hd : re_ostream_obj l = some d) {s1 : QdfFixer}
    (hx : s1.xref = s.xref ++ [XRefEntry.uncompressed s.offset])
    (ho : s1.last_obj = s.last_obj + 1) (hout : s1.out = s.out)
    (hos1 : s1.ostream = s.ostream ++ [l]) (hst1 : s1.state = .st_in_ostream_outer)
    (hoff1 : s.offset ≤ s1.offset) : Inv2 s1 := by
  have hlen := re_ostream_obj_length hd
  have hcnt := h.count
  constructor
  · intro i e hie
    rw [hx] at hie
    rcases getElem?_snoc _ _ _ _ hie with ⟨hi1, hi2⟩ | ⟨hi1, hi2⟩
    · left
      rcases h.entries i e hi2 with hg | ⟨h2, -⟩
      · rw [hout]; exact hg
      · exact absurd h2 hst
    · right
      refine ⟨hst1, by rw [hx]; simp [hi1], s.offset, hi2, by rw [hout]; exact hoff, hoff1⟩
  · rw [hx]
    refine sorted_snoc h.sorted ?_
    intro i p hi
    have := h.offset_le hst hi
    omega
  · rw [ho, hout, hos1]
    simp
    omega

/-- The line after a marker, read in state `st_in_ostream_outer`. -/
theorem Inv2.after_marker {s : QdfFixer} {l : Bytes} (h : Inv2 s) (h1 : Inv1 s)
    (hst : s.state = .st_in_ostream_outer) {s1 : QdfFixer}
    (hx : s1.xref = s.xref.dropLast ++ [XRefEntry.compressed s.ostream_id s.ostream_idx])
    (ho : s1.last_obj = s.last_obj) (hout : s1.out = s.out)
    (hos1 : s1.ostream = s.ostream ++ [l]) : Inv2 s1 := by
  have ha := h1.acct
  simp only [Acct, hst] at ha
  have hxl := h1.xref_len
  have hcnt := h.count
  constructor
  · intro i e hie
    rw [hx] at hie
    left
    rcases getElem?_snoc _ _ _ _ hie with ⟨hi1, hi2⟩ | ⟨hi1, hi2⟩
    · obtain ⟨h3, h4⟩ := getElem?_dropLast _ _ _ hi2
      rcases h.entries i e h4 with hg | ⟨-, h5, -⟩
      · rw [hout]; exact hg
      · omega
    · subst hi2
      simp only [GoodEntry]
      simp at hi1
      omega
  · rw [hx]
    intro i j p q hij hi hj
    rcases getElem?_snoc _ _ _ _ hj with ⟨hj1, hj2⟩ | ⟨hj1, hj2⟩
    · rcases getElem?_snoc _ _ _ _ hi with ⟨hi1, hi2⟩ | ⟨hi1, hi2⟩
      · exact h.sorted i j p q hij (getElem?_dropLast _ _ _ hi2).2 (getElem?_dropLast _ _ _ hj2).2
      · omega
    · simp at hj2
  · rw [ho, hout, hos1]
    simp
    omega

set_option maxHeartbeats 1000000 in
theorem step_inv2 {s s1 : QdfFixer} {l : Bytes} (hi : Inv1 s) (h2 : Inv2 s)
    (h : step s l = .ok s1) : Inv2 s1 := by
  unfold step at h
  split_ifs at h with hov <;> try (simp at h; done)
  have ha := hi.acct
  unfold dispatch at h
  simp only [advance] at h
  cases hst : s.state <;> simp only [hst] at h <;> simp only [Acct, hst] at ha
  · -- top
    unfold stepTop at h
    split at h
    · rename_i d hd
      obtain ⟨a, ha1, ha2⟩ := Result.bind_eq_ok.1 h
      obtain ⟨h3, h4, rfl⟩ := checkObjId_ok ha1
      simp only [Result.ok.injEq] at ha2
      subst ha2
      exact h2.header hi (by simp [hst]) ha.1 ha.2.1.1 hd h3 (by simp [QdfFixer.write])
        (by simp [QdfFixer.write]) (by simp [QdfFixer.write]) (by simp [QdfFixer.write, ha.2.1.1])
    · split_ifs at h <;> simp only [Result.ok.injEq] at h <;> subst h <;>
        exact h2.of_append (by simp [hst]) (by simp [QdfFixer.write]) (by simp [QdfFixer.write])
          (by simp [QdfFixer.write]) (by simp [QdfFixer.write])
  · -- in_obj
    unfold stepInObj startXRefStream at h
    dsimp only at h
    split_ifs at h
    · simp only [Result.ok.injEq] at h; subst h
      exact h2.of_append (by simp [hst]) (by simp [QdfFixer.write]) (by simp [QdfFixer.write])
                (by simp [QdfFixer.write]) (by simp [QdfFixer.write, -List.length_flatten] <;> omega)
    · simp only [Result.ok.injEq] at h; subst h
      exact h2.of_append (by simp [hst]) (by simp [QdfFixer.write]) (by simp [QdfFixer.write])
                (by simp [QdfFixer.write]) (by simp [QdfFixer.write, -List.length_flatten] <;> omega)
    · simp only [Result.ok.injEq] at h; subst h
      exact h2.of_append (by simp [hst]) (by simp [QdfFixer.write]) (by simp [QdfFixer.write])
                (by simp [QdfFixer.write]) (by simp [QdfFixer.write, -List.length_flatten] <;> omega)
    · split at h
      · simp at h
      · split at h
        · simp at h
        · split_ifs at h with hneg <;> try (simp at h; done)
          simp only [Result.ok.injEq] at h; subst h
          exact h2.of_append (by simp [hst]) (by simp [QdfFixer.write]) (by simp [QdfFixer.write])
                (by simp [QdfFixer.write]) (by simp [QdfFixer.write, -List.length_flatten] <;> omega)
    · simp only [Result.ok.injEq] at h; subst h
      exact h2.of_append (by simp [hst]) (by simp [QdfFixer.write]) (by simp [QdfFixer.write])
                (by simp [QdfFixer.write]) (by simp [QdfFixer.write, -List.length_flatten] <;> omega)
  · -- in_stream
    unfold stepInStream at h
    split_ifs at h <;> try (simp at h; done)
    all_goals
      simp only [Result.ok.injEq] at h; subst h
      exact h2.of_append (by simp [hst]) (by simp [QdfFixer.write]) (by simp [QdfFixer.write])
                (by simp [QdfFixer.write]) (by simp [QdfFixer.write, -List.length_flatten] <;> omega)
  · -- after_stream
    unfold stepAfterStream at h
    split_ifs at h
    · simp only [Result.ok.injEq] at h; subst h
      exact h2.of_append (by simp [hst]) (by simp [QdfFixer.write]) (by simp [QdfFixer.write])
                (by simp [QdfFixer.write]) (by simp [QdfFixer.write, -List.length_flatten] <;> omega)
    · simp only [Result.ok.injEq] at h; subst h
      exact h2.of_append (by simp [hst]) (by simp [QdfFixer.write]) (by simp [QdfFixer.write])
                (by simp [QdfFixer.write]) (by simp [QdfFixer.write, -List.length_flatten] <;> omega)
    · split at h
      · rename_i d hd
        obtain ⟨a, ha1, ha2⟩ := Result.bind_eq_ok.1 h
        obtain ⟨h3, h4, rfl⟩ := checkObjId_ok ha1
        simp only [Result.ok.injEq] at ha2
        subst ha2
        exact h2.header hi (by simp [hst]) ha.1 ha.2.1.1 hd h3 (by simp [QdfFixer.write])
          (by simp [QdfFixer.write]) (by simp [QdfFixer.write])
          (by simp [QdfFixer.write, ha.2.1.1])
      · simp only [Result.ok.injEq] at h; subst h
        exact h2.of_append (by simp [hst]) (by simp [QdfFixer.write]) (by simp [QdfFixer.write])
                (by simp [QdfFixer.write]) (by simp [QdfFixer.write, -List.length_flatten] <;> omega)
  · -- in_ostream_dict
    unfold stepInOstreamDict at h
    split_ifs at h
    · simp only [Result.ok.injEq] at h; subst h
      exact h2.of_append (by simp [hst]) (by simp [QdfFixer.write]) (by simp [QdfFixer.write])
                (by simp [QdfFixer.write]) (by simp [QdfFixer.write, -List.length_flatten] <;> omega)
    · dsimp only at h
      split at h <;>
      · simp only [Result.ok.injEq] at h; subst h
        exact h2.of_append (by simp [hst]) (by simp [QdfFixer.write]) (by simp [QdfFixer.write])
                (by simp [QdfFixer.write]) (by simp [QdfFixer.write, -List.length_flatten] <;> omega)
  · -- in_ostream_offsets
    unfold stepInOstreamOffsets at h
    split at h
    · rename_i d hd
      obtain ⟨a, ha1, ha2⟩ := Result.bind_eq_ok.1 h
      obtain ⟨h3, h4, rfl⟩ := checkObjId_ok ha1
      simp only [Result.ok.injEq] at ha2
      subst ha2
      exact h2.marker_line (l := l) (by simp [hst]) (by omega) hd (by simp) (by simp) (by simp) (by simp)
        (by simp) (by simp)
    · simp only [Result.ok.injEq] at h; subst h
      exact h2.of_append (by simp [hst]) (by simp [QdfFixer.write]) (by simp [QdfFixer.write])
                (by simp [QdfFixer.write]) (by simp [QdfFixer.write, -List.length_flatten] <;> omega)
  · -- in_ostream_outer
    unfold stepInOstreamOuter at h
    obtain ⟨a, ha1, ha2⟩ := Result.bind_eq_ok.1 h
    obtain ⟨h3, h4, rfl⟩ := adjustOstreamXref_ok ha1
    simp only [Result.ok.injEq] at ha2
    subst ha2
    exact h2.after_marker (l := l) hi hst (by simp) (by simp) (by simp) (by simp)
  · -- in_ostream_obj
    unfold stepInOstreamObj at h
    dsimp only at h
    split at h
    · rename_i d hd
      obtain ⟨a, ha1, ha2⟩ := Result.bind_eq_ok.1 h
      obtain ⟨h3, h4, rfl⟩ := checkObjId_ok ha1
      simp only [Result.ok.injEq] at ha2
      subst ha2
      exact h2.marker_line (l := l) (by simp [hst]) (by omega) hd (by simp) (by simp) (by simp) (by simp)
        (by simp) (by simp)
    · split_ifs at h <;> try (simp at h; done)
      · obtain ⟨a, ha1, ha2⟩ := Result.bind_eq_ok.1 h
        obtain ⟨first, rest, hfr, h4, rfl, h3⟩ := writeOstream_ok ha1
        simp only [Result.ok.injEq] at ha2
        subst ha2
        exact h2.of_append (by simp [hst]) (by simp [QdfFixer.write]) (by simp [QdfFixer.write])
                (by simp [QdfFixer.write]) (by simp [QdfFixer.write, -List.length_flatten] <;> omega)
      · simp only [Result.ok.injEq] at h; subst h
        exact h2.of_append (by simp [hst]) (by simp [QdfFixer.write]) (by simp [QdfFixer.write])
                (by simp [QdfFixer.write]) (by simp [QdfFixer.write, -List.length_flatten] <;> omega)
  · -- in_xref_stream_dict
    unfold stepInXRefStreamDict at h
    dsimp only at h
    split_ifs at h
    all_goals first
      | (obtain ⟨a1, h1, h⟩ := Result.bind_eq_ok.1 h
         obtain ⟨a2, h3, h⟩ := Result.bind_eq_ok.1 h
         obtain ⟨d0, d1, d2, -, -, -, rfl⟩ := writeRow_ok h1
         obtain ⟨body, rfl⟩ := writeXRefRows_ok h3
         simp only [Result.ok.injEq] at h; subst h
         exact h2.of_append (by simp [hst]) (by simp [QdfFixer.write]) (by simp [QdfFixer.write])
                (by simp [QdfFixer.write]) (by simp [QdfFixer.write, -List.length_flatten] <;> omega))
      | (simp only [Result.ok.injEq] at h; subst h
         exact h2.of_append (by simp [hst]) (by simp [QdfFixer.write]) (by simp [QdfFixer.write])
                (by simp [QdfFixer.write]) (by simp [QdfFixer.write, -List.length_flatten] <;> omega))
  · -- in_length
    unfold stepInLength at h
    dsimp only at h
    split_ifs at h <;> try (simp at h; done)
    simp only [Result.ok.injEq] at h; subst h
    exact h2.of_append (by simp [hst]) (by simp [QdfFixer.write]) (by simp [QdfFixer.write])
                (by simp [QdfFixer.write]) (by simp [QdfFixer.write, -List.length_flatten] <;> omega)
  · -- at_xref
    unfold stepAtXRef at h
    dsimp only at h
    obtain ⟨a1, h1, h⟩ := Result.bind_eq_ok.1 h
    obtain ⟨body, rfl⟩ := writeXRefTable_ok h1
    simp only [Result.ok.injEq] at h; subst h
    exact h2.of_append (by simp [hst]) (by simp [QdfFixer.write]) (by simp [QdfFixer.write])
                (by simp [QdfFixer.write]) (by simp [QdfFixer.write, -List.length_flatten] <;> omega)
  · -- before_trailer
    unfold stepBeforeTrailer at h
    split_ifs at h <;>
    · simp only [Result.ok.injEq] at h; subst h
      exact h2.of_append (by simp [hst]) (by simp [QdfFixer.write]) (by simp [QdfFixer.write])
                (by simp [QdfFixer.write]) (by simp [QdfFixer.write, -List.length_flatten] <;> omega)
  · -- in_trailer
    unfold stepInTrailer at h
    dsimp only at h
    split_ifs at h <;>
    · simp only [Result.ok.injEq] at h; subst h
      exact h2.of_append (by simp [hst]) (by simp [QdfFixer.write]) (by simp [QdfFixer.write])
                (by simp [QdfFixer.write]) (by simp [QdfFixer.write, -List.length_flatten] <;> omega)
  · -- done
    simp only [Result.ok.injEq] at h; subst h
    exact h2.of_append (by simp [hst]) (by simp [QdfFixer.write]) (by simp [QdfFixer.write])
                (by simp [QdfFixer.write]) (by simp [QdfFixer.write, -List.length_flatten] <;> omega)

theorem scanFlag_snoc (l : Bytes) : ∀ (ls : List Bytes) (b : Bool),
    scanFlag b (ls ++ [l]) = if scanFlag b ls then false else (re_ostream_obj l).isSome := by
  intro ls
  induction ls with
  | nil => intro b; cases b <;> simp [scanFlag]
  | cons a ls ih => intro b; cases b <;> simp [scanFlag, ih]

theorem objectStarts_snoc (l : Bytes) : ∀ (ls : List Bytes) (pos : Nat) (b : Bool),
    objectStarts pos b (ls ++ [l]) =
      objectStarts pos b ls ++ if scanFlag b ls then [pos + totalLength ls] else [] := by
  intro ls
  induction ls with
  | nil => intro pos b; cases b <;> simp [objectStarts, scanFlag]
  | cons a ls ih =>
    intro pos b
    cases b <;> simp [objectStarts, scanFlag, ih, Nat.add_assoc]

theorem markerNumbers_snoc (l : Bytes) : ∀ (ls : List Bytes) (b : Bool),
    markerNumbers b (ls ++ [l]) =
      markerNumbers b ls ++
        if scanFlag b ls then []
        else match re_ostream_obj l with
          | some d => [decVal d]
          | none => [] := by
  intro ls
  induction ls with
  | nil =>
    intro b
    cases b
    · simp only [List.nil_append, markerNumbers, scanFlag]
      cases re_ostream_obj l <;> simp [markerNumbers]
    · simp [markerNumbers, scanFlag]
  | cons a ls ih =>
    intro b
    cases b
    · rw [show (a :: ls) ++ [l] = a :: (ls ++ [l]) from rfl]
      simp only [markerNumbers, scanFlag]
      split <;> rename_i h <;> simp [ih, h]
    · simp [markerNumbers, scanFlag, ih]

theorem Inv3.of_other {s : QdfFixer} (h1 : s.state ≠ .st_in_ostream_outer)
    (h2 : s.state ≠ .st_in_ostream_obj) : Inv3 s := by
  constructor
  · intro h; rcases h with h | h <;> contradiction
  · intro h; rcases h with h | h <;> contradiction
  · intro h; rcases h with h | h <;> contradiction
  · intro h; rcases h with h | h <;> contradiction
  · intro h; rcases h with h | h <;> contradiction
  · intro h; contradiction

theorem getElem?_dropLast_snoc_lt {α : Type} (xs : List α) (a : α) (i : Nat)
    (h : i + 1 < xs.length) : (xs.dropLast ++ [a])[i]? = xs[i]? := by
  rw [List.getElem?_append_left (by simp; omega)]
  rw [List.getElem?_eq_getElem (by simp; omega), List.getElem?_eq_getElem (by omega)]
  simp [List.getElem_dropLast]

theorem getElem?_dropLast_snoc_eq {α : Type} (xs : List α) (a : α) (i : Nat)
    (h : i + 1 = xs.length) : (xs.dropLast ++ [a])[i]? = some a := by
  have h2 : i - xs.dropLast.length = 0 := by simp; omega
  rw [List.getElem?_append_right (by simp; omega), h2]
  rfl

theorem stoi_eq {d : Bytes} {n : Nat} (h : stoi d = some n) : decVal d = n ∧ n ≤ INT_MAX := by
  unfold stoi at h
  split_ifs at h with h1
  simp only [Option.some.injEq] at h
  omega

/-- The first marker of an object stream, read in state
`st_in_ostream_offsets`. -/
theorem Inv3.first {s s1 : QdfFixer} {l d : Bytes} (h1 : Inv1 s)
    (hst : s.state = .st_in_ostream_offsets) (hd : re_ostream_obj l = some d)
    (hv : stoi d = some (s.last_obj + 1))
    (hst1 : s1.state = .st_in_ostream_outer) (hos : s1.ostream = s.ostream ++ [l])
    (hof : s1.ostream_offsets = s.ostream_offsets) (hidx : s1.ostream_idx = s.ostream_idx)
    (hid : s1.ostream_id = s.ostream_id) (q : Int)
    (hx : s1.xref = s.xref ++ [XRefEntry.uncompressed q]) : Inv3 s1 := by
  have ha := h1.acct
  simp only [Acct, hst] at ha
  obtain ⟨-, ha2, ha3, ha4, -, ha6⟩ := ha
  have hdv := (stoi_eq hv).1
  constructor
  · intro _ k hk
    rw [hidx, ha4] at hk
    omega
  · intro _
    rw [hof, hos, ha2, ha3]
    simp [objectStarts, hd]
  · intro _
    rw [hos, ha2, hst1]
    simp [scanFlag, hd]
  · intro _
    rw [hos, ha2, hst1, hidx, hid, ha4]
    simp [markerNumbers, hd, hdv, ha6]
  · intro _
    rw [hos, ha2]
    simp [hd]
  · intro _
    exact ⟨q, by rw [hx]; simp⟩

/-- The line after a marker, read in state `st_in_ostream_outer`. -/
theorem Inv3.object_start {s s1 : QdfFixer} {l : Bytes} (h1 : Inv1 s) (h3 : Inv3 s)
    (hst : s.state = .st_in_ostream_outer)
    (hst1 : s1.state = .st_in_ostream_obj) (hos : s1.ostream = s.ostream ++ [l])
    (hof : s1.ostream_offsets = s.ostream_offsets ++ [s.offset - s.stream_start])
    (hidx : s1.ostream_idx = s.ostream_idx + 1)
    (hid : s1.ostream_id = s.ostream_id)
    (hx : s1.xref = s.xref.dropLast ++ [XRefEntry.compressed s.ostream_id s.ostream_idx]) :
    Inv3 s1 := by
  have ha := h1.acct
  simp only [Acct, hst] at ha
  obtain ⟨ha1, ha2, -, ha4, ha5⟩ := ha
  have hxl := h1.xref_len
  have hflag := h3.flag (Or.inl hst)
  simp only [hst, decide_True] at hflag
  constructor
  · intro _ k hk
    rw [hidx] at hk
    rw [hx, hid]
    by_cases hk2 : k < s.ostream_idx
    · rw [getElem?_dropLast_snoc_lt _ _ _ (by omega)]
      exact h3.comp (Or.inl hst) k hk2
    · have : k = s.ostream_idx := by omega
      subst this
      exact getElem?_dropLast_snoc_eq _ _ _ (by omega)
  · intro _
    rw [hof, hos, objectStarts_snoc, hflag, h3.starts (Or.inl hst)]
    simp
    omega
  · intro _
    rw [hos, scanFlag_snoc, hflag, hst1]
    simp
  · intro _
    rw [hos, markerNumbers_snoc, hflag, hst1, hidx, hid, h3.nums (Or.inl hst)]
    simp [hst]
  · intro _
    have hm := h3.head_marker (Or.inl hst)
    rw [hos]
    cases hos0 : s.ostream with
    | nil => rw [hos0] at hm; simp at hm
    | cons a r => rw [hos0] at hm; simpa using hm
  · intro h
    rw [hst1] at h
    cases h

/-- A marker read in state `st_in_ostream_obj`. -/
theorem Inv3.next_marker {s s1 : QdfFixer} {l d : Bytes} (h1 : Inv1 s) (h3 : Inv3 s)
    (hst : s.state = .st_in_ostream_obj) (hd : re_ostream_obj l = some d)
    (hv : stoi d = some (s.last_obj + 1))
    (hst1 : s1.state = .st_in_ostream_outer) (hos : s1.ostream = s.ostream ++ [l])
    (hof : s1.ostream_offsets = s.ostream_offsets) (hidx : s1.ostream_idx = s.ostream_idx)
    (hid : s1.ostream_id = s.ostream_id) (q : Int)
    (hx : s1.xref = s.xref ++ [XRefEntry.uncompressed q]) : Inv3 s1 := by
  have ha := h1.acct
  simp only [Acct, hst] at ha
  obtain ⟨ha1, ha2, -, ha4, ha5⟩ := ha
  have hxl := h1.xref_len
  have hflag := h3.flag (Or.inr hst)
  simp only [hst] at hflag
  have hflag2 : scanFlag false s.ostream = false := by simpa using hflag
  have hdv := (stoi_eq hv).1
  constructor
  · intro _ k hk
    rw [hidx] at hk
    rw [hx, hid, List.getElem?_append_left (by omega)]
    exact h3.comp (Or.inr hst) k hk
  · intro _
    rw [hof, hos, objectStarts_snoc, hflag2, h3.starts (Or.inr hst)]
    simp
  · intro _
    rw [hos, scanFlag_snoc, hflag2, hst1]
    simp [hd]
  · intro _
    rw [hos, markerNumbers_snoc, hflag2, hst1, hidx, hid, h3.nums (Or.inr hst)]
    simp only [hst, hd, hdv, ha5]
    simp [List.range'_concat]
    omega
  · intro _
    have hm := h3.head_marker (Or.inr hst)
    rw [hos]
    cases hos0 : s.ostream with
    | nil => rw [hos0] at hm; simp at hm
    | cons a r => rw [hos0] at hm; simpa using hm
  · intro _
    exact ⟨q, by rw [hx]; simp⟩

/-- A line that is not a marker, read in state `st_in_ostream_obj`. -/
theorem Inv3.plain {s s1 : QdfFixer} {l : Bytes} (h3 : Inv3 s)
    (hst : s.state = .st_in_ostream_obj) (hd : re_ostream_obj l = none)
    (hst1 : s1.state = .st_in_ostream_obj) (hos : s1.ostream = s.ostream ++ [l])
    (hof : s1.ostream_offsets = s.ostream_offsets) (hidx : s1.ostream_idx = s.ostream_idx)
    (hid : s1.ostream_id = s.ostream_id) (hx : s1.xref = s.xref) : Inv3 s1 := by
  have hflag := h3.flag (Or.inr hst)
  simp only [hst] at hflag
  have hflag2 : scanFlag false s.ostream = false := by simpa using hflag
  constructor
  · intro _ k hk
    rw [hidx] at hk
    rw [hx, hid]
    exact h3.comp (Or.inr hst) k hk
  · intro _
    rw [hof, hos, objectStarts_snoc, hflag2, h3.starts (Or.inr hst)]
    simp
  · intro _
    rw [hos, scanFlag_snoc, hflag2, hst1]
    simp [hd]
  · intro _
    rw [hos, markerNumbers_snoc, hflag2, hst1, hidx, hid, h3.nums (Or.inr hst)]
    simp [hst, hd]
  · intro _
    have hm := h3.head_marker (Or.inr hst)
    rw [hos]
    cases hos0 : s.ostream with
    | nil => rw [hos0] at hm; simp at hm
    | cons a r => rw [hos0] at hm; simpa using hm
  · intro h
    rw [hst1] at h
    cases h

set_option maxHeartbeats 1000000 in
theorem step_inv3 {s s1 : QdfFixer} {l : Bytes} (hi : Inv1 s) (h3 : Inv3 s)
    (h : step s l = .ok s1) : Inv3 s1 := by
  unfold step at h
  split_ifs at h with hov <;> try (simp at h; done)
  have ha := hi.acct
  unfold dispatch at h
  simp only [advance] at h
  cases hst : s.state <;> simp only [hst] at h <;> simp only [Acct, hst] at ha
  · -- top
    unfold stepTop at h
    split at h
    · obtain ⟨a, ha1, ha2⟩ := Result.bind_eq_ok.1 h
      obtain ⟨h4, h5, rfl⟩ := checkObjId_ok ha1
      simp only [Result.ok.injEq] at ha2
      subst ha2
      exact Inv3.of_other (by simp [QdfFixer.write]) (by simp [QdfFixer.write])
    · split_ifs at h <;> simp only [Result.ok.injEq] at h <;> subst h <;>
        exact Inv3.of_other (by simp [QdfFixer.write]) (by simp [QdfFixer.write])
  · -- in_obj
    unfold stepInObj startXRefStream at h
    dsimp only at h
    split_ifs at h
    · simp only [Result.ok.injEq] at h; subst h
      exact Inv3.of_other (by simp [QdfFixer.write]) (by simp [QdfFixer.write])
    · simp only [Result.ok.injEq] at h; subst h
      exact Inv3.of_other (by simp [QdfFixer.write]) (by simp [QdfFixer.write])
    · simp only [Result.ok.injEq] at h; subst h
      exact Inv3.of_other (by simp [QdfFixer.write]) (by simp [QdfFixer.write])
    · split at h
      · simp at h
      · split at h
        · simp at h
        · split_ifs at h with hneg <;> try (simp at h; done)
          simp only [Result.ok.injEq] at h; subst h
          exact Inv3.of_other (by simp [QdfFixer.write]) (by simp [QdfFixer.write])
    · simp only [Result.ok.injEq] at h; subst h
      exact Inv3.of_other (by simp [QdfFixer.write, hst]) (by simp [QdfFixer.write, hst])
  · -- in_stream
    unfold stepInStream at h
    split_ifs at h <;> try (simp at h; done)
    all_goals
      simp only [Result.ok.injEq] at h; subst h
      exact Inv3.of_other (by simp [QdfFixer.write, hst]) (by simp [QdfFixer.write, hst])
  · -- after_stream
    unfold stepAfterStream at h
    split_ifs at h
    · simp only [Result.ok.injEq] at h; subst h
      exact Inv3.of_other (by simp [QdfFixer.write, hst]) (by simp [QdfFixer.write, hst])
    · simp only [Result.ok.injEq] at h; subst h
      exact Inv3.of_other (by simp [QdfFixer.write, hst]) (by simp [QdfFixer.write, hst])
    · split at h
      · obtain ⟨a, ha1, ha2⟩ := Result.bind_eq_ok.1 h
        obtain ⟨h4, h5, rfl⟩ := checkObjId_ok ha1
        simp only [Result.ok.injEq] at ha2
        subst ha2
        exact Inv3.of_other (by simp [QdfFixer.write]) (by simp [QdfFixer.write])
      · simp only [Result.ok.injEq] at h; subst h
        exact Inv3.of_other (by simp [QdfFixer.write, hst]) (by simp [QdfFixer.write, hst])
  · -- in_ostream_dict
    unfold stepInOstreamDict at h
    split_ifs at h
    · simp only [Result.ok.injEq] at h; subst h
      exact Inv3.of_other (by simp [QdfFixer.write]) (by simp [QdfFixer.write])
    · dsimp only at h
      split at h <;>
      · simp only [Result.ok.injEq] at h; subst h
        exact Inv3.of_other (by simp [QdfFixer.write, hst]) (by simp [QdfFixer.write, hst])
  · -- in_ostream_offsets
    unfold stepInOstreamOffsets at h
    split at h
    · rename_i d hd
      obtain ⟨a, ha1, ha2⟩ := Result.bind_eq_ok.1 h
      obtain ⟨h4, h5, rfl⟩ := checkObjId_ok ha1
      simp only [Result.ok.injEq] at ha2
      subst ha2
      exact Inv3.first (l := l) hi hst hd h4 (by simp) (by simp) (by simp) (by simp) (by simp)
        _ (by simp; rfl)
    · simp only [Result.ok.injEq] at h; subst h
      exact Inv3.of_other (by simp [QdfFixer.write, hst]) (by simp [QdfFixer.write, hst])
  · -- in_ostream_outer
    unfold stepInOstreamOuter at h
    obtain ⟨a, ha1, ha2⟩ := Result.bind_eq_ok.1 h
    obtain ⟨h4, h5, rfl⟩ := adjustOstreamXref_ok ha1
    simp only [Result.ok.injEq] at ha2
    subst ha2
    exact Inv3.object_start (l := l) hi h3 hst (by simp) (by simp) (by simp) (by simp) (by simp) (by simp)
  · -- in_ostream_obj
    unfold stepInOstreamObj at h
    dsimp only at h
    split at h
    · rename_i d hd
      obtain ⟨a, ha1, ha2⟩ := Result.bind_eq_ok.1 h
      obtain ⟨h4, h5, rfl⟩ := checkObjId_ok ha1
      simp only [Result.ok.injEq] at ha2
      subst ha2
      exact Inv3.next_marker (l := l) hi h3 hst hd h4 (by simp) (by simp) (by simp) (by simp) (by simp)
        _ (by simp; rfl)
    · rename_i hd
      split_ifs at h <;> try (simp at h; done)
      · obtain ⟨a, ha1, ha2⟩ := Result.bind_eq_ok.1 h
        obtain ⟨first, rest, hfr, h4, rfl, h5⟩ := writeOstream_ok ha1
        simp only [Result.ok.injEq] at ha2
        subst ha2
        exact Inv3.of_other (by simp [QdfFixer.write]) (by simp [QdfFixer.write])
      · simp only [Result.ok.injEq] at h; subst h
        exact Inv3.plain (l := l) h3 hst hd (by simp [hst]) (by simp) (by simp) (by simp) (by simp)
          (by simp)
  · -- in_xref_stream_dict
    unfold stepInXRefStreamDict at h
    dsimp only at h
    split_ifs at h
    all_goals first
      | (obtain ⟨a1, h1, h⟩ := Result.bind_eq_ok.1 h
         obtain ⟨a2, h3, h⟩ := Result.bind_eq_ok.1 h
         obtain ⟨d0, d1, d2, -, -, -, rfl⟩ := writeRow_ok h1
         obtain ⟨body, rfl⟩ := writeXRefRows_ok h3
         simp only [Result.ok.injEq] at h; subst h
         exact Inv3.of_other (by simp [QdfFixer.write]) (by simp [QdfFixer.write]))
      | (simp only [Result.ok.injEq] at h; subst h
         exact Inv3.of_other (by simp [QdfFixer.write, hst]) (by simp [QdfFixer.write, hst]))
  · -- in_length
    unfold stepInLength at h
    dsimp only at h
    split_ifs at h <;> try (simp at h; done)
    simp only [Result.ok.injEq] at h; subst h
    exact Inv3.of_other (by simp [QdfFixer.write]) (by simp [QdfFixer.write])
  · -- at_xref
    unfold stepAtXRef at h
    dsimp only at h
    obtain ⟨a1, h1, h⟩ := Result.bind_eq_ok.1 h
    obtain ⟨body, rfl⟩ := writeXRefTable_ok h1
    simp only [Result.ok.injEq] at h; subst h
    exact Inv3.of_other (by simp [QdfFixer.write]) (by simp [QdfFixer.write])
  · -- before_trailer
    unfold stepBeforeTrailer at h
    split_ifs at h <;>
    · simp only [Result.ok.injEq] at h; subst h
      first
        | exact Inv3.of_other (by simp [QdfFixer.write]) (by simp [QdfFixer.write])
        | exact Inv3.of_other (by simp [QdfFixer.write, hst]) (by simp [QdfFixer.write, hst])
  · -- in_trailer
    unfold stepInTrailer at h
    dsimp only at h
    split_ifs at h <;>
    · simp only [Result.ok.injEq] at h; subst h
      first
        | exact Inv3.of_other (by simp [QdfFixer.write]) (by simp [QdfFixer.write])
        | exact Inv3.of_other (by simp [QdfFixer.write, hst]) (by simp [QdfFixer.write, hst])
  · -- done
    simp only [Result.ok.injEq] at h; subst h
    exact Inv3.of_other (by simp [QdfFixer.write, hst]) (by simp [QdfFixer.write, hst])

theorem getLast?_getElem? {α : Type} (xs : List α) (a : α) (h : xs.getLast? = some a) :
    xs ≠ [] ∧ xs[xs.length - 1]? = some a := by
  have hne : xs ≠ [] := by
    intro hc
    rw [hc] at h
    simp at h
  refine ⟨hne, ?_⟩
  rw [List.getLast?_eq_getElem?] at h
  exact h

theorem inv_init (fn : Bytes) : Inv (QdfFixer.init fn) := by
  refine ⟨inv1_init fn, ?_, Inv3.of_other (by simp [QdfFixer.init]) (by simp [QdfFixer.init])⟩
  constructor <;> simp [QdfFixer.init]

theorem step_inv {s s1 : QdfFixer} {l : Bytes} (hi : Inv s) (h : step s l = .ok s1) : Inv s1 :=
  ⟨step_inv1 hi.acct h, step_inv2 hi.acct hi.table h, step_inv3 hi.acct hi.buffers h⟩

theorem runLines_inv {ls : List Bytes} : ∀ {s s1 : QdfFixer}, Inv s →
    runLines s ls = .ok s1 → Inv s1 := by
  induction ls with
  | nil =>
    intro s s1 hi h
    simp only [runLines, Result.ok.injEq] at h
    exact h ▸ hi
  | cons l ls ih =>
    intro s s1 hi h
    simp only [runLines] at h
    obtain ⟨a, h1, h2⟩ := Result.bind_eq_ok.1 h
    exact ih (step_inv hi h1) h2

/-- How one loop iteration changes the table: not at all, by appending one
entry, or (in state `st_in_ostream_outer` only) by replacing the last entry. -/
theorem step_xref {s s1 : QdfFixer} {l : Bytes} (h : step s l = .ok s1) :
    s1.xref = s.xref ∨ (∃ e, s1.xref = s.xref ++ [e]) ∨
      (s.state = .st_in_ostream_outer ∧ s.xref ≠ [] ∧ ∃ e, s1.xref = s.xref.dropLast ++ [e]) := by
  unfold step at h
  split_ifs at h with hov <;> try (simp at h; done)
  unfold dispatch at h
  simp only [advance] at h
  cases hst : s.state <;> simp only [hst] at h
  · -- top
    unfold stepTop at h
    split at h
    · obtain ⟨a, ha1, ha2⟩ := Result.bind_eq_ok.1 h
      obtain ⟨h4, h5, rfl⟩ := checkObjId_ok ha1
      simp only [Result.ok.injEq] at ha2
      subst ha2
      right; left; exact ⟨_, rfl⟩
    · split_ifs at h <;> simp only [Result.ok.injEq] at h <;> subst h <;>
        exact Or.inl rfl
  · -- in_obj
    unfold stepInObj startXRefStream at h
    dsimp only at h
    split_ifs at h
    · simp only [Result.ok.injEq] at h; subst h; exact Or.inl rfl
    · simp only [Result.ok.injEq] at h; subst h; exact Or.inl rfl
    · simp only [Result.ok.injEq] at h; subst h; exact Or.inl rfl
    · split at h
      · simp at h
      · split at h
        · simp at h
        · split_ifs at h with hneg <;> try (simp at h; done)
          simp only [Result.ok.injEq] at h; subst h; exact Or.inl rfl
    · simp only [Result.ok.injEq] at h; subst h; exact Or.inl rfl
  · -- in_stream
    unfold stepInStream at h
    split_ifs at h <;> try (simp at h; done)
    all_goals
      simp only [Result.ok.injEq] at h; subst h; exact Or.inl rfl
  · -- after_stream
    unfold stepAfterStream at h
    split_ifs at h
    · simp only [Result.ok.injEq] at h; subst h; exact Or.inl rfl
    · simp only [Result.ok.injEq] at h; subst h; exact Or.inl rfl
    · split at h
      · obtain ⟨a, ha1, ha2⟩ := Result.bind_eq_ok.1 h
        obtain ⟨h4, h5, rfl⟩ := checkObjId_ok ha1
        simp only [Result.ok.injEq] at ha2
        subst ha2
        right; left; exact ⟨_, rfl⟩
      · simp only [Result.ok.injEq] at h; subst h; exact Or.inl rfl
  · -- in_ostream_dict
    unfold stepInOstreamDict at h
    split_ifs at h
    · simp only [Result.ok.injEq] at h; subst h; exact Or.inl rfl
    · dsimp only at h
      split at h <;>
      · simp only [Result.ok.injEq] at h; subst h; exact Or.inl rfl
  · -- in_ostream_offsets
    unfold stepInOstreamOffsets at h
    split at h
    · obtain ⟨a, ha1, ha2⟩ := Result.bind_eq_ok.1 h
      obtain ⟨h4, h5, rfl⟩ := checkObjId_ok ha1
      simp only [Result.ok.injEq] at ha2
      subst ha2
      right; left; exact ⟨_, rfl⟩
    · simp only [Result.ok.injEq] at h; subst h; exact Or.inl rfl
  · -- in_ostream_outer
    unfold stepInOstreamOuter at h
    obtain ⟨a, ha1, ha2⟩ := Result.bind_eq_ok.1 h
    obtain ⟨h4, h5, rfl⟩ := adjustOstreamXref_ok ha1
    simp only [Result.ok.injEq] at ha2
    subst ha2
    right; right; exact ⟨rfl, h5, _, rfl⟩
  · -- in_ostream_obj
    unfold stepInOstreamObj at h
    dsimp only at h
    split at h
    · obtain ⟨a, ha1, ha2⟩ := Result.bind_eq_ok.1 h
      obtain ⟨h4, h5, rfl⟩ := checkObjId_ok ha1
      simp only [Result.ok.injEq] at ha2
      subst ha2
      right; left; exact ⟨_, rfl⟩
    · split_ifs at h <;> try (simp at h; done)
      · obtain ⟨a, ha1, ha2⟩ := Result.bind_eq_ok.1 h
        obtain ⟨first, rest, hfr, h4, rfl, h5⟩ := writeOstream_ok ha1
        simp only [Result.ok.injEq] at ha2
        subst ha2; exact Or.inl rfl
      · simp only [Result.ok.injEq] at h; subst h; exact Or.inl rfl
  · -- in_xref_stream_dict
    unfold stepInXRefStreamDict at h
    dsimp only at h
    split_ifs at h
    all_goals first
      | (obtain ⟨a1, h1, h⟩ := Result.bind_eq_ok.1 h
         obtain ⟨a2, h3, h⟩ := Result.bind_eq_ok.1 h
         obtain ⟨d0, d1, d2, -, -, -, rfl⟩ := writeRow_ok h1
         obtain ⟨body, rfl⟩ := writeXRefRows_ok h3
         simp only [Result.ok.injEq] at h; subst h; exact Or.inl rfl)
      | (simp only [Result.ok.injEq] at h; subst h; exact Or.inl rfl)
  · -- in_length
    unfold stepInLength at h
    dsimp only at h
    split_ifs at h <;> try (simp at h; done)
    simp only [Result.ok.injEq] at h; subst h; exact Or.inl rfl
  · -- at_xref
    unfold stepAtXRef at h
    dsimp only at h
    obtain ⟨a1, h1, h⟩ := Result.bind_eq_ok.1 h
    obtain ⟨body, rfl⟩ := writeXRefTable_ok h1
    simp only [Result.ok.injEq] at h; subst h; exact Or.inl rfl
  · -- before_trailer
    unfold stepBeforeTrailer at h
    split_ifs at h <;>
    · simp only [Result.ok.injEq] at h; subst h; exact Or.inl rfl
  · -- in_trailer
    unfold stepInTrailer at h
    dsimp only at h
    split_ifs at h <;>
    · simp only [Result.ok.injEq] at h; subst h; exact Or.inl rfl
  · -- done
    simp only [Result.ok.injEq] at h; subst h; exact Or.inl rfl

theorem firstLine_append_newline (body rest : Bytes) (h : '\n' ∉ body) :
    firstLine (body ++ '\n' :: rest) = body ++ ['\n'] := by
  induction body with
  | nil => simp [firstLine]
  | cons c cs ih =>
    have hc : c ≠ '\n' := by
      intro hc
      exact h (by simp [hc])
    have hcs : '\n' ∉ cs := by
      intro hcs
      exact h (by simp [hcs])
    simp [firstLine, hc, ih hcs]

theorem firstLine_header {line d rest : Bytes} (h : re_n_0_obj line = some d) :
    firstLine (line ++ rest) = line := by
  obtain ⟨h1, -, h3⟩ := re_n_0_obj_some h
  have h4 : line = (d ++ " 0 obj".toList) ++ ['\n'] := by rw [h1]; simp
  have h5 : '\n' ∉ d ++ " 0 obj".toList := by
    intro hm
    rcases List.mem_append.1 hm with hm | hm
    · have := h3 _ hm
      simp at this
    · simp at hm
  rw [h4, List.append_assoc]
  exact firstLine_append_newline _ _ h5

theorem IsHeaderAt.firstLine {out : Bytes} {p : Int} {n : Nat} (h : IsHeaderAt out p n) :
    0 ≤ p ∧ ∃ d, re_n_0_obj (firstLine (out.drop p.toNat)) = some d ∧ decVal d = n := by
  obtain ⟨h0, line, d, rest, h1, h2, h3⟩ := h
  refine ⟨h0, d, ?_, h2⟩
  rw [h3, firstLine_header h1]
  exact h1

/-- C1 (amended): Offset correctness.  After any number `k` of loop iterations
that ran without error and after which the cross-reference section has been
emitted (state `st_before_trailer`, `st_in_trailer` or `st_done`), every
type-1 entry at position `i` of the table holds an offset `p ≥ 0` such that the
output from byte `p` on begins with a line matching `^(\d+) 0 obj\n$` whose
number is `i + 1` (the digits may carry leading zeros). -/
theorem offset_correctness (filename input : Bytes) (k : Nat) (s : QdfFixer)
    (hrun : runLines (QdfFixer.init filename) ((splitLines input).take k) = .ok s)
    (hemit : s.state = .st_before_trailer ∨ s.state = .st_in_trailer ∨ s.state = .st_done)
    (i : Nat) (p : Int) (hi : s.xref[i]? = some (XRefEntry.uncompressed p)) :
    0 ≤ p ∧ (re_n_0_obj (firstLine (s.out.drop p.toNat))).map decVal = some (i + 1) := by
  have hinv := runLines_inv (inv_init filename) hrun
  rcases hinv.table.entries i _ hi with hg | ⟨h1, -⟩
  · obtain ⟨h0, d, h2, h3⟩ := hg.1.firstLine
    exact ⟨h0, by rw [h2]; simp [h3]⟩
  · rcases hemit with h | h | h <;> rw [h] at h1 <;> cases h1

/-- Witness of C1 (scenario S3): the entry of object 2 in the rewritten classic
table points at the line `2 0 obj`. -/
theorem offset_correctness_witness :
    0 ≤ (20 : Int) ∧
      (re_n_0_obj (firstLine ((runLines (QdfFixer.init "in.qdf".toList)
        ((splitLines inputS3).take 12)).final.out.drop (20 : Int).toNat))).map decVal =
        some (1 + 1) :=
  offset_correctness "in.qdf".toList inputS3 12 _ rfl (Or.inr (Or.inr rfl)) 1 20 rfl

/-- Counterexample to C1 as stated: the header `01 0 obj` is accepted as object
1, the classic table is emitted with offset 0 for it, and the output at offset 0
is not the line `1 0 obj`. -/
theorem offset_claim_counterexample :
    (processLines "in.qdf".toList "01 0 obj\nendobj\nxref\n".toList).final.state =
        .st_before_trailer ∧
      (processLines "in.qdf".toList "01 0 obj\nendobj\nxref\n".toList).final.xref[0]? =
        some (XRefEntry.uncompressed 0) ∧
      (toDec (0 + 1) ++ " 0 obj\n".toList).isPrefixOf
        ((processLines "in.qdf".toList "01 0 obj\nendobj\nxref\n".toList).final.out.drop
          (0 : Int).toNat) = false := by
  decide

theorem runLines_append (a b : List Bytes) : ∀ s : QdfFixer,
    runLines s (a ++ b) = (runLines s a).bind fun s1 => runLines s1 b := by
  induction a with
  | nil => intro s; simp [runLines]
  | cons l ls ih =>
    intro s
    simp only [List.cons_append, runLines]
    cases step s l with
    | ok s1 => simp [ih]
    | fail e w => simp

/-- Lines of a stream body pass through state `st_in_stream` unchanged. -/
theorem runLines_in_stream (body : List Bytes) : ∀ s : QdfFixer,
    s.state = .st_in_stream → (∀ l ∈ body, l ≠ "endstream\n".toList) →
    s.offset + totalLength body ≤ OFFSET_MAX →
    ∃ n lo, runLines s body = .ok { s with
      lineno := n, last_offset := lo
      offset := s.offset + totalLength body
      out := s.out ++ body.flatten } := by
  induction body with
  | nil =>
    intro s _ _ _
    exact ⟨s.lineno, s.last_offset, by simp [runLines]⟩
  | cons l ls ih =>
    intro s hst hb hov
    have hl : l ≠ "endstream\n".toList := hb l (by simp)
    simp only [totalLength_cons, Nat.cast_add] at hov
    have hlen : (0:Int) ≤ totalLength ls := by omega
    have hstep : step s l = .ok { s with
        lineno := s.lineno + 1, last_offset := s.offset
        offset := s.offset + l.length, out := s.out ++ l } := by
      have hov1 : ¬ s.offset + (l.length : Int) > OFFSET_MAX := by omega
      simp only [step, if_neg hov1, dispatch, advance, hst, stepInStream, if_neg hl,
        QdfFixer.write]
    obtain ⟨n, lo, hrun⟩ := ih { s with
        lineno := s.lineno + 1, last_offset := s.offset
        offset := s.offset + l.length, out := s.out ++ l } hst
        (fun x hx => hb x (by simp [hx])) (by simp; omega)
    refine ⟨n, lo, ?_⟩
    simp only [runLines, hstep, Result.bind_ok, hrun]
    simp [Int.add_assoc]

/-- Lines between `endstream` and the next object header pass through state
`st_after_stream`; each marker line lowers `stream_length` by one, down to
zero. -/
theorem runLines_after_stream (mid : List Bytes) : ∀ s : QdfFixer,
    s.state = .st_after_stream → (∀ l ∈ mid, re_n_0_obj l = none) →
    s.offset + totalLength mid ≤ OFFSET_MAX →
    ∃ n lo, runLines s mid = .ok { s with
      lineno := n, last_offset := lo
      offset := s.offset + totalLength mid
      out := s.out ++ mid.flatten
      stream_length := s.stream_length - mid.count ignoreMarker } := by
  induction mid with
  | nil =>
    intro s _ _ _
    exact ⟨s.lineno, s.last_offset, by simp [runLines]⟩
  | cons l ls ih =>
    intro s hst hb hov
    have hl : re_n_0_obj l = none := hb l (by simp)
    simp only [totalLength_cons, Nat.cast_add] at hov
    have hlen : (0:Int) ≤ totalLength ls := by omega
    have hov1 : ¬ s.offset + (l.length : Int) > OFFSET_MAX := by omega
    by_cases hm : l = ignoreMarker
    · have hstep : step s l = .ok { s with
          lineno := s.lineno + 1, last_offset := s.offset
          offset := s.offset + l.length, out := s.out ++ l
          stream_length := s.stream_length - 1 } := by
        have hm1 : l = "%QDF: ignore_newline\n".toList := hm
        simp only [step, if_neg hov1, dispatch, advance, hst, stepAfterStream, if_pos hm1,
          QdfFixer.write]
        split_ifs with h0
        · rfl
        · have : s.stream_length = 0 := by omega
          simp [this]
      obtain ⟨n, lo, hrun⟩ := ih { s with
          lineno := s.lineno + 1, last_offset := s.offset
          offset := s.offset + l.length, out := s.out ++ l
          stream_length := s.stream_length - 1 } hst
          (fun x hx => hb x (by simp [hx])) (by simp; omega)
      refine ⟨n, lo, ?_⟩
      simp only [runLines, hstep, Result.bind_ok, hrun]
      have hc : List.count ignoreMarker (l :: ls) = List.count ignoreMarker ls + 1 := by
        simp [List.count_cons, hm]
      simp only [hc, totalLength_cons, Nat.cast_add, List.flatten_cons, List.append_assoc,
        Int.add_assoc, Nat.sub_sub, Nat.add_comm 1]
    · have hstep : step s l = .ok { s with
          lineno := s.lineno + 1, last_offset := s.offset
          offset := s.offset + l.length, out := s.out ++ l } := by
        have hm1 : ¬ l = "%QDF: ignore_newline\n".toList := hm
        simp only [step, if_neg hov1, dispatch, advance, hst, stepAfterStream, if_neg hm1, hl,
          QdfFixer.write]
      obtain ⟨n, lo, hrun⟩ := ih { s with
          lineno := s.lineno + 1, last_offset := s.offset
          offset := s.offset + l.length, out := s.out ++ l } hst
          (fun x hx => hb x (by simp [hx])) (by simp; omega)
      refine ⟨n, lo, ?_⟩
      simp only [runLines, hstep, Result.bind_ok, hrun]
      have hc : List.count ignoreMarker (l :: ls) = List.count ignoreMarker ls := by
        simp [List.count_cons, hm]
      simp [Int.add_assoc, hc]

theorem toDecAux_length_le : ∀ (k fuel n : Nat) (acc : Bytes), n < 10 ^ (k + 1) →
    (toDecAux fuel n acc).length ≤ acc.length + (k + 1) := by
  intro k
  induction k with
  | zero =>
    intro fuel n acc hn
    cases fuel with
    | zero => simp [toDecAux]
    | succ f =>
      have : n / 10 = 0 := by omega
      simp [toDecAux, this]
  | succ k ih =>
    intro fuel n acc hn
    cases fuel with
    | zero => simp [toDecAux]
    | succ f =>
      simp only [toDecAux]
      split_ifs with h0
      · simp
      · have h1 : n / 10 < 10 ^ (k + 1) := by
          rw [Nat.div_lt_iff_lt_mul (by omega)]
          calc n < 10 ^ (k + 1 + 1) := hn
            _ = 10 ^ (k + 1) * 10 := by ring
        have := ih f (n / 10) (Char.ofNat (48 + n % 10) :: acc) h1
        simp at this ⊢
        omega

theorem toDec_length_le {n : Nat} (h : (n : Int) ≤ OFFSET_MAX) : (toDec n).length ≤ 19 := by
  have h1 : n < 10 ^ (18 + 1) := by
    unfold OFFSET_MAX at h
    omega
  have := toDecAux_length_le 18 (n + 1) n [] h1
  simpa [toDec] using this

theorem checkObjId_next {s : QdfFixer} {d : Bytes} (hv : stoi d = some (s.last_obj + 1)) :
    checkObjId s d = .ok { s with
      last_obj := s.last_obj + 1
      xref := s.xref ++ [XRefEntry.uncompressed s.last_offset] } := by
  have h1 := (stoi_eq hv).2
  have h2 : ¬ s.last_obj ≥ INT_MAX := by omega
  simp only [checkObjId, hv, if_neg h2]
  simp

theorem re_n_0_obj_ignoreMarker : re_n_0_obj ignoreMarker = none := by decide

/-- C2 (amended): Length correctness.  Start in state `st_in_obj` and read
`stream`, the lines `body` of the stream (none of them `endstream`), `endstream`,
the lines `mid` (none of them an object header), the header `hdr` of the next
object and a line `num` that matches `^\d+\n$`.  If the numbers stay in range,
the run goes through and writes every line unchanged except `num`, which it
replaces by the decimal value of `L` and a newline, where `L` is the byte count
of `body` minus the number of `%QDF: ignore_newline` lines in `mid`, but not
below zero. -/
theorem length_correctness (s0 : QdfFixer) (body mid : List Bytes) (hdr num d : Bytes)
    (hst : s0.state = .st_in_obj)
    (hbody : ∀ l ∈ body, l ≠ "endstream\n".toList)
    (hmid : ∀ l ∈ mid, re_n_0_obj l = none)
    (hhdr : re_n_0_obj hdr = some d) (hnext : stoi d = some (s0.last_obj + 1))
    (hnum : re_num num = true)
    (h0 : 0 ≤ s0.offset)
    (hov : s0.offset + (7 + totalLength body + 10 + totalLength mid + hdr.length + num.length
      + 20 : Nat) ≤ OFFSET_MAX) :
    outputOf (runLines s0
      (["stream\n".toList] ++ body ++ ["endstream\n".toList] ++ mid ++ [hdr, num])) =
    some (s0.out ++ "stream\n".toList ++ body.flatten ++ "endstream\n".toList ++ mid.flatten ++
      hdr ++ toDec (repairedLength (totalLength body) mid) ++ "\n".toList) := by
  simp only [Nat.cast_add, Nat.cast_ofNat] at hov
  -- the line `stream`
  have hov1 : ¬ s0.offset + (("stream\n".toList.length : Nat) : Int) > OFFSET_MAX := by
    simp; omega
  have e1 : step s0 "stream\n".toList = .ok { s0 with
      lineno := s0.lineno + 1, last_offset := s0.offset, offset := s0.offset + 7
      out := s0.out ++ "stream\n".toList, state := .st_in_stream
      stream_start := s0.offset + 7 } := by
    simp only [step, if_neg hov1, dispatch, advance, hst, stepInObj, QdfFixer.write, if_true]
    simp
  -- the stream body
  obtain ⟨n2, lo2, e2⟩ := runLines_in_stream body { s0 with
      lineno := s0.lineno + 1, last_offset := s0.offset, offset := s0.offset + 7
      out := s0.out ++ "stream\n".toList, state := .st_in_stream
      stream_start := s0.offset + 7 } rfl hbody (by simp only; omega)
  -- the line `endstream`
  have e3 : step { s0 with
      lineno := n2, last_offset := lo2, offset := s0.offset + 7 + totalLength body
      out := s0.out ++ "stream\n".toList ++ body.flatten, state := .st_in_stream
      stream_start := s0.offset + 7 } "endstream\n".toList = .ok { s0 with
      lineno := n2 + 1, last_offset := s0.offset + 7 + totalLength body
      offset := s0.offset + 7 + totalLength body + 10
      out := s0.out ++ "stream\n".toList ++ body.flatten ++ "endstream\n".toList
      state := .st_after_stream
      stream_start := s0.offset + 7
      stream_length := totalLength body } := by
    have hov3 : ¬ s0.offset + 7 + (totalLength body : Int) +
        (("endstream\n".toList.length : Nat) : Int) > OFFSET_MAX := by
      simp; omega
    have hneg : ¬ s0.offset + 7 + (totalLength body : Int) - (s0.offset + 7) < 0 := by omega
    simp only [step, if_neg hov3, dispatch, advance, stepInStream, QdfFixer.write, if_true,
      if_neg hneg]
    simp
  -- the lines up to the next object header
  obtain ⟨n4, lo4, e4⟩ := runLines_after_stream mid { s0 with
      lineno := n2 + 1, last_offset := s0.offset + 7 + totalLength body
      offset := s0.offset + 7 + totalLength body + 10
      out := s0.out ++ "stream\n".toList ++ body.flatten ++ "endstream\n".toList
      state := .st_after_stream
      stream_start := s0.offset + 7
      stream_length := totalLength body } rfl hmid (by simp only; omega)
  -- the object header
  have hnm : ¬ hdr = "%QDF: ignore_newline\n".toList := by
    intro hc
    rw [hc] at hhdr
    have := re_n_0_obj_ignoreMarker
    unfold ignoreMarker at this
    rw [this] at hhdr
    cases hhdr
  have e5 : step { s0 with
      lineno := n4, last_offset := lo4
      offset := s0.offset + 7 + totalLength body + 10 + totalLength mid
      out := s0.out ++ "stream\n".toList ++ body.flatten ++ "endstream\n".toList ++ mid.flatten
      state := .st_after_stream
      stream_start := s0.offset + 7
      stream_length := totalLength body - mid.count ignoreMarker } hdr = .ok { s0 with
      lineno := n4 + 1
      last_offset := s0.offset + 7 + totalLength body + 10 + totalLength mid
      offset := s0.offset + 7 + totalLength body + 10 + totalLength mid + hdr.length
      out := s0.out ++ "stream\n".toList ++ body.flatten ++ "endstream\n".toList ++
        mid.flatten ++ hdr
      state := .st_in_length
      stream_start := s0.offset + 7
      stream_length := totalLength body - mid.count ignoreMarker
      last_obj := s0.last_obj + 1
      xref := s0.xref ++ [XRefEntry.uncompressed
        (s0.offset + 7 + totalLength body + 10 + totalLength mid)] } := by
    have hov5 : ¬ s0.offset + 7 + (totalLength body : Int) + 10 + (totalLength mid : Int) +
        (hdr.length : Int) > OFFSET_MAX := by omega
    simp only [step, if_neg hov5, dispatch, advance, stepAfterStream, if_neg hnm, hhdr]
    rw [checkObjId_next (by simpa using hnext)]
    simp [QdfFixer.write]
  -- the length line
  have hL : ((totalLength body - mid.count ignoreMarker : Nat) : Int) ≤ OFFSET_MAX := by omega
  have hlen := toDec_length_le hL
  have e6 : outputOf (step { s0 with
      lineno := n4 + 1
      last_offset := s0.offset + 7 + totalLength body + 10 + totalLength mid
      offset := s0.offset + 7 + totalLength body + 10 + totalLength mid + hdr.length
      out := s0.out ++ "stream\n".toList ++ body.flatten ++ "endstream\n".toList ++
        mid.flatten ++ hdr
      state := .st_in_length
      stream_start := s0.offset + 7
      stream_length := totalLength body - mid.count ignoreMarker
      last_obj := s0.last_obj + 1
      xref := s0.xref ++ [XRefEntry.uncompressed
        (s0.offset + 7 + totalLength body + 10 + totalLength mid)] } num) =
      some (s0.out ++ "stream\n".toList ++ body.flatten ++ "endstream\n".toList ++ mid.flatten ++
        hdr ++ toDec (repairedLength (totalLength body) mid) ++ "\n".toList) := by
    have hov6 : ¬ s0.offset + 7 + (totalLength body : Int) + 10 + (totalLength mid : Int) +
        (hdr.length : Int) + (num.length : Int) > OFFSET_MAX := by omega
    have hov7 : ¬ s0.offset + 7 + (totalLength body : Int) + 10 + (totalLength mid : Int) +
        (hdr.length : Int) + (num.length : Int) - (num.length : Int) +
        (((toDec (totalLength body - mid.count ignoreMarker) ++ "\n".toList).length : Nat) : Int)
          > OFFSET_MAX := by
      simp; omega
    simp only [step, if_neg hov6, dispatch, advance, stepInLength, hnum, Bool.not_true,
      Bool.false_eq_true, if_false, if_neg hov7, QdfFixer.write, outputOf, Result.toOption,
      Option.map, repairedLength]
    simp
  have hlines : ["stream\n".toList] ++ body ++ ["endstream\n".toList] ++ mid ++ [hdr, num] =
      "stream\n".toList :: (body ++ ("endstream\n".toList :: (mid ++ [hdr, num]))) := by
    simp
  rw [hlines, runLines, e1, Result.bind_ok, runLines_append, e2, Result.bind_ok, runLines, e3,
    Result.bind_ok, runLines_append, e4, Result.bind_ok, runLines, e5, Result.bind_ok, runLines]
  cases h6 : step _ num with
  | ok s6 =>
    rw [h6] at e6
    simpa [outputOf, Result.toOption, runLines] using e6
  | fail e w =>
    rw [h6] at e6
    simp [outputOf, Result.toOption] at e6


/-- Witness of C2 (scenario S2): `HELLO` followed by one marker line gives
length 5. -/
theorem length_correctness_witness :
    outputOf (runLines stateS1
      (["stream\n".toList] ++ ["HELLO\n".toList] ++ ["endstream\n".toList] ++
        [ignoreMarker, "endobj\n".toList] ++ ["4 0 obj\n".toList, "0\n".toList])) =
    some (stateS1.out ++ "stream\n".toList ++ ["HELLO\n".toList].flatten ++
      "endstream\n".toList ++ [ignoreMarker, "endobj\n".toList].flatten ++
      "4 0 obj\n".toList ++
      toDec (repairedLength (totalLength ["HELLO\n".toList]) [ignoreMarker, "endobj\n".toList]) ++
      "\n".toList) :=
  length_correctness stateS1 ["HELLO\n".toList] [ignoreMarker, "endobj\n".toList]
    "4 0 obj\n".toList "0\n".toList "4".toList rfl (by decide) (by decide) rfl rfl rfl
    (by decide) (by decide)

/-- Counterexample to C2 as stated: with two marker lines after `endstream` the
length written is 4, not the 5 that "minus one if and only if a marker line
appears" gives. -/
theorem length_claim_counterexample :
    outputOf (runLines stateS1
      (["stream\n".toList] ++ ["HELLO\n".toList] ++ ["endstream\n".toList] ++
        [ignoreMarker, ignoreMarker, "endobj\n".toList] ++ ["4 0 obj\n".toList, "0\n".toList])) ≠
    some (stateS1.out ++ "stream\n".toList ++ ["HELLO\n".toList].flatten ++
      "endstream\n".toList ++ [ignoreMarker, ignoreMarker, "endobj\n".toList].flatten ++
      "4 0 obj\n".toList ++
      toDec (claimedLength (totalLength ["HELLO\n".toList])
        [ignoreMarker, ignoreMarker, "endobj\n".toList]) ++
      "\n".toList) := by
  decide

theorem ostreamHeader_eq (first : Int) : ∀ (offs : List Int) (onum : Nat),
    ostreamHeader onum first offs = renderPairs (headerPairs onum first offs) := by
  intro offs
  induction offs with
  | nil => intro onum; rfl
  | cons a rest ih =>
    intro onum
    simp [ostreamHeader, headerPairs, renderPairs, ih]

theorem headerPairs_length (first : Int) : ∀ (offs : List Int) (onum : Nat),
    (headerPairs onum first offs).length = offs.length := by
  intro offs
  induction offs with
  | nil => intro onum; rfl
  | cons a rest ih => intro onum; simp [headerPairs, ih]

theorem re_ostream_obj_endstream : re_ostream_obj "endstream\n".toList = none := by decide

/-- What a flush writes: the new dictionary, `stream`, the header, the buffered
lines and `endstream`. -/
theorem flush_out {s s1 : QdfFixer} (hst : s.state = .st_in_ostream_obj)
    (h : step s "endstream\n".toList = .ok s1) :
    s1.out = s.out ++ ostreamDict (flushLength s) s.ostream_offsets.length (flushFirst s)
        s.ostream_extends ++ "stream\n".toList ++ flushBody s ++ "endstream\n".toList ∧
      s1.state = .st_in_obj ∧ s1.xref = s.xref ∧ s1.last_obj = s.last_obj ∧
      s.ostream_offsets ≠ [] := by
  unfold step at h
  split_ifs at h with hov <;> try (simp at h; done)
  simp only [dispatch, advance, hst, stepInOstreamObj, re_ostream_obj_endstream, if_true] at h
  split_ifs at h with hneg <;> try (simp at h; done)
  obtain ⟨a, ha1, ha2⟩ := Result.bind_eq_ok.1 h
  obtain ⟨first, rest, hfr, h4, rfl, h5⟩ := writeOstream_ok ha1
  simp only [Result.ok.injEq] at ha2
  subst ha2
  simp only at hfr
  simp only [flushLength, flushFirst, flushBody, flushPairs, hfr, List.headD_cons,
    ← ostreamHeader_eq, List.length_cons, List.flatten_append, List.flatten_cons,
    List.flatten_nil, List.append_nil, List.append_assoc, and_self, and_true, true_and]
  simp

/-- What a flush writes, in the terms of `writeOstream`: `dict_data`, the line
`stream`, the string `offsets`, the buffered lines and `endstream`. -/
theorem flush_code {s s1 : QdfFixer} (hst : s.state = .st_in_ostream_obj)
    (h : step s "endstream\n".toList = .ok s1) :
    ∃ first rest, s.ostream_offsets = first :: rest ∧
      s1.out = s.out ++
        ostreamDict ((s.offset - s.stream_start).toNat +
            (ostreamHeader s.ostream_id first s.ostream_offsets).length)
          s.ostream_offsets.length
          (first + ((ostreamHeader s.ostream_id first s.ostream_offsets).length : Int))
          s.ostream_extends ++
        "stream\n".toList ++ ostreamHeader s.ostream_id first s.ostream_offsets ++
        s.ostream.flatten ++ "endstream\n".toList := by
  unfold step at h
  split_ifs at h with hov <;> try (simp at h; done)
  simp only [dispatch, advance, hst, stepInOstreamObj, re_ostream_obj_endstream, if_true] at h
  split_ifs at h with hneg <;> try (simp at h; done)
  obtain ⟨a, ha1, ha2⟩ := Result.bind_eq_ok.1 h
  obtain ⟨first, rest, hfr, h4, rfl, h5⟩ := writeOstream_ok ha1
  simp only [Result.ok.injEq] at ha2
  subst ha2
  simp only at hfr
  refine ⟨first, rest, hfr, ?_⟩
  simp only [List.flatten_append, List.flatten_cons, List.flatten_nil, List.append_nil,
    List.append_assoc]

/-- The facts about a reachable state in `st_in_ostream_obj` that the flush
theorems share. -/
theorem flush_facts {s : QdfFixer} (hi : Inv s) (hst : s.state = .st_in_ostream_obj) :
    s.ostream_offsets = (objectStarts 0 false s.ostream).map (fun n : Nat => (n : Int)) ∧
      s.offset - s.stream_start = totalLength s.ostream ∧
      s.ostream_idx = s.ostream_offsets.length ∧
      s.last_obj = s.ostream_id + s.ostream_idx := by
  have ha := hi.acct.acct
  simp only [Acct, hst] at ha
  refine ⟨hi.buffers.starts (Or.inr hst), by omega, ha.2.2.2.1, ha.2.2.2.2⟩

/-- C5: Object-stream length.  When a reachable state in `st_in_ostream_obj`
reads `endstream`, the flush writes the rewritten dictionary, whose first line
is `  /Length L`, the line `stream`, the bytes `B` and `endstream`, and `L` is
the number of bytes of `B`: the length of the header plus the lengths of the
buffered lines, the first of which is the first marker line and none of which
is the closing `endstream`. -/
theorem ostream_length (filename : Bytes) (ls : List Bytes) (s s1 : QdfFixer)
    (hrun : runLines (QdfFixer.init filename) ls = .ok s)
    (hst : s.state = .st_in_ostream_obj)
    (hflush : step s "endstream\n".toList = .ok s1) :
    s1.out = s.out ++
        ("  /Length ".toList ++ toDec (flushLength s) ++ "\n".toList ++
          "  /N ".toList ++ toDec (flushPairs s).length ++ "\n".toList ++
          "  /First ".toList ++ intToDec (flushFirst s) ++ "\n".toList ++
          (if s.ostream_extends ≠ [] then
            "  /Extends ".toList ++ s.ostream_extends ++ "\n".toList else []) ++
          ">>\n".toList) ++
        "stream\n".toList ++ flushBody s ++ "endstream\n".toList ∧
      flushLength s = (flushBody s).length ∧
      flushBody s = renderPairs (flushPairs s) ++ s.ostream.flatten ∧
      flushLength s = (renderPairs (flushPairs s)).length + totalLength s.ostream ∧
      (s.ostream.head?.bind re_ostream_obj).isSome = true := by
  have hi := runLines_inv (inv_init filename) hrun
  obtain ⟨first, rest, hfr, hout⟩ := flush_code hst hflush
  obtain ⟨-, hlen, -, -⟩ := flush_facts hi hst
  have hh : ∀ (offs : List Int) (onum : Nat),
      ostreamHeader onum first offs = renderPairs (headerPairs onum first offs) := by
    intro offs
    induction offs with
    | nil => intro onum; rfl
    | cons a tl ih =>
      intro onum
      simp [ostreamHeader, headerPairs, renderPairs, ih]
  have hp : flushPairs s = headerPairs s.ostream_id first s.ostream_offsets := by
    simp only [flushPairs, hfr, List.headD_cons]
  have h3 : flushLength s = (renderPairs (flushPairs s)).length + totalLength s.ostream := by
    simp only [flushLength, hlen, Int.toNat_ofNat]
    omega
  refine ⟨?_, ?_, rfl, h3, hi.buffers.head_marker (Or.inr hst)⟩
  · rw [hout]
    simp only [ostreamDict, flushLength, flushBody, flushFirst, hp, hh, hfr, List.headD_cons,
      headerPairs_length, List.append_assoc]
  · rw [h3, flushBody, List.length_append, length_flatten_bytes]

set_option maxRecDepth 100000 in
/-- Witness of C5 (scenario S4): the rewritten object stream carries
`/Length 90`, and 90 is the size of the header and the buffered lines that
stand between `stream` and `endstream`. -/
theorem ostream_length_witness :
    (stateS4 13).out = (stateS4 12).out ++
        ("  /Length 90\n  /N 2\n  /First 36\n>>\nstream\n2 0\n3 37\n" ++
          "%% Object stream: object 2\n<< /A 1>>\n%% Object stream: object 3\n" ++
          "<< /B 2345678 >>\nendstream\n").toList ∧
      flushLength (stateS4 12) = 90 ∧
      ("2 0\n3 37\n%% Object stream: object 2\n<< /A 1>>\n%% Object stream: object 3\n" ++
        "<< /B 2345678 >>\n").length = 90 ∧
      flushLength (stateS4 12) = (flushBody (stateS4 12)).length :=
  have h := ostream_length "in.qdf".toList ((splitLines inputS4).take 12) (stateS4 12)
    (stateS4 13) rfl rfl rfl
  ⟨h.1.trans (by decide), by decide, by decide, h.2.1⟩

/-- Lines that are neither a marker nor `endstream` are buffered in state
`st_in_ostream_obj`. -/
theorem runLines_in_ostream_obj (r : List Bytes) : ∀ s : QdfFixer,
    s.state = .st_in_ostream_obj →
    (∀ l ∈ r, re_ostream_obj l = none ∧ l ≠ "endstream\n".toList) →
    s.offset + totalLength r ≤ OFFSET_MAX →
    ∃ n lo, runLines s r = .ok { s with
      lineno := n, last_offset := lo
      offset := s.offset + totalLength r
      ostream := s.ostream ++ r } := by
  induction r with
  | nil =>
    intro s _ _ _
    exact ⟨s.lineno, s.last_offset, by simp [runLines]⟩
  | cons l ls ih =>
    intro s hst hb hov
    obtain ⟨hl1, hl2⟩ := hb l (by simp)
    simp only [totalLength_cons, Nat.cast_add] at hov
    have hlen : (0:Int) ≤ totalLength ls := by omega
    have hov1 : ¬ s.offset + (l.length : Int) > OFFSET_MAX := by omega
    have hstep : step s l = .ok { s with
        lineno := s.lineno + 1, last_offset := s.offset
        offset := s.offset + l.length, ostream := s.ostream ++ [l] } := by
      simp only [step, if_neg hov1, dispatch, advance, hst, stepInOstreamObj, hl1, if_neg hl2]
    obtain ⟨n, lo, hrun⟩ := ih { s with
        lineno := s.lineno + 1, last_offset := s.offset
        offset := s.offset + l.length, ostream := s.ostream ++ [l] } hst
        (fun x hx => hb x (by simp [hx])) (by simp; omega)
    refine ⟨n, lo, ?_⟩
    simp only [runLines, hstep, Result.bind_ok, hrun]
    simp [Int.add_assoc]

theorem intToDec_natCast (n : Nat) : intToDec (n : Int) = toDec n := by
  have : ¬ ((n : Int) < 0) := by omega
  simp [intToDec, this]

/-- C7 (amended): Scenario S4.  In state `st_in_ostream_offsets` with empty
buffers, read a marker `m1` for the next object, a contained object of 10 bytes
(first line `f1`, further lines `r1`), a marker `m2` for the object after it, a
contained object of 17 bytes and `endstream`.  If the numbers stay in range the
flush writes a dictionary with `/N 2`, the header
`N1 0\nN2 {10 + length of m2}\n`, and a `/First` value equal to the byte length
of that header plus the byte length of `m1`. -/
theorem s4_object_stream (s0 : QdfFixer) (m1 m2 f1 f2 d1 d2 : Bytes) (r1 r2 : List Bytes)
    (hst : s0.state = .st_in_ostream_offsets)
    (hbuf : s0.ostream = [] ∧ s0.ostream_offsets = [] ∧ s0.ostream_idx = 0)
    (hid : s0.ostream_id = s0.last_obj)
    (hm1 : re_ostream_obj m1 = some d1) (hn1 : stoi d1 = some (s0.last_obj + 1))
    (hm2 : re_ostream_obj m2 = some d2) (hn2 : stoi d2 = some (s0.last_obj + 2))
    (hr1 : ∀ l ∈ r1, re_ostream_obj l = none ∧ l ≠ "endstream\n".toList)
    (hr2 : ∀ l ∈ r2, re_ostream_obj l = none ∧ l ≠ "endstream\n".toList)
    (hlen1 : f1.length + totalLength r1 = 10) (hlen2 : f2.length + totalLength r2 = 17)
    (h0 : 0 ≤ s0.offset)
    (hov : s0.offset + (m1.length + 10 + m2.length + 17 + 10 +
      (s4Output (s0.last_obj + 1) (s0.last_obj + 2) m1 m2 (f1 :: r1) (f2 :: r2)
        s0.ostream_extends).length : Nat) ≤ OFFSET_MAX) :
    outputOf (runLines s0 ([m1, f1] ++ r1 ++ [m2, f2] ++ r2 ++ ["endstream\n".toList])) =
      some (s0.out ++ s4Output (s0.last_obj + 1) (s0.last_obj + 2) m1 m2 (f1 :: r1) (f2 :: r2)
        s0.ostream_extends) := by
  obtain ⟨hb1, hb2, hb3⟩ := hbuf
  have hS : s4Output (s0.last_obj + 1) (s0.last_obj + 2) m1 m2 (f1 :: r1) (f2 :: r2)
        s0.ostream_extends =
      ostreamDict ((s4Header (s0.last_obj + 1) (s0.last_obj + 2) m2).length + m1.length + 10 +
          m2.length + 17) 2
        (((s4Header (s0.last_obj + 1) (s0.last_obj + 2) m2).length + m1.length : Nat) : Int)
        s0.ostream_extends ++
      "stream\n".toList ++ s4Header (s0.last_obj + 1) (s0.last_obj + 2) m2 ++ m1 ++
      (f1 :: r1).flatten ++ m2 ++ (f2 :: r2).flatten ++ "endstream\n".toList := by
    have h2 : "  /N 2\n".toList = "  /N ".toList ++ toDec 2 ++ "\n".toList := by decide
    simp only [s4Output, ostreamDict, intToDec_natCast, h2, List.append_assoc]
  have hout : (s4Output (s0.last_obj + 1) (s0.last_obj + 2) m1 m2 (f1 :: r1) (f2 :: r2)
        s0.ostream_extends).length =
      (ostreamDict ((s4Header (s0.last_obj + 1) (s0.last_obj + 2) m2).length + m1.length + 10 +
          m2.length + 17) 2
        (((s4Header (s0.last_obj + 1) (s0.last_obj + 2) m2).length + m1.length : Nat) : Int)
        s0.ostream_extends).length + 7 +
      (s4Header (s0.last_obj + 1) (s0.last_obj + 2) m2).length + m1.length + 10 + m2.length +
        17 + 10 := by
    rw [hS]
    simp only [List.length_append, List.flatten_cons, length_flatten_bytes]
    simp
    omega
  rw [hout] at hov
  generalize hD : (ostreamDict ((s4Header (s0.last_obj + 1) (s0.last_obj + 2) m2).length +
      m1.length + 10 + m2.length + 17) 2
      (((s4Header (s0.last_obj + 1) (s0.last_obj + 2) m2).length + m1.length : Nat) : Int)
      s0.ostream_extends).length = D at hov
  simp only [Nat.cast_add, Nat.cast_ofNat] at hov
  have hr1len : (totalLength r1 : Int) = 10 - f1.length := by omega
  have hr2len : (totalLength r2 : Int) = 17 - f2.length := by omega
  -- marker of the first contained object
  have e1 : step s0 m1 = .ok { s0 with
      lineno := s0.lineno + 1, last_offset := s0.offset, offset := s0.offset + m1.length
      last_obj := s0.last_obj + 1
      xref := s0.xref ++ [XRefEntry.uncompressed s0.offset]
      stream_start := s0.offset, state := .st_in_ostream_outer
      ostream := [m1] } := by
    have hg : ¬ s0.offset + (m1.length : Int) > OFFSET_MAX := by omega
    simp only [step, if_neg hg, dispatch, advance, hst, stepInOstreamOffsets, hm1]
    rw [checkObjId_next (by simpa using hn1)]
    simp [hb1]
  -- first line of the first contained object
  have e2 : step { s0 with
      lineno := s0.lineno + 1, last_offset := s0.offset, offset := s0.offset + m1.length
      last_obj := s0.last_obj + 1
      xref := s0.xref ++ [XRefEntry.uncompressed s0.offset]
      stream_start := s0.offset, state := .st_in_ostream_outer
      ostream := [m1] } f1 = .ok { s0 with
      lineno := s0.lineno + 2, last_offset := s0.offset + m1.length
      offset := s0.offset + m1.length + f1.length
      last_obj := s0.last_obj + 1
      xref := s0.xref ++ [XRefEntry.compressed s0.last_obj 0]
      stream_start := s0.offset, state := .st_in_ostream_obj
      ostream := [m1, f1], ostream_offsets := [(m1.length : Int)], ostream_idx := 1 } := by
    have hg : ¬ s0.offset + (m1.length : Int) + (f1.length : Int) > OFFSET_MAX := by omega
    have hi : ¬ s0.ostream_idx > INT_MAX := by rw [hb3]; decide
    simp only [step, if_neg hg, dispatch, advance, stepInOstreamOuter, adjustOstreamXref, if_neg hi]
    cases hx : s0.xref ++ [XRefEntry.uncompressed s0.offset] with
    | nil => simp at hx
    | cons a t =>
      simp only [Result.bind_ok]
      rw [← hx]
      simp [hb2, hb3, hid]
  obtain ⟨n3, lo3, e3⟩ := runLines_in_ostream_obj r1 { s0 with
      lineno := s0.lineno + 2, last_offset := s0.offset + m1.length
      offset := s0.offset + m1.length + f1.length
      last_obj := s0.last_obj + 1
      xref := s0.xref ++ [XRefEntry.compressed s0.last_obj 0]
      stream_start := s0.offset, state := .st_in_ostream_obj
      ostream := [m1, f1], ostream_offsets := [(m1.length : Int)], ostream_idx := 1 }
      rfl hr1 (by simp only; omega)
  -- marker of the second contained object
  have e4 : step { s0 with
      lineno := n3, last_offset := lo3
      offset := s0.offset + m1.length + f1.length + totalLength r1
      last_obj := s0.last_obj + 1
      xref := s0.xref ++ [XRefEntry.compressed s0.last_obj 0]
      stream_start := s0.offset, state := .st_in_ostream_obj
      ostream := [m1, f1] ++ r1, ostream_offsets := [(m1.length : Int)], ostream_idx := 1 } m2 =
      .ok { s0 with
      lineno := n3 + 1, last_offset := s0.offset + m1.length + f1.length + totalLength r1
      offset := s0.offset + m1.length + f1.length + totalLength r1 + m2.length
      last_obj := s0.last_obj + 2
      xref := s0.xref ++ [XRefEntry.compressed s0.last_obj 0] ++
        [XRefEntry.uncompressed (s0.offset + m1.length + f1.length + totalLength r1)]
      stream_start := s0.offset, state := .st_in_ostream_outer
      ostream := [m1, f1] ++ r1 ++ [m2], ostream_offsets := [(m1.length : Int)]
      ostream_idx := 1 } := by
    have hg : ¬ s0.offset + (m1.length : Int) + (f1.length : Int) + (totalLength r1 : Int) +
        (m2.length : Int) > OFFSET_MAX := by omega
    simp only [step, if_neg hg, dispatch, advance, stepInOstreamObj, hm2]
    rw [checkObjId_next (by simpa using hn2)]
    simp
  -- first line of the second contained object
  have e5 : step { s0 with
      lineno := n3 + 1, last_offset := s0.offset + m1.length + f1.length + totalLength r1
      offset := s0.offset + m1.length + f1.length + totalLength r1 + m2.length
      last_obj := s0.last_obj + 2
      xref := s0.xref ++ [XRefEntry.compressed s0.last_obj 0] ++
        [XRefEntry.uncompressed (s0.offset + m1.length + f1.length + totalLength r1)]
      stream_start := s0.offset, state := .st_in_ostream_outer
      ostream := [m1, f1] ++ r1 ++ [m2], ostream_offsets := [(m1.length : Int)]
      ostream_idx := 1 } f2 = .ok { s0 with
      lineno := n3 + 2
      last_offset := s0.offset + m1.length + f1.length + totalLength r1 + m2.length
      offset := s0.offset + m1.length + f1.length + totalLength r1 + m2.length + f2.length
      last_obj := s0.last_obj + 2
      xref := s0.xref ++ [XRefEntry.compressed s0.last_obj 0] ++
        [XRefEntry.compressed s0.last_obj 1]
      stream_start := s0.offset, state := .st_in_ostream_obj
      ostream := [m1, f1] ++ r1 ++ [m2] ++ [f2]
      ostream_offsets := [(m1.length : Int), (m1.length : Int) + 10 + m2.length]
      ostream_idx := 2 } := by
    have hg : ¬ s0.offset + (m1.length : Int) + (f1.length : Int) + (totalLength r1 : Int) +
        (m2.length : Int) + (f2.length : Int) > OFFSET_MAX := by omega
    have hi : ¬ (1 : Nat) > INT_MAX := by decide
    simp only [step, if_neg hg, dispatch, advance, stepInOstreamOuter, adjustOstreamXref, if_neg hi]
    cases hx : s0.xref ++ [XRefEntry.compressed s0.last_obj 0] ++
        [XRefEntry.uncompressed (s0.offset + m1.length + f1.length + totalLength r1)] with
    | nil => simp at hx
    | cons a t =>
      simp only [Result.bind_ok]
      rw [← hx]
      simp [hid]
      omega
  obtain ⟨n6, lo6, e6⟩ := runLines_in_ostream_obj r2 { s0 with
      lineno := n3 + 2
      last_offset := s0.offset + m1.length + f1.length + totalLength r1 + m2.length
      offset := s0.offset + m1.length + f1.length + totalLength r1 + m2.length + f2.length
      last_obj := s0.last_obj + 2
      xref := s0.xref ++ [XRefEntry.compressed s0.last_obj 0] ++
        [XRefEntry.compressed s0.last_obj 1]
      stream_start := s0.offset, state := .st_in_ostream_obj
      ostream := [m1, f1] ++ r1 ++ [m2] ++ [f2]
      ostream_offsets := [(m1.length : Int), (m1.length : Int) + 10 + m2.length]
      ostream_idx := 2 } rfl hr2 (by simp only; omega)
  -- the line `endstream` and the flush
  have hH : ostreamHeader s0.last_obj (m1.length : Int)
      [(m1.length : Int), (m1.length : Int) + 10 + m2.length] =
      s4Header (s0.last_obj + 1) (s0.last_obj + 2) m2 := by
    have h10 : (m1.length : Int) + 10 + m2.length - m1.length = ((10 + m2.length : Nat) : Int) := by
      simp; omega
    simp only [ostreamHeader, s4Header, Int.sub_self, h10, intToDec_natCast]
    have : intToDec 0 = toDec 0 := intToDec_natCast 0
    rw [this]
    simp [toDec, toDecAux]
  have hid2 := (stoi_eq hn2).2
  have e7 : outputOf (step { s0 with
      lineno := n6, last_offset := lo6
      offset := s0.offset + m1.length + f1.length + totalLength r1 + m2.length + f2.length +
        totalLength r2
      last_obj := s0.last_obj + 2
      xref := s0.xref ++ [XRefEntry.compressed s0.last_obj 0] ++
        [XRefEntry.compressed s0.last_obj 1]
      stream_start := s0.offset, state := .st_in_ostream_obj
      ostream := [m1, f1] ++ r1 ++ [m2] ++ [f2] ++ r2
      ostream_offsets := [(m1.length : Int), (m1.length : Int) + 10 + m2.length]
      ostream_idx := 2 } "endstream\n".toList) =
      some (s0.out ++ s4Output (s0.last_obj + 1) (s0.last_obj + 2) m1 m2 (f1 :: r1) (f2 :: r2)
        s0.ostream_extends) := by
    have hg : ¬ s0.offset + (m1.length : Int) + (f1.length : Int) + (totalLength r1 : Int) +
        (m2.length : Int) + (f2.length : Int) + (totalLength r2 : Int) +
        (("endstream\n".toList.length : Nat) : Int) > OFFSET_MAX := by
      simp; omega
    have hneg : ¬ s0.offset + (m1.length : Int) + (f1.length : Int) + (totalLength r1 : Int) +
        (m2.length : Int) + (f2.length : Int) + (totalLength r2 : Int) - s0.offset < 0 := by
      omega
    have hlenv : (s0.offset + (m1.length : Int) + (f1.length : Int) + (totalLength r1 : Int) +
        (m2.length : Int) + (f2.length : Int) + (totalLength r2 : Int) - s0.offset).toNat =
        m1.length + 10 + m2.length + 17 := by
      omega
    have hdisc : (0 : Int) ≤ totalLength s0.ostream_discarded := by omega
    have hk : "endstream\n".toList.length = 10 := rfl
    simp only [step, if_neg hg, dispatch, advance, stepInOstreamObj, re_ostream_obj_endstream,
      if_true, if_neg hneg, hlenv, writeOstream, hid, hH, List.length_cons, List.length_nil]
    have hL : m1.length + 10 + m2.length + 17 +
        (s4Header (s0.last_obj + 1) (s0.last_obj + 2) m2).length =
        (s4Header (s0.last_obj + 1) (s0.last_obj + 2) m2).length + m1.length + 10 + m2.length +
          17 := by omega
    have hF : (m1.length : Int) + ((s4Header (s0.last_obj + 1) (s0.last_obj + 2) m2).length : Int)
        = (((s4Header (s0.last_obj + 1) (s0.last_obj + 2) m2).length + m1.length : Nat) : Int) := by
      simp; omega
    simp only [hL, hF, Nat.zero_add, Nat.reduceAdd]
    split_ifs with c1 c2 c3 c4 c5 c6
    · exfalso; omega
    · exfalso; omega
    · exfalso; omega
    · exfalso; rw [hD] at c4; omega
    · exfalso; rw [hD] at c5; omega
    · exfalso; simp only [QdfFixer.write] at c6; rw [hD] at c6; omega
    · rw [hS]
      simp [outputOf, Result.toOption, Result.bind, QdfFixer.write]
  have hlines : [m1, f1] ++ r1 ++ [m2, f2] ++ r2 ++ ["endstream\n".toList] =
      m1 :: f1 :: (r1 ++ (m2 :: f2 :: (r2 ++ ["endstream\n".toList]))) := by
    simp
  rw [hlines, runLines, e1, Result.bind_ok, runLines, e2, Result.bind_ok, runLines_append, e3,
    Result.bind_ok, runLines, e4, Result.bind_ok, runLines, e5, Result.bind_ok,
    runLines_append, e6, Result.bind_ok, runLines]
  cases h7 : step _ "endstream\n".toList with
  | ok s7 =>
    rw [h7] at e7
    simpa [outputOf, Result.toOption, runLines] using e7
  | fail e w =>
    rw [h7] at e7
    simp [outputOf, Result.toOption] at e7

set_option maxRecDepth 100000 in
/-- Witness of C7 (scenario S4): the object stream of `inputS4`, read from the
state after its line `stream`. -/
theorem s4_object_stream_witness :
    outputOf (runLines (stateS4 8)
      (["%% Object stream: object 2\n".toList, "<< /A 1>>\n".toList] ++ [] ++
        ["%% Object stream: object 3\n".toList, "<< /B 2345678 >>\n".toList] ++ [] ++
        ["endstream\n".toList])) =
      some ((stateS4 8).out ++ s4Output ((stateS4 8).last_obj + 1) ((stateS4 8).last_obj + 2)
        "%% Object stream: object 2\n".toList "%% Object stream: object 3\n".toList
        ["<< /A 1>>\n".toList] ["<< /B 2345678 >>\n".toList] (stateS4 8).ostream_extends) :=
  s4_object_stream (stateS4 8) "%% Object stream: object 2\n".toList
    "%% Object stream: object 3\n".toList "<< /A 1>>\n".toList "<< /B 2345678 >>\n".toList
    "2".toList "3".toList [] [] rfl (by decide) rfl rfl rfl rfl rfl (by decide) (by decide)
    rfl rfl (by decide) (by decide)

set_option maxRecDepth 100000 in
/-- Counterexample to C7 as stated: for contained objects 2 and 3 of 10 and 17
bytes the flush writes the header `2 0\n3 37\n` and `/First 36`, not the header
`2 0\n3 10\n` with `/First 9`. -/
theorem s4_claim_counterexample :
    (stateS4 13).out = (stateS4 8).out ++
      ("  /Length 90\n  /N 2\n  /First 36\n>>\nstream\n2 0\n3 37\n" ++
        "%% Object stream: object 2\n<< /A 1>>\n%% Object stream: object 3\n" ++
        "<< /B 2345678 >>\nendstream\n").toList ∧
      hasSub "stream\n2 0\n3 10\n".toList (stateS4 13).out = false ∧
      hasSub "/First 9\n".toList (stateS4 13).out = false := by
  decide

theorem nbytesAux_spec : ∀ (fuel t : Nat), t ≤ fuel →
    t < 256 ^ nbytesAux fuel t ∧ ∀ k, t < 256 ^ k → nbytesAux fuel t ≤ k := by
  intro fuel
  induction fuel with
  | zero =>
    intro t ht
    have : t = 0 := by omega
    subst this
    simp [nbytesAux]
  | succ f ih =>
    intro t ht
    simp only [nbytesAux]
    split_ifs with h0
    · subst h0; simp
    · have hdiv : t / 256 ≤ f := by omega
      obtain ⟨h1, h2⟩ := ih (t / 256) hdiv
      constructor
      · have h3 : t < 256 * (t / 256 + 1) := by omega
        calc t < 256 * (t / 256 + 1) := h3
          _ ≤ 256 * 256 ^ nbytesAux f (t / 256) := by
            apply Nat.mul_le_mul_left
            omega
          _ = 256 ^ (1 + nbytesAux f (t / 256)) := by ring
      · intro k hk
        cases k with
        | zero => simp at hk; omega
        | succ k =>
          have : t / 256 < 256 ^ k := by
            rw [Nat.div_lt_iff_lt_mul (by omega)]
            calc t < 256 ^ (k + 1) := hk
              _ = 256 ^ k * 256 := by ring
          have := h2 k this
          omega

theorem nbytes_lt (t : Nat) : t < 256 ^ nbytes t := (nbytesAux_spec t t (le_refl t)).1

theorem nbytes_le (t k : Nat) (h : t < 256 ^ k) : nbytes t ≤ k :=
  (nbytesAux_spec t t (le_refl t)).2 k h

theorem nbytes_pos {t : Nat} (h : 1 ≤ t) : 1 ≤ nbytes t := by
  by_contra hn
  have h0 : nbytes t = 0 := by omega
  have := nbytes_lt t
  rw [h0] at this
  simp at this
  omega

theorem drop_set_self (data : Bytes) (i : Nat) (c : Char) (h : i < data.length) :
    (data.set i c).drop i = c :: data.drop (i + 1) := by
  rw [List.set_eq_take_append_cons_drop, if_pos h]
  have hl : (data.take i).length = i := by simp; omega
  rw [List.drop_append_of_le_length (by omega), List.drop_of_length_le (by omega)]
  simp

theorem writeBinaryLoop_eq : ∀ (i val : Nat) (data : Bytes), i ≤ data.length →
    writeBinaryLoop i val data = beEncode i val ++ data.drop i := by
  intro i
  induction i with
  | zero => intro val data _; simp [writeBinaryLoop, beEncode]
  | succ i ih =>
    intro val data hi
    simp only [writeBinaryLoop, beEncode]
    rw [ih _ _ (by simp; omega), drop_set_self _ _ _ (by omega)]
    simp

theorem beEncode_length : ∀ (w v : Nat), (beEncode w v).length = w := by
  intro w
  induction w with
  | zero => intro v; rfl
  | succ w ih => intro v; simp [beEncode, ih]

theorem writeBinary_eq {v w : Nat} {data : Bytes} (h : FixQdf.writeBinary v w = some data) :
    w ≤ 8 ∧ data = beEncode w (v % 2 ^ 64) := by
  unfold FixQdf.writeBinary at h
  split_ifs at h with hw
  simp only [Option.some.injEq] at h
  unfold SIZEOF_ULL at hw
  refine ⟨by omega, ?_⟩
  rw [← h, writeBinaryLoop_eq _ _ _ (by simp)]
  simp

set_option maxRecDepth 100000 in
theorem toNat_ofNat_byte : ∀ n : Nat, n < 256 → (Char.ofNat n).toNat = n := by
  decide

theorem beValue_append (a b : Bytes) :
    beValue (a ++ b) = beValue a * 256 ^ b.length + beValue b := by
  induction b using List.reverseRecOn with
  | nil => simp [beValue]
  | append_singleton b c ih =>
    have h1 : ∀ x : Bytes, beValue (x ++ [c]) = 256 * beValue x + c.toNat := by
      intro x
      simp [beValue, List.foldl_append]
    rw [← List.append_assoc, h1, h1, ih]
    simp [pow_succ]
    ring

theorem beValue_beEncode : ∀ (w v : Nat), beValue (beEncode w v) = v % 256 ^ w := by
  intro w
  induction w with
  | zero => intro v; simp [beEncode, beValue, Nat.mod_one]
  | succ w ih =>
    intro v
    have h1 : beValue [Char.ofNat (v % 256)] = v % 256 := by
      simp [beValue, toNat_ofNat_byte _ (Nat.mod_lt v (by omega))]
    rw [beEncode, beValue_append, ih, h1]
    simp only [List.length_singleton, pow_one]
    rw [pow_succ, Nat.mul_comm (256 ^ w) 256, Nat.mod_mul]
    ring

theorem beEncode_mod : ∀ (w k v : Nat), w ≤ k → beEncode w (v % 256 ^ k) = beEncode w v := by
  intro w
  induction w with
  | zero => intro k v _; rfl
  | succ w ih =>
    intro k v hk
    cases k with
    | zero => omega
    | succ k =>
      simp only [beEncode]
      have h1 : v % 256 ^ (k + 1) / 256 = v / 256 % 256 ^ k := by
        rw [pow_succ, Nat.mul_comm, Nat.mod_mul_right_div_self]
      have h2 : v % 256 ^ (k + 1) % 256 = v % 256 := by
        rw [pow_succ, Nat.mod_mul_left_mod]
      rw [h1, h2, ih k _ (by omega)]

theorem writeBinary_enc {v w : Nat} {data : Bytes} (h : FixQdf.writeBinary v w = some data) :
    w ≤ 8 ∧ data = beEncode w v := by
  obtain ⟨h1, h2⟩ := writeBinary_eq h
  refine ⟨h1, ?_⟩
  rw [h2, show (2 : Nat) ^ 64 = 256 ^ 8 by norm_num, beEncode_mod _ _ _ h1]

theorem writeRow_enc {s s1 : QdfFixer} {t a b : Nat} (h : writeRow s t a b = .ok s1) :
    s.xref_f1_nbytes ≤ 8 ∧ s.xref_f2_nbytes ≤ 8 ∧
      s1 = s.write (packRow s.xref_f1_nbytes s.xref_f2_nbytes (t, a, b)) := by
  obtain ⟨d0, d1, d2, e0, e1, e2, rfl⟩ := writeRow_ok h
  obtain ⟨-, rfl⟩ := writeBinary_enc e0
  obtain ⟨h1, rfl⟩ := writeBinary_enc e1
  obtain ⟨h2, rfl⟩ := writeBinary_enc e2
  exact ⟨h1, h2, rfl⟩

theorem writeXRefRows_enc {xs : List XRefEntry} : ∀ {s s1 : QdfFixer},
    writeXRefRows s xs = .ok s1 →
    s1 = s.write (((xs.map entryFields).map
        (packRow s.xref_f1_nbytes s.xref_f2_nbytes)).flatten) ∧
      ∀ o, XRefEntry.uncompressed o ∈ xs → 0 ≤ o := by
  induction xs with
  | nil =>
    intro s s1 h
    simp only [writeXRefRows, Result.ok.injEq] at h
    simp [h]
  | cons e rest ih =>
    intro s s1 h
    cases e with
    | uncompressed o =>
      simp only [writeXRefRows] at h
      split_ifs at h with hneg <;> try (simp at h; done)
      obtain ⟨a, h1, h2⟩ := Result.bind_eq_ok.1 h
      obtain ⟨-, -, rfl⟩ := writeRow_enc h1
      obtain ⟨rfl, h3⟩ := ih h2
      refine ⟨by simp [QdfFixer.write, entryFields], ?_⟩
      intro o2 ho2
      simp only [List.mem_cons, XRefEntry.uncompressed.injEq] at ho2
      rcases ho2 with rfl | ho2
      · omega
      · exact h3 _ ho2
    | compressed sn idx =>
      simp only [writeXRefRows] at h
      obtain ⟨a, h1, h2⟩ := Result.bind_eq_ok.1 h
      obtain ⟨-, -, rfl⟩ := writeRow_enc h1
      obtain ⟨rfl, h3⟩ := ih h2
      refine ⟨by simp [QdfFixer.write, entryFields], ?_⟩
      intro o2 ho2
      simp only [List.mem_cons] at ho2
      rcases ho2 with ho2 | ho2
      · cases ho2
      · exact h3 _ ho2

theorem hasSub_stream_length : hasSub "/Length".toList "stream\n".toList = false := by decide

theorem hasSub_stream_w : hasSub "/W".toList "stream\n".toList = false := by decide

theorem hasSub_stream_size : hasSub "/Size".toList "stream\n".toList = false := by decide

/-- What the line `stream` makes the machine write in state
`st_in_xref_stream_dict`: the line, the packed rows and the tail; the widths
are at most 8 and the offsets are not negative. -/
theorem xref_stream_out {t t1 : QdfFixer} (ht : t.state = .st_in_xref_stream_dict)
    (h : step t "stream\n".toList = .ok t1) :
    t1.out = t.out ++ "stream\n".toList ++ packXRef t.xref_f1_nbytes t.xref_f2_nbytes t.xref ++
        xrefStreamTail t.xref_offset ∧
      t.xref_f1_nbytes ≤ 8 ∧ t.xref_f2_nbytes ≤ 8 ∧
      (∀ o, XRefEntry.uncompressed o ∈ t.xref → 0 ≤ o) ∧ t1.state = .st_done := by
  unfold step at h
  split_ifs at h with hov <;> try (simp at h; done)
  simp only [dispatch, advance, ht, stepInXRefStreamDict, hasSub_stream_length,
    hasSub_stream_w, hasSub_stream_size, Bool.or_self, Bool.false_eq_true, if_false,
    if_true] at h
  obtain ⟨a1, h1, h⟩ := Result.bind_eq_ok.1 h
  obtain ⟨a2, h2, h⟩ := Result.bind_eq_ok.1 h
  obtain ⟨hf1, hf2, rfl⟩ := writeRow_enc h1
  obtain ⟨rfl, h3⟩ := writeXRefRows_enc h2
  simp only [Result.ok.injEq] at h
  subst h
  simp only [QdfFixer.write] at hf1 hf2 h3 ⊢
  refine ⟨?_, hf1, hf2, h3, trivial⟩
  simp [packXRef, xrefStreamTail]

/-- What a line that contains `/Type /XRef` makes the machine do in state
`st_in_obj`. -/
theorem start_xref_out {s s1 : QdfFixer} {line : Bytes} (hst : s.state = .st_in_obj)
    (hl1 : line ≠ "stream\n".toList) (hl2 : line ≠ "endobj\n".toList)
    (hl3 : hasSub "/Type /ObjStm".toList line = false)
    (hl4 : hasSub "/Type /XRef".toList line = true)
    (h : step s line = .ok s1) :
    ∃ p : Int, s.xref.getLast? = some (XRefEntry.uncompressed p) ∧ 0 ≤ p ∧
      s1.xref_f1_nbytes = nbytes p.toNat ∧
      s1.xref_f2_nbytes = s.xref_f2_nbytes + nbytes (maxObjects s.xref) ∧
      s1.xref = s.xref ∧ s1.state = .st_in_xref_stream_dict ∧ s1.xref_offset = p ∧
      s1.out = s.out ++ line ++ xrefDictLines s.xref.length s1.xref_f1_nbytes s1.xref_f2_nbytes := by
  unfold step at h
  split_ifs at h with hov <;> try (simp at h; done)
  simp only [dispatch, advance, hst, stepInObj, if_neg hl1, if_neg hl2, hl3, hl4,
    Bool.false_eq_true, if_false, if_true, startXRefStream, QdfFixer.write] at h
  split at h
  · simp at h
  · rename_i e he
    split at h
    · simp at h
    · rename_i o ho
      split_ifs at h with hneg <;> try (simp at h; done)
      simp only [Result.ok.injEq] at h
      subst h
      cases e with
      | compressed a b => simp [XRefEntry.getOffset] at ho
      | uncompressed p =>
        simp only [XRefEntry.getOffset, Option.some.injEq] at ho
        subst ho
        refine ⟨p, he, by omega, rfl, rfl, rfl, rfl, rfl, ?_⟩
        simp [xrefDictLines]

/-- Once in state `st_in_xref_stream_dict`, the table and the widths stay as
they are for as long as the state lasts. -/
theorem xref_dict_frame (mid : List Bytes) : ∀ (u t : QdfFixer),
    u.state = .st_in_xref_stream_dict ∨ u.state = .st_done →
    runLines u mid = .ok t →
    t.state = .st_done ∨ (t.state = .st_in_xref_stream_dict ∧ u.state = .st_in_xref_stream_dict ∧
      t.xref = u.xref ∧ t.xref_f1_nbytes = u.xref_f1_nbytes ∧
      t.xref_f2_nbytes = u.xref_f2_nbytes ∧ t.xref_offset = u.xref_offset) := by
  induction mid with
  | nil =>
    intro u t hu h
    simp only [runLines, Result.ok.injEq] at h
    subst h
    rcases hu with hu | hu
    · right; exact ⟨hu, hu, rfl, rfl, rfl, rfl⟩
    · left; exact hu
  | cons l rest ih =>
    intro u t hu h
    simp only [runLines] at h
    obtain ⟨u1, h1, h2⟩ := Result.bind_eq_ok.1 h
    unfold step at h1
    split_ifs at h1 with hov <;> try (simp at h1; done)
    rcases hu with hu | hu
    · simp only [dispatch, advance, hu, stepInXRefStreamDict] at h1
      split_ifs at h1
      all_goals first
        | (obtain ⟨a1, e1, h1⟩ := Result.bind_eq_ok.1 h1
           obtain ⟨a2, e2, h1⟩ := Result.bind_eq_ok.1 h1
           obtain ⟨-, -, rfl⟩ := writeRow_enc e1
           obtain ⟨rfl, -⟩ := writeXRefRows_enc e2
           simp only [Result.ok.injEq] at h1
           subst h1
           rcases ih _ t (Or.inr (by simp [QdfFixer.write])) h2 with h3 | h3
           · left; exact h3
           · simp [QdfFixer.write] at h3)
        | (simp only [Result.ok.injEq] at h1
           subst h1
           rcases ih _ t (Or.inl (by simp [QdfFixer.write, hu])) h2 with h3 | h3
           · left; exact h3
           · right
             simpa [QdfFixer.write, hu] using h3)
    · simp only [dispatch, advance, hu, Result.ok.injEq] at h1
      subst h1
      rcases ih _ t (Or.inr (by simp [hu])) h2 with h3 | h3
      · left; exact h3
      · simp [hu] at h3

theorem packRow_length (w1 w2 : Nat) (row : Nat × Nat × Nat) :
    (packRow w1 w2 row).length = 1 + w1 + w2 := by
  simp [packRow, beEncode_length]
  omega

theorem flatten_length_const {rows : List Bytes} {n : Nat} (h : ∀ r ∈ rows, r.length = n) :
    rows.flatten.length = rows.length * n := by
  induction rows with
  | nil => simp
  | cons a rest ih =>
    simp only [List.flatten_cons, List.length_append, List.length_cons]
    rw [ih (fun r hr => h r (by simp [hr])), h a (by simp)]
    ring

theorem packXRef_length (w1 w2 : Nat) (xref : List XRefEntry) :
    (packXRef w1 w2 xref).length = (1 + xref.length) * (1 + w1 + w2) := by
  unfold packXRef
  rw [flatten_length_const (n := 1 + w1 + w2)]
  · simp; ring
  · intro r hr
    simp only [List.mem_map] at hr
    obtain ⟨row, -, rfl⟩ := hr
    exact packRow_length _ _ _

/-- C9: XRef stream length.  When a line containing `/Type /XRef` is read in
state `st_in_obj` and, after further lines that leave the machine in state
`st_in_xref_stream_dict`, the line `stream` is read, then with `n` the number of
table entries and `f1`, `f2` the widths printed on the `/W` line: the value
printed on the `/Length` line is `(1 + n) * (1 + f1 + f2)`, and the binary body
written between `stream` and the following `endstream` has exactly that many
bytes. -/
theorem xref_stream_length (s s1 t t1 : QdfFixer) (line : Bytes) (mid : List Bytes)
    (hst : s.state = .st_in_obj)
    (hl1 : line ≠ "stream\n".toList) (hl2 : line ≠ "endobj\n".toList)
    (hl3 : hasSub "/Type /ObjStm".toList line = false)
    (hl4 : hasSub "/Type /XRef".toList line = true)
    (h1 : step s line = .ok s1) (h2 : runLines s1 mid = .ok t)
    (ht : t.state = .st_in_xref_stream_dict)
    (h3 : step t "stream\n".toList = .ok t1) :
    s1.out = s.out ++ line ++
        xrefDictLines s.xref.length s1.xref_f1_nbytes s1.xref_f2_nbytes ∧
      t1.out = t.out ++ "stream\n".toList ++
        packXRef s1.xref_f1_nbytes s1.xref_f2_nbytes s.xref ++ xrefStreamTail t.xref_offset ∧
      (packXRef s1.xref_f1_nbytes s1.xref_f2_nbytes s.xref).length =
        (1 + s.xref.length) * (1 + s1.xref_f1_nbytes + s1.xref_f2_nbytes) := by
  obtain ⟨p, -, -, -, -, hx, hs1, -, hout⟩ := start_xref_out hst hl1 hl2 hl3 hl4 h1
  refine ⟨hout, ?_, packXRef_length _ _ _⟩
  rcases xref_dict_frame mid s1 t (Or.inl hs1) h2 with hd | ⟨-, -, e1, e2, e3, -⟩
  · rw [hd] at ht; cases ht
  · rw [(xref_stream_out ht h3).1, e1, e2, e3, hx]

theorem decodeRows_pack (w1 w2 : Nat) : ∀ (rows : List (Nat × Nat × Nat)) (fuel : Nat),
    rows.length ≤ fuel →
    (∀ r ∈ rows, r.1 < 256 ∧ r.2.1 < 256 ^ w1 ∧ r.2.2 < 256 ^ w2) →
    decodeRows w1 w2 fuel ((rows.map (packRow w1 w2)).flatten) = rows := by
  intro rows
  induction rows with
  | nil =>
    intro fuel _ _
    cases fuel <;> simp [decodeRows]
  | cons r rest ih =>
    intro fuel hf hr
    cases fuel with
    | zero => simp at hf
    | succ fuel =>
      obtain ⟨h1, h2, h3⟩ := hr r (by simp)
      have hne : ¬ ((r :: rest).map (packRow w1 w2)).flatten = [] := by
        intro hc
        have := congrArg List.length hc
        simp [packRow_length] at this
      simp only [decodeRows, if_neg hne]
      have hb : ((r :: rest).map (packRow w1 w2)).flatten =
          beEncode 1 r.1 ++ (beEncode w1 r.2.1 ++ (beEncode w2 r.2.2 ++
            (rest.map (packRow w1 w2)).flatten)) := by
        simp [packRow]
      have e1 : (beEncode 1 r.1 ++ (beEncode w1 r.2.1 ++ (beEncode w2 r.2.2 ++
            (rest.map (packRow w1 w2)).flatten))).take 1 = beEncode 1 r.1 :=
        List.take_left' (beEncode_length _ _)
      have d1 : (beEncode 1 r.1 ++ (beEncode w1 r.2.1 ++ (beEncode w2 r.2.2 ++
            (rest.map (packRow w1 w2)).flatten))).drop 1 =
          beEncode w1 r.2.1 ++ (beEncode w2 r.2.2 ++ (rest.map (packRow w1 w2)).flatten) :=
        List.drop_left' (beEncode_length _ _)
      have e2 : (beEncode w1 r.2.1 ++ (beEncode w2 r.2.2 ++
            (rest.map (packRow w1 w2)).flatten)).take w1 = beEncode w1 r.2.1 :=
        List.take_left' (beEncode_length _ _)
      have d2 : (beEncode 1 r.1 ++ (beEncode w1 r.2.1 ++ (beEncode w2 r.2.2 ++
            (rest.map (packRow w1 w2)).flatten))).drop (1 + w1) =
          beEncode w2 r.2.2 ++ (rest.map (packRow w1 w2)).flatten := by
        rw [← List.append_assoc]
        exact List.drop_left' (by simp [beEncode_length])
      have e3 : (beEncode w2 r.2.2 ++ (rest.map (packRow w1 w2)).flatten).take w2 =
          beEncode w2 r.2.2 :=
        List.take_left' (beEncode_length _ _)
      have d3 : (beEncode 1 r.1 ++ (beEncode w1 r.2.1 ++ (beEncode w2 r.2.2 ++
            (rest.map (packRow w1 w2)).flatten))).drop (1 + w1 + w2) =
          (rest.map (packRow w1 w2)).flatten := by
        rw [← List.append_assoc, ← List.append_assoc]
        exact List.drop_left' (by simp [beEncode_length]; omega)
      rw [hb, e1, d1, e2, d2, e3, d3, beValue_beEncode, beValue_beEncode, beValue_beEncode,
        ih fuel (by simpa using hf) (fun x hx => hr x (by simp [hx]))]
      rw [Nat.mod_eq_of_lt (by simpa using h1), Nat.mod_eq_of_lt h2, Nat.mod_eq_of_lt h3]

theorem decodeXRef_pack (w1 w2 : Nat) (rows : List (Nat × Nat × Nat))
    (hr : ∀ r ∈ rows, r.1 < 256 ∧ r.2.1 < 256 ^ w1 ∧ r.2.2 < 256 ^ w2) :
    decodeXRef w1 w2 ((rows.map (packRow w1 w2)).flatten) = rows := by
  unfold decodeXRef
  apply decodeRows_pack _ _ _ _ _ hr
  rw [flatten_length_const (n := 1 + w1 + w2)]
  · simp
    exact Nat.le_mul_of_pos_right _ (by omega)
  · intro r hr2
    simp only [List.mem_map] at hr2
    obtain ⟨row, -, rfl⟩ := hr2
    exact packRow_length _ _ _

theorem foldl_max_nat (l : List Nat) : ∀ a : Nat,
    a ≤ l.foldl max a ∧ (∀ x ∈ l, x ≤ l.foldl max a) ∧
      (∀ b, a ≤ b → (∀ x ∈ l, x ≤ b) → l.foldl max a ≤ b) := by
  induction l with
  | nil => intro a; simp
  | cons y rest ih =>
    intro a
    obtain ⟨h1, h2, h3⟩ := ih (max a y)
    simp only [List.foldl_cons, List.mem_cons]
    refine ⟨by omega, ?_, ?_⟩
    · intro x hx
      rcases hx with rfl | hx
      · omega
      · exact h2 x hx
    · intro b hab hb
      exact h3 b (by have := hb y (Or.inl rfl); omega) (fun x hx => hb x (Or.inr hx))

theorem foldl_max_int (l : List Int) : ∀ a : Int,
    a ≤ l.foldl max a ∧ (∀ x ∈ l, x ≤ l.foldl max a) ∧
      (∀ b, a ≤ b → (∀ x ∈ l, x ≤ b) → l.foldl max a ≤ b) := by
  induction l with
  | nil => intro a; simp
  | cons y rest ih =>
    intro a
    obtain ⟨h1, h2, h3⟩ := ih (max a y)
    simp only [List.foldl_cons, List.mem_cons]
    refine ⟨by omega, ?_, ?_⟩
    · intro x hx
      rcases hx with rfl | hx
      · omega
      · exact h2 x hx
    · intro b hab hb
      exact h3 b (by have := hb y (Or.inl rfl); omega) (fun x hx => hb x (Or.inr hx))

theorem maxObjects_eq (xref : List XRefEntry) :
    maxObjects xref = max 1 (maxType2Index xref) := by
  have key : ∀ (xs : List XRefEntry) (a : Nat),
      xs.foldl maxObjectsStep a =
      (xs.filterMap XRefEntry.getObjStreamIndex).foldl max a := by
    intro xs
    induction xs with
    | nil => intro a; rfl
    | cons e rest ih =>
      intro a
      cases e with
      | uncompressed o => simp [XRefEntry.getObjStreamIndex, ih, maxObjectsStep]
      | compressed sn i =>
        simp only [List.foldl_cons, ih, List.filterMap_cons, XRefEntry.getObjStreamIndex,
          maxObjectsStep]
        congr 1
        split_ifs <;> omega
  unfold maxObjects maxType2Index
  rw [key]
  obtain ⟨h1, h2, h3⟩ := foldl_max_nat (xref.filterMap XRefEntry.getObjStreamIndex) 1
  obtain ⟨g1, g2, g3⟩ := foldl_max_nat (xref.filterMap XRefEntry.getObjStreamIndex) 0
  apply Nat.le_antisymm
  · exact h3 _ (by omega) (fun x hx => by have := g2 x hx; omega)
  · have := g3 _ (Nat.zero_le _) h2
    omega

theorem index_le_maxObjects {xref : List XRefEntry} {sn idx : Nat}
    (h : XRefEntry.compressed sn idx ∈ xref) : idx ≤ maxObjects xref := by
  rw [maxObjects_eq]
  have hm : idx ∈ xref.filterMap XRefEntry.getObjStreamIndex := by
    rw [List.mem_filterMap]
    exact ⟨_, h, rfl⟩
  have := (foldl_max_nat (xref.filterMap XRefEntry.getObjStreamIndex) 0).2.1 idx hm
  unfold maxType2Index
  omega

/-- In a reachable state other than `st_in_ostream_outer` whose table ends in a
type-1 entry, that entry's offset bounds every offset and every object stream
number of the table. -/
theorem table_bounds {s : QdfFixer} (hi : Inv s) (hst : s.state ≠ .st_in_ostream_outer)
    {p : Int} (hlast : s.xref.getLast? = some (XRefEntry.uncompressed p)) :
    0 ≤ p ∧ ∀ e ∈ s.xref,
      match e with
      | .uncompressed o => 0 ≤ o ∧ o ≤ p
      | .compressed sn _ => (sn : Int) ≤ p := by
  obtain ⟨hne, hl⟩ := getLast?_getElem? _ _ hlast
  have hpos : 0 < s.xref.length := List.length_pos.2 hne
  have hgood : ∀ (i : Nat) (e : XRefEntry), s.xref[i]? = some e → GoodEntry s.out i e := by
    intro i e hie
    rcases hi.table.entries i e hie with hg | ⟨h1, -⟩
    · exact hg
    · exact absurd h1 hst
  have hp := hgood _ _ hl
  simp only [GoodEntry] at hp
  refine ⟨hp.1.1, ?_⟩
  intro e he
  obtain ⟨i, hi1, hi2⟩ := List.getElem_of_mem he
  have hie : s.xref[i]? = some e := by
    rw [List.getElem?_eq_getElem hi1, hi2]
  have hg := hgood i e hie
  cases e with
  | uncompressed o =>
    simp only [GoodEntry] at hg
    refine ⟨hg.1.1, ?_⟩
    by_cases hlt : i < s.xref.length - 1
    · exact hi.table.sorted i _ o p hlt hie hl
    · have : i = s.xref.length - 1 := by omega
      rw [this, hl] at hie
      simp only [Option.some.injEq, XRefEntry.uncompressed.injEq] at hie
      omega
  | compressed sn idx =>
    simp only [GoodEntry] at hg
    show (sn : Int) ≤ p
    have := hp.2
    omega

theorem maxType1Offset_eq {s : QdfFixer} (hi : Inv s) (hst : s.state ≠ .st_in_ostream_outer)
    {p : Int} (hlast : s.xref.getLast? = some (XRefEntry.uncompressed p)) :
    maxType1Offset s.xref = p := by
  obtain ⟨h0, hb⟩ := table_bounds hi hst hlast
  obtain ⟨g1, g2, g3⟩ := foldl_max_int (s.xref.filterMap XRefEntry.getOffset) 0
  unfold maxType1Offset
  apply Int.le_antisymm
  · apply g3 _ h0
    intro x hx
    rw [List.mem_filterMap] at hx
    obtain ⟨e, he, hex⟩ := hx
    have := hb e he
    cases e with
    | uncompressed o =>
      simp only [XRefEntry.getOffset, Option.some.injEq] at hex
      subst hex
      exact this.2
    | compressed sn idx => simp [XRefEntry.getOffset] at hex
  · apply g2
    rw [List.mem_filterMap]
    obtain ⟨hne, hl⟩ := getLast?_getElem? _ _ hlast
    have hlt : s.xref.length - 1 < s.xref.length := by
      have := List.length_pos.2 hne
      omega
    rw [List.getElem?_eq_getElem hlt] at hl
    simp only [Option.some.injEq] at hl
    have hmem : XRefEntry.uncompressed p ∈ s.xref := hl ▸ List.getElem_mem hlt
    exact ⟨XRefEntry.uncompressed p, hmem, rfl⟩

/-- C8: XRef stream entries decode to the table.  When a reachable state in
`st_in_xref_stream_dict` reads the line `stream`, the run writes the line, the
binary body and the tail; splitting the body into rows of `1 + f1 + f2` bytes
and reading each row as three big-endian fields gives `(0, 0, 0)` for row 0 and,
for row `i + 1`, `(1, offset, 0)` for a type-1 entry `i` and
`(2, objstm, index)` for a type-2 entry; no offset is negative, so no value is
altered by the conversion to unsigned or cut by its width. -/
theorem xref_stream_decodes (filename : Bytes) (ls : List Bytes) (t t1 : QdfFixer)
    (hrun : runLines (QdfFixer.init filename) ls = .ok t)
    (ht : t.state = .st_in_xref_stream_dict)
    (h3 : step t "stream\n".toList = .ok t1) :
    t1.out = t.out ++ "stream\n".toList ++
        packXRef t.xref_f1_nbytes t.xref_f2_nbytes t.xref ++ xrefStreamTail t.xref_offset ∧
      decodeXRef t.xref_f1_nbytes t.xref_f2_nbytes
          (packXRef t.xref_f1_nbytes t.xref_f2_nbytes t.xref) =
        (0, 0, 0) :: t.xref.map entryFields ∧
      ∀ o, XRefEntry.uncompressed o ∈ t.xref → 0 ≤ o := by
  have hi := runLines_inv (inv_init filename) hrun
  obtain ⟨hout, -, -, hnn, -⟩ := xref_stream_out ht h3
  refine ⟨hout, ?_, hnn⟩
  have ha := hi.acct.acct
  simp only [Acct, ht] at ha
  obtain ⟨p, hlast, hp0, -, hf1, hf2⟩ := ha
  obtain ⟨-, hb⟩ := table_bounds hi (by simp [ht]) hlast
  have hplt := nbytes_lt p.toNat
  have hmlt := nbytes_lt (maxObjects t.xref)
  unfold packXRef
  apply decodeXRef_pack
  intro r hr
  simp only [List.mem_cons, List.mem_map] at hr
  rcases hr with rfl | ⟨e, he, rfl⟩
  · simp
  · have hbe := hb e he
    cases e with
    | uncompressed o =>
      simp only [entryFields]
      refine ⟨by omega, ?_, by positivity⟩
      rw [hf1]
      have : o.toNat ≤ p.toNat := by omega
      omega
    | compressed sn idx =>
      simp only [entryFields]
      refine ⟨by omega, ?_, ?_⟩
      · rw [hf1]
        have : sn ≤ p.toNat := by
          have : (sn : Int) ≤ p := hbe
          omega
        omega
      · rw [hf2]
        have := index_le_maxObjects he
        omega

/-- C10: XRef field widths are minimal.  When a reachable state in `st_in_obj`
reads a line that contains `/Type /XRef`, the widths `f1` and `f2` printed on
the `/W` line are such that `f1` is the least `k` with the largest type-1 offset
of the table below `256 ^ k`, and `f2` is the least `k ≥ 1` with the largest
type-2 index of the table, taken as at least 1, below `256 ^ k`. -/
theorem xref_widths_minimal (filename : Bytes) (ls : List Bytes) (s s1 : QdfFixer)
    (line : Bytes)
    (hrun : runLines (QdfFixer.init filename) ls = .ok s)
    (hst : s.state = .st_in_obj)
    (hl1 : line ≠ "stream\n".toList) (hl2 : line ≠ "endobj\n".toList)
    (hl3 : hasSub "/Type /ObjStm".toList line = false)
    (hl4 : hasSub "/Type /XRef".toList line = true)
    (h1 : step s line = .ok s1) :
    s1.out = s.out ++ line ++
        xrefDictLines s.xref.length s1.xref_f1_nbytes s1.xref_f2_nbytes ∧
      0 ≤ maxType1Offset s.xref ∧
      (maxType1Offset s.xref).toNat < 256 ^ s1.xref_f1_nbytes ∧
      (∀ k, (maxType1Offset s.xref).toNat < 256 ^ k → s1.xref_f1_nbytes ≤ k) ∧
      1 ≤ s1.xref_f2_nbytes ∧
      max 1 (maxType2Index s.xref) < 256 ^ s1.xref_f2_nbytes ∧
      (∀ k, 1 ≤ k → max 1 (maxType2Index s.xref) < 256 ^ k → s1.xref_f2_nbytes ≤ k) := by
  have hi := runLines_inv (inv_init filename) hrun
  obtain ⟨p, hlast, hp0, hf1, hf2, -, -, -, hout⟩ := start_xref_out hst hl1 hl2 hl3 hl4 h1
  have ha := hi.acct.acct
  simp only [Acct, hst] at ha
  rw [ha.2.2, Nat.zero_add, maxObjects_eq] at hf2
  have hmax := maxType1Offset_eq hi (by simp [hst]) hlast
  refine ⟨hout, ?_⟩
  rw [hmax, hf1, hf2]
  exact ⟨hp0, nbytes_lt _, fun k hk => nbytes_le _ k hk, nbytes_pos (by omega),
    nbytes_lt _, fun k _ hk => nbytes_le _ k hk⟩

set_option maxRecDepth 100000 in
/-- Witness of C8 (scenario S4/S5): the XRef stream of `inputS4` decodes to the
null row and the four table entries. -/
theorem xref_stream_decodes_witness :
    decodeXRef (stateS4 21).xref_f1_nbytes (stateS4 21).xref_f2_nbytes
        (packXRef (stateS4 21).xref_f1_nbytes (stateS4 21).xref_f2_nbytes (stateS4 21).xref) =
      (0, 0, 0) :: (stateS4 21).xref.map entryFields :=
  (xref_stream_decodes "in.qdf".toList ((splitLines inputS4).take 21) (stateS4 21)
    (stateS4 22) rfl rfl rfl).2.1

set_option maxRecDepth 100000 in
/-- Witness of C9 (scenario S4/S5): the XRef stream of `inputS4` has 5 rows of 3
bytes. -/
theorem xref_stream_length_witness :
    (packXRef (stateS4 17).xref_f1_nbytes (stateS4 17).xref_f2_nbytes
        (stateS4 16).xref).length =
      (1 + (stateS4 16).xref.length) *
        (1 + (stateS4 17).xref_f1_nbytes + (stateS4 17).xref_f2_nbytes) :=
  (xref_stream_length (stateS4 16) (stateS4 17) (stateS4 21) (stateS4 22)
    "  /Type /XRef\n".toList
    ["  /Length 0\n".toList, "  /W [ 1 1 1 ]\n".toList, "  /Size 0\n".toList, ">>\n".toList]
    rfl (by decide) (by decide) rfl rfl rfl rfl rfl rfl).2.2

set_option maxRecDepth 100000 in
/-- Witness of C10 (scenario S4/S5): the offset of object 4 fits the width
`f1` computed for `inputS4`. -/
theorem xref_widths_minimal_witness :
    (maxType1Offset (stateS4 16).xref).toNat < 256 ^ (stateS4 17).xref_f1_nbytes :=
  (xref_widths_minimal "in.qdf".toList ((splitLines inputS4).take 16) (stateS4 16)
    (stateS4 17) "  /Type /XRef\n".toList rfl rfl (by decide) (by decide) rfl rfl rfl).2.2.1

/-- C16: Binary writer.  For every value `v` and width `w ≤ 8` the call
`writeBinary(v, w)` succeeds and appends the `w` bytes of the big-endian
encoding of `v`: their value read as a big-endian unsigned integer is
`v mod 256 ^ w`, which is `v` itself when `v < 256 ^ w`, and nothing is appended
when `w = 0`.  For `w > 8` the call fails and appends nothing. -/
theorem binary_writer (s : QdfFixer) (v w : Nat) :
    (w ≤ 8 →
      s.writeBinary v w = .ok (s.write (beEncode w v)) ∧
      (s.write (beEncode w v)).out = s.out ++ beEncode w v ∧
      (beEncode w v).length = w ∧
      beValue (beEncode w v) = v % 256 ^ w ∧
      (v < 256 ^ w → beValue (beEncode w v) = v) ∧
      (w = 0 → (s.write (beEncode w v)).out = s.out)) ∧
    (8 < w →
      s.writeBinary v w =
        .fail (.exception "fix-qdf::writeBinary called with too many bytes") s.out) := by
  constructor
  · intro hw
    have hsome : ∃ data, FixQdf.writeBinary v w = some data := by
      unfold FixQdf.writeBinary SIZEOF_ULL
      rw [if_neg (by omega)]
      exact ⟨_, rfl⟩
    obtain ⟨data, hd⟩ := hsome
    obtain ⟨-, he⟩ := writeBinary_enc hd
    subst he
    refine ⟨?_, rfl, beEncode_length w v, beValue_beEncode w v, ?_, ?_⟩
    · simp [QdfFixer.writeBinary, hd]
    · intro hv
      rw [beValue_beEncode, Nat.mod_eq_of_lt hv]
    · intro h0
      subst h0
      simp [QdfFixer.write, beEncode]
  · intro hw
    have hnone : FixQdf.writeBinary v w = none := by
      unfold FixQdf.writeBinary SIZEOF_ULL
      rw [if_pos (by omega)]
    simp [QdfFixer.writeBinary, hnone, QdfFixer.fail]

/-- Witness of C16: the value 258 in two bytes is written as the bytes 1 and 2. -/
theorem binary_writer_witness :
    (QdfFixer.init []).writeBinary 258 2 =
        .ok ((QdfFixer.init []).write [Char.ofNat 1, Char.ofNat 2]) ∧
      beValue [Char.ofNat 1, Char.ofNat 2] = 258 % 256 ^ 2 :=
  ⟨((binary_writer (QdfFixer.init []) 258 2).1 (by decide)).1,
    ((binary_writer (QdfFixer.init []) 258 2).1 (by decide)).2.2.2.1⟩

/-- A step `k` that commutes with the change of filename still does after a
computation that does. -/
theorem retag_bind (f g : Bytes) (r r2 : Result QdfFixer) (k k2 : QdfFixer → Result QdfFixer)
    (hr : r2 = r.retag f g ∧ Tagged f r)
    (hk : ∀ a, a.filename = f → k2 { a with filename := g } = (k a).retag f g ∧ Tagged f (k a)) :
    r2.bind k2 = (r.bind k).retag f g ∧ Tagged f (r.bind k) := by
  obtain ⟨rfl, ht⟩ := hr
  cases r with
  | ok a => exact hk a ht
  | fail e w =>
    cases e <;> exact ⟨rfl, ht⟩

theorem retag_fatal (f g : Bytes) (s : QdfFixer) (hf : s.filename = f) (t : Bytes) :
    ({ s with filename := g }.fail (.fatal (g ++ t)) : Result QdfFixer) =
        (s.fail (.fatal (s.filename ++ t))).retag f g ∧
      Tagged f (s.fail (.fatal (s.filename ++ t))) := by
  subst hf
  simp [QdfFixer.fail, Result.retag, Err.retag, Tagged]

theorem checkObjId_retag (f g : Bytes) (s : QdfFixer) (hf : s.filename = f) (d : Bytes) :
    checkObjId { s with filename := g } d = (checkObjId s d).retag f g ∧
      Tagged f (checkObjId s d) := by
  subst hf
  unfold checkObjId
  cases stoi d with
  | none => simp [QdfFixer.fail, Result.retag, Err.retag, Tagged]
  | some n =>
    dsimp only
    split_ifs <;> simp [QdfFixer.fail, Result.retag, Err.retag, Tagged, List.append_assoc]

theorem adjustOstreamXref_retag (f g : Bytes) (s : QdfFixer) (hf : s.filename = f) :
    adjustOstreamXref { s with filename := g } = (adjustOstreamXref s).retag f g ∧
      Tagged f (adjustOstreamXref s) := by
  subst hf
  unfold adjustOstreamXref
  dsimp only
  split_ifs
  · simp [QdfFixer.fail, Result.retag, Err.retag, Tagged]
  · cases s.xref <;> simp [QdfFixer.fail, Result.retag, Err.retag, Tagged]

theorem writeOstream_retag (f g : Bytes) (s : QdfFixer) (hf : s.filename = f) :
    writeOstream { s with filename := g } = (writeOstream s).retag f g ∧
      Tagged f (writeOstream s) := by
  subst hf
  unfold writeOstream
  dsimp only
  cases s.ostream_offsets with
  | nil => simp [QdfFixer.fail, Result.retag, Err.retag, Tagged]
  | cons a rest =>
    dsimp only
    split_ifs <;> simp [QdfFixer.fail, QdfFixer.write, Result.retag, Err.retag, Tagged]

theorem writeBinary_retag (f g : Bytes) (s : QdfFixer) (hf : s.filename = f) (v b : Nat) :
    QdfFixer.writeBinary { s with filename := g } v b = (s.writeBinary v b).retag f g ∧
      Tagged f (s.writeBinary v b) := by
  subst hf
  unfold QdfFixer.writeBinary
  cases FixQdf.writeBinary v b <;>
    simp [QdfFixer.fail, QdfFixer.write, Result.retag, Err.retag, Tagged]

theorem writeRow_retag (f g : Bytes) (s : QdfFixer) (hf : s.filename = f) (t a b : Nat) :
    writeRow { s with filename := g } t a b = (writeRow s t a b).retag f g ∧
      Tagged f (writeRow s t a b) := by
  unfold writeRow
  apply retag_bind f g _ _ _ _ (writeBinary_retag f g s hf _ _)
  intro s1 h1
  apply retag_bind f g _ _ _ _ (writeBinary_retag f g s1 h1 _ _)
  intro s2 h2
  exact writeBinary_retag f g s2 h2 _ _

theorem writeXRefRows_retag (f g : Bytes) (xs : List XRefEntry) : ∀ (s : QdfFixer),
    s.filename = f →
    writeXRefRows { s with filename := g } xs = (writeXRefRows s xs).retag f g ∧
      Tagged f (writeXRefRows s xs) := by
  induction xs with
  | nil => intro s hf; simp [writeXRefRows, Result.retag, Tagged, hf]
  | cons e rest ih =>
    intro s hf
    cases e with
    | uncompressed o =>
      simp only [writeXRefRows]
      split_ifs
      · simp [QdfFixer.fail, Result.retag, Err.retag, Tagged]
      · exact retag_bind f g _ _ _ _ (writeRow_retag f g s hf _ _ _) (fun a ha => ih a ha)
    | compressed sn idx =>
      simp only [writeXRefRows]
      exact retag_bind f g _ _ _ _ (writeRow_retag f g s hf _ _ _) (fun a ha => ih a ha)

theorem writeXRefTable_retag (f g : Bytes) (xs : List XRefEntry) : ∀ (s : QdfFixer),
    s.filename = f →
    writeXRefTable { s with filename := g } xs = (writeXRefTable s xs).retag f g ∧
      Tagged f (writeXRefTable s xs) := by
  induction xs with
  | nil => intro s hf; simp [writeXRefTable, Result.retag, Tagged, hf]
  | cons e rest ih =>
    intro s hf
    simp only [writeXRefTable]
    cases e.getOffset with
    | none => simp [QdfFixer.fail, Result.retag, Err.retag, Tagged]
    | some o =>
      dsimp only
      exact ih (s.write _) (by simpa [QdfFixer.write] using hf)

theorem retag_ok (f g : Bytes) (s : QdfFixer) (hf : s.filename = f) :
    (Result.ok { s with filename := g } : Result QdfFixer) = (Result.ok s).retag f g ∧
      Tagged f (.ok s) :=
  ⟨rfl, hf⟩

theorem stepTop_retag (f g : Bytes) (s : QdfFixer) (hf : s.filename = f) (l : Bytes) :
    stepTop { s with filename := g } l = (stepTop s l).retag f g ∧ Tagged f (stepTop s l) := by
  unfold stepTop
  cases re_n_0_obj l with
  | some d =>
    dsimp only
    apply retag_bind f g _ _ _ _ (checkObjId_retag f g s hf d)
    intro a ha
    exact ⟨rfl, by simpa [Tagged, QdfFixer.write] using ha⟩
  | none =>
    dsimp only
    split_ifs
    · exact ⟨rfl, by simpa [Tagged, QdfFixer.write] using hf⟩
    · exact ⟨rfl, by simpa [Tagged, QdfFixer.write] using hf⟩

theorem startXRefStream_retag (f g : Bytes) (s : QdfFixer) (hf : s.filename = f) :
    startXRefStream { s with filename := g } = (startXRefStream s).retag f g ∧
      Tagged f (startXRefStream s) := by
  subst hf
  unfold startXRefStream
  dsimp only
  cases s.xref.getLast? with
  | none => simp [QdfFixer.fail, Result.retag, Err.retag, Tagged]
  | some e =>
    dsimp only
    cases e.getOffset with
    | none => simp [QdfFixer.fail, Result.retag, Err.retag, Tagged]
    | some o =>
      dsimp only
      split_ifs <;> simp [QdfFixer.fail, QdfFixer.write, Result.retag, Err.retag, Tagged]

theorem stepInObj_retag (f g : Bytes) (s : QdfFixer) (hf : s.filename = f) (l : Bytes) :
    stepInObj { s with filename := g } l = (stepInObj s l).retag f g ∧
      Tagged f (stepInObj s l) := by
  unfold stepInObj
  dsimp only
  split_ifs
  · exact ⟨rfl, by simpa [Tagged, QdfFixer.write] using hf⟩
  · exact ⟨rfl, by simpa [Tagged, QdfFixer.write] using hf⟩
  · exact ⟨rfl, by simpa [Tagged, QdfFixer.write] using hf⟩
  · exact startXRefStream_retag f g (s.write l) (by simpa [QdfFixer.write] using hf)
  · exact ⟨rfl, by simpa [Tagged, QdfFixer.write] using hf⟩

theorem stepInOstreamDict_retag (f g : Bytes) (s : QdfFixer) (hf : s.filename = f) (l : Bytes) :
    stepInOstreamDict { s with filename := g } l = (stepInOstreamDict s l).retag f g ∧
      Tagged f (stepInOstreamDict s l) := by
  unfold stepInOstreamDict
  dsimp only
  split_ifs
  · exact ⟨rfl, hf⟩
  · cases re_extends l <;> exact ⟨rfl, hf⟩

theorem stepInOstreamOffsets_retag (f g : Bytes) (s : QdfFixer) (hf : s.filename = f)
    (l : Bytes) :
    stepInOstreamOffsets { s with filename := g } l = (stepInOstreamOffsets s l).retag f g ∧
      Tagged f (stepInOstreamOffsets s l) := by
  unfold stepInOstreamOffsets
  cases re_ostream_obj l with
  | some d =>
    dsimp only
    apply retag_bind f g _ _ _ _ (checkObjId_retag f g s hf d)
    intro a ha
    exact ⟨rfl, ha⟩
  | none => exact ⟨rfl, hf⟩

theorem stepInOstreamOuter_retag (f g : Bytes) (s : QdfFixer) (hf : s.filename = f)
    (l : Bytes) :
    stepInOstreamOuter { s with filename := g } l = (stepInOstreamOuter s l).retag f g ∧
      Tagged f (stepInOstreamOuter s l) := by
  unfold stepInOstreamOuter
  apply retag_bind f g _ _ _ _ (adjustOstreamXref_retag f g s hf)
  intro a ha
  exact ⟨rfl, ha⟩

theorem stepInOstreamObj_retag (f g : Bytes) (s : QdfFixer) (hf : s.filename = f) (l : Bytes) :
    stepInOstreamObj { s with filename := g } l = (stepInOstreamObj s l).retag f g ∧
      Tagged f (stepInOstreamObj s l) := by
  unfold stepInOstreamObj
  dsimp only
  cases re_ostream_obj l with
  | some d =>
    dsimp only
    apply retag_bind f g _ _ _ _
      (checkObjId_retag f g { s with ostream := s.ostream ++ [l] } hf d)
    intro a ha
    exact ⟨rfl, ha⟩
  | none =>
    dsimp only
    split_ifs
    · subst hf
      simp [QdfFixer.fail, Result.retag, Err.retag, Tagged]
    · apply retag_bind f g _ _ _ _
        (writeOstream_retag f g { s with
          ostream := s.ostream ++ [l]
          stream_length := (s.last_offset - s.stream_start).toNat } hf)
      intro a ha
      exact ⟨rfl, ha⟩
    · exact ⟨rfl, hf⟩

theorem stepInXRefStreamDict_retag (f g : Bytes) (s : QdfFixer) (hf : s.filename = f)
    (l : Bytes) :
    stepInXRefStreamDict { s with filename := g } l = (stepInXRefStreamDict s l).retag f g ∧
      Tagged f (stepInXRefStreamDict s l) := by
  have key : ∀ u : QdfFixer, u.filename = f →
      ((if l = "stream\n".toList then
        (writeRow { u with filename := g } 0 0 0).bind fun s1 =>
        (writeXRefRows s1 s1.xref).bind fun s2 =>
          .ok ({ s2 with state := .st_done }.write
            ("\nendstream\nendobj\n\n".toList ++ "startxref\n".toList ++
              intToDec s2.xref_offset ++ "\n%%EOF\n".toList))
      else .ok { u with filename := g }) =
      (if l = "stream\n".toList then
        (writeRow u 0 0 0).bind fun s1 =>
        (writeXRefRows s1 s1.xref).bind fun s2 =>
          .ok ({ s2 with state := .st_done }.write
            ("\nendstream\nendobj\n\n".toList ++ "startxref\n".toList ++
              intToDec s2.xref_offset ++ "\n%%EOF\n".toList))
      else .ok u).retag f g) ∧
      Tagged f (if l = "stream\n".toList then
        (writeRow u 0 0 0).bind fun s1 =>
        (writeXRefRows s1 s1.xref).bind fun s2 =>
          .ok ({ s2 with state := .st_done }.write
            ("\nendstream\nendobj\n\n".toList ++ "startxref\n".toList ++
              intToDec s2.xref_offset ++ "\n%%EOF\n".toList))
      else .ok u) := by
    intro u hu
    split_ifs
    · apply retag_bind f g _ _ _ _ (writeRow_retag f g u hu 0 0 0)
      intro a ha
      apply retag_bind f g _ _ _ _ (writeXRefRows_retag f g _ a ha)
      intro b hb
      exact ⟨rfl, by simpa [Tagged, QdfFixer.write] using hb⟩
    · exact ⟨rfl, hu⟩
  unfold stepInXRefStreamDict
  dsimp only
  by_cases h1 : (hasSub "/Length".toList l || hasSub "/W".toList l) = true
  · simp only [h1, if_true]
    exact key s hf
  · by_cases h2 : hasSub "/Size".toList l = true
    · simp only [h1, h2, if_true, if_false]
      exact key (s.write _) (by simpa [QdfFixer.write] using hf)
    · simp only [h1, h2, if_false]
      exact key (s.write _) (by simpa [QdfFixer.write] using hf)

theorem stepInStream_retag (f g : Bytes) (s : QdfFixer) (hf : s.filename = f) (l : Bytes) :
    stepInStream { s with filename := g } l = (stepInStream s l).retag f g ∧
      Tagged f (stepInStream s l) := by
  unfold stepInStream
  dsimp only
  split_ifs
  · subst hf
    simp [QdfFixer.fail, Result.retag, Err.retag, Tagged]
  · exact ⟨rfl, by simpa [Tagged, QdfFixer.write] using hf⟩
  · exact ⟨rfl, by simpa [Tagged, QdfFixer.write] using hf⟩

theorem stepAfterStream_retag (f g : Bytes) (s : QdfFixer) (hf : s.filename = f) (l : Bytes) :
    stepAfterStream { s with filename := g } l = (stepAfterStream s l).retag f g ∧
      Tagged f (stepAfterStream s l) := by
  unfold stepAfterStream
  dsimp only
  split_ifs
  · exact ⟨rfl, by simpa [Tagged, QdfFixer.write] using hf⟩
  · exact ⟨rfl, by simpa [Tagged, QdfFixer.write] using hf⟩
  · cases re_n_0_obj l with
    | some d =>
      dsimp only
      apply retag_bind f g _ _ _ _ (checkObjId_retag f g s hf d)
      intro a ha
      exact ⟨rfl, by simpa [Tagged, QdfFixer.write] using ha⟩
    | none => exact ⟨rfl, by simpa [Tagged, QdfFixer.write] using hf⟩

theorem stepInLength_retag (f g : Bytes) (s : QdfFixer) (hf : s.filename = f) (l : Bytes) :
    stepInLength { s with filename := g } l = (stepInLength s l).retag f g ∧
      Tagged f (stepInLength s l) := by
  unfold stepInLength
  dsimp only
  split_ifs
  · subst hf
    simp [QdfFixer.fail, Result.retag, Err.retag, Tagged, List.append_assoc]
  · subst hf
    simp [QdfFixer.fail, Result.retag, Err.retag, Tagged]
  · exact ⟨rfl, by simpa [Tagged, QdfFixer.write] using hf⟩

theorem stepAtXRef_retag (f g : Bytes) (s : QdfFixer) (hf : s.filename = f) (l : Bytes) :
    stepAtXRef { s with filename := g } l = (stepAtXRef s l).retag f g ∧
      Tagged f (stepAtXRef s l) := by
  unfold stepAtXRef
  dsimp only
  apply retag_bind f g _ _ _ _
    (writeXRefTable_retag f g _ (s.write _) (by simpa [QdfFixer.write] using hf))
  intro a ha
  exact ⟨rfl, ha⟩

theorem stepBeforeTrailer_retag (f g : Bytes) (s : QdfFixer) (hf : s.filename = f) (l : Bytes) :
    stepBeforeTrailer { s with filename := g } l = (stepBeforeTrailer s l).retag f g ∧
      Tagged f (stepBeforeTrailer s l) := by
  unfold stepBeforeTrailer
  split_ifs
  · exact ⟨rfl, by simpa [Tagged, QdfFixer.write] using hf⟩
  · exact ⟨rfl, hf⟩

theorem stepInTrailer_retag (f g : Bytes) (s : QdfFixer) (hf : s.filename = f) (l : Bytes) :
    stepInTrailer { s with filename := g } l = (stepInTrailer s l).retag f g ∧
      Tagged f (stepInTrailer s l) := by
  unfold stepInTrailer
  dsimp only
  split_ifs <;> exact ⟨rfl, by simpa [Tagged, QdfFixer.write] using hf⟩

/-- One loop iteration commutes with the change of filename. -/
theorem step_retag (f g : Bytes) (s : QdfFixer) (hf : s.filename = f) (l : Bytes) :
    step { s with filename := g } l = (step s l).retag f g ∧ Tagged f (step s l) := by
  unfold step
  dsimp only
  split_ifs
  · subst hf
    simp [QdfFixer.fail, Result.retag, Err.retag, Tagged]
  · have ha : (advance s l).filename = f := hf
    have hd : advance { s with filename := g } l = { advance s l with filename := g } := rfl
    rw [hd]
    generalize advance s l = u at ha
    generalize hv : ({ u with filename := g } : QdfFixer) = v
    have hvs : v.state = u.state := by rw [← hv]
    unfold dispatch
    rw [hvs]
    cases hst : u.state <;> dsimp only <;> rw [← hv]
    · exact stepTop_retag f g u ha l
    · exact stepInObj_retag f g u ha l
    · exact stepInStream_retag f g u ha l
    · exact stepAfterStream_retag f g u ha l
    · exact stepInOstreamDict_retag f g u ha l
    · exact stepInOstreamOffsets_retag f g u ha l
    · exact stepInOstreamOuter_retag f g u ha l
    · exact stepInOstreamObj_retag f g u ha l
    · exact stepInXRefStreamDict_retag f g u ha l
    · exact stepInLength_retag f g u ha l
    · exact stepAtXRef_retag f g u ha l
    · exact stepBeforeTrailer_retag f g u ha l
    · exact stepInTrailer_retag f g u ha l
    · exact ⟨rfl, ha⟩

theorem runLines_retag (f g : Bytes) (ls : List Bytes) : ∀ (s : QdfFixer), s.filename = f →
    (runLines { s with filename := g } ls = (runLines s ls).retag f g ∧
      Tagged f (runLines s ls)) ∧
    failLine { s with filename := g } ls = failLine s ls := by
  induction ls with
  | nil => intro s hf; exact ⟨⟨rfl, hf⟩, rfl⟩
  | cons l rest ih =>
    intro s hf
    obtain ⟨h1, h2⟩ := step_retag f g s hf l
    constructor
    · simp only [runLines]
      exact retag_bind f g _ _ _ _ ⟨h1, h2⟩ (fun a ha => (ih a ha).1)
    · simp only [failLine, h1]
      cases hs : step s l with
      | ok a =>
        rw [hs] at h2
        simp only [Result.retag]
        rw [(ih a h2).2]
      | fail e w => rfl

theorem sameOutcome_retag (f g : Bytes) (r : Result QdfFixer) (h : Tagged f r) :
    SameOutcome f g r (r.retag f g) := by
  cases r with
  | ok s => rfl
  | fail e w =>
    cases e with
    | fatal m =>
      obtain ⟨t, rfl⟩ := h
      exact ⟨rfl, Or.inl ⟨t, rfl, by simp [Err.retag]⟩⟩
    | exception x => exact ⟨rfl, Or.inr ⟨rfl, by simp⟩⟩
    | undefined x => exact ⟨rfl, Or.inr ⟨rfl, by simp⟩⟩

/-- C20: Determinism and filename independence.  For every input and filenames
`f` and `g`, the runs constructed with `f` and with `g` either both finish, with
the same output, or both stop at the same line with the same bytes written and
the same error; the two messages of a `fatal` stop are `f` and `g` followed by
the same text.  (That a run on the same filename and input gives the same
outcome is the fact that `processLines` is a function.) -/
theorem filename_independence (f g input : Bytes) :
    SameOutcome f g (processLines f input) (processLines g input) ∧
      failLine (QdfFixer.init f) (splitLines input) =
        failLine (QdfFixer.init g) (splitLines input) := by
  have h := runLines_retag f g (splitLines input) (QdfFixer.init f) rfl
  have e1 : processLines f input = runLines (QdfFixer.init f) (splitLines input) := rfl
  have e2 : processLines g input = runLines (QdfFixer.init g) (splitLines input) := rfl
  have e3 : { QdfFixer.init f with filename := g } = QdfFixer.init g := rfl
  rw [e3] at h
  rw [e1, e2, h.1.1]
  exact ⟨sameOutcome_retag f g _ h.1.2, h.2.symm⟩

theorem writeXRefTable_text (xs : List XRefEntry) : ∀ (s s1 : QdfFixer),
    writeXRefTable s xs = .ok s1 ↔
      (∀ e ∈ xs, e.getOffset ≠ none) ∧ s1 = s.write (tableText xs) := by
  induction xs with
  | nil =>
    intro s s1
    simp [writeXRefTable, tableText, eq_comm]
  | cons e rest ih =>
    intro s s1
    cases e with
    | compressed a b =>
      simp [writeXRefTable, XRefEntry.getOffset, QdfFixer.fail]
    | uncompressed o =>
      simp only [writeXRefTable, XRefEntry.getOffset, ih, write_write]
      simp [tableText, XRefEntry.getOffset]

theorem writeBinary_le (s : QdfFixer) (v w : Nat) (hw : w ≤ 8) :
    s.writeBinary v w = .ok (s.write (beEncode w v)) := by
  have hsome : ∃ data, FixQdf.writeBinary v w = some data := by
    unfold FixQdf.writeBinary SIZEOF_ULL
    rw [if_neg (by omega)]
    exact ⟨_, rfl⟩
  obtain ⟨data, hd⟩ := hsome
  obtain ⟨-, he⟩ := writeBinary_enc hd
  subst he
  simp [QdfFixer.writeBinary, hd]

theorem writeRow_pack (s : QdfFixer) (t a b : Nat) (h1 : s.xref_f1_nbytes ≤ 8)
    (h2 : s.xref_f2_nbytes ≤ 8) :
    writeRow s t a b = .ok (s.write (packRow s.xref_f1_nbytes s.xref_f2_nbytes (t, a, b))) := by
  unfold writeRow
  rw [writeBinary_le s t 1 (by omega)]
  simp only [Result.bind_ok]
  have e1 : (s.write (beEncode 1 t)).xref_f1_nbytes = s.xref_f1_nbytes := rfl
  rw [e1, writeBinary_le _ a _ h1]
  simp only [Result.bind_ok]
  have e2 : ((s.write (beEncode 1 t)).write (beEncode s.xref_f1_nbytes a)).xref_f2_nbytes =
      s.xref_f2_nbytes := rfl
  rw [e2, writeBinary_le _ b _ h2]
  simp [packRow, QdfFixer.write]

theorem writeXRefRows_pack (xs : List XRefEntry) : ∀ (s : QdfFixer),
    s.xref_f1_nbytes ≤ 8 → s.xref_f2_nbytes ≤ 8 →
    (∀ o, XRefEntry.uncompressed o ∈ xs → 0 ≤ o) →
    writeXRefRows s xs = .ok (s.write (((xs.map entryFields).map
        (packRow s.xref_f1_nbytes s.xref_f2_nbytes)).flatten)) := by
  induction xs with
  | nil => intro s _ _ _; simp [writeXRefRows]
  | cons e rest ih =>
    intro s h1 h2 hnn
    cases e with
    | uncompressed o =>
      have ho : ¬ o < 0 := by
        have := hnn o (by simp)
        omega
      simp only [writeXRefRows, if_neg ho, writeRow_pack s _ _ _ h1 h2, Result.bind_ok]
      rw [ih (s.write _) h1 h2 (fun o2 ho2 => hnn o2 (by simp [ho2]))]
      simp [QdfFixer.write, entryFields]
    | compressed sn idx =>
      simp only [writeXRefRows, writeRow_pack s _ _ _ h1 h2, Result.bind_ok]
      rw [ih (s.write _) h1 h2 (fun o2 ho2 => hnn o2 (by simp [ho2]))]
      simp [QdfFixer.write, entryFields]

theorem re_n_0_obj_xref : re_n_0_obj "xref\n".toList = none := by decide

theorem re_size_n_end : re_size_n ">>\n".toList = false := by decide

theorem hasSub_stream_or :
    (hasSub "/Length".toList "stream\n".toList || hasSub "/W".toList "stream\n".toList) =
      false := by decide

/-- Every successful loop iteration takes one of the branches of `StepOk`. -/
theorem step_cases {s s1 : QdfFixer} {l : Bytes} (h : step s l = .ok s1) :
    s.offset + (l.length : Int) ≤ OFFSET_MAX ∧ StepOk s l s1 := by
  unfold step at h
  split_ifs at h with hov <;> try (simp at h; done)
  refine ⟨by omega, ?_⟩
  unfold dispatch at h
  simp only [advance] at h
  cases hst : s.state <;> simp only [hst] at h
  · -- top
    unfold stepTop at h
    split at h
    · rename_i d hd
      obtain ⟨a, ha1, ha2⟩ := Result.bind_eq_ok.1 h
      obtain ⟨h4, h5, rfl⟩ := checkObjId_ok ha1
      simp only [Result.ok.injEq] at ha2
      subst ha2
      have := StepOk.top_header (l := l) hst d hd h4 h5
      simpa only [advance, QdfFixer.write, hst] using this
    · rename_i hd
      split_ifs at h with hx <;> simp only [Result.ok.injEq] at h <;> subst h
      · have := StepOk.top_xref (l := l) hst hx
        simpa only [advance, QdfFixer.write, hst] using this
      · have := StepOk.top_other (l := l) hst hd hx
        simpa only [advance, QdfFixer.write, hst] using this
  · -- in_obj
    unfold stepInObj startXRefStream at h
    dsimp only at h
    split_ifs at h with c1 c2 c3 c4
    · simp only [Result.ok.injEq] at h; subst h
      have := StepOk.obj_stream (l := l) hst c1
      simpa [advance, QdfFixer.write] using this
    · simp only [Result.ok.injEq] at h; subst h
      have := StepOk.obj_endobj (l := l) hst c2
      simpa only [advance, QdfFixer.write, hst] using this
    · simp only [Result.ok.injEq] at h; subst h
      have := StepOk.obj_ostm (l := l) hst c1 c2 c3
      simpa only [advance, QdfFixer.write, hst] using this
    · split at h
      · simp at h
      · rename_i e he
        split at h
        · simp at h
        · rename_i o ho
          split_ifs at h with hneg <;> try (simp at h; done)
          simp only [Result.ok.injEq] at h; subst h
          cases e with
          | compressed a b => simp [XRefEntry.getOffset] at ho
          | uncompressed p =>
            simp only [XRefEntry.getOffset, Option.some.injEq] at ho
            subst ho
            simp only [QdfFixer.write] at he hneg
            have := StepOk.obj_xref (l := l) hst c1 c2 (by simpa using c3) c4 p he (by omega)
            simpa [advance, QdfFixer.write, xrefDictLines] using this
    · simp only [Result.ok.injEq] at h; subst h
      have := StepOk.obj_other (l := l) hst c1 c2 (by simpa using c3) (by simpa using c4)
      simpa only [advance, QdfFixer.write, hst] using this
  · -- in_stream
    unfold stepInStream at h
    split_ifs at h with c1 c2 <;> try (simp at h; done)
    · simp only [Result.ok.injEq] at h; subst h
      have := StepOk.stream_end (l := l) hst c1 (by dsimp only at c2; omega)
      simpa only [advance, QdfFixer.write, hst] using this
    · simp only [Result.ok.injEq] at h; subst h
      have := StepOk.stream_other (l := l) hst c1
      simpa only [advance, QdfFixer.write, hst] using this
  · -- after_stream
    unfold stepAfterStream at h
    split_ifs at h with c1 c2
    · simp only [Result.ok.injEq] at h; subst h
      have := StepOk.after_marker (l := l) hst c1
      simpa only [advance, QdfFixer.write, hst] using this
    · simp only [Result.ok.injEq] at h; subst h
      have := StepOk.after_marker (l := l) hst c1
      have h0 : s.stream_length - 1 = s.stream_length := by
        dsimp only at c2
        omega
      rw [h0] at this
      simpa only [advance, QdfFixer.write, hst] using this
    · split at h
      · rename_i d hd
        obtain ⟨a, ha1, ha2⟩ := Result.bind_eq_ok.1 h
        obtain ⟨h4, h5, rfl⟩ := checkObjId_ok ha1
        simp only [Result.ok.injEq] at ha2
        subst ha2
        have := StepOk.after_header (l := l) hst d hd h4 h5
        simpa only [advance, QdfFixer.write, hst] using this
      · rename_i hd
        simp only [Result.ok.injEq] at h; subst h
        have := StepOk.after_other (l := l) hst c1 hd
        simpa only [advance, QdfFixer.write, hst] using this
  · -- in_ostream_dict
    unfold stepInOstreamDict at h
    split_ifs at h with c1
    · simp only [Result.ok.injEq] at h; subst h
      have := StepOk.dict_stream (l := l) hst c1
      simpa only [advance, QdfFixer.write, hst] using this
    · dsimp only at h
      have := StepOk.dict_line (l := l) hst c1
      split at h <;> rename_i hm <;>
      · simp only [Result.ok.injEq] at h; subst h
        simpa [advance, hm, hst] using this
  · -- in_ostream_offsets
    unfold stepInOstreamOffsets at h
    split at h
    · rename_i d hd
      obtain ⟨a, ha1, ha2⟩ := Result.bind_eq_ok.1 h
      obtain ⟨h4, h5, rfl⟩ := checkObjId_ok ha1
      simp only [Result.ok.injEq] at ha2
      subst ha2
      have := StepOk.offsets_marker (l := l) hst d hd h4 h5
      simpa only [advance, QdfFixer.write, hst] using this
    · rename_i hd
      simp only [Result.ok.injEq] at h; subst h
      have := StepOk.offsets_other (l := l) hst hd
      simpa only [advance, QdfFixer.write, hst] using this
  · -- in_ostream_outer
    unfold stepInOstreamOuter at h
    obtain ⟨a, ha1, ha2⟩ := Result.bind_eq_ok.1 h
    obtain ⟨h4, h5, rfl⟩ := adjustOstreamXref_ok ha1
    simp only [Result.ok.injEq] at ha2
    subst ha2
    have := StepOk.outer_line (l := l) hst h4 h5
    simpa only [advance, QdfFixer.write, hst] using this
  · -- in_ostream_obj
    unfold stepInOstreamObj at h
    dsimp only at h
    split at h
    · rename_i d hd
      obtain ⟨a, ha1, ha2⟩ := Result.bind_eq_ok.1 h
      obtain ⟨h4, h5, rfl⟩ := checkObjId_ok ha1
      simp only [Result.ok.injEq] at ha2
      subst ha2
      have := StepOk.obj_marker (l := l) hst d hd h4 h5
      simpa only [advance, QdfFixer.write, hst] using this
    · rename_i hd
      split_ifs at h with c1 c2 <;> try (simp at h; done)
      · obtain ⟨a, ha1, ha2⟩ := Result.bind_eq_ok.1 h
        have ha1c := ha1
        obtain ⟨first, rest, hfr, h4, rfl, h5⟩ := writeOstream_ok ha1
        simp only [Result.ok.injEq] at ha2
        subst ha2
        dsimp only at hfr h4 h5 c2
        unfold writeOstream at ha1c
        simp only [hfr] at ha1c
        split_ifs at ha1c with d1 d2 d3 d4 d5 d6 <;> try (simp at ha1c; done)
        simp only [QdfFixer.write, hfr] at d1 d2 d3 d4 d5 d6
        have := StepOk.obj_flush (l := l) hst c1 (by omega) first rest hfr h4
          (by rw [hfr]; omega) (by rw [hfr]; omega) (by rw [hfr]; omega)
        simpa [advance, hfr] using this
      · simp only [Result.ok.injEq] at h; subst h
        have := StepOk.obj_line (l := l) hst hd c1
        simpa only [advance, QdfFixer.write, hst] using this
  · -- in_xref_stream_dict
    unfold stepInXRefStreamDict at h
    dsimp only at h
    by_cases c1 : (hasSub "/Length".toList l || hasSub "/W".toList l) = true
    · have hl : l ≠ "stream\n".toList := by
        intro hc
        rw [hc, hasSub_stream_or] at c1
        cases c1
      simp only [c1, if_true, if_neg hl, Result.ok.injEq] at h
      subst h
      have := StepOk.xdict_skip (l := l) hst c1
      simpa only [advance, QdfFixer.write, hst] using this
    · have c1f : (hasSub "/Length".toList l || hasSub "/W".toList l) = false := by
        simpa using c1
      by_cases c2 : hasSub "/Size".toList l = true
      · have hl : l ≠ "stream\n".toList := by
          intro hc
          rw [hc, hasSub_stream_size] at c2
          cases c2
        simp only [c1f, c2, if_true, if_neg hl, Result.ok.injEq, Bool.false_eq_true,
          if_false] at h
        subst h
        have := StepOk.xdict_size (l := l) hst c1f c2
        simpa only [advance, QdfFixer.write, hst] using this
      · have c2f : hasSub "/Size".toList l = false := by simpa using c2
        simp only [c1f, c2f, Bool.false_eq_true, if_false] at h
        split_ifs at h with hl
        · obtain ⟨a1, h1, h⟩ := Result.bind_eq_ok.1 h
          obtain ⟨a2, h2, h⟩ := Result.bind_eq_ok.1 h
          obtain ⟨hf1, hf2, rfl⟩ := writeRow_enc h1
          obtain ⟨rfl, h3⟩ := writeXRefRows_enc h2
          simp only [Result.ok.injEq] at h
          subst h
          simp only [QdfFixer.write] at hf1 hf2 h3
          have := StepOk.xdict_stream (l := l) hst hl hf1 hf2 h3
          simpa [advance, QdfFixer.write, packXRef, xrefStreamTail] using this
        · simp only [Result.ok.injEq] at h; subst h
          have := StepOk.xdict_line (l := l) hst c1f c2f hl
          simpa only [advance, QdfFixer.write, hst] using this
  · -- in_length
    unfold stepInLength at h
    dsimp only at h
    split_ifs at h with c1 c2 <;> try (simp at h; done)
    simp only [Result.ok.injEq] at h; subst h
    simp only [List.length_append, List.length_cons, List.length_nil, String.toList,
      Nat.cast_add] at c2
    have := StepOk.in_length (l := l) hst (by simpa using c1)
      (by simp only [Nat.cast_add]; simp at c2 ⊢; omega)
    have e : s.offset + (l.length : Int) - (l.length : Int) +
        (((toDec s.stream_length ++ "\n".toList).length : Nat) : Int) =
        s.offset + (((toDec s.stream_length).length + 1 : Nat) : Int) := by
      simp
    simp only [advance, QdfFixer.write, e] at this ⊢
    exact this
  · -- at_xref
    unfold stepAtXRef at h
    dsimp only at h
    obtain ⟨a1, h1, h⟩ := Result.bind_eq_ok.1 h
    obtain ⟨hall, rfl⟩ := (writeXRefTable_text _ _ _).1 h1
    simp only [Result.ok.injEq] at h; subst h
    have := StepOk.at_xref (l := l) hst hall
    simpa [advance, QdfFixer.write] using this
  · -- before_trailer
    unfold stepBeforeTrailer at h
    split_ifs at h with c1 <;> simp only [Result.ok.injEq] at h <;> subst h
    · have := StepOk.before_start (l := l) hst c1
      simpa only [advance, QdfFixer.write, hst] using this
    · have := StepOk.before_other (l := l) hst c1
      simpa only [advance, QdfFixer.write, hst] using this
  · -- in_trailer
    unfold stepInTrailer at h
    dsimp only at h
    by_cases c1 : re_size_n l = true
    · have hl : l ≠ ">>\n".toList := by
        intro hc
        rw [hc, re_size_n_end] at c1
        cases c1
      simp only [c1, if_true, if_neg hl, Result.ok.injEq] at h
      subst h
      have := StepOk.trailer_size (l := l) hst c1
      simpa only [advance, QdfFixer.write, hst] using this
    · have c1f : re_size_n l = false := by simpa using c1
      simp only [c1f, Bool.false_eq_true, if_false] at h
      split_ifs at h with hl <;> simp only [Result.ok.injEq] at h <;> subst h
      · have := StepOk.trailer_end (l := l) hst hl
        simpa [advance, QdfFixer.write] using this
      · have := StepOk.trailer_line (l := l) hst c1f hl
        simpa only [advance, QdfFixer.write, hst] using this
  · -- done
    simp only [Result.ok.injEq] at h; subst h
    have := StepOk.done (l := l) hst
    simpa only [advance, QdfFixer.write, hst] using this

theorem checkObjId_next_eq (s : QdfFixer) (d : Bytes) (hn : stoi d = some (s.last_obj + 1))
    (hlt : s.last_obj < INT_MAX) :
    checkObjId s d = .ok { s with
      last_obj := s.last_obj + 1
      xref := s.xref ++ [XRefEntry.uncompressed s.last_offset] } := by
  have h1 : ¬ s.last_obj ≥ INT_MAX := by omega
  simp [checkObjId, hn, h1]

/-- A branch of `StepOk` whose line keeps `offset` in range is what the loop
body does. -/
theorem step_of_cases {s s1 : QdfFixer} {l : Bytes}
    (hov : s.offset + (l.length : Int) ≤ OFFSET_MAX) (h : StepOk s l s1) :
    step s l = .ok s1 := by
  have hov1 : ¬ s.offset + (l.length : Int) > OFFSET_MAX := by omega
  cases h with
  | top_header hst d hre hn hlt =>
    simp only [step, if_neg hov1, dispatch, advance, hst, stepTop, hre]
    have h1 : ¬ s.last_obj ≥ INT_MAX := by omega
    simp [checkObjId, hn, h1, QdfFixer.write]
  | top_xref hst hl =>
    subst hl
    simp only [step, if_neg hov1, dispatch, advance, hst, stepTop, re_n_0_obj_xref]
    simp [QdfFixer.write]
  | top_other hst hre hl =>
    simp only [step, if_neg hov1, dispatch, advance, hst, stepTop, hre, if_neg hl]
    simp [QdfFixer.write]
  | obj_stream hst hl =>
    simp only [step, if_neg hov1, dispatch, advance, hst, stepInObj, if_pos hl]
    simp [QdfFixer.write]
  | obj_endobj hst hl =>
    have hl1 : l ≠ "stream\n".toList := by rw [hl]; decide
    simp only [step, if_neg hov1, dispatch, advance, hst, stepInObj, if_neg hl1, if_pos hl]
    simp [QdfFixer.write]
  | obj_ostm hst hl1 hl2 h3 =>
    simp only [step, if_neg hov1, dispatch, advance, hst, stepInObj, if_neg hl1, if_neg hl2, h3,
      if_true]
    simp [QdfFixer.write]
  | obj_xref hst hl1 hl2 h3 h4 p hlast hp =>
    have hp1 : ¬ p < 0 := by omega
    simp only [step, if_neg hov1, dispatch, advance, hst, stepInObj, if_neg hl1, if_neg hl2, h3,
      h4, if_true, Bool.false_eq_true, if_false, startXRefStream, QdfFixer.write, hlast,
      XRefEntry.getOffset, if_neg hp1]
    simp [xrefDictLines]
  | obj_other hst hl1 hl2 h3 h4 =>
    simp only [step, if_neg hov1, dispatch, advance, hst, stepInObj, if_neg hl1, if_neg hl2, h3,
      h4, Bool.false_eq_true, if_false]
    simp [QdfFixer.write]
  | stream_end hst hl hge =>
    have hge1 : ¬ s.offset - s.stream_start < 0 := by omega
    simp only [step, if_neg hov1, dispatch, advance, hst, stepInStream, if_pos hl, if_neg hge1]
    simp [QdfFixer.write]
  | stream_other hst hl =>
    simp only [step, if_neg hov1, dispatch, advance, hst, stepInStream, if_neg hl]
    simp [QdfFixer.write]
  | after_marker hst hl =>
    simp only [step, if_neg hov1, dispatch, advance, hst, stepAfterStream, if_pos hl]
    split_ifs with h0
    · simp [QdfFixer.write]
    · have : s.stream_length - 1 = s.stream_length := by omega
      simp [QdfFixer.write, this]
  | after_header hst d hre hn hlt =>
    have hl : l ≠ "%QDF: ignore_newline\n".toList := by
      intro hc
      rw [hc, show "%QDF: ignore_newline\n".toList = ignoreMarker from rfl,
        re_n_0_obj_ignoreMarker] at hre
      cases hre
    simp only [step, if_neg hov1, dispatch, advance, hst, stepAfterStream, if_neg hl, hre]
    have h1 : ¬ s.last_obj ≥ INT_MAX := by omega
    simp [checkObjId, hn, h1, QdfFixer.write]
  | after_other hst hl hre =>
    simp only [step, if_neg hov1, dispatch, advance, hst, stepAfterStream, if_neg hl, hre]
    simp [QdfFixer.write]
  | in_length hst h hov2 =>
    have hov3 : ¬ s.offset + (l.length : Int) - (l.length : Int) +
        (((toDec s.stream_length ++ "\n".toList).length : Nat) : Int) > OFFSET_MAX := by
      simp at hov2 ⊢
      omega
    simp only [step, if_neg hov1, dispatch, advance, hst, stepInLength, h, Bool.not_true,
      Bool.false_eq_true, if_false, if_neg hov3]
    simp [QdfFixer.write]
  | dict_stream hst hl =>
    simp only [step, if_neg hov1, dispatch, advance, hst, stepInOstreamDict, if_pos hl]
  | dict_line hst hl =>
    simp only [step, if_neg hov1, dispatch, advance, hst, stepInOstreamDict, if_neg hl]
    cases re_extends l <;> simp
  | offsets_marker hst d hre hn hlt =>
    simp only [step, if_neg hov1, dispatch, advance, hst, stepInOstreamOffsets, hre]
    have h1 : ¬ s.last_obj ≥ INT_MAX := by omega
    simp [checkObjId, hn, h1]
  | offsets_other hst hre =>
    simp only [step, if_neg hov1, dispatch, advance, hst, stepInOstreamOffsets, hre]
  | outer_line hst hidx hne =>
    have h1 : ¬ s.ostream_idx > INT_MAX := by omega
    simp only [step, if_neg hov1, dispatch, advance, hst, stepInOstreamOuter, adjustOstreamXref,
      if_neg h1]
    cases hx : s.xref with
    | nil => exact absurd hx hne
    | cons a b => simp
  | obj_marker hst d hre hn hlt =>
    simp only [step, if_neg hov1, dispatch, advance, hst, stepInOstreamObj, hre]
    have h1 : ¬ s.last_obj ≥ INT_MAX := by omega
    simp [checkObjId, hn, h1]
  | obj_flush hst hl hge first rest hoffs hmax hfirst hadj hoff =>
    have hge1 : ¬ s.offset - s.stream_start < 0 := by omega
    have hre : re_ostream_obj l = none := by rw [hl]; exact re_ostream_obj_endstream
    have c1 : ¬ s.ostream_id + (first :: rest).length > INT_MAX := by
      rw [← hoffs]; omega
    rw [hoffs] at hfirst hadj hoff
    have hH : (0 : Int) ≤ ((ostreamHeader s.ostream_id first (first :: rest)).length : Int) :=
      Int.natCast_nonneg _
    have hD : (0 : Int) ≤ ((ostreamDict ((s.offset - s.stream_start).toNat +
            (ostreamHeader s.ostream_id first (first :: rest)).length)
          (first :: rest).length
          (first + ((ostreamHeader s.ostream_id first (first :: rest)).length : Int))
          s.ostream_extends).length : Int) := Int.natCast_nonneg _
    simp only [step, if_neg hov1, dispatch, advance, hst, stepInOstreamObj, hre, if_pos hl,
      if_neg hge1, writeOstream, hoffs, if_neg c1, QdfFixer.write]
    rw [if_neg (by omega), if_neg (by omega), if_neg (by omega), if_neg (by omega),
      if_neg (by omega)]
    simp [hl]
  | obj_line hst hre hl =>
    simp only [step, if_neg hov1, dispatch, advance, hst, stepInOstreamObj, hre, if_neg hl]
  | xdict_skip hst h1 =>
    have hl : l ≠ "stream\n".toList := by
      intro hc
      rw [hc, hasSub_stream_or] at h1
      cases h1
    simp only [step, if_neg hov1, dispatch, advance, hst, stepInXRefStreamDict, h1, if_true,
      if_neg hl]
  | xdict_size hst h1 h2 =>
    have hl : l ≠ "stream\n".toList := by
      intro hc
      rw [hc, hasSub_stream_size] at h2
      cases h2
    simp only [step, if_neg hov1, dispatch, advance, hst, stepInXRefStreamDict, h1, h2, if_true,
      Bool.false_eq_true, if_false, if_neg hl]
    simp [QdfFixer.write]
  | xdict_line hst h1 h2 hl =>
    simp only [step, if_neg hov1, dispatch, advance, hst, stepInXRefStreamDict, h1, h2,
      Bool.false_eq_true, if_false, if_neg hl]
    simp [QdfFixer.write]
  | xdict_stream hst hl hf1 hf2 hnn =>
    subst hl
    simp only [step, if_neg hov1, dispatch, advance, hst, stepInXRefStreamDict,
      hasSub_stream_or, hasSub_stream_size, Bool.false_eq_true, if_false, if_true]
    rw [writeRow_pack _ _ _ _ (by simpa [QdfFixer.write] using hf1)
      (by simpa [QdfFixer.write] using hf2)]
    simp only [Result.bind_ok]
    rw [writeXRefRows_pack _ _ (by simpa [QdfFixer.write] using hf1)
      (by simpa [QdfFixer.write] using hf2) (by simpa [QdfFixer.write] using hnn)]
    simp [QdfFixer.write, packXRef, xrefStreamTail]
  | at_xref hst hall =>
    simp only [step, if_neg hov1, dispatch, advance, hst, stepAtXRef]
    rw [(writeXRefTable_text _ _ _).2 ⟨by simpa [QdfFixer.write] using hall, rfl⟩]
    simp [QdfFixer.write]
  | before_start hst hl =>
    simp only [step, if_neg hov1, dispatch, advance, hst, stepBeforeTrailer, if_pos hl]
    simp [QdfFixer.write]
  | before_other hst hl =>
    simp only [step, if_neg hov1, dispatch, advance, hst, stepBeforeTrailer, if_neg hl]
  | trailer_size hst h =>
    have hl : l ≠ ">>\n".toList := by
      intro hc
      rw [hc, re_size_n_end] at h
      cases h
    simp only [step, if_neg hov1, dispatch, advance, hst, stepInTrailer, h, if_true, if_neg hl]
    simp [QdfFixer.write]
  | trailer_end hst hl =>
    subst hl
    simp only [step, if_neg hov1, dispatch, advance, hst, stepInTrailer, re_size_n_end,
      Bool.false_eq_true, if_false, if_true]
    simp [QdfFixer.write]
  | trailer_line hst h hl =>
    simp only [step, if_neg hov1, dispatch, advance, hst, stepInTrailer, h,
      Bool.false_eq_true, if_false, if_neg hl]
    simp [QdfFixer.write]
  | done hst =>
    simp only [step, if_neg hov1, dispatch, advance, hst]

/-- The loop body succeeds exactly along the branches of `StepOk`. -/
theorem step_ok_iff {s s1 : QdfFixer} {l : Bytes} :
    step s l = .ok s1 ↔ s.offset + (l.length : Int) ≤ OFFSET_MAX ∧ StepOk s l s1 :=
  ⟨step_cases, fun h => step_of_cases h.1 h.2⟩

/-- Every successful loop iteration counts the line, keeps the filename and
only appends to the output. -/
theorem step_frame {s s1 : QdfFixer} {l : Bytes} (h : step s l = .ok s1) :
    s1.lineno = s.lineno + 1 ∧ s1.filename = s.filename ∧ ∃ w, s1.out = s.out ++ w := by
  obtain ⟨-, hc⟩ := step_cases h
  cases hc <;> refine ⟨rfl, rfl, ?_⟩ <;> simp only [advance, List.append_assoc] <;> first
    | exact ⟨_, rfl⟩
    | exact ⟨[], (List.append_nil _).symm⟩

theorem runLines_frame (ls : List Bytes) : ∀ {s s1 : QdfFixer}, runLines s ls = .ok s1 →
    s1.lineno = s.lineno + ls.length ∧ s1.filename = s.filename ∧ ∃ w, s1.out = s.out ++ w := by
  induction ls with
  | nil =>
    intro s s1 h
    simp only [runLines, Result.ok.injEq] at h
    subst h
    exact ⟨rfl, rfl, [], by simp⟩
  | cons l rest ih =>
    intro s s1 h
    simp only [runLines] at h
    obtain ⟨a, h1, h2⟩ := Result.bind_eq_ok.1 h
    obtain ⟨e1, e2, w1, e3⟩ := step_frame h1
    obtain ⟨f1, f2, w2, f3⟩ := ih h2
    refine ⟨?_, by rw [f2, e2], w1 ++ w2, by rw [f3, e3, List.append_assoc]⟩
    rw [f1, e1, List.length_cons]
    omega

/-- C15: Length parse error.  In a state `st_in_length` reached after the lines
`ls`, a line that does not match `^\d+\n$` stops the run with the diagnostic
`{filename}:{lineno}: expected integer`, where `lineno` is the number of the
line, and nothing is written for it.  A line that matches raises no error: the
step can only stop where the new `offset` leaves the signed 64-bit range, and
otherwise it writes the stream length and returns to `st_top`. -/
theorem length_parse_error (filename : Bytes) (ls : List Bytes) (s : QdfFixer) (l : Bytes)
    (hrun : runLines (QdfFixer.init filename) ls = .ok s)
    (hst : s.state = .st_in_length)
    (hov : s.offset + (l.length : Int) ≤ OFFSET_MAX) :
    (re_num l = false →
      step s l = .fail (.fatal (filename ++ ":".toList ++ toDec (ls.length + 1) ++
        ": expected integer".toList)) s.out) ∧
    (re_num l = true →
      (∀ e w, step s l = .fail e w → e = .undefined "signed overflow" ∧
        OFFSET_MAX < s.offset + (((toDec s.stream_length).length + 1 : Nat) : Int)) ∧
      (s.offset + (((toDec s.stream_length).length + 1 : Nat) : Int) ≤ OFFSET_MAX →
        step s l = .ok { advance s l with
          offset := s.offset + (((toDec s.stream_length).length + 1 : Nat) : Int)
          state := .st_top
          out := s.out ++ (toDec s.stream_length ++ "\n".toList) })) := by
  obtain ⟨hln, hfn, -⟩ := runLines_frame ls hrun
  have hln1 : s.lineno = ls.length := by simpa [QdfFixer.init] using hln
  have hfn1 : s.filename = filename := by simpa [QdfFixer.init] using hfn
  have hov1 : ¬ s.offset + (l.length : Int) > OFFSET_MAX := by omega
  refine ⟨?_, ?_⟩
  · intro hre
    simp [step, if_neg hov1, dispatch, advance, hst, stepInLength, hre, QdfFixer.fail, hln1,
      hfn1]
  · intro hre
    refine ⟨?_, fun hov2 => step_of_cases hov (StepOk.in_length hst hre hov2)⟩
    intro e w hf
    by_cases hov2 : s.offset + (((toDec s.stream_length).length + 1 : Nat) : Int) ≤ OFFSET_MAX
    · rw [step_of_cases hov (StepOk.in_length hst hre hov2)] at hf
      cases hf
    · have hov3 : s.offset + (l.length : Int) - (l.length : Int) +
          (((toDec s.stream_length ++ "\n".toList).length : Nat) : Int) > OFFSET_MAX := by
        simp at hov2 ⊢
        omega
      simp only [step, if_neg hov1, dispatch, advance, hst, stepInLength, hre, Bool.not_true,
        Bool.false_eq_true, if_false, if_pos hov3, QdfFixer.fail, Result.fail.injEq] at hf
      exact ⟨hf.1.symm, by omega⟩

set_option maxRecDepth 100000 in
/-- Witness of C15: after a stream of six bytes and the header of the length
object, the line `abc` stops the run at line 8 and the line `99` is replaced by
the length `6`. -/
theorem length_parse_error_witness :
    step lengthState "abc\n".toList =
        .fail (.fatal "in.qdf:8: expected integer".toList) lengthState.out ∧
      step lengthState "99\n".toList =
        .ok { advance lengthState "99\n".toList with
          offset := lengthState.offset + 2
          state := .st_top
          out := lengthState.out ++ "6\n".toList } :=
  ⟨(length_parse_error "in.qdf".toList lengthLines lengthState "abc\n".toList rfl rfl
      (by decide)).1 rfl,
    ((length_parse_error "in.qdf".toList lengthLines lengthState "99\n".toList rfl rfl
      (by decide)).2 rfl).2 (by decide)⟩

set_option maxRecDepth 100000 in
theorem digit_isDigit : ∀ n : Nat, n < 10 → (Char.ofNat (48 + n)).isDigit = true := by
  decide

theorem toDecAux_digits : ∀ (fuel n : Nat) (acc : Bytes),
    (∀ c ∈ acc, c.isDigit = true) → ∀ c ∈ toDecAux fuel n acc, c.isDigit = true := by
  intro fuel
  induction fuel with
  | zero => intro n acc h; simpa [toDecAux] using h
  | succ f ih =>
    intro n acc h
    have h1 : ∀ c ∈ Char.ofNat (48 + n % 10) :: acc, c.isDigit = true := by
      intro c hc
      simp only [List.mem_cons] at hc
      rcases hc with rfl | hc
      · exact digit_isDigit _ (Nat.mod_lt _ (by omega))
      · exact h c hc
    simp only [toDecAux]
    split_ifs
    · exact h1
    · exact ih _ _ h1

theorem toDecAux_ne_nil : ∀ (fuel n : Nat) (acc : Bytes), acc ≠ [] ∨ 0 < fuel →
    toDecAux fuel n acc ≠ [] := by
  intro fuel
  induction fuel with
  | zero =>
    intro n acc h
    rcases h with h | h
    · simpa [toDecAux] using h
    · omega
  | succ f ih =>
    intro n acc _
    simp only [toDecAux]
    split_ifs
    · simp
    · exact ih _ _ (Or.inl (by simp))

/-- The decimal rendering of a number consists of digits. -/
theorem toDec_digits (n : Nat) : ∀ c ∈ toDec n, c.isDigit = true :=
  toDecAux_digits _ _ _ (by simp)

theorem toDec_ne_nil (n : Nat) : toDec n ≠ [] :=
  toDecAux_ne_nil _ _ _ (Or.inr (by omega))

theorem takeWhile_digits (d rest : Bytes) (hd : ∀ c ∈ d, c.isDigit = true) (c : Char)
    (hc : c.isDigit = false) :
    (d ++ c :: rest).takeWhile Char.isDigit = d ∧
      (d ++ c :: rest).dropWhile Char.isDigit = c :: rest := by
  induction d with
  | nil => simp [List.takeWhile, List.dropWhile, hc]
  | cons a as ih =>
    have ha : a.isDigit = true := hd a (by simp)
    have := ih (fun x hx => hd x (by simp [hx]))
    simp [List.takeWhile, List.dropWhile, ha, this]

/-- A decimal number followed by a newline matches `^\d+\n$`. -/
theorem re_num_digits (d : Bytes) (hd : ∀ c ∈ d, c.isDigit = true) (hne : d ≠ []) :
    re_num (d ++ "\n".toList) = true := by
  obtain ⟨h1, h2⟩ := takeWhile_digits d [] hd '\n' (by decide)
  have e : d ++ "\n".toList = d ++ '\n' :: [] := rfl
  simp [re_num, e, h1, h2, hne]

theorem re_num_toDec (n : Nat) : re_num (toDec n ++ "\n".toList) = true :=
  re_num_digits _ (toDec_digits n) (toDec_ne_nil n)

/-- A line `  /Size N` with two blanks of indentation matches
`^  /Size \d+\n$`, whatever the number. -/
theorem re_size_n_digits (d : Bytes) (hd : ∀ c ∈ d, c.isDigit = true) (hne : d ≠ []) :
    re_size_n ("  /Size ".toList ++ d ++ "\n".toList) = true := by
  have e : ("  /Size ".toList ++ d ++ "\n".toList).drop 8 = d ++ "\n".toList := by
    simp [List.append_assoc]
  have p : "  /Size ".toList.isPrefixOf ("  /Size ".toList ++ d ++ "\n".toList) = true := by
    simp [List.append_assoc]
  simp only [re_size_n, p, e, re_num_digits d hd hne, Bool.and_self]

/-- C13 (amended): Size correctness.  With `n` the number of table entries,
which is the number of objects read: in the classic trailer a line is replaced
by `  /Size {1+n}` exactly if it matches `^  /Size \d+\n$`, which every number
after two blanks of indentation does, and every other line is written
unchanged (`>>` is followed by the `startxref` lines).  The dictionary of an
XRef stream is read in two states.  Its lines up to and including the line that
contains `/Type /XRef` are read in state `st_in_obj`, where every line is
written unchanged, a `/Size` line too; the `/Type /XRef` line is followed by the
generated `/Length` and `/W` lines.  The lines after it are read in state
`st_in_xref_stream_dict`: a line that contains `/Length` or `/W` is dropped, any
other line that contains `/Size` is replaced by `  /Size {1+n}`, and the
remaining lines are written unchanged. -/
theorem size_correctness (filename : Bytes) (ls : List Bytes) (s : QdfFixer) (l : Bytes)
    (hrun : runLines (QdfFixer.init filename) ls = .ok s)
    (hov : s.offset + (l.length : Int) ≤ OFFSET_MAX) :
    s.xref.length = s.last_obj ∧
    (s.state = .st_in_trailer →
      (re_size_n l = true → step s l = .ok { advance s l with
        out := s.out ++ ("  /Size ".toList ++ toDec (1 + s.xref.length) ++ "\n".toList) }) ∧
      (re_size_n l = false → l ≠ ">>\n".toList →
        step s l = .ok { advance s l with out := s.out ++ l }) ∧
      (l = ">>\n".toList → step s l = .ok { advance s l with
        state := .st_done
        out := s.out ++ l ++
          ("startxref\n".toList ++ intToDec s.xref_offset ++ "\n%%EOF\n".toList) })) ∧
    (s.state = .st_in_xref_stream_dict →
      ((hasSub "/Length".toList l || hasSub "/W".toList l) = true →
        step s l = .ok (advance s l)) ∧
      ((hasSub "/Length".toList l || hasSub "/W".toList l) = false →
        hasSub "/Size".toList l = true → step s l = .ok { advance s l with
          out := s.out ++ ("  /Size ".toList ++ toDec (1 + s.xref.length) ++ "\n".toList) }) ∧
      ((hasSub "/Length".toList l || hasSub "/W".toList l) = false →
        hasSub "/Size".toList l = false → l ≠ "stream\n".toList →
        step s l = .ok { advance s l with out := s.out ++ l })) ∧
    (s.state = .st_in_obj → ∀ s1 : QdfFixer, step s l = .ok s1 →
      (s1.state = .st_in_xref_stream_dict ↔
        (hasSub "/Type /ObjStm".toList l = false ∧ hasSub "/Type /XRef".toList l = true)) ∧
      (s1.state = .st_in_xref_stream_dict →
        s1.out = s.out ++ l ++
          xrefDictLines s.xref.length s1.xref_f1_nbytes s1.xref_f2_nbytes) ∧
      (s1.state ≠ .st_in_xref_stream_dict → s1.out = s.out ++ l)) ∧
    (∀ N : Nat, re_size_n ("  /Size ".toList ++ toDec N ++ "\n".toList) = true) := by
  have hi := runLines_inv (inv_init filename) hrun
  refine ⟨hi.acct.xref_len, ?_, ?_, ?_,
    fun N => re_size_n_digits _ (toDec_digits N) (toDec_ne_nil N)⟩
  · intro hst
    exact ⟨fun h => step_of_cases hov (StepOk.trailer_size hst h),
      fun h hl => step_of_cases hov (StepOk.trailer_line hst h hl),
      fun hl => step_of_cases hov (StepOk.trailer_end hst hl)⟩
  · intro hst
    exact ⟨fun h => step_of_cases hov (StepOk.xdict_skip hst h),
      fun h1 h2 => step_of_cases hov (StepOk.xdict_size hst h1 h2),
      fun h1 h2 hl => step_of_cases hov (StepOk.xdict_line hst h1 h2 hl)⟩
  · intro hst s1 h1
    have ha := hi.acct.acct
    simp only [Acct, hst] at ha
    have hf2 : s.xref_f2_nbytes = 0 := ha.2.2
    obtain ⟨-, hc⟩ := step_cases h1
    have nx1 : hasSub "/Type /XRef".toList "stream\n".toList = false := by decide
    have nx2 : hasSub "/Type /XRef".toList "endobj\n".toList = false := by decide
    cases hc with
    | obj_stream _ hl =>
      refine ⟨⟨fun h => (by cases h), fun h => ?_⟩, fun h => (by cases h), fun _ => rfl⟩
      rw [hl, nx1] at h
      cases h.2
    | obj_endobj _ hl =>
      refine ⟨⟨fun h => (by cases h), fun h => ?_⟩, fun h => (by cases h), fun _ => rfl⟩
      rw [hl, nx2] at h
      cases h.2
    | obj_ostm _ hl1 hl2 h3 =>
      refine ⟨⟨fun h => (by cases h), fun h => ?_⟩, fun h => (by cases h), fun _ => rfl⟩
      rw [h3] at h
      cases h.1
    | obj_xref _ hl1 hl2 h3 h4 p hlast hp =>
      exact ⟨⟨fun _ => ⟨h3, h4⟩, fun _ => rfl⟩, fun _ => rfl, fun h => absurd rfl h⟩
    | obj_other _ hl1 hl2 h3 h4 =>
      refine ⟨⟨fun h => ?_, fun h => ?_⟩, fun h => ?_, fun _ => rfl⟩
      · have h' : s.state = .st_in_xref_stream_dict := h
        rw [hst] at h'
        cases h'
      · rw [h4] at h
        cases h.2
      · have h' : s.state = .st_in_xref_stream_dict := h
        rw [hst] at h'
        cases h'
    | _ => simp_all

set_option maxRecDepth 100000 in
/-- Witness of C13 (scenario S3): after `trailer <<` the line `  /Size 99` is
replaced by `  /Size 3`. -/
theorem size_correctness_witness :
    step (stateS3 10) "  /Size 99\n".toList = .ok { advance (stateS3 10) "  /Size 99\n".toList with
      out := (stateS3 10).out ++
        ("  /Size ".toList ++ toDec (1 + (stateS3 10).xref.length) ++ "\n".toList) } :=
  ((size_correctness "in.qdf".toList ((splitLines inputS3).take 10) (stateS3 10)
    "  /Size 99\n".toList rfl (by decide)).2.1 rfl).1 rfl

set_option maxRecDepth 100000 in
/-- Counterexample to C13 as stated: a `/Size` line of the classic trailer that
is indented by four blanks is written unchanged, not replaced by `  /Size 3`;
and a `/Size` line that stands in the dictionary of an XRef stream in front of
the `/Type /XRef` line is written unchanged, not replaced by `  /Size 2`. -/
theorem size_claim_counterexample :
    outputOf (processLines "in.qdf".toList inputS3wide) =
      some ("1 0 obj\n<<>>\nendobj\n2 0 obj\n<<>>\nendobj\nxref\n0 3\n0000000000 65535 f \n" ++
        "0000000000 00000 n \n0000000020 00000 n \ntrailer <<\n    /Size 99\n>>\n" ++
        "startxref\n40\n%%EOF\n").toList ∧
    outputOf (processLines "in.qdf".toList inputSizeFirst) =
      some ("1 0 obj\n<<\n  /Size 99\n  /Type /XRef\n  /Length 4\n  /W [ 1 0 1 ]\n>>\n".toList ++
        "stream\n".toList ++ [Char.ofNat 0, Char.ofNat 0, Char.ofNat 1, Char.ofNat 0] ++
        "\nendstream\nendobj\n\nstartxref\n0\n%%EOF\n".toList) := by
  decide

/-- In state `st_before_trailer` lines other than `trailer <<` are skipped. -/
theorem runLines_before_trailer (mid : List Bytes) : ∀ s : QdfFixer,
    s.state = .st_before_trailer → (∀ m ∈ mid, m ≠ "trailer <<\n".toList) →
    s.offset + (totalLength mid : Int) ≤ OFFSET_MAX →
    ∃ n lo, runLines s mid = .ok { s with
      lineno := n, last_offset := lo, offset := s.offset + (totalLength mid : Int) } := by
  induction mid with
  | nil =>
    intro s _ _ _
    exact ⟨s.lineno, s.last_offset, by simp [runLines, totalLength]⟩
  | cons m rest ih =>
    intro s hst hm hov
    simp only [totalLength, List.map_cons, List.sum_cons, Nat.cast_add] at hov
    have hpos : (0 : Int) ≤ ((rest.map List.length).sum : Nat) := Int.natCast_nonneg _
    have h1 := step_of_cases (s := s) (l := m) (by omega)
      (StepOk.before_other hst (hm m (by simp)))
    obtain ⟨n, lo, h2⟩ := ih (advance s m) hst (fun x hx => hm x (by simp [hx]))
      (by simp only [advance, totalLength]; omega)
    refine ⟨n, lo, ?_⟩
    simp only [runLines, h1, Result.bind_ok, h2]
    simp [advance, totalLength, Int.add_assoc]

theorem int_to_string_length {o : Int} (h0 : 0 ≤ o) (h1 : o < 10 ^ 10) :
    (int_to_string o 10).length = 10 := by
  have hlt : o.toNat < 10 ^ (9 + 1) := by
    have : (o.toNat : Int) = o := Int.toNat_of_nonneg h0
    have h2 : ((o.toNat : Nat) : Int) < ((10 ^ 10 : Nat) : Int) := by
      rw [this]
      exact_mod_cast h1
    exact_mod_cast h2
  have hlen : (toDec o.toNat).length ≤ 10 := by
    have := toDecAux_length_le 9 (o.toNat + 1) o.toNat [] hlt
    simpa [toDec] using this
  have hneg : ¬ o < 0 := by omega
  simp only [int_to_string, if_neg hneg, List.length_append, List.length_replicate]
  omega

/-- C12 (amended): Classic xref emission.  When `xref` is read in state
`st_top` with a table of `n` entries that are all of type 1, and lines `l` and
`mid` follow that are not `trailer <<` (whatever `l` is), the run goes on until
after `mid`, and what it writes after the line `xref` is
`0 {1+n}\n0000000000 65535 f \n` and one line per entry, in table order: the
offset padded with zeros to ten digits and ` 00000 n \n`, 20 bytes when the
offset is below `10 ^ 10`.  The lines `l` and `mid` are not written, and
`xref_offset` is the position of the line `xref` in the output. -/
theorem classic_xref_emission (filename : Bytes) (ls : List Bytes) (s : QdfFixer) (l : Bytes)
    (mid : List Bytes)
    (hrun : runLines (QdfFixer.init filename) ls = .ok s)
    (hst : s.state = .st_top)
    (hall : ∀ e ∈ s.xref, e.getType = 1)
    (hmid : ∀ m ∈ mid, m ≠ "trailer <<\n".toList)
    (hov : s.offset + ((5 + l.length + totalLength mid : Nat) : Int) ≤ OFFSET_MAX) :
    outputOf (runLines s ("xref\n".toList :: l :: mid)) =
        some (s.out ++ "xref\n".toList ++
          ("0 ".toList ++ toDec (1 + s.xref.length) ++ "\n0000000000 65535 f \n".toList) ++
          ((s.xref.filterMap XRefEntry.getOffset).map fun o =>
            int_to_string o 10 ++ " 00000 n \n".toList).flatten) ∧
      (s.xref.filterMap XRefEntry.getOffset).length = s.xref.length ∧
      (runLines s ("xref\n".toList :: l :: mid)).final.state = .st_before_trailer ∧
      (runLines s ("xref\n".toList :: l :: mid)).final.xref_offset = s.out.length ∧
      (∀ o, XRefEntry.uncompressed o ∈ s.xref → 0 ≤ o ∧
        (o < 10 ^ 10 → (int_to_string o 10 ++ " 00000 n \n".toList).length = 20)) := by
  have hi := runLines_inv (inv_init filename) hrun
  have ha := hi.acct.acct
  simp only [Acct, hst] at ha
  have hoffs : s.offset = s.out.length := ha.1
  have hall2 : ∀ e ∈ s.xref, e.getOffset ≠ none := by
    intro e he
    have := hall e he
    cases e <;> simp [XRefEntry.getType, XRefEntry.getOffset] at this ⊢
  have hcount : (s.xref.filterMap XRefEntry.getOffset).length = s.xref.length := by
    generalize s.xref = xs at hall2
    induction xs with
    | nil => rfl
    | cons e rest ih =>
      have := hall2 e (by simp)
      cases e with
      | uncompressed o =>
        simp only [List.filterMap_cons, XRefEntry.getOffset, List.length_cons]
        rw [ih (fun x hx => hall2 x (by simp [hx]))]
      | compressed a b => simp [XRefEntry.getOffset] at this
  simp only [Nat.cast_add, Nat.cast_ofNat] at hov
  have hl0 : (0 : Int) ≤ (l.length : Int) := Int.natCast_nonneg _
  have hm0 : (0 : Int) ≤ (totalLength mid : Int) := Int.natCast_nonneg _
  obtain ⟨s1, h1, e1, e2, e3, e4, e5⟩ : ∃ s1, step s "xref\n".toList = .ok s1 ∧
      s1.state = .st_at_xref ∧ s1.out = s.out ++ "xref\n".toList ∧ s1.xref = s.xref ∧
      s1.xref_offset = s.offset ∧ s1.offset = s.offset + 5 :=
    ⟨_, step_of_cases (by simp only [String.toList]; simp; omega) (StepOk.top_xref hst rfl),
      rfl, rfl, rfl, rfl, by simp [advance]⟩
  obtain ⟨s2, h2, f1, f2, f3, f4⟩ : ∃ s2, step s1 l = .ok s2 ∧
      s2.state = .st_before_trailer ∧
      s2.out = s1.out ++ ("0 ".toList ++ toDec (1 + s1.xref.length) ++
          "\n0000000000 65535 f \n".toList) ++ tableText s1.xref ∧
      s2.xref_offset = s1.xref_offset ∧ s2.offset = s1.offset + (l.length : Int) :=
    ⟨_, step_of_cases (by omega) (StepOk.at_xref e1 (by rw [e3]; exact hall2)),
      rfl, rfl, rfl, rfl⟩
  obtain ⟨n, lo, h3⟩ := runLines_before_trailer mid s2 f1 hmid (by omega)
  have hrunall : runLines s ("xref\n".toList :: l :: mid) = .ok { s2 with
      lineno := n, last_offset := lo, offset := s2.offset + (totalLength mid : Int) } := by
    simp only [runLines, h1, Result.bind_ok, h2, h3]
  rw [hrunall]
  refine ⟨?_, hcount, f1, ?_, ?_⟩
  · simp only [outputOf, Result.toOption, Option.map, f2, e2, e3, tableText]
  · simp only [Result.final, f3, e4, hoffs]
  · intro o ho
    have h0 : 0 ≤ o := by
      obtain ⟨i, hi1, hi2⟩ := List.getElem_of_mem ho
      have hg := hi.table.entries i _ (by rw [List.getElem?_eq_getElem hi1, hi2])
      rcases hg with hg | ⟨hc, -⟩
      · exact hg.1.1
      · rw [hst] at hc; cases hc
    refine ⟨h0, fun h10 => ?_⟩
    rw [List.length_append, int_to_string_length h0 h10]
    rfl

set_option maxRecDepth 100000 in
/-- Witness of C12 (scenario S3): the table of two objects is written after
`xref`, and the two lines of the stale table are not. -/
theorem classic_xref_emission_witness :
    outputOf (runLines (stateS3 6)
        ("xref\n".toList :: "0 1\n".toList :: ["0000000000 65535 f \n".toList])) =
      some ((stateS3 6).out ++ "xref\n".toList ++
        ("0 ".toList ++ toDec (1 + (stateS3 6).xref.length) ++
          "\n0000000000 65535 f \n".toList) ++
        (((stateS3 6).xref.filterMap XRefEntry.getOffset).map fun o =>
          int_to_string o 10 ++ " 00000 n \n".toList).flatten) :=
  (classic_xref_emission "in.qdf".toList ((splitLines inputS3).take 6) (stateS3 6)
    "0 1\n".toList ["0000000000 65535 f \n".toList] rfl rfl (by decide) (by decide)
    (by decide)).1

set_option maxRecDepth 100000 in
/-- Counterexample to C12 as stated: the table `(1, 0)`, `(2, 1, 0)`, `(1, 123)`
has two entries of type 1, and the run stops at the entry of type 2 after it has
written one table line. -/
theorem classic_xref_claim_counterexample :
    (runLines (QdfFixer.init "in.qdf".toList) ((splitLines inputMixed).take 11)).final.xref =
        [.uncompressed 0, .compressed 1 0, .uncompressed 123] ∧
      processLines "in.qdf".toList inputMixed =
        .fail (.exception "getOffset called for xref entry of type != 1")
          ("1 0 obj\n<< /Type /ObjStm >>\n  /Length 36\n  /N 1\n  /First 31\n>>\nstream\n2 0\n" ++
            "%% Object stream: object 2\n<<>>\nendstream\nendobj\n3 0 obj\n<<>>\nendobj\n" ++
            "xref\n0 4\n0000000000 65535 f \n0000000000 00000 n \n").toList := by
  decide

theorem prefix_drop_append {p out : Bytes} (w : Bytes) (n : Nat) (h : p <+: out.drop n) :
    p <+: (out ++ w).drop n := by
  by_cases hn : n ≤ out.length
  · rw [List.drop_append_of_le_length hn]
    exact h.trans (List.prefix_append _ _)
  · rw [List.drop_of_length_le (by omega)] at h
    have : p = [] := List.prefix_nil.1 h
    subst this
    exact List.nil_prefix

theorem XrefLineAt.grow {s s1 : QdfFixer} (h : XrefLineAt s)
    (hx : s1.xref_offset = s.xref_offset) (w : Bytes) (ho : s1.out = s.out ++ w) :
    XrefLineAt s1 := by
  unfold XrefLineAt at h ⊢
  rw [hx, ho]
  exact ⟨h.1, prefix_drop_append w _ h.2⟩

theorem xinv_init (fn : Bytes) : XInv (QdfFixer.init fn) := by
  constructor <;> simp [QdfFixer.init]

theorem step_xinv {s s1 : QdfFixer} {l : Bytes} (hi : Inv s) (hx : XInv s)
    (h : step s l = .ok s1) : XInv s1 := by
  obtain ⟨-, hc⟩ := step_cases h
  have ha := hi.acct.acct
  cases hc with
  | top_xref hst hl =>
    simp only [Acct, hst] at ha
    refine ⟨fun _ => ?_, fun hd => by cases hd⟩
    refine ⟨by simp only [advance]; omega, ?_⟩
    simp only [advance, ha.1, Int.toNat_ofNat, List.drop_left, hl]
    exact List.prefix_refl _
  | at_xref hst hall =>
    refine ⟨fun _ => ?_, fun hd => by cases hd⟩
    exact (hx.classic (Or.inl hst)).grow rfl _ (List.append_assoc _ _ _)
  | before_start hst hl =>
    refine ⟨fun _ => ?_, fun hd => by cases hd⟩
    exact (hx.classic (Or.inr (Or.inl hst))).grow rfl _ rfl
  | before_other hst hl =>
    refine ⟨fun _ => ?_, fun hd => by simp [advance, hst] at hd⟩
    exact (hx.classic (Or.inr (Or.inl hst))).grow rfl [] (by simp [advance])
  | trailer_size hst hre =>
    refine ⟨fun _ => ?_, fun hd => by simp [advance, hst] at hd⟩
    exact (hx.classic (Or.inr (Or.inr hst))).grow rfl _ rfl
  | trailer_line hst hre hl =>
    refine ⟨fun _ => ?_, fun hd => by simp [advance, hst] at hd⟩
    exact (hx.classic (Or.inr (Or.inr hst))).grow rfl _ rfl
  | trailer_end hst hl =>
    refine ⟨fun hcl => by simp at hcl, fun _ => ?_⟩
    refine ⟨?_, (hx.classic (Or.inr (Or.inr hst))).1⟩
    exact ⟨s.out ++ l, by simp [advance, EndsWithStartxref]⟩
  | xdict_stream hst hl hf1 hf2 hnn =>
    simp only [Acct, hst] at ha
    obtain ⟨p, -, hp0, hp, -⟩ := ha
    refine ⟨fun hcl => by simp at hcl, fun _ => ?_⟩
    refine ⟨?_, by simp only [advance]; omega⟩
    exact ⟨s.out ++ l ++ packXRef s.xref_f1_nbytes s.xref_f2_nbytes s.xref ++
      "\nendstream\nendobj\n\n".toList, by simp [advance, xrefStreamTail]⟩
  | done hst =>
    refine ⟨fun hcl => by simp [advance, hst] at hcl, fun _ => ?_⟩
    exact hx.done hst
  | _ =>
    refine ⟨fun hcl => ?_, fun hd => ?_⟩ <;> simp_all [advance]

theorem runLines_xinv (ls : List Bytes) : ∀ {s s1 : QdfFixer}, Inv s → XInv s →
    runLines s ls = .ok s1 → XInv s1 := by
  induction ls with
  | nil =>
    intro s s1 _ hx h
    simp only [runLines, Result.ok.injEq] at h
    exact h ▸ hx
  | cons l rest ih =>
    intro s s1 hi hx h
    simp only [runLines] at h
    obtain ⟨a, h1, h2⟩ := Result.bind_eq_ok.1 h
    exact ih (step_inv hi h1) (step_xinv hi hx h1) h2

/-- From the trailer on, the machine stays in the trailer or is done, and the
line `xref` stays where `xref_offset` says. -/
theorem trailer_closure (rest : List Bytes) : ∀ (u s : QdfFixer),
    u.state = .st_in_trailer ∨ u.state = .st_done → XrefLineAt u →
    runLines u rest = .ok s →
    (s.state = .st_in_trailer ∨ s.state = .st_done) ∧ XrefLineAt s := by
  induction rest with
  | nil =>
    intro u s hu hq h
    simp only [runLines, Result.ok.injEq] at h
    subst h
    exact ⟨hu, hq⟩
  | cons l rest ih =>
    intro u s hu hq h
    simp only [runLines] at h
    obtain ⟨a, h1, h2⟩ := Result.bind_eq_ok.1 h
    obtain ⟨-, hc⟩ := step_cases h1
    refine ih a s ?_ ?_ h2
    · cases hc <;> first
        | exact Or.inl rfl
        | exact Or.inr rfl
        | (rename_i hst; simp only [advance]; rcases hu with hu | hu <;> simp_all)
    · cases hc with
      | trailer_size hst hre => exact hq.grow rfl _ rfl
      | trailer_line hst hre hl => exact hq.grow rfl _ rfl
      | trailer_end hst hl => exact hq.grow rfl _ (List.append_assoc _ _ _)
      | done hst => exact hq
      | _ => rcases hu with hu | hu <;> simp_all

/-- From the dictionary of the XRef stream on, the machine stays there or is
done, and the header line stays where `xref_offset` says. -/
theorem xdict_closure (rest : List Bytes) (n : Nat) : ∀ (u s : QdfFixer),
    u.state = .st_in_xref_stream_dict ∨ u.state = .st_done →
    IsHeaderAt u.out u.xref_offset n → runLines u rest = .ok s →
    (s.state = .st_in_xref_stream_dict ∨ s.state = .st_done) ∧
      IsHeaderAt s.out s.xref_offset n := by
  induction rest with
  | nil =>
    intro u s hu hq h
    simp only [runLines, Result.ok.injEq] at h
    subst h
    exact ⟨hu, hq⟩
  | cons l rest ih =>
    intro u s hu hq h
    simp only [runLines] at h
    obtain ⟨a, h1, h2⟩ := Result.bind_eq_ok.1 h
    obtain ⟨-, hc⟩ := step_cases h1
    refine ih a s ?_ ?_ h2
    · cases hc <;> first
        | exact Or.inl rfl
        | exact Or.inr rfl
        | (rename_i hst; simp only [advance]; rcases hu with hu | hu <;> simp_all)
    · cases hc with
      | xdict_skip hst h1 => exact hq
      | xdict_size hst h1 h2 => exact hq.append_out _
      | xdict_line hst h1 h2 hl => exact hq.append_out _
      | xdict_stream hst hl hf1 hf2 hnn =>
        have := hq.append_out (l ++ packXRef u.xref_f1_nbytes u.xref_f2_nbytes u.xref ++
          xrefStreamTail u.xref_offset)
        simpa [advance, List.append_assoc] using this
      | done hst => exact hq
      | _ => rcases hu with hu | hu <;> simp_all

theorem runLines_take_drop {ls : List Bytes} {s t : QdfFixer} (h : runLines s ls = .ok t)
    (k : Nat) {u : QdfFixer} (hu : runLines s (ls.take k) = .ok u) :
    runLines u (ls.drop k) = .ok t := by
  rw [← List.take_append_drop k ls, runLines_append, hu] at h
  exact h

/-- In the dictionary of the XRef stream `xref_offset` is the position of the
header line of the object that is being read. -/
theorem xdict_header {u : QdfFixer} (hi : Inv u) (hst : u.state = .st_in_xref_stream_dict) :
    IsHeaderAt u.out u.xref_offset u.last_obj := by
  have ha := hi.acct.acct
  simp only [Acct, hst] at ha
  obtain ⟨p, hlast, -, hp, -⟩ := ha
  obtain ⟨hne, hget⟩ := getLast?_getElem? _ _ hlast
  have hlen := hi.acct.xref_len
  have hpos : 0 < u.xref.length := List.length_pos.2 hne
  rcases hi.table.entries _ _ hget with hg | ⟨hc, -⟩
  · rw [hp]
    have : u.xref.length - 1 + 1 = u.last_obj := by omega
    rw [← this]
    exact hg.1
  · rw [hst] at hc; cases hc

/-- C11 (amended): startxref correctness.  Whenever a run is in state `st_done`,
the state in which the lines `startxref`, `{v}`, `%%EOF` have been written, the
output ends with these lines and `v = xref_offset ≥ 0`.  If the run went through
the classic trailer, the output has the line `xref` at byte position `v`; if it
went through the dictionary of an XRef stream, the output has at byte position
`v` the header line of the object that was being read there, the one whose
dictionary contains `/Type /XRef`. -/
theorem startxref_correctness (filename : Bytes) (ls : List Bytes) (s : QdfFixer)
    (hrun : runLines (QdfFixer.init filename) ls = .ok s) (hst : s.state = .st_done) :
    ("startxref\n".toList ++ intToDec s.xref_offset ++ "\n%%EOF\n".toList) <:+ s.out ∧
      0 ≤ s.xref_offset ∧
      (∀ (k : Nat) (u : QdfFixer), runLines (QdfFixer.init filename) (ls.take k) = .ok u →
        u.state = .st_in_trailer → "xref\n".toList <+: s.out.drop s.xref_offset.toNat) ∧
      (∀ (k : Nat) (u : QdfFixer), runLines (QdfFixer.init filename) (ls.take k) = .ok u →
        u.state = .st_in_xref_stream_dict → IsHeaderAt s.out s.xref_offset u.last_obj) := by
  have hi := runLines_inv (inv_init filename) hrun
  have hx := runLines_xinv ls (inv_init filename) (xinv_init filename) hrun
  obtain ⟨h1, h2⟩ := hx.done hst
  refine ⟨h1, h2, ?_, ?_⟩
  · intro k u hu hus
    have hxu := runLines_xinv _ (inv_init filename) (xinv_init filename) hu
    exact (trailer_closure _ u s (Or.inl hus) (hxu.classic (Or.inr (Or.inr hus)))
      (runLines_take_drop hrun k hu)).2.2
  · intro k u hu hus
    have hiu := runLines_inv (inv_init filename) hu
    exact (xdict_closure _ u.last_obj u s (Or.inl hus) (xdict_header hiu hus)
      (runLines_take_drop hrun k hu)).2

set_option maxRecDepth 100000 in
/-- Witness of C11 (scenario S3): after the `>>` of the trailer the output ends
with the `startxref` lines. -/
theorem startxref_correctness_witness :
    ("startxref\n".toList ++ intToDec (stateS3 12).xref_offset ++ "\n%%EOF\n".toList) <:+
      (stateS3 12).out :=
  (startxref_correctness "in.qdf".toList ((splitLines inputS3).take 12) (stateS3 12)
    rfl rfl).1

set_option maxRecDepth 100000 in
/-- Counterexample to C11 as stated: on the classic path, lines of an open
trailer are copied, so the output can end with `startxref\n5\n%%EOF\n` while the
line `xref` stands at position 40 and not at position 5. -/
theorem startxref_claim_counterexample :
    outputOf (processLines "in.qdf".toList inputS3open) =
        some ("1 0 obj\n<<>>\nendobj\n2 0 obj\n<<>>\nendobj\nxref\n0 3\n" ++
          "0000000000 65535 f \n0000000000 00000 n \n0000000020 00000 n \n" ++
          "trailer <<\nstartxref\n5\n%%EOF\n").toList ∧
      ((processLines "in.qdf".toList inputS3open).final.out.drop 5).take 5 ≠ "xref\n".toList ∧
      ((processLines "in.qdf".toList inputS3open).final.out.drop 40).take 5 = "xref\n".toList := by
  decide

theorem splitLines_ne_nil : ∀ x : Bytes, splitLines x ≠ [] := by
  intro x
  induction x with
  | nil => simp [splitLines]
  | cons c cs ih =>
    simp only [splitLines]
    split_ifs
    · simp
    · cases h : splitLines cs with
      | nil => simp
      | cons l ls => simp

/-- The lines of an input, put together again, are the input. -/
theorem splitLines_flatten : ∀ x : Bytes, (splitLines x).flatten = x := by
  intro x
  induction x with
  | nil => simp [splitLines]
  | cons c cs ih =>
    simp only [splitLines]
    split_ifs with hc
    · simp [ih]
    · cases h : splitLines cs with
      | nil => exact absurd h (splitLines_ne_nil cs)
      | cons l ls =>
        rw [h] at ih
        simp only [List.flatten_cons] at ih ⊢
        rw [List.cons_append, ih]

theorem totalLength_splitLines (x : Bytes) : totalLength (splitLines x) = x.length := by
  have := congrArg List.length (splitLines_flatten x)
  rw [List.length_flatten] at this
  exact this

/-- The lines of an input whose first part ends in a newline: the lines of the
first part without the empty line at its end, then the lines of the rest. -/
theorem splitLines_append_newline (a : Bytes) :
    ∃ L : List Bytes, L ≠ [] ∧ ∀ b : Bytes, splitLines (a ++ '\n' :: b) = L ++ splitLines b := by
  induction a with
  | nil => exact ⟨[['\n']], by simp, fun b => by simp [splitLines]⟩
  | cons c cs ih =>
    obtain ⟨L, hne, hL⟩ := ih
    by_cases hc : c = '\n'
    · refine ⟨[c] :: L, by simp, fun b => ?_⟩
      rw [List.cons_append]
      simp only [splitLines, if_pos hc, hL b, List.cons_append]
    · cases L with
      | nil => exact absurd rfl hne
      | cons l0 L1 =>
        refine ⟨(c :: l0) :: L1, by simp, fun b => ?_⟩
        rw [List.cons_append]
        simp only [splitLines, if_neg hc, hL b, List.cons_append]

theorem getLast?_newline {a : Bytes} (h : a.getLast? = some '\n') :
    ∃ a1, a = a1 ++ ['\n'] := by
  induction a using List.reverseRecOn with
  | nil => simp at h
  | append_singleton xs x _ =>
    simp only [List.getLast?_append, List.getLast?_singleton] at h
    have hx : x = '\n' := by simpa [Option.or] using h
    exact ⟨xs, by rw [hx]⟩

/-- In state `st_done` every line is ignored. -/
theorem runLines_done (ls : List Bytes) : ∀ s : QdfFixer, s.state = .st_done →
    s.offset + (totalLength ls : Int) ≤ OFFSET_MAX →
    ∃ n lo, runLines s ls = .ok { s with
      lineno := n, last_offset := lo, offset := s.offset + (totalLength ls : Int) } := by
  induction ls with
  | nil =>
    intro s _ _
    exact ⟨s.lineno, s.last_offset, by simp [runLines, totalLength]⟩
  | cons m rest ih =>
    intro s hst hov
    simp only [totalLength, List.map_cons, List.sum_cons, Nat.cast_add] at hov
    have hpos : (0 : Int) ≤ ((rest.map List.length).sum : Nat) := Int.natCast_nonneg _
    have h1 := step_of_cases (s := s) (l := m) (by omega) (StepOk.done hst)
    obtain ⟨n, lo, h2⟩ := ih (advance s m) hst (by simp only [advance, totalLength]; omega)
    refine ⟨n, lo, ?_⟩
    simp only [runLines, h1, Result.bind_ok, h2]
    simp [advance, totalLength, Int.add_assoc]

/-- An empty line does not take the machine to state `st_done`. -/
theorem step_nil_done {u s : QdfFixer} (h : step u [] = .ok s) (hst : s.state = .st_done) :
    u.state = .st_done ∧ s.out = u.out ∧ s.offset = u.offset := by
  obtain ⟨-, hc⟩ := step_cases h
  cases hc with
  | done hs => exact ⟨hs, rfl, by simp [advance]⟩
  | trailer_end hs hl => exact absurd hl (by decide)
  | xdict_stream hs hl _ _ _ => exact absurd hl (by decide)
  | _ => simp_all [advance]

/-- C19: Leftover input after done is discarded.  If the input `a` ends with a
newline and the run on `a` ends in state `st_done`, then for every byte string
`b` (that keeps the byte count in the signed 64-bit range) the run on `a`
followed by `b` finishes without error and writes the same output. -/
theorem leftover_discarded (filename a b : Bytes) (s : QdfFixer)
    (ha : a.getLast? = some '\n')
    (hrun : processLines filename a = .ok s) (hst : s.state = .st_done)
    (hov : s.offset + (b.length : Int) ≤ OFFSET_MAX) :
    outputOf (processLines filename (a ++ b)) = some s.out ∧
      (processLines filename (a ++ b)).final.state = .st_done := by
  obtain ⟨a1, rfl⟩ := getLast?_newline ha
  obtain ⟨L, -, hL⟩ := splitLines_append_newline a1
  have e1 : splitLines (a1 ++ ['\n']) = L ++ [[]] := by
    have := hL []
    simpa [splitLines] using this
  have e2 : splitLines (a1 ++ ['\n'] ++ b) = L ++ splitLines b := by
    have := hL b
    simpa using this
  have hp1 : processLines filename (a1 ++ ['\n']) =
      runLines (QdfFixer.init filename) (L ++ [[]]) := by
    rw [← e1]; rfl
  have hp2 : processLines filename (a1 ++ ['\n'] ++ b) =
      runLines (QdfFixer.init filename) (L ++ splitLines b) := by
    rw [← e2]; rfl
  rw [hp1, runLines_append] at hrun
  obtain ⟨u, hu, hlast⟩ := Result.bind_eq_ok.1 hrun
  simp only [runLines] at hlast
  obtain ⟨v, hv, hv2⟩ := Result.bind_eq_ok.1 hlast
  simp only [Result.ok.injEq] at hv2
  subst hv2
  obtain ⟨hud, hout, hoff⟩ := step_nil_done hv hst
  obtain ⟨n, lo, hrest⟩ := runLines_done (splitLines b) u hud
    (by rw [totalLength_splitLines, ← hoff]; exact hov)
  rw [hp2, runLines_append, hu, Result.bind_ok, hrest]
  exact ⟨by simp [outputOf, Result.toOption, hout], hud⟩

set_option maxRecDepth 100000 in
/-- Witness of C19 (scenario S3): bytes after the end of the file change
nothing. -/
theorem leftover_discarded_witness :
    outputOf (processLines "in.qdf".toList (inputS3 ++ "1 0 obj\nxref".toList)) =
      some finalS3.out :=
  (leftover_discarded "in.qdf".toList inputS3 "1 0 obj\nxref".toList finalS3 (by decide) rfl
    rfl (by decide)).1

theorem isFatal_bind {α β : Type} {r : Result α} {k : α → Result β}
    (hr : r.isFatal = false) (hk : ∀ a, (k a).isFatal = false) : (r.bind k).isFatal = false := by
  cases r with
  | ok a => exact hk a
  | fail e w => cases e <;> simp_all [Result.bind, Result.isFatal]

theorem adjustOstreamXref_notFatal (s : QdfFixer) : (adjustOstreamXref s).isFatal = false := by
  unfold adjustOstreamXref
  split_ifs
  · rfl
  · cases s.xref <;> rfl

theorem writeOstream_notFatal (s : QdfFixer) : (writeOstream s).isFatal = false := by
  unfold writeOstream
  cases s.ostream_offsets with
  | nil => rfl
  | cons a rest =>
    dsimp only
    split_ifs <;> rfl

theorem writeBinary_notFatal (s : QdfFixer) (v b : Nat) : (s.writeBinary v b).isFatal = false := by
  unfold QdfFixer.writeBinary
  cases FixQdf.writeBinary v b <;> rfl

theorem writeRow_notFatal (s : QdfFixer) (t a b : Nat) : (writeRow s t a b).isFatal = false := by
  unfold writeRow
  exact isFatal_bind (writeBinary_notFatal _ _ _) fun s1 =>
    isFatal_bind (writeBinary_notFatal _ _ _) fun s2 => writeBinary_notFatal _ _ _

theorem writeXRefRows_notFatal (xs : List XRefEntry) : ∀ s : QdfFixer,
    (writeXRefRows s xs).isFatal = false := by
  induction xs with
  | nil => intro s; rfl
  | cons e rest ih =>
    intro s
    cases e with
    | uncompressed o =>
      simp only [writeXRefRows]
      split_ifs
      · rfl
      · exact isFatal_bind (writeRow_notFatal _ _ _ _) fun s1 => ih s1
    | compressed sn idx =>
      simp only [writeXRefRows]
      exact isFatal_bind (writeRow_notFatal _ _ _ _) fun s1 => ih s1

theorem writeXRefTable_notFatal (xs : List XRefEntry) : ∀ s : QdfFixer,
    (writeXRefTable s xs).isFatal = false := by
  induction xs with
  | nil => intro s; rfl
  | cons e rest ih =>
    intro s
    simp only [writeXRefTable]
    cases e.getOffset with
    | none => rfl
    | some o => exact ih _

theorem startXRefStream_notFatal (s : QdfFixer) : (startXRefStream s).isFatal = false := by
  unfold startXRefStream
  cases s.xref.getLast? with
  | none => rfl
  | some e =>
    dsimp only
    cases e.getOffset with
    | none => rfl
    | some o =>
      dsimp only
      split_ifs <;> rfl

/-- The ways in which `checkObjId` stops: the number does not fit an `int`, the
counter would overflow, or the number is not the expected one. -/
theorem checkObjId_fail {s : QdfFixer} {d : Bytes} {e : Err} {w : Bytes}
    (h : checkObjId s d = .fail e w) :
    w = s.out ∧
      ((stoi d = none ∧ e = .exception "stoi") ∨
        (∃ n, stoi d = some n ∧ INT_MAX ≤ s.last_obj ∧ e = .undefined "signed overflow") ∨
        (∃ n, stoi d = some n ∧ s.last_obj < INT_MAX ∧ n ≠ s.last_obj + 1 ∧
          e = .fatal (sequenceMessage s.filename s.lineno (s.last_obj + 1)))) := by
  unfold checkObjId at h
  cases hs : stoi d with
  | none =>
    simp only [hs, QdfFixer.fail, Result.fail.injEq] at h
    exact ⟨h.2.symm, Or.inl ⟨rfl, h.1.symm⟩⟩
  | some n =>
    simp only [hs] at h
    split_ifs at h with h1 h2
    · simp only [QdfFixer.fail, Result.fail.injEq] at h
      exact ⟨h.2.symm, Or.inr (Or.inl ⟨n, rfl, h1, h.1.symm⟩)⟩
    · simp only [QdfFixer.fail, Result.fail.injEq] at h
      refine ⟨h.2.symm, Or.inr (Or.inr ⟨n, rfl, by omega, h2, ?_⟩)⟩
      rw [← h.1]
      simp [sequenceMessage, List.append_assoc]

theorem bind_fail_cases {α β : Type} {r : Result α} {k : α → Result β} {e : Err} {w : Bytes}
    (h : r.bind k = .fail e w) : r = .fail e w ∨ ∃ a, r = .ok a ∧ k a = .fail e w := by
  cases r with
  | ok a => exact Or.inr ⟨a, rfl, h⟩
  | fail e1 w1 =>
    simp only [Result.bind_fail, Result.fail.injEq] at h
    exact Or.inl (by rw [h.1, h.2])

theorem not_fatal_of_isFatal {r : Result QdfFixer} {m w : Bytes}
    (h : r.isFatal = false) : r ≠ .fail (.fatal m) w := by
  intro hc
  rw [hc] at h
  cases h

theorem stepInObj_notFatal (s : QdfFixer) (l : Bytes) : (stepInObj s l).isFatal = false := by
  unfold stepInObj
  dsimp only
  split_ifs <;> first | rfl | exact startXRefStream_notFatal _

theorem stepInStream_notFatal (s : QdfFixer) (l : Bytes) :
    (stepInStream s l).isFatal = false := by
  unfold stepInStream
  split_ifs <;> rfl

theorem stepInOstreamDict_notFatal (s : QdfFixer) (l : Bytes) :
    (stepInOstreamDict s l).isFatal = false := by
  unfold stepInOstreamDict
  split_ifs
  · rfl
  · dsimp only
    cases re_extends l <;> rfl

theorem stepInOstreamOuter_notFatal (s : QdfFixer) (l : Bytes) :
    (stepInOstreamOuter s l).isFatal = false := by
  unfold stepInOstreamOuter
  exact isFatal_bind (adjustOstreamXref_notFatal _) fun _ => rfl

theorem stepInXRefStreamDict_notFatal (s : QdfFixer) (l : Bytes) :
    (stepInXRefStreamDict s l).isFatal = false := by
  unfold stepInXRefStreamDict
  dsimp only
  split_ifs <;> first
    | rfl
    | exact isFatal_bind (writeRow_notFatal _ _ _ _) fun _ =>
        isFatal_bind (writeXRefRows_notFatal _ _) fun _ => rfl

theorem stepAtXRef_notFatal (s : QdfFixer) (l : Bytes) : (stepAtXRef s l).isFatal = false := by
  unfold stepAtXRef
  exact isFatal_bind (writeXRefTable_notFatal _ _) fun _ => rfl

theorem stepBeforeTrailer_notFatal (s : QdfFixer) (l : Bytes) :
    (stepBeforeTrailer s l).isFatal = false := by
  unfold stepBeforeTrailer
  split_ifs <;> rfl

theorem stepInTrailer_notFatal (s : QdfFixer) (l : Bytes) :
    (stepInTrailer s l).isFatal = false := by
  unfold stepInTrailer
  dsimp only
  split_ifs <;> rfl

/-- The only calls of `fatal`: an object line with a number that fits an `int`
and is not the expected one, and a line in state `st_in_length` that is not a
number.  Nothing is written for the line. -/
theorem step_fatal {s : QdfFixer} {l msg w : Bytes} (h : step s l = .fail (.fatal msg) w) :
    w = s.out ∧
      ((∃ d n, objLine s l = some d ∧ stoi d = some n ∧ s.last_obj < INT_MAX ∧
          n ≠ s.last_obj + 1 ∧
          msg = sequenceMessage s.filename (s.lineno + 1) (s.last_obj + 1)) ∨
        (s.state = .st_in_length ∧ re_num l = false ∧
          msg = integerMessage s.filename (s.lineno + 1))) := by
  have key : ∀ (u : QdfFixer) (d : Bytes), u.out = s.out → u.filename = s.filename →
      u.lineno = s.lineno + 1 → u.last_obj = s.last_obj → objLine s l = some d →
      checkObjId u d = .fail (.fatal msg) w →
      w = s.out ∧
      ((∃ d n, objLine s l = some d ∧ stoi d = some n ∧ s.last_obj < INT_MAX ∧
          n ≠ s.last_obj + 1 ∧
          msg = sequenceMessage s.filename (s.lineno + 1) (s.last_obj + 1)) ∨
        (s.state = .st_in_length ∧ re_num l = false ∧
          msg = integerMessage s.filename (s.lineno + 1))) := by
    intro u d e1 e2 e3 e4 ho hf
    obtain ⟨hw, hcase⟩ := checkObjId_fail hf
    rcases hcase with ⟨-, hc⟩ | ⟨n, -, -, hc⟩ | ⟨n, hn, hlt, hne, hc⟩
    · cases hc
    · cases hc
    · simp only [Err.fatal.injEq] at hc
      rw [e2, e3, e4] at hc
      rw [e4] at hlt hne
      exact ⟨by rw [hw, e1], Or.inl ⟨d, n, ho, hn, hlt, hne, hc⟩⟩
  unfold step at h
  split_ifs at h with hov
  · simp [QdfFixer.fail] at h
  unfold dispatch at h
  obtain ⟨st, hst⟩ : ∃ st, s.state = st := ⟨_, rfl⟩
  simp only [advance, hst] at h
  cases st <;> simp only at h
  · -- top
    unfold stepTop at h
    split at h
    · rename_i d hd
      rcases bind_fail_cases h with h1 | ⟨a, -, h2⟩
      · exact key _ d (by rfl) (by rfl) (by rfl) (by rfl) (by simp [objLine, hst, hd]) h1
      · cases h2
    · split_ifs at h <;> cases h
  · exact absurd h (not_fatal_of_isFatal (stepInObj_notFatal _ _))
  · exact absurd h (not_fatal_of_isFatal (stepInStream_notFatal _ _))
  · -- after_stream
    unfold stepAfterStream at h
    split_ifs at h <;> try (cases h; done)
    split at h
    · rename_i d hd
      rcases bind_fail_cases h with h1 | ⟨a, -, h2⟩
      · exact key _ d (by rfl) (by rfl) (by rfl) (by rfl) (by simp [objLine, hst, hd]) h1
      · cases h2
    · cases h
  · exact absurd h (not_fatal_of_isFatal (stepInOstreamDict_notFatal _ _))
  · -- in_ostream_offsets
    unfold stepInOstreamOffsets at h
    split at h
    · rename_i d hd
      rcases bind_fail_cases h with h1 | ⟨a, -, h2⟩
      · exact key _ d (by rfl) (by rfl) (by rfl) (by rfl) (by simp [objLine, hst, hd]) h1
      · cases h2
    · cases h
  · exact absurd h (not_fatal_of_isFatal (stepInOstreamOuter_notFatal _ _))
  · -- in_ostream_obj
    unfold stepInOstreamObj at h
    dsimp only at h
    split at h
    · rename_i d hd
      rcases bind_fail_cases h with h1 | ⟨a, -, h2⟩
      · exact key _ d (by rfl) (by rfl) (by rfl) (by rfl) (by simp [objLine, hst, hd]) h1
      · cases h2
    · split_ifs at h <;> try (cases h; done)
      rcases bind_fail_cases h with h1 | ⟨a, -, h2⟩
      · exact absurd h1 (not_fatal_of_isFatal (writeOstream_notFatal _))
      · cases h2
  · exact absurd h (not_fatal_of_isFatal (stepInXRefStreamDict_notFatal _ _))
  · -- in_length
    unfold stepInLength at h
    dsimp only at h
    split_ifs at h with c1 c2 <;> try (cases h; done)
    simp only [QdfFixer.fail, Result.fail.injEq, Err.fatal.injEq] at h
    refine ⟨h.2.symm, Or.inr ⟨hst, by simpa using c1, ?_⟩⟩
    rw [← h.1]
    simp [integerMessage, List.append_assoc]
  · exact absurd h (not_fatal_of_isFatal (stepAtXRef_notFatal _ _))
  · exact absurd h (not_fatal_of_isFatal (stepBeforeTrailer_notFatal _ _))
  · exact absurd h (not_fatal_of_isFatal (stepInTrailer_notFatal _ _))
  · -- done
    cases h

/-- A successful step reads an object line exactly when it counts an object, and
the line then carries the new count. -/
theorem step_objLine {s s1 : QdfFixer} {l : Bytes} (h : step s l = .ok s1) :
    (objLine s l = none ∧ s1.last_obj = s.last_obj) ∨
      (∃ d, objLine s l = some d ∧ decVal d = s.last_obj + 1 ∧
        s1.last_obj = s.last_obj + 1) := by
  obtain ⟨-, hc⟩ := step_cases h
  cases hc with
  | top_header hst d hre hn hlt =>
    exact Or.inr ⟨d, by simp [objLine, hst, hre], (stoi_eq hn).1, rfl⟩
  | after_header hst d hre hn hlt =>
    exact Or.inr ⟨d, by simp [objLine, hst, hre], (stoi_eq hn).1, rfl⟩
  | offsets_marker hst d hre hn hlt =>
    exact Or.inr ⟨d, by simp [objLine, hst, hre], (stoi_eq hn).1, rfl⟩
  | obj_marker hst d hre hn hlt =>
    exact Or.inr ⟨d, by simp [objLine, hst, hre], (stoi_eq hn).1, rfl⟩
  | top_xref hst hl =>
    exact Or.inl ⟨by rw [hl]; simp only [objLine, hst]; exact re_n_0_obj_xref, rfl⟩
  | after_marker hst hl =>
    exact Or.inl ⟨by rw [hl]; simp only [objLine, hst]; exact re_n_0_obj_ignoreMarker, rfl⟩
  | obj_flush hst hl _ _ _ _ _ _ _ _ =>
    exact Or.inl ⟨by rw [hl]; simp only [objLine, hst]; exact re_ostream_obj_endstream, rfl⟩
  | _ => exact Or.inl ⟨by simp_all [objLine], rfl⟩

theorem runLines_objectNumbers (ls : List Bytes) : ∀ {s s1 : QdfFixer},
    runLines s ls = .ok s1 →
    s.last_obj ≤ s1.last_obj ∧
      objectNumbers s ls = List.range' (s.last_obj + 1) (s1.last_obj - s.last_obj) := by
  induction ls with
  | nil =>
    intro s s1 h
    simp only [runLines, Result.ok.injEq] at h
    subst h
    simp [objectNumbers]
  | cons l rest ih =>
    intro s s1 h
    simp only [runLines] at h
    obtain ⟨a, h1, h2⟩ := Result.bind_eq_ok.1 h
    obtain ⟨hle, hnum⟩ := ih h2
    simp only [objectNumbers, h1, hnum]
    rcases step_objLine h1 with ⟨ho, hl⟩ | ⟨d, ho, hd, hl⟩
    · rw [ho]
      rw [hl] at hle ⊢
      exact ⟨hle, rfl⟩
    · rw [ho]
      rw [hl] at hle ⊢
      refine ⟨by omega, ?_⟩
      have : s1.last_obj - s.last_obj = (s1.last_obj - (s.last_obj + 1)) + 1 := by omega
      rw [this, List.range'_succ]
      simp only [hd, List.singleton_append]

/-- An object line whose number fits an `int` and is not the expected one stops
the run with the diagnostic of a sequence error. -/
theorem step_sequence_error {s : QdfFixer} {l d : Bytes} {n : Nat}
    (hov : s.offset + (l.length : Int) ≤ OFFSET_MAX) (ho : objLine s l = some d)
    (hn : stoi d = some n) (hne : n ≠ s.last_obj + 1) (hlt : s.last_obj < INT_MAX) :
    step s l = .fail (.fatal (sequenceMessage s.filename (s.lineno + 1) (s.last_obj + 1)))
      s.out := by
  have hov1 : ¬ s.offset + (l.length : Int) > OFFSET_MAX := by omega
  have h1 : ¬ s.last_obj ≥ INT_MAX := by omega
  obtain ⟨st, hst⟩ : ∃ st, s.state = st := ⟨_, rfl⟩
  unfold objLine at ho
  rw [hst] at ho
  cases st <;> simp only at ho <;> try (cases ho; done)
  · simp [step, if_neg hov1, dispatch, advance, hst, stepTop, ho, checkObjId, hn, h1, hne,
      QdfFixer.fail, sequenceMessage, List.append_assoc]
  · have hl : l ≠ "%QDF: ignore_newline\n".toList := by
      intro hc
      rw [hc, show "%QDF: ignore_newline\n".toList = ignoreMarker from rfl,
        re_n_0_obj_ignoreMarker] at ho
      cases ho
    simp only [step, if_neg hov1, dispatch, advance, hst, stepAfterStream, if_neg hl, ho]
    simp [checkObjId, hn, h1, hne, QdfFixer.fail, sequenceMessage, List.append_assoc]
  · simp [step, if_neg hov1, dispatch, advance, hst, stepInOstreamOffsets, ho, checkObjId, hn,
      h1, hne, QdfFixer.fail, sequenceMessage, List.append_assoc]
  · simp [step, if_neg hov1, dispatch, advance, hst, stepInOstreamObj, ho, checkObjId, hn, h1,
      hne, QdfFixer.fail, sequenceMessage, List.append_assoc]

/-- An object line whose number does not fit an `int` stops the run with the
exception of `std::stoi`. -/
theorem step_stoi_error {s : QdfFixer} {l d : Bytes}
    (hov : s.offset + (l.length : Int) ≤ OFFSET_MAX) (ho : objLine s l = some d)
    (hn : stoi d = none) :
    step s l = .fail (.exception "stoi") s.out := by
  have hov1 : ¬ s.offset + (l.length : Int) > OFFSET_MAX := by omega
  obtain ⟨st, hst⟩ : ∃ st, s.state = st := ⟨_, rfl⟩
  unfold objLine at ho
  rw [hst] at ho
  cases st <;> simp only at ho <;> try (cases ho; done)
  · simp [step, if_neg hov1, dispatch, advance, hst, stepTop, ho, checkObjId, hn, QdfFixer.fail]
  · have hl : l ≠ "%QDF: ignore_newline\n".toList := by
      intro hc
      rw [hc, show "%QDF: ignore_newline\n".toList = ignoreMarker from rfl,
        re_n_0_obj_ignoreMarker] at ho
      cases ho
    simp only [step, if_neg hov1, dispatch, advance, hst, stepAfterStream, if_neg hl, ho]
    simp [checkObjId, hn, QdfFixer.fail]
  · simp [step, if_neg hov1, dispatch, advance, hst, stepInOstreamOffsets, ho, checkObjId, hn,
      QdfFixer.fail]
  · simp [step, if_neg hov1, dispatch, advance, hst, stepInOstreamObj, ho, checkObjId, hn,
      QdfFixer.fail]

theorem sequenceMessage_ne (fn : Bytes) (k j : Nat) :
    sequenceMessage fn k j ≠ integerMessage fn k := by
  intro h
  simp only [sequenceMessage, integerMessage, List.append_assoc] at h
  have h1 := List.append_cancel_left (List.append_cancel_left (List.append_cancel_left h))
  have h2 := congrArg (List.take 18) h1
  rw [List.take_left' (by decide)] at h2
  exact absurd h2 (by decide)

/-- C14 (amended): Sequence error.  An object line is a header `N 0 obj` read in
state `st_top` or `st_after_stream`, or a marker read in state
`st_in_ostream_offsets` or `st_in_ostream_obj`.  After a run over the lines `ls`
that did not stop, the object lines read carry the numbers `1, ..., last_obj`,
so `last_obj` is their count.  With fewer than `2 ^ 31 - 1` of them, the next
line `l` stops the run with the diagnostic
`{filename}:{lineno}: expected object {last_obj + 1}`, `lineno` being the number
of the line, if and only if `l` is an object line whose number fits an `int`
and is not `last_obj + 1`; nothing is written for it.  The only other `fatal`
diagnostic is the one of a length parse error, and an object line whose number
does not fit an `int` stops the run with the exception of `std::stoi`. -/
theorem sequence_error (filename : Bytes) (ls : List Bytes) (s : QdfFixer) (l : Bytes)
    (hrun : runLines (QdfFixer.init filename) ls = .ok s)
    (hov : s.offset + (l.length : Int) ≤ OFFSET_MAX)
    (hcount : s.last_obj < INT_MAX) :
    objectNumbers (QdfFixer.init filename) ls = List.range' 1 s.last_obj ∧
      (step s l = .fail (.fatal (sequenceMessage filename (ls.length + 1) (s.last_obj + 1)))
          s.out ↔
        ∃ d n, objLine s l = some d ∧ stoi d = some n ∧ n ≠ s.last_obj + 1) ∧
      (∀ msg w, step s l = .fail (.fatal msg) w →
        w = s.out ∧ (msg = sequenceMessage filename (ls.length + 1) (s.last_obj + 1) ∨
          msg = integerMessage filename (ls.length + 1))) ∧
      (∀ d, objLine s l = some d → stoi d = none →
        step s l = .fail (.exception "stoi") s.out) := by
  obtain ⟨hln, hfn, -⟩ := runLines_frame ls hrun
  have hln1 : s.lineno = ls.length := by simpa [QdfFixer.init] using hln
  have hfn1 : s.filename = filename := by simpa [QdfFixer.init] using hfn
  have hnum := (runLines_objectNumbers ls hrun).2
  have h0 : (QdfFixer.init filename).last_obj = 0 := rfl
  rw [h0, Nat.zero_add, Nat.sub_zero] at hnum
  refine ⟨hnum, ⟨?_, ?_⟩, ?_, fun d ho hn => step_stoi_error hov ho hn⟩
  · intro hf
    obtain ⟨-, hcase⟩ := step_fatal hf
    rcases hcase with ⟨d, n, ho, hn, -, hne, -⟩ | ⟨-, -, hmsg⟩
    · exact ⟨d, n, ho, hn, hne⟩
    · rw [hfn1, hln1] at hmsg
      exact absurd hmsg (sequenceMessage_ne _ _ _)
  · rintro ⟨d, n, ho, hn, hne⟩
    have := step_sequence_error hov ho hn hne hcount
    rw [hfn1, hln1] at this
    exact this
  · intro msg w hf
    obtain ⟨hw, hcase⟩ := step_fatal hf
    rw [hfn1, hln1] at hcase
    refine ⟨hw, ?_⟩
    rcases hcase with ⟨d, n, -, -, -, -, hmsg⟩ | ⟨-, -, hmsg⟩
    · exact Or.inl hmsg
    · exact Or.inr hmsg

set_option maxRecDepth 100000 in
/-- Witness of C14 (scenario S6): after objects 1 and 2 the header of object 4
stops the run at line 7 with `expected object 3`. -/
theorem sequence_error_witness :
    step (stateS3 6) "4 0 obj\n".toList =
      .fail (.fatal "in.qdf:7: expected object 3".toList) (stateS3 6).out :=
  (sequence_error "in.qdf".toList ((splitLines inputS3).take 6) (stateS3 6) "4 0 obj\n".toList
    rfl (by decide) (by decide)).2.1.2 ⟨"4".toList, 4, rfl, rfl, by decide⟩

set_option maxRecDepth 100000 in
/-- Counterexample to C14 as stated: the first object line carries the number
99999999999, which is not 1, and the run stops with the exception of `std::stoi`
and not with a sequence error. -/
theorem sequence_claim_counterexample :
    (objLine (QdfFixer.init "in.qdf".toList) "99999999999 0 obj\n".toList).map decVal =
        some 99999999999 ∧
      processLines "in.qdf".toList "99999999999 0 obj\n".toList =
        .fail (.exception "stoi") [] := by
  decide

theorem range'_cons_eq {a : Nat} {as : List Nat} {n j : Nat}
    (h : a :: as = List.range' n j) : a = n ∧ 0 < j ∧ as = List.range' (n + 1) (j - 1) := by
  cases j with
  | zero => simp at h
  | succ j =>
    rw [List.range'_succ] at h
    simp only [List.cons.injEq] at h
    exact ⟨h.1, by omega, by simpa using h.2⟩

/-- Lines that are copied: the run through states `st_top` and `st_in_obj`. -/
theorem runLines_verbatim (ls : List Bytes) : ∀ (s : QdfFixer) (b : Bool) (j : Nat),
    (s.state = if b then .st_in_obj else .st_top) →
    (∀ l ∈ ls, l ≠ "stream\n".toList ∧ l ≠ "xref\n".toList ∧
      hasSub "/Type /ObjStm".toList l = false ∧ hasSub "/Type /XRef".toList l = false) →
    (topHeaders b ls).map decVal = List.range' (s.last_obj + 1) j →
    s.last_obj + j ≤ INT_MAX →
    s.offset + (totalLength ls : Int) ≤ OFFSET_MAX →
    ∃ s1, runLines s ls = .ok s1 ∧ s1.out = s.out ++ ls.flatten := by
  induction ls with
  | nil =>
    intro s b j _ _ _ _ _
    exact ⟨s, rfl, by simp⟩
  | cons l rest ih =>
    intro s b j hst hl hnum hj hov
    obtain ⟨hl1, hl2, hl3, hl4⟩ := hl l (by simp)
    have hrest : ∀ x ∈ rest, x ≠ "stream\n".toList ∧ x ≠ "xref\n".toList ∧
        hasSub "/Type /ObjStm".toList x = false ∧ hasSub "/Type /XRef".toList x = false :=
      fun x hx => hl x (by simp [hx])
    simp only [totalLength, List.map_cons, List.sum_cons, Nat.cast_add] at hov
    have hpos : (0 : Int) ≤ ((rest.map List.length).sum : Nat) := Int.natCast_nonneg _
    have hov0 : s.offset + (l.length : Int) ≤ OFFSET_MAX := by omega
    have fin : ∀ (a : QdfFixer) (b2 : Bool) (j2 : Nat), step s l = .ok a →
        (a.state = if b2 then .st_in_obj else .st_top) → a.out = s.out ++ l →
        a.offset = s.offset + (l.length : Int) →
        (topHeaders b2 rest).map decVal = List.range' (a.last_obj + 1) j2 →
        a.last_obj + j2 ≤ INT_MAX →
        ∃ s1, runLines s (l :: rest) = .ok s1 ∧ s1.out = s.out ++ (l :: rest).flatten := by
      intro a b2 j2 h1 ha1 ha2 ha3 hn2 hj2
      obtain ⟨s1, h2, h3⟩ := ih a b2 j2 ha1 hrest hn2 hj2
        (by rw [ha3]; simp only [totalLength]; omega)
      exact ⟨s1, by simp only [runLines, h1, Result.bind_ok, h2],
        by rw [h3, ha2]; simp [List.append_assoc]⟩
    cases b with
    | false =>
      simp only [Bool.false_eq_true, if_false] at hst
      cases hre : re_n_0_obj l with
      | some d =>
        simp only [topHeaders, hre, List.map_cons] at hnum
        obtain ⟨hd, hj0, hnum2⟩ := range'_cons_eq hnum
        have hle : s.last_obj + 1 ≤ INT_MAX := by omega
        have hn : stoi d = some (s.last_obj + 1) := by
          simp [stoi, hd, hle]
        exact fin _ true (j - 1)
          (step_of_cases hov0 (StepOk.top_header hst d hre hn (by omega))) rfl rfl rfl
          hnum2 (by simp only [advance]; omega)
      | none =>
        simp only [topHeaders, hre] at hnum
        exact fin _ false j (step_of_cases hov0 (StepOk.top_other hst hre hl2)) hst rfl rfl
          hnum hj
    | true =>
      simp only [if_true] at hst
      by_cases he : l = "endobj\n".toList
      · simp only [topHeaders, if_pos he] at hnum
        exact fin _ false j (step_of_cases hov0 (StepOk.obj_endobj hst he)) rfl rfl rfl
          hnum hj
      · simp only [topHeaders, if_neg he] at hnum
        exact fin _ true j (step_of_cases hov0 (StepOk.obj_other hst hl1 he hl3 hl4)) hst rfl
          rfl hnum hj

/-- C17 (amended): Object contents are preserved verbatim.  For every input
shorter than `2 ^ 63` bytes in which no line equals `stream` or `xref`, no line
contains `/Type /ObjStm` or `/Type /XRef`, and the lines `N 0 obj` that stand
outside an object (not between a header and its `endobj`) are numbered
consecutively from 1 up to some `k < 2 ^ 31`, the run finishes without error
and the output is the input. -/
theorem verbatim (filename input : Bytes) (k : Nat)
    (hlines : ∀ l ∈ splitLines input, l ≠ "stream\n".toList ∧ l ≠ "xref\n".toList ∧
      hasSub "/Type /ObjStm".toList l = false ∧ hasSub "/Type /XRef".toList l = false)
    (hnum : (topHeaders false (splitLines input)).map decVal = List.range' 1 k)
    (hk : k ≤ INT_MAX) (hlen : (input.length : Int) ≤ OFFSET_MAX) :
    outputOf (processLines filename input) = some input := by
  obtain ⟨s1, h1, h2⟩ := runLines_verbatim (splitLines input) (QdfFixer.init filename) false k
    rfl hlines (by simpa [QdfFixer.init] using hnum) (by simpa [QdfFixer.init] using hk)
    (by rw [totalLength_splitLines]; simpa [QdfFixer.init] using hlen)
  have e : processLines filename input =
      runLines (QdfFixer.init filename) (splitLines input) := rfl
  rw [e, h1]
  simp [outputOf, Result.toOption, h2, splitLines_flatten, QdfFixer.init]

set_option maxRecDepth 100000 in
/-- Witness of C17: two plain objects are copied. -/
theorem verbatim_witness :
    outputOf (processLines "in.qdf".toList inputPlain) = some inputPlain :=
  verbatim "in.qdf".toList inputPlain 2 (by decide) (by decide) (by decide) (by decide)

set_option maxRecDepth 100000 in
/-- Counterexample to C17 as stated: the lines `N 0 obj` are numbered 1, 2, 3
and no line is excluded by the claim, but `2 0 obj` stands inside object 1, so
the run stops at `3 0 obj` with `expected object 2`. -/
theorem verbatim_claim_counterexample :
    ((splitLines inputNested).filterMap re_n_0_obj).map decVal = [1, 2, 3] ∧
      (∀ l ∈ splitLines inputNested, l ≠ "stream\n".toList ∧ l ≠ "xref\n".toList ∧
        hasSub "/Type /ObjStm".toList l = false ∧ hasSub "/Type /XRef".toList l = false) ∧
      processLines "in.qdf".toList inputNested =
        .fail (.fatal "in.qdf:4: expected object 2".toList)
          "1 0 obj\n2 0 obj\nendobj\n".toList := by
  decide

theorem getLast?_getD_cons {α : Type} (F : List α) (m e : α) :
    (F.getLast?).getD m = ((m :: F).getLast?).getD e := by
  cases F with
  | nil => simp
  | cons y ys =>
    rw [List.getLast?_cons_cons]
    cases h : (y :: ys).getLast? with
    | none => simp at h
    | some x => rfl

/-- The dictionary lines of an object stream are discarded, and the last match
of `/Extends` is kept. -/
theorem runLines_dict (D : List Bytes) : ∀ (s t : QdfFixer),
    s.state = .st_in_ostream_dict → (∀ l ∈ D, l ≠ "stream\n".toList) →
    runLines s D = .ok t →
    t.state = .st_in_ostream_dict ∧
      t.ostream_extends = ((D.filterMap re_extends).getLast?).getD s.ostream_extends := by
  induction D with
  | nil =>
    intro s t hst _ h
    simp only [runLines, Result.ok.injEq] at h
    subst h
    exact ⟨hst, rfl⟩
  | cons l rest ih =>
    intro s t hst hD h
    simp only [runLines] at h
    obtain ⟨a, h1, h2⟩ := Result.bind_eq_ok.1 h
    obtain ⟨-, hc⟩ := step_cases h1
    have hl : l ≠ "stream\n".toList := hD l (by simp)
    have hfact : a.state = .st_in_ostream_dict ∧
        a.ostream_extends = (re_extends l).getD s.ostream_extends := by
      cases hc with
      | dict_line hs hl2 => exact ⟨hs, rfl⟩
      | dict_stream hs hl2 => exact absurd hl2 hl
      | _ => simp_all
    obtain ⟨e1, e2⟩ := ih a t hfact.1 (fun x hx => hD x (by simp [hx])) h2
    refine ⟨e1, ?_⟩
    rw [e2, hfact.2]
    cases hre : re_extends l with
    | none => simp [hre]
    | some m =>
      simp only [Option.getD_some, List.filterMap_cons, hre]
      exact getLast?_getD_cons _ _ _

/-- While the body of an object stream is read, `ostream_extends` stays. -/
theorem runLines_body (mid : List Bytes) : ∀ (u t : QdfFixer),
    runLines u mid = .ok t →
    (∀ p ∈ mid.inits, inBody (runLines u p).final.state = true) →
    t.ostream_extends = u.ostream_extends := by
  induction mid with
  | nil =>
    intro u t h _
    simp only [runLines, Result.ok.injEq] at h
    rw [h]
  | cons l rest ih =>
    intro u t h hb
    simp only [runLines] at h
    obtain ⟨a, h1, h2⟩ := Result.bind_eq_ok.1 h
    have hu : inBody u.state = true := by
      have := hb [] (by simp)
      simpa [runLines, Result.final] using this
    have ha : inBody a.state = true := by
      have := hb [l] (by simp [List.inits])
      simpa [runLines, h1, Result.final] using this
    have hrest : ∀ p ∈ rest.inits, inBody (runLines a p).final.state = true := by
      intro p hp
      have := hb (l :: p) (by simp [List.inits, hp])
      simpa [runLines, h1] using this
    rw [ih a t h2 hrest]
    obtain ⟨-, hc⟩ := step_cases h1
    clear hb hrest ih h h2 h1
    cases hc <;> first
      | rfl
      | (exfalso; simp_all [advance, inBody]; done)

/-- A match of `/Extends (\d+ 0 R)`: group 1 is a number followed by ` 0 R`. -/
theorem re_extends_shape : ∀ (l m : Bytes), re_extends l = some m →
    ∃ M : Bytes, M ≠ [] ∧ (∀ c ∈ M, c.isDigit = true) ∧ m = M ++ " 0 R".toList := by
  intro l
  induction l with
  | nil => intro m h; simp [re_extends] at h
  | cons c cs ih =>
    intro m h
    simp only [re_extends] at h
    split at h
    · rename_i m1 hm
      simp only [Option.some.injEq] at h
      subst h
      unfold re_extends_here at hm
      dsimp only at hm
      split_ifs at hm with h1 h2
      simp only [Option.some.injEq] at hm
      refine ⟨_, h2.1, ?_, hm.symm⟩
      intro x hx
      exact (List.mem_takeWhile_imp hx)
    · exact ih m h

theorem hasSub_mem {pat : Bytes} : ∀ {l : Bytes}, hasSub pat l = true → ∀ c ∈ pat, c ∈ l := by
  intro l
  induction l with
  | nil =>
    intro h c hc
    simp only [hasSub] at h
    have := List.isPrefixOf_iff_prefix.1 h
    have : pat = [] := List.prefix_nil.1 this
    rw [this] at hc
    cases hc
  | cons a as ih =>
    intro h c hc
    simp only [hasSub, Bool.or_eq_true] at h
    rcases h with h | h
    · exact (List.isPrefixOf_iff_prefix.1 h).subset hc
    · exact List.mem_cons_of_mem _ (ih h c hc)

theorem toDec_no_x (n : Nat) : 'x' ∉ toDec n := by
  intro h
  have := toDec_digits n 'x' h
  exact absurd this (by decide)

theorem intToDec_no_x (i : Int) : 'x' ∉ intToDec i := by
  unfold intToDec
  split_ifs
  · intro h
    simp only [List.mem_cons] at h
    rcases h with h | h
    · exact absurd h (by decide)
    · exact toDec_no_x _ h
  · exact toDec_no_x _

/-- A rewritten dictionary without `/Extends` value has no `/Extends` line. -/
theorem ostreamDict_no_extends (L n : Nat) (F : Int) :
    hasSub "/Extends".toList (ostreamDict L n F []) = false := by
  cases h : hasSub "/Extends".toList (ostreamDict L n F []) with
  | false => rfl
  | true =>
    have hx := hasSub_mem h 'x' (by decide)
    simp [ostreamDict, toDec_no_x, intToDec_no_x] at hx

/-- C18 (amended): /Extends is preserved.  Take an object stream of a run: a
line `l0` read in state `st_in_obj` opens its dictionary, the lines `D` are read
in state `st_in_ostream_dict`, then `stream`, the lines `mid` of the body and the
closing `endstream`.  The rewritten dictionary carries the value
`lastExtends D`: group 1 of the leftmost match of `/Extends (\d+ 0 R)` in the
last line of `D` that has a match.  If there is one, it is a number `M`
followed by ` 0 R`, and the line `  /Extends M 0 R` stands between the `/First`
line and `>>`.  If no line of `D` has a match, the rewritten dictionary has no
`/Extends` at all, whatever earlier object streams had. -/
theorem extends_preserved (filename : Bytes) (ls D mid : List Bytes)
    (s s0 sD u t t1 : QdfFixer) (l0 : Bytes)
    (hrun : runLines (QdfFixer.init filename) ls = .ok s) (hst : s.state = .st_in_obj)
    (hl0 : step s l0 = .ok s0) (hs0 : s0.state = .st_in_ostream_dict)
    (hD : ∀ l ∈ D, l ≠ "stream\n".toList) (hdict : runLines s0 D = .ok sD)
    (hstream : step sD "stream\n".toList = .ok u)
    (hmid : runLines u mid = .ok t)
    (hbody : ∀ p ∈ mid.inits, inBody (runLines u p).final.state = true)
    (ht : t.state = .st_in_ostream_obj)
    (hflush : step t "endstream\n".toList = .ok t1) :
    t1.out = t.out ++ ostreamDict (flushLength t) t.ostream_offsets.length (flushFirst t)
        (lastExtends D) ++ "stream\n".toList ++ flushBody t ++ "endstream\n".toList ∧
      (lastExtends D ≠ [] →
        ostreamDict (flushLength t) t.ostream_offsets.length (flushFirst t) (lastExtends D) =
          "  /Length ".toList ++ toDec (flushLength t) ++ "\n".toList ++
          "  /N ".toList ++ toDec t.ostream_offsets.length ++ "\n".toList ++
          "  /First ".toList ++ intToDec (flushFirst t) ++ "\n".toList ++
          ("  /Extends ".toList ++ lastExtends D ++ "\n".toList) ++ ">>\n".toList) ∧
      (∀ m, (D.filterMap re_extends).getLast? = some m →
        lastExtends D = m ∧
          ∃ M : Bytes, M ≠ [] ∧ (∀ c ∈ M, c.isDigit = true) ∧ m = M ++ " 0 R".toList) ∧
      ((∀ l ∈ D, re_extends l = none) →
        lastExtends D = [] ∧
          hasSub "/Extends".toList (ostreamDict (flushLength t) t.ostream_offsets.length
            (flushFirst t) (lastExtends D)) = false) := by
  have hi := runLines_inv (inv_init filename) hrun
  have ha := hi.acct.acct
  simp only [Acct, hst] at ha
  have hclean : s.ostream_extends = [] := ha.2.1.2.2.2.2
  have e0 : s0.ostream_extends = [] := by
    obtain ⟨-, hc⟩ := step_cases hl0
    cases hc <;> first
      | exact hclean
      | (exfalso; simp_all [advance]; done)
  obtain ⟨hsD, eD⟩ := runLines_dict D s0 sD hs0 hD hdict
  rw [e0] at eD
  have eu : u.ostream_extends = sD.ostream_extends := by
    obtain ⟨-, hc⟩ := step_cases hstream
    cases hc <;> first
      | rfl
      | (exfalso; simp_all [advance]; done)
  have et : t.ostream_extends = lastExtends D := by
    rw [runLines_body mid u t hmid hbody, eu, eD]
    rfl
  obtain ⟨hout, -, -, -, -⟩ := flush_out ht hflush
  rw [et] at hout
  refine ⟨hout, ?_, ?_, ?_⟩
  · intro hne
    simp [ostreamDict, hne]
  · intro m hm
    have hl : lastExtends D = m := by simp [lastExtends, hm]
    refine ⟨hl, ?_⟩
    have hmem : m ∈ D.filterMap re_extends := by
      obtain ⟨-, hget⟩ := getLast?_getElem? _ _ hm
      have hlt := getElem?_lt hget
      rw [List.getElem?_eq_getElem hlt, Option.some.injEq] at hget
      exact hget ▸ List.getElem_mem hlt
    obtain ⟨l, -, hre⟩ := List.mem_filterMap.1 hmem
    exact re_extends_shape l m hre
  · intro hnone
    have hnil : D.filterMap re_extends = [] := by
      rw [List.filterMap_eq_nil_iff]
      exact hnone
    have hl : lastExtends D = [] := by simp [lastExtends, hnil]
    exact ⟨hl, by rw [hl]; exact ostreamDict_no_extends _ _ _⟩

set_option maxRecDepth 100000 in
/-- Witness of C18: the first object stream of `inputExtends` is rewritten with
the value of its `/Extends 9 0 R` line. -/
theorem extends_preserved_witness :
    (stateExtends 8).out = (stateExtends 7).out ++
      ostreamDict (flushLength (stateExtends 7)) (stateExtends 7).ostream_offsets.length
        (flushFirst (stateExtends 7))
        (lastExtends ["  /Extends 9 0 R\n".toList, ">>\n".toList]) ++
      "stream\n".toList ++ flushBody (stateExtends 7) ++ "endstream\n".toList :=
  (extends_preserved "in.qdf".toList ((splitLines inputExtends).take 1)
    ["  /Extends 9 0 R\n".toList, ">>\n".toList]
    ["%% Object stream: object 2\n".toList, "<<>>\n".toList]
    (stateExtends 1) (stateExtends 2) (stateExtends 4) (stateExtends 5) (stateExtends 7)
    (stateExtends 8) "<< /Type /ObjStm\n".toList rfl rfl rfl rfl (by decide) rfl rfl rfl
    (by decide) rfl rfl).1

set_option maxRecDepth 100000 in
/-- Counterexample to C18 as stated: the lines `  /Extends 5 0 R` and
`  /Extends 7 0 R` are both read in state `st_in_ostream_dict`, and the
rewritten dictionary has the second and not the first. -/
theorem extends_claim_counterexample :
    (runLines (QdfFixer.init "in.qdf".toList)
        ((splitLines inputTwoExtends).take 2)).final.state = .st_in_ostream_dict ∧
      (runLines (QdfFixer.init "in.qdf".toList)
        ((splitLines inputTwoExtends).take 3)).final.state = .st_in_ostream_dict ∧
      outputOf (processLines "in.qdf".toList inputTwoExtends) =
        some ("1 0 obj\n<< /Type /ObjStm\n  /Length 36\n  /N 1\n  /First 31\n" ++
          "  /Extends 7 0 R\n>>\nstream\n2 0\n%% Object stream: object 2\n<<>>\nendstream\n" ++
          "endobj\n").toList ∧
      hasSub "/Extends 5 0 R".toList
        (processLines "in.qdf".toList inputTwoExtends).final.out = false := by
  decide

theorem IsLine.of_body (body : Bytes) (h : '\n' ∉ body) : IsLine (body ++ "\n".toList) :=
  ⟨body, rfl, h⟩

theorem IsLine.ne_nil {l : Bytes} (h : IsLine l) : l ≠ [] := by
  obtain ⟨b, rfl, -⟩ := h
  simp

/-- The lines of an input: complete lines and a last line without newline. -/
theorem splitLines_shape : ∀ x : Bytes, ∃ (ts : List Bytes) (r : Bytes),
    splitLines x = ts ++ [r] ∧ (∀ l ∈ ts, IsLine l) ∧ '\n' ∉ r := by
  intro x
  induction x with
  | nil => exact ⟨[], [], rfl, by simp, by simp⟩
  | cons c cs ih =>
    obtain ⟨ts, r, h1, h2, h3⟩ := ih
    by_cases hc : c = '\n'
    · refine ⟨[c] :: ts, r, by simp [splitLines, hc, h1], ?_, h3⟩
      intro l hl
      simp only [List.mem_cons] at hl
      rcases hl with rfl | hl
      · exact ⟨[], by simp [hc], by simp⟩
      · exact h2 l hl
    · cases ts with
      | nil =>
        refine ⟨[], c :: r, by simp [splitLines, hc, h1], by simp, ?_⟩
        simp only [List.mem_cons, not_or]
        exact ⟨fun h => hc h.symm, h3⟩
      | cons t ts1 =>
        refine ⟨(c :: t) :: ts1, r, by simp [splitLines, hc, h1], ?_, h3⟩
        intro l hl
        simp only [List.mem_cons] at hl
        rcases hl with rfl | hl
        · obtain ⟨b, hb1, hb2⟩ := h2 t (by simp)
          refine ⟨c :: b, by simp [hb1], ?_⟩
          simp only [List.mem_cons, not_or]
          exact ⟨fun h => hc h.symm, hb2⟩
        · exact h2 l (by simp [hl])

theorem splitLines_no_newline : ∀ r : Bytes, '\n' ∉ r → splitLines r = [r] := by
  intro r
  induction r with
  | nil => intro _; rfl
  | cons c cs ih =>
    intro h
    simp only [List.mem_cons, not_or] at h
    have hc : c ≠ '\n' := fun hh => h.1 hh.symm
    simp [splitLines, hc, ih h.2]

theorem splitLines_lines_aux : ∀ b : Bytes, '\n' ∉ b →
    splitLines (b ++ ['\n']) = [b ++ ['\n']] ++ [[]] := by
  intro b
  induction b with
  | nil => intro _; simp [splitLines]
  | cons c cs ih =>
    intro h
    simp only [List.mem_cons, not_or] at h
    have hc : c ≠ '\n' := fun hh => h.1 hh.symm
    rw [List.cons_append]
    simp only [splitLines, if_neg hc, ih h.2]
    rfl

/-- Complete lines followed by a piece without newline are split into just
these. -/
theorem splitLines_lines : ∀ (ts : List Bytes) (r : Bytes), (∀ l ∈ ts, IsLine l) → '\n' ∉ r →
    splitLines (ts.flatten ++ r) = ts ++ [r] := by
  intro ts
  induction ts with
  | nil => intro r _ hr; simpa using splitLines_no_newline r hr
  | cons t rest ih =>
    intro r ht hr
    obtain ⟨b, rfl, hb⟩ := ht t (by simp)
    obtain ⟨L, -, hL⟩ := splitLines_append_newline b
    have e1 : ((b ++ ['\n']) :: rest).flatten ++ r = b ++ '\n' :: (rest.flatten ++ r) := by
      simp
    rw [e1, hL, ih r (fun l hl => ht l (by simp [hl])) hr]
    have e2 := hL []
    have e3 : splitLines (b ++ ['\n']) = [b ++ ['\n']] ++ [[]] := by
      have := splitLines_lines_aux b hb
      exact this
    have e4 : L = [b ++ ['\n']] := by
      have : L ++ [[]] = [b ++ ['\n']] ++ [[]] := by
        rw [← e3]
        simpa [splitLines] using e2.symm
      exact List.append_cancel_right this
    rw [e4]
    simp

theorem dictLines_flatten (L n : Nat) (F : Int) (e : Bytes) :
    (dictLines L n F e).flatten = ostreamDict L n F e := by
  unfold dictLines ostreamDict
  split_ifs <;> simp [List.append_assoc]

theorem headerLines_flatten (first : Int) : ∀ (offs : List Int) (onum : Nat),
    (headerLines onum first offs).flatten = ostreamHeader onum first offs := by
  intro offs
  induction offs with
  | nil => intro onum; rfl
  | cons a rest ih =>
    intro onum
    simp only [headerLines, ostreamHeader, List.flatten_cons, ih]

theorem tableLines_flatten (xref : List XRefEntry) :
    (tableLines xref).flatten = tableText xref := rfl

theorem isDigit_ne_newline {c : Char} (h : c.isDigit = true) : c ≠ '\n' := by
  intro hc
  rw [hc] at h
  exact absurd h (by decide)

theorem toDec_no_newline (n : Nat) : '\n' ∉ toDec n := fun h =>
  isDigit_ne_newline (toDec_digits n _ h) rfl

theorem intToDec_no_newline (i : Int) : '\n' ∉ intToDec i := by
  unfold intToDec
  split_ifs
  · intro h
    simp only [List.mem_cons] at h
    rcases h with h | h
    · exact absurd h (by decide)
    · exact toDec_no_newline _ h
  · exact toDec_no_newline _

theorem int_to_string_no_newline (o : Int) (n : Nat) : '\n' ∉ int_to_string o n := by
  unfold int_to_string
  split_ifs
  · intro h
    simp only [List.mem_cons, List.mem_append, List.mem_replicate] at h
    rcases h with h | ⟨-, h⟩ | h
    · exact absurd h (by decide)
    · exact absurd h (by decide)
    · exact toDec_no_newline _ h
  · intro h
    simp only [List.mem_append, List.mem_replicate] at h
    rcases h with ⟨-, h⟩ | h
    · exact absurd h (by decide)
    · exact toDec_no_newline _ h

theorem ExtW.no_newline {e : Bytes} (h : ExtW e) : '\n' ∉ e := by
  rcases h with rfl | ⟨M, -, hM, rfl⟩
  · simp
  · intro hc
    simp only [List.mem_append] at hc
    rcases hc with hc | hc
    · exact isDigit_ne_newline (hM _ hc) rfl
    · exact absurd hc (by decide)

theorem dictLines_isLine (L n : Nat) (F : Int) {e : Bytes} (he : ExtW e) :
    ∀ x ∈ dictLines L n F e, IsLine x := by
  intro x hx
  unfold dictLines at hx
  simp only [List.mem_append, List.mem_cons, List.mem_singleton, List.not_mem_nil,
    or_false] at hx
  rcases hx with ((rfl | rfl | rfl) | hx) | rfl
  · exact ⟨"  /Length ".toList ++ toDec L, by simp, by
      simp only [List.mem_append, not_or]
      exact ⟨by decide, toDec_no_newline _⟩⟩
  · exact ⟨"  /N ".toList ++ toDec n, by simp, by
      simp only [List.mem_append, not_or]
      exact ⟨by decide, toDec_no_newline _⟩⟩
  · exact ⟨"  /First ".toList ++ intToDec F, by simp, by
      simp only [List.mem_append, not_or]
      exact ⟨by decide, intToDec_no_newline _⟩⟩
  · split_ifs at hx
    · simp only [List.mem_singleton] at hx
      subst hx
      exact ⟨"  /Extends ".toList ++ e, by simp, by
        simp only [List.mem_append, not_or]
        exact ⟨by decide, he.no_newline⟩⟩
    · cases hx
  · exact ⟨">>".toList, rfl, by decide⟩

theorem headerLines_isLine (first : Int) : ∀ (offs : List Int) (onum : Nat),
    ∀ x ∈ headerLines onum first offs, IsLine x := by
  intro offs
  induction offs with
  | nil => intro onum x hx; cases hx
  | cons a rest ih =>
    intro onum x hx
    simp only [headerLines, List.mem_cons] at hx
    rcases hx with rfl | hx
    · refine ⟨toDec (onum + 1) ++ " ".toList ++ intToDec (a - first), by simp, ?_⟩
      simp only [List.mem_append, not_or]
      exact ⟨⟨toDec_no_newline _, by decide⟩, intToDec_no_newline _⟩
    · exact ih _ x hx

theorem tableLines_isLine (xref : List XRefEntry) : ∀ x ∈ tableLines xref, IsLine x := by
  intro x hx
  simp only [tableLines, List.mem_map] at hx
  obtain ⟨o, -, rfl⟩ := hx
  refine ⟨int_to_string o 10 ++ " 00000 n ".toList, by simp, ?_⟩
  simp only [List.mem_append, not_or]
  exact ⟨int_to_string_no_newline _ _, by decide⟩

theorem not_mem_toDec {c : Char} (hc : c.isDigit = false) (n : Nat) : c ∉ toDec n := by
  intro h
  have := toDec_digits n c h
  rw [hc] at this
  cases this

theorem not_mem_intToDec {c : Char} (hc : c.isDigit = false) (hm : c ≠ '-') (i : Int) :
    c ∉ intToDec i := by
  unfold intToDec
  split_ifs
  · intro h
    simp only [List.mem_cons] at h
    rcases h with h | h
    · exact hm h
    · exact not_mem_toDec hc _ h
  · exact not_mem_toDec hc _

theorem not_mem_int_to_string {c : Char} (hc : c.isDigit = false) (hm : c ≠ '-') (o : Int)
    (n : Nat) : c ∉ int_to_string o n := by
  have h0 : c ≠ '0' := by
    intro h
    rw [h] at hc
    exact absurd hc (by decide)
  unfold int_to_string
  split_ifs
  · intro h
    simp only [List.mem_cons, List.mem_append, List.mem_replicate] at h
    rcases h with h | ⟨-, h⟩ | h
    · exact hm h
    · exact h0 h
    · exact not_mem_toDec hc _ h
  · intro h
    simp only [List.mem_append, List.mem_replicate] at h
    rcases h with ⟨-, h⟩ | h
    · exact h0 h
    · exact not_mem_toDec hc _ h

theorem hasSub_nil_pat : ∀ b : Bytes, hasSub [] b = true := by
  intro b
  cases b <;> simp [hasSub]

theorem hasSub_append {pat : Bytes} : ∀ {a : Bytes} (b : Bytes), hasSub pat a = true →
    hasSub pat (a ++ b) = true := by
  intro a
  induction a with
  | nil =>
    intro b h
    simp only [hasSub] at h
    have : pat = [] := List.prefix_nil.1 (List.isPrefixOf_iff_prefix.1 h)
    rw [this]
    exact hasSub_nil_pat _
  | cons c cs ih =>
    intro b h
    simp only [hasSub, Bool.or_eq_true, List.cons_append] at h ⊢
    rcases h with h | h
    · left
      exact List.isPrefixOf_iff_prefix.2
        ((List.isPrefixOf_iff_prefix.1 h).trans (List.prefix_append (c :: cs) b))
    · right
      exact ih b h

theorem hasSub_false_of_not_mem {pat l : Bytes} (c : Char) (hc : c ∈ pat) (hl : c ∉ l) :
    hasSub pat l = false := by
  cases h : hasSub pat l with
  | false => rfl
  | true => exact absurd (hasSub_mem h c hc) hl

theorem re_extends_mem_x : ∀ (l m : Bytes), re_extends l = some m → 'x' ∈ l := by
  intro l
  induction l with
  | nil => intro m h; simp [re_extends] at h
  | cons c cs ih =>
    intro m h
    simp only [re_extends] at h
    split at h
    · rename_i m1 hm
      simp only [re_extends_here] at hm
      split_ifs at hm with hp
      exact (List.isPrefixOf_iff_prefix.1 hp).subset (by decide)
    · exact List.mem_cons_of_mem _ (ih m h)

theorem re_extends_none_of_not_mem {l : Bytes} (h : 'x' ∉ l) : re_extends l = none := by
  cases hr : re_extends l with
  | none => rfl
  | some m => exact absurd (re_extends_mem_x l m hr) h

theorem re_extends_line (M : Bytes) (hM : ∀ c ∈ M, c.isDigit = true) (hne : M ≠ []) :
    re_extends ("  /Extends ".toList ++ (M ++ " 0 R".toList) ++ "\n".toList) =
      some (M ++ " 0 R".toList) := by
  obtain ⟨h1, h2⟩ := takeWhile_digits M "0 R\n".toList hM ' ' (by decide)
  have e : "  /Extends ".toList ++ (M ++ " 0 R".toList) ++ "\n".toList =
      ' ' :: ' ' :: ("/Extends ".toList ++ (M ++ ' ' :: "0 R\n".toList)) := by
    simp [List.append_assoc]
  have e9 : ("/Extends ".toList ++ (M ++ ' ' :: "0 R\n".toList)).drop 9 =
      M ++ ' ' :: "0 R\n".toList := by
    simp
  have p : "/Extends ".toList.isPrefixOf
      ("/Extends ".toList ++ (M ++ ' ' :: "0 R\n".toList)) = true := by
    simp
  have q : " 0 R".toList.isPrefixOf (' ' :: "0 R\n".toList) = true := by decide
  rw [e]
  have n1 : re_extends_here
      (' ' :: ' ' :: ("/Extends ".toList ++ (M ++ ' ' :: "0 R\n".toList))) = none := by
    simp [re_extends_here]
  have n2 : re_extends_here
      (' ' :: ("/Extends ".toList ++ (M ++ ' ' :: "0 R\n".toList))) = none := by
    simp [re_extends_here]
  have n3 : re_extends_here ("/Extends ".toList ++ (M ++ ' ' :: "0 R\n".toList)) =
      some (M ++ " 0 R".toList) := by
    simp only [re_extends_here, p, e9, h1, h2, q, if_true]
    simp [hne]
  have c3 : "/Extends ".toList ++ (M ++ ' ' :: "0 R\n".toList) =
      '/' :: ("Extends ".toList ++ (M ++ ' ' :: "0 R\n".toList)) := rfl
  rw [re_extends, n1]
  dsimp only
  rw [re_extends, n2]
  dsimp only
  rw [c3, re_extends, ← c3, n3]

theorem runLines_dict_lines (D : List Bytes) : ∀ a : QdfFixer,
    a.state = .st_in_ostream_dict → (∀ x ∈ D, x ≠ "stream\n".toList) →
    a.offset + (totalLength D : Int) ≤ OFFSET_MAX →
    ∃ n lo, runLines a D = .ok { a with
      lineno := n, last_offset := lo, offset := a.offset + (totalLength D : Int)
      ostream_discarded := a.ostream_discarded ++ D
      ostream_extends := extendsAfter a.ostream_extends D } := by
  induction D with
  | nil =>
    intro s _ _ _
    exact ⟨s.lineno, s.last_offset, by simp [runLines, totalLength, extendsAfter]⟩
  | cons m rest ih =>
    intro s hst hm hov
    simp only [totalLength, List.map_cons, List.sum_cons, Nat.cast_add] at hov
    have hpos : (0 : Int) ≤ ((rest.map List.length).sum : Nat) := Int.natCast_nonneg _
    obtain ⟨t, ht, h1⟩ : ∃ t, t = ({ advance s m with ostream_discarded := s.ostream_discarded ++ [m], ostream_extends := (re_extends m).getD s.ostream_extends } : QdfFixer) ∧ step s m = .ok t :=
      ⟨_, rfl, step_of_cases (s := s) (l := m) (by omega)
        (StepOk.dict_line hst (hm m (by simp)))⟩
    obtain ⟨n, lo, h2⟩ := ih t (by rw [ht]; exact hst) (fun x hx => hm x (by simp [hx]))
      (by rw [ht]; simp only [advance, totalLength]; omega)
    refine ⟨n, lo, ?_⟩
    simp only [runLines, h1, Result.bind_ok, h2]
    subst ht
    simp [advance, totalLength, Int.add_assoc, extendsAfter]

theorem runLines_offsets_lines (H : List Bytes) : ∀ a : QdfFixer,
    a.state = .st_in_ostream_offsets → (∀ x ∈ H, re_ostream_obj x = none) →
    a.offset + (totalLength H : Int) ≤ OFFSET_MAX →
    ∃ n lo, runLines a H = .ok { a with
      lineno := n, last_offset := lo, offset := a.offset + (totalLength H : Int)
      ostream_discarded := a.ostream_discarded ++ H } := by
  induction H with
  | nil =>
    intro s _ _ _
    exact ⟨s.lineno, s.last_offset, by simp [runLines, totalLength]⟩
  | cons m rest ih =>
    intro s hst hm hov
    simp only [totalLength, List.map_cons, List.sum_cons, Nat.cast_add] at hov
    have hpos : (0 : Int) ≤ ((rest.map List.length).sum : Nat) := Int.natCast_nonneg _
    obtain ⟨t, ht, h1⟩ : ∃ t, t = ({ advance s m with ostream_discarded := s.ostream_discarded ++ [m] } : QdfFixer) ∧ step s m = .ok t :=
      ⟨_, rfl, step_of_cases (s := s) (l := m) (by omega)
        (StepOk.offsets_other hst (hm m (by simp)))⟩
    obtain ⟨n, lo, h2⟩ := ih t (by rw [ht]; exact hst) (fun x hx => hm x (by simp [hx]))
      (by rw [ht]; simp only [advance, totalLength]; omega)
    refine ⟨n, lo, ?_⟩
    simp only [runLines, h1, Result.bind_ok, h2]
    subst ht
    simp [advance, totalLength, Int.add_assoc]

theorem runLines_xdict_skip (H : List Bytes) : ∀ a : QdfFixer,
    a.state = .st_in_xref_stream_dict →
    (∀ x ∈ H, (hasSub "/Length".toList x || hasSub "/W".toList x) = true) →
    a.offset + (totalLength H : Int) ≤ OFFSET_MAX →
    ∃ n lo, runLines a H = .ok { a with
      lineno := n, last_offset := lo, offset := a.offset + (totalLength H : Int) } := by
  induction H with
  | nil =>
    intro s _ _ _
    exact ⟨s.lineno, s.last_offset, by simp [runLines, totalLength]⟩
  | cons m rest ih =>
    intro s hst hm hov
    simp only [totalLength, List.map_cons, List.sum_cons, Nat.cast_add] at hov
    have hpos : (0 : Int) ≤ ((rest.map List.length).sum : Nat) := Int.natCast_nonneg _
    obtain ⟨t, ht, h1⟩ : ∃ t, t = advance s m ∧ step s m = .ok t :=
      ⟨_, rfl, step_of_cases (s := s) (l := m) (by omega)
        (StepOk.xdict_skip hst (hm m (by simp)))⟩
    obtain ⟨n, lo, h2⟩ := ih t (by rw [ht]; exact hst) (fun x hx => hm x (by simp [hx]))
      (by rw [ht]; simp only [advance, totalLength]; omega)
    refine ⟨n, lo, ?_⟩
    simp only [runLines, h1, Result.bind_ok, h2]
    subst ht
    simp [advance, totalLength, Int.add_assoc]

/-- The lines of a text that ends with a newline. -/
theorem lines_of_terminated (T : Bytes) :
    ∃ ts : List Bytes, (∀ l ∈ ts, IsLine l) ∧ ts.flatten = T ++ "\n".toList := by
  obtain ⟨ts, r, h1, h2, h3⟩ := splitLines_shape T
  refine ⟨ts ++ [r ++ "\n".toList], ?_, ?_⟩
  · intro l hl
    simp only [List.mem_append, List.mem_singleton] at hl
    rcases hl with hl | rfl
    · exact h2 l hl
    · exact IsLine.of_body r h3
  · have := splitLines_flatten T
    rw [h1] at this
    simp only [List.flatten_append, List.flatten_cons, List.flatten_nil,
      List.append_nil] at this ⊢
    rw [← this, List.append_assoc]

theorem sync_intro {s1 s1' s2 s2' : QdfFixer} {l : Bytes} (hl : IsLine l)
    (hs : step s2 l = .ok s2') (hout : s1'.out = s1.out ++ l) (hsim : Sim s1' s2') :
    ∃ (c : List Bytes) (s2' : QdfFixer), s1'.out = s1.out ++ c.flatten ∧ (∀ x ∈ c, IsLine x) ∧
      runLines s2 c = .ok s2' ∧ Sim s1' s2' :=
  ⟨[l], s2', by simpa using hout, by simpa using hl, by simp [runLines, hs], hsim⟩

theorem silent_intro {s1 s1' s2 : QdfFixer} (hout : s1'.out = s1.out) (hsim : Sim s1' s2) :
    ∃ (c : List Bytes) (s2' : QdfFixer), s1'.out = s1.out ++ c.flatten ∧ (∀ x ∈ c, IsLine x) ∧
      runLines s2 c = .ok s2' ∧ Sim s1' s2' :=
  ⟨[], s2, by simpa using hout, by simp, rfl, hsim⟩

theorem sim_step_top {s1 s1' s2 : QdfFixer} {l : Bytes} (hinv : Inv s1) (hsim : Sim s1 s2)
    (hl : IsLine l) (hst : s1.state = .st_top) (hc : StepOk s1 l s1')
    (hroom : (s1'.out.length : Int) ≤ OFFSET_MAX) :
    ∃ (c : List Bytes) (s2' : QdfFixer), s1'.out = s1.out ++ c.flatten ∧ (∀ x ∈ c, IsLine x) ∧
      runLines s2 c = .ok s2' ∧ Sim s1' s2' := by
  obtain ⟨hs, hx, hlo⟩ := hsim.plain (by rw [hst]; rfl)
  have hA := hinv.acct.acct
  simp only [Acct, hst] at hA
  obtain ⟨hoff, hclean, hf2⟩ := hA
  obtain ⟨hsout, hso, hxoff, hf1, hf2', hslen, hext, hcl, -, hsstart, -, -⟩ := hsim
  rw [hst] at hs
  cases hc with
  | top_header _ d hre hn hlt =>
    simp only [advance, List.length_append, Nat.cast_add] at hroom
    refine sync_intro hl (step_of_cases (by omega)
      (StepOk.top_header hs d hre (by rw [hlo]; exact hn) (by rw [hlo]; exact hlt))) rfl ?_
    constructor <;> simp_all [advance, inOstream, Clean]
  | top_xref _ hl0 =>
    simp only [advance, List.length_append, Nat.cast_add] at hroom
    refine sync_intro hl (step_of_cases (by omega) (StepOk.top_xref hs hl0)) rfl ?_
    constructor <;> simp_all [advance, inOstream, Clean]
  | top_other _ hre hl0 =>
    simp only [advance, List.length_append, Nat.cast_add] at hroom
    refine sync_intro hl (step_of_cases (by omega) (StepOk.top_other hs hre hl0)) rfl ?_
    constructor <;> simp_all [advance, inOstream, Clean]
  | _ => simp_all

theorem xrefDictLines_eq (n f1 f2 : Nat) :
    xrefDictLines n f1 f2 =
      ["  /Length ".toList ++ toDec ((1 + n) * (1 + f1 + f2)) ++ "\n".toList,
        "  /W [ 1 ".toList ++ toDec f1 ++ " ".toList ++ toDec f2 ++ " ]\n".toList].flatten := by
  simp [xrefDictLines, List.append_assoc]

theorem xrefDictLines_isLine (n f1 f2 : Nat) :
    ∀ x ∈ ["  /Length ".toList ++ toDec ((1 + n) * (1 + f1 + f2)) ++ "\n".toList,
        "  /W [ 1 ".toList ++ toDec f1 ++ " ".toList ++ toDec f2 ++ " ]\n".toList],
      IsLine x := by
  intro x hx
  simp only [List.mem_cons, List.mem_singleton, List.not_mem_nil, or_false] at hx
  rcases hx with rfl | rfl
  · exact ⟨"  /Length ".toList ++ toDec ((1 + n) * (1 + f1 + f2)), by simp, by
      simp only [List.mem_append, not_or]
      exact ⟨by decide, toDec_no_newline _⟩⟩
  · exact ⟨"  /W [ 1 ".toList ++ toDec f1 ++ " ".toList ++ toDec f2 ++ " ]".toList,
      by simp [List.append_assoc], by
      simp only [List.mem_append, not_or]
      exact ⟨⟨⟨⟨by decide, toDec_no_newline _⟩, by decide⟩, toDec_no_newline _⟩, by decide⟩⟩

theorem xrefDictLines_skip (n f1 f2 : Nat) :
    ∀ x ∈ ["  /Length ".toList ++ toDec ((1 + n) * (1 + f1 + f2)) ++ "\n".toList,
        "  /W [ 1 ".toList ++ toDec f1 ++ " ".toList ++ toDec f2 ++ " ]\n".toList],
      (hasSub "/Length".toList x || hasSub "/W".toList x) = true := by
  intro x hx
  simp only [List.mem_cons, List.mem_singleton, List.not_mem_nil, or_false] at hx
  rcases hx with rfl | rfl
  · rw [List.append_assoc, hasSub_append _ (by decide)]
    rfl
  · have h : hasSub "/W".toList ("  /W [ 1 ".toList ++
        (toDec f1 ++ (" ".toList ++ (toDec f2 ++ " ]\n".toList)))) = true :=
      hasSub_append _ (by decide)
    rw [List.append_assoc, List.append_assoc, List.append_assoc, h]
    simp

theorem sim_step_in_obj {s1 s1' s2 : QdfFixer} {l : Bytes} (hinv : Inv s1) (hsim : Sim s1 s2)
    (hl : IsLine l) (hst : s1.state = .st_in_obj) (hc : StepOk s1 l s1')
    (hroom : (s1'.out.length : Int) ≤ OFFSET_MAX) :
    ∃ (c : List Bytes) (s2' : QdfFixer), s1'.out = s1.out ++ c.flatten ∧ (∀ x ∈ c, IsLine x) ∧
      runLines s2 c = .ok s2' ∧ Sim s1' s2' := by
  obtain ⟨hs, hx, hlo⟩ := hsim.plain (by rw [hst]; rfl)
  have hA := hinv.acct.acct
  have hlen := hinv.acct.xref_len
  simp only [Acct, hst] at hA
  obtain ⟨hoff, hclean, hf2⟩ := hA
  obtain ⟨hsout, hso, hxoff, hf1, hf2', hslen, hext, hcl, -, hsstart, -, -⟩ := hsim
  rw [hst] at hs
  cases hc with
  | obj_stream _ hl0 =>
    simp only [advance, List.length_append, Nat.cast_add] at hroom
    refine sync_intro hl (step_of_cases (by omega) (StepOk.obj_stream hs hl0)) rfl ?_
    constructor <;> simp_all [advance, inOstream, Clean]
  | obj_endobj _ hl0 =>
    simp only [advance, List.length_append, Nat.cast_add] at hroom
    refine sync_intro hl (step_of_cases (by omega) (StepOk.obj_endobj hs hl0)) rfl ?_
    constructor <;> simp_all [advance, inOstream, Clean]
  | obj_ostm _ hl1 hl2 h3 =>
    simp only [advance, List.length_append, Nat.cast_add] at hroom
    have htake : s1.xref.take s1.last_obj = s1.xref := List.take_of_length_le (by omega)
    refine sync_intro hl (step_of_cases (by omega) (StepOk.obj_ostm hs hl1 hl2 h3)) rfl ?_
    constructor <;> simp_all [advance, inOstream, Clean]
  | obj_xref _ hl1 hl2 h3 h4 p hlast hp =>
    simp only [advance, List.length_append, Nat.cast_add] at hroom
    obtain ⟨t, ht, h1⟩ : ∃ t, t = ({ advance s2 l with
          xref_offset := p
          xref_f1_nbytes := nbytes p.toNat
          xref_f2_nbytes := s2.xref_f2_nbytes + nbytes (maxObjects s2.xref)
          xref_size := 1 + s2.xref.length
          state := .st_in_xref_stream_dict
          out := s2.out ++ l ++ xrefDictLines s2.xref.length (nbytes p.toNat)
            (s2.xref_f2_nbytes + nbytes (maxObjects s2.xref)) } : QdfFixer) ∧
        step s2 l = .ok t :=
      ⟨_, rfl, step_of_cases (by omega)
        (StepOk.obj_xref hs hl1 hl2 h3 h4 p (by rw [hx]; exact hlast) hp)⟩
    obtain ⟨c, hc1, hc2, hc3⟩ : ∃ c : List Bytes,
        xrefDictLines s1.xref.length (nbytes p.toNat)
          (s1.xref_f2_nbytes + nbytes (maxObjects s1.xref)) = c.flatten ∧
        (∀ x ∈ c, IsLine x) ∧
        (∀ x ∈ c, (hasSub "/Length".toList x || hasSub "/W".toList x) = true) :=
      ⟨_, xrefDictLines_eq _ _ _, xrefDictLines_isLine _ _ _, xrefDictLines_skip _ _ _⟩
    rw [hc1, length_flatten_bytes] at hroom
    obtain ⟨n, lo, h2⟩ := runLines_xdict_skip c t (by rw [ht]) hc3
      (by rw [ht]; simp only [advance]; omega)
    refine ⟨l :: c, { t with
      lineno := n, last_offset := lo, offset := t.offset + (totalLength c : Int) },
      ?_, ?_, ?_, ?_⟩
    · simp [List.append_assoc, hc1]
    · intro x hx
      rcases List.mem_cons.1 hx with rfl | hx
      · exact hl
      · exact hc2 x hx
    · simp only [runLines, h1, Result.bind_ok]
      exact h2
    · subst ht
      constructor
      case off =>
        simp only [advance, List.length_append, Nat.cast_add, hc1, length_flatten_bytes, hso]
      all_goals simp_all [advance, inOstream, Clean]
  | obj_other _ hl1 hl2 h3 h4 =>
    simp only [advance, List.length_append, Nat.cast_add] at hroom
    refine sync_intro hl (step_of_cases (by omega) (StepOk.obj_other hs hl1 hl2 h3 h4)) rfl ?_
    constructor <;> simp_all [advance, inOstream, Clean]
  | _ => simp_all

theorem sim_step_in_stream {s1 s1' s2 : QdfFixer} {l : Bytes} (hinv : Inv s1) (hsim : Sim s1 s2)
    (hl : IsLine l) (hst : s1.state = .st_in_stream) (hc : StepOk s1 l s1')
    (hroom : (s1'.out.length : Int) ≤ OFFSET_MAX) :
    ∃ (c : List Bytes) (s2' : QdfFixer), s1'.out = s1.out ++ c.flatten ∧ (∀ x ∈ c, IsLine x) ∧
      runLines s2 c = .ok s2' ∧ Sim s1' s2' := by
  obtain ⟨hs, hx, hlo⟩ := hsim.plain (by rw [hst]; rfl)
  have hA := hinv.acct.acct
  have hlen := hinv.acct.xref_len
  simp only [Acct, hst] at hA
  obtain ⟨hoff, hclean, hf2⟩ := hA
  obtain ⟨hsout, hso, hxoff, hf1, hf2', hslen, hext, hcl, -, hsstart, -, -⟩ := hsim
  have hss := hsstart hst
  rw [hst] at hs
  cases hc with
  | stream_end _ hl0 hge =>
    simp only [advance, List.length_append, Nat.cast_add] at hroom
    refine sync_intro hl (step_of_cases (by omega) (StepOk.stream_end hs hl0 (by rw [hso, hss, ← hoff]; exact hge))) rfl ?_
    constructor <;> simp_all [advance, inOstream, Clean]
  | stream_other _ hl0 =>
    simp only [advance, List.length_append, Nat.cast_add] at hroom
    refine sync_intro hl (step_of_cases (by omega) (StepOk.stream_other hs hl0)) rfl ?_
    constructor <;> simp_all [advance, inOstream, Clean]
  | _ => simp_all

theorem sim_step_after_stream {s1 s1' s2 : QdfFixer} {l : Bytes} (hinv : Inv s1) (hsim : Sim s1 s2)
    (hl : IsLine l) (hst : s1.state = .st_after_stream) (hc : StepOk s1 l s1')
    (hroom : (s1'.out.length : Int) ≤ OFFSET_MAX) :
    ∃ (c : List Bytes) (s2' : QdfFixer), s1'.out = s1.out ++ c.flatten ∧ (∀ x ∈ c, IsLine x) ∧
      runLines s2 c = .ok s2' ∧ Sim s1' s2' := by
  obtain ⟨hs, hx, hlo⟩ := hsim.plain (by rw [hst]; rfl)
  have hA := hinv.acct.acct
  have hlen := hinv.acct.xref_len
  simp only [Acct, hst] at hA
  obtain ⟨hoff, hclean, hf2⟩ := hA
  obtain ⟨hsout, hso, hxoff, hf1, hf2', hslen, hext, hcl, -, hsstart, -, -⟩ := hsim
  rw [hst] at hs
  cases hc with
  | after_marker _ hl0 =>
    simp only [advance, List.length_append, Nat.cast_add] at hroom
    refine sync_intro hl (step_of_cases (by omega) (StepOk.after_marker hs hl0)) rfl ?_
    constructor <;> simp_all [advance, inOstream, Clean]
  | after_header _ d hre hn hlt =>
    simp only [advance, List.length_append, Nat.cast_add] at hroom
    refine sync_intro hl (step_of_cases (by omega) (StepOk.after_header hs d hre (by rw [hlo]; exact hn) (by rw [hlo]; exact hlt))) rfl ?_
    constructor <;> simp_all [advance, inOstream, Clean]
  | after_other _ hl0 hre =>
    simp only [advance, List.length_append, Nat.cast_add] at hroom
    refine sync_intro hl (step_of_cases (by omega) (StepOk.after_other hs hl0 hre)) rfl ?_
    constructor <;> simp_all [advance, inOstream, Clean]
  | _ => simp_all

theorem sim_step_in_length {s1 s1' s2 : QdfFixer} {l : Bytes} (hinv : Inv s1) (hsim : Sim s1 s2)
    (hl : IsLine l) (hst : s1.state = .st_in_length) (hc : StepOk s1 l s1')
    (hroom : (s1'.out.length : Int) ≤ OFFSET_MAX) :
    ∃ (c : List Bytes) (s2' : QdfFixer), s1'.out = s1.out ++ c.flatten ∧ (∀ x ∈ c, IsLine x) ∧
      runLines s2 c = .ok s2' ∧ Sim s1' s2' := by
  obtain ⟨hs, hx, hlo⟩ := hsim.plain (by rw [hst]; rfl)
  have hA := hinv.acct.acct
  have hlen := hinv.acct.xref_len
  simp only [Acct, hst] at hA
  obtain ⟨hoff, hclean, hf2⟩ := hA
  obtain ⟨hsout, hso, hxoff, hf1, hf2', hslen, hext, hcl, -, hsstart, -, -⟩ := hsim
  rw [hst] at hs
  cases hc with
  | in_length _ hre hov2 =>
    simp only [advance, List.length_append, Nat.cast_add] at hroom
    have hroom2 : s2.offset + (((toDec s1.stream_length).length + 1 : Nat) : Int) ≤
        OFFSET_MAX := by
      rw [hso]
      simp only [List.length_append, Nat.cast_add] at hroom ⊢
      simpa using hroom
    obtain ⟨t, ht, h1⟩ : ∃ t, t = ({ advance s2 (toDec s1.stream_length ++ "\n".toList) with
          offset := s2.offset + (((toDec s2.stream_length).length + 1 : Nat) : Int)
          state := .st_top
          out := s2.out ++ (toDec s2.stream_length ++ "\n".toList) } : QdfFixer) ∧
        step s2 (toDec s1.stream_length ++ "\n".toList) = .ok t :=
      ⟨_, rfl, step_of_cases (by simpa using hroom2)
        (StepOk.in_length hs (re_num_toDec _) (by rw [hslen]; exact hroom2))⟩
    refine ⟨[toDec s1.stream_length ++ "\n".toList], t, by simp, ?_,
      by simp only [runLines, h1, Result.bind_ok],
      ?_⟩
    · intro x hx
      rw [List.mem_singleton.1 hx]
      exact IsLine.of_body _ (toDec_no_newline _)
    · subst ht
      constructor
      case off =>
        simp only [advance, List.length_append, Nat.cast_add, hso, hslen]
        simp
      all_goals simp_all [advance, inOstream, Clean]
  | _ => simp_all

theorem size_line_isLine (n : Nat) : IsLine ("  /Size ".toList ++ toDec n ++ "\n".toList) :=
  IsLine.of_body _ (by
    simp only [List.mem_append, not_or]
    exact ⟨by decide, toDec_no_newline _⟩)

theorem size_line_skip (n : Nat) :
    (hasSub "/Length".toList ("  /Size ".toList ++ toDec n ++ "\n".toList) ||
      hasSub "/W".toList ("  /Size ".toList ++ toDec n ++ "\n".toList)) = false := by
  rw [hasSub_false_of_not_mem 'L' (by decide), hasSub_false_of_not_mem 'W' (by decide)]
  · rfl
  · simp only [List.mem_append, not_or]
    exact ⟨⟨by decide, not_mem_toDec (by decide) _⟩, by decide⟩
  · simp only [List.mem_append, not_or]
    exact ⟨⟨by decide, not_mem_toDec (by decide) _⟩, by decide⟩

theorem size_line_size (n : Nat) :
    hasSub "/Size".toList ("  /Size ".toList ++ toDec n ++ "\n".toList) = true := by
  rw [List.append_assoc]
  exact hasSub_append _ (by decide)

theorem tail_lines (p : Bytes) (xo : Int) :
    ∃ ts : List Bytes, (∀ l ∈ ts, IsLine l) ∧ ts.flatten = p ++ xrefStreamTail xo := by
  obtain ⟨ts, h1, h2⟩ := lines_of_terminated
    (p ++ "\nendstream\nendobj\n\n".toList ++ "startxref\n".toList ++ intToDec xo ++
      "\n%%EOF".toList)
  exact ⟨ts, h1, by rw [h2]; simp [xrefStreamTail, List.append_assoc]⟩

theorem tableLines_not_trailer (xref : List XRefEntry) :
    ∀ x ∈ "0000000000 65535 f \n".toList :: tableLines xref, x ≠ "trailer <<\n".toList := by
  intro x hx
  rcases List.mem_cons.1 hx with rfl | hx
  · decide
  · simp only [tableLines, List.mem_map] at hx
    obtain ⟨o, -, rfl⟩ := hx
    intro h
    have : 't' ∈ int_to_string o 10 ++ " 00000 n \n".toList := by
      rw [h]
      decide
    simp only [List.mem_append] at this
    rcases this with h1 | h1
    · exact not_mem_int_to_string (by decide) (by decide) _ _ h1
    · exact absurd h1 (by decide)

theorem sim_step_in_xref_stream_dict {s1 s1' s2 : QdfFixer} {l : Bytes} (hinv : Inv s1) (hsim : Sim s1 s2)
    (hl : IsLine l) (hst : s1.state = .st_in_xref_stream_dict) (hc : StepOk s1 l s1')
    (hroom : (s1'.out.length : Int) ≤ OFFSET_MAX) :
    ∃ (c : List Bytes) (s2' : QdfFixer), s1'.out = s1.out ++ c.flatten ∧ (∀ x ∈ c, IsLine x) ∧
      runLines s2 c = .ok s2' ∧ Sim s1' s2' := by
  obtain ⟨hs, hx, hlo⟩ := hsim.plain (by rw [hst]; rfl)
  have hlen := hinv.acct.xref_len
  obtain ⟨hsout, hso, hxoff, hf1, hf2', hslen, hext, hcl, -, hsstart, -, -⟩ := hsim
  rw [hst] at hs
  cases hc with
  | xdict_skip _ h1 =>
    refine silent_intro rfl ?_
    constructor <;> simp_all [advance, inOstream, Clean]
  | xdict_size _ h1 h2 =>
    simp only [advance, List.length_append, Nat.cast_add] at hroom
    obtain ⟨t, ht, h3⟩ : ∃ t, t = ({ advance s2
          ("  /Size ".toList ++ toDec (1 + s1.xref.length) ++ "\n".toList) with
          out := s2.out ++ ("  /Size ".toList ++ toDec (1 + s2.xref.length) ++ "\n".toList) } :
            QdfFixer) ∧
        step s2 ("  /Size ".toList ++ toDec (1 + s1.xref.length) ++ "\n".toList) = .ok t :=
      ⟨_, rfl, step_of_cases (by rw [hso]; simp only [List.length_append, Nat.cast_add]; omega)
        (StepOk.xdict_size hs (size_line_skip _) (size_line_size _))⟩
    refine ⟨["  /Size ".toList ++ toDec (1 + s1.xref.length) ++ "\n".toList], t,
      by simp only [List.flatten_cons, List.flatten_nil, List.append_nil], ?_,
      by simp only [runLines, h3, Result.bind_ok], ?_⟩
    · intro x hx
      rw [List.mem_singleton.1 hx]
      exact size_line_isLine _
    · subst ht
      constructor
      case off =>
        simp only [advance, List.length_append, Nat.cast_add, hso]
      all_goals simp_all [advance, inOstream, Clean]
  | xdict_line _ h1 h2 hl0 =>
    simp only [advance, List.length_append, Nat.cast_add] at hroom
    refine sync_intro hl (step_of_cases (by omega) (StepOk.xdict_line hs h1 h2 hl0)) rfl ?_
    constructor <;> simp_all [advance, inOstream, Clean]
  | xdict_stream _ hl0 hg1 hg2 hnn =>
    obtain ⟨ts, hts1, hts2⟩ := tail_lines (packXRef s1.xref_f1_nbytes s1.xref_f2_nbytes s1.xref)
      s1.xref_offset
    have hroom1 : (s1.out.length : Int) + (l.length : Int) + (totalLength ts : Int) ≤
        OFFSET_MAX := by
      rw [← length_flatten_bytes, hts2]
      simp only [advance, List.length_append, Nat.cast_add] at hroom ⊢
      omega
    have hpos : (0 : Int) ≤ (totalLength ts : Int) := Int.natCast_nonneg _
    obtain ⟨t, ht, h3⟩ : ∃ t, t = ({ advance s2 l with
          state := .st_done
          out := s2.out ++ l ++ packXRef s2.xref_f1_nbytes s2.xref_f2_nbytes s2.xref ++
            xrefStreamTail s2.xref_offset } : QdfFixer) ∧
        step s2 l = .ok t :=
      ⟨_, rfl, step_of_cases (by omega)
        (StepOk.xdict_stream hs hl0 (by rw [hf1]; exact hg1) (by rw [hf2']; exact hg2)
          (by rw [hx]; exact hnn))⟩
    obtain ⟨n, lo, h4⟩ := runLines_done ts t (by rw [ht])
      (by rw [ht]; simp only [advance]; omega)
    refine ⟨l :: ts, { t with
      lineno := n, last_offset := lo, offset := t.offset + (totalLength ts : Int) },
      ?_, ?_, ?_, ?_⟩
    · simp only [List.flatten_cons, hts2, List.append_assoc]
    · intro x hx
      rcases List.mem_cons.1 hx with rfl | hx
      · exact hl
      · exact hts1 x hx
    · simp only [runLines, h3, Result.bind_ok]
      exact h4
    · subst ht
      constructor
      case off =>
        simp only [advance, hso]
        rw [← length_flatten_bytes ts, hts2]
        simp only [List.length_append, Nat.cast_add]
        omega
      all_goals simp_all [advance, inOstream, Clean]
  | _ => simp_all

theorem sim_step_at_xref {s1 s1' s2 : QdfFixer} {l : Bytes} (hinv : Inv s1) (hsim : Sim s1 s2)
    (hl : IsLine l) (hst : s1.state = .st_at_xref) (hc : StepOk s1 l s1')
    (hroom : (s1'.out.length : Int) ≤ OFFSET_MAX) :
    ∃ (c : List Bytes) (s2' : QdfFixer), s1'.out = s1.out ++ c.flatten ∧ (∀ x ∈ c, IsLine x) ∧
      runLines s2 c = .ok s2' ∧ Sim s1' s2' := by
  obtain ⟨hs, hx, hlo⟩ := hsim.plain (by rw [hst]; rfl)
  have hlen := hinv.acct.xref_len
  obtain ⟨hsout, hso, hxoff, hf1, hf2', hslen, hext, hcl, -, hsstart, -, -⟩ := hsim
  rw [hst] at hs
  cases hc with
  | at_xref _ hall =>
    have hroom1 : (s1.out.length : Int) +
        (("0 ".toList ++ toDec (1 + s1.xref.length) ++ "\n".toList).length : Int) +
        (totalLength ("0000000000 65535 f \n".toList :: tableLines s1.xref) : Int) ≤
        OFFSET_MAX := by
      rw [← length_flatten_bytes, List.flatten_cons, tableLines_flatten]
      simp only [advance, List.length_append, Nat.cast_add] at hroom ⊢
      simp only [String.toList, List.length_cons, List.length_nil] at hroom ⊢
      omega
    have hpos : (0 : Int) ≤
        (totalLength ("0000000000 65535 f \n".toList :: tableLines s1.xref) : Int) :=
      Int.natCast_nonneg _
    obtain ⟨t, ht, h3⟩ : ∃ t, t = ({ advance s2
          ("0 ".toList ++ toDec (1 + s1.xref.length) ++ "\n".toList) with
          state := .st_before_trailer
          out := s2.out ++ ("0 ".toList ++ toDec (1 + s2.xref.length) ++
            "\n0000000000 65535 f \n".toList) ++ tableText s2.xref } : QdfFixer) ∧
        step s2 ("0 ".toList ++ toDec (1 + s1.xref.length) ++ "\n".toList) = .ok t :=
      ⟨_, rfl, step_of_cases (by omega) (StepOk.at_xref hs (by rw [hx]; exact hall))⟩
    obtain ⟨n, lo, h4⟩ := runLines_before_trailer _ t (by rw [ht])
      (tableLines_not_trailer s1.xref) (by rw [ht]; simp only [advance]; omega)
    refine ⟨("0 ".toList ++ toDec (1 + s1.xref.length) ++ "\n".toList) ::
        "0000000000 65535 f \n".toList :: tableLines s1.xref, { t with
      lineno := n, last_offset := lo
      offset := t.offset +
        (totalLength ("0000000000 65535 f \n".toList :: tableLines s1.xref) : Int) },
      ?_, ?_, ?_, ?_⟩
    · simp only [List.flatten_cons, tableLines_flatten]
      simp [List.append_assoc]
    · intro x hx
      rcases List.mem_cons.1 hx with rfl | hx
      · exact IsLine.of_body _ (by
          simp only [List.mem_append, not_or]
          exact ⟨by decide, toDec_no_newline _⟩)
      · rcases List.mem_cons.1 hx with rfl | hx
        · exact ⟨"0000000000 65535 f ".toList, rfl, by decide⟩
        · exact tableLines_isLine _ x hx
    · simp only [runLines, h3, Result.bind_ok]
      exact h4
    · subst ht
      constructor
      case off =>
        simp only [advance, hso]
        rw [← length_flatten_bytes, List.flatten_cons, tableLines_flatten]
        simp only [List.length_append, Nat.cast_add]
        simp only [String.toList, List.length_cons, List.length_nil]
        omega
      all_goals simp_all [advance, inOstream, Clean]
  | _ => simp_all

theorem sim_step_before_trailer {s1 s1' s2 : QdfFixer} {l : Bytes} (hinv : Inv s1) (hsim : Sim s1 s2)
    (hl : IsLine l) (hst : s1.state = .st_before_trailer) (hc : StepOk s1 l s1')
    (hroom : (s1'.out.length : Int) ≤ OFFSET_MAX) :
    ∃ (c : List Bytes) (s2' : QdfFixer), s1'.out = s1.out ++ c.flatten ∧ (∀ x ∈ c, IsLine x) ∧
      runLines s2 c = .ok s2' ∧ Sim s1' s2' := by
  obtain ⟨hs, hx, hlo⟩ := hsim.plain (by rw [hst]; rfl)
  have hlen := hinv.acct.xref_len
  obtain ⟨hsout, hso, hxoff, hf1, hf2', hslen, hext, hcl, -, hsstart, -, -⟩ := hsim
  rw [hst] at hs
  cases hc with
  | before_start _ hl0 =>
    simp only [advance, List.length_append, Nat.cast_add] at hroom
    refine sync_intro hl (step_of_cases (by omega) (StepOk.before_start hs hl0)) rfl ?_
    constructor <;> simp_all [advance, inOstream, Clean]
  | before_other _ hl0 =>
    refine silent_intro rfl ?_
    constructor <;> simp_all [advance, inOstream, Clean]
  | _ => simp_all

theorem sim_step_in_trailer {s1 s1' s2 : QdfFixer} {l : Bytes} (hinv : Inv s1) (hsim : Sim s1 s2)
    (hl : IsLine l) (hst : s1.state = .st_in_trailer) (hc : StepOk s1 l s1')
    (hroom : (s1'.out.length : Int) ≤ OFFSET_MAX) :
    ∃ (c : List Bytes) (s2' : QdfFixer), s1'.out = s1.out ++ c.flatten ∧ (∀ x ∈ c, IsLine x) ∧
      runLines s2 c = .ok s2' ∧ Sim s1' s2' := by
  obtain ⟨hs, hx, hlo⟩ := hsim.plain (by rw [hst]; rfl)
  have hlen := hinv.acct.xref_len
  obtain ⟨hsout, hso, hxoff, hf1, hf2', hslen, hext, hcl, -, hsstart, -, -⟩ := hsim
  rw [hst] at hs
  cases hc with
  | trailer_size _ hre =>
    simp only [advance, List.length_append, Nat.cast_add] at hroom
    obtain ⟨t, ht, h3⟩ : ∃ t, t = ({ advance s2
          ("  /Size ".toList ++ toDec (1 + s1.xref.length) ++ "\n".toList) with
          out := s2.out ++ ("  /Size ".toList ++ toDec (1 + s2.xref.length) ++ "\n".toList) } :
            QdfFixer) ∧
        step s2 ("  /Size ".toList ++ toDec (1 + s1.xref.length) ++ "\n".toList) = .ok t :=
      ⟨_, rfl, step_of_cases (by rw [hso]; simp only [List.length_append, Nat.cast_add]; omega)
        (StepOk.trailer_size hs (re_size_n_digits _ (toDec_digits _) (toDec_ne_nil _)))⟩
    refine ⟨["  /Size ".toList ++ toDec (1 + s1.xref.length) ++ "\n".toList], t,
      by simp only [List.flatten_cons, List.flatten_nil, List.append_nil], ?_,
      by simp only [runLines, h3, Result.bind_ok], ?_⟩
    · intro x hx
      rw [List.mem_singleton.1 hx]
      exact size_line_isLine _
    · subst ht
      constructor
      case off =>
        simp only [advance, List.length_append, Nat.cast_add, hso]
      all_goals simp_all [advance, inOstream, Clean]
  | trailer_end _ hl0 =>
    obtain ⟨ts, hts1, hts2⟩ : ∃ ts : List Bytes, (∀ l ∈ ts, IsLine l) ∧
        ts.flatten = "startxref\n".toList ++ intToDec s1.xref_offset ++ "\n%%EOF\n".toList := by
      obtain ⟨ts, h1, h2⟩ := lines_of_terminated
        ("startxref\n".toList ++ intToDec s1.xref_offset ++ "\n%%EOF".toList)
      exact ⟨ts, h1, by rw [h2]; simp [List.append_assoc]⟩
    have hroom1 : (s1.out.length : Int) + (l.length : Int) + (totalLength ts : Int) ≤
        OFFSET_MAX := by
      rw [← length_flatten_bytes, hts2]
      simp only [advance, List.length_append, Nat.cast_add] at hroom ⊢
      omega
    have hpos : (0 : Int) ≤ (totalLength ts : Int) := Int.natCast_nonneg _
    obtain ⟨t, ht, h3⟩ : ∃ t, t = ({ advance s2 l with
          state := .st_done
          out := s2.out ++ l ++
            ("startxref\n".toList ++ intToDec s2.xref_offset ++ "\n%%EOF\n".toList) } :
              QdfFixer) ∧
        step s2 l = .ok t :=
      ⟨_, rfl, step_of_cases (by omega) (StepOk.trailer_end hs hl0)⟩
    obtain ⟨n, lo, h4⟩ := runLines_done ts t (by rw [ht])
      (by rw [ht]; simp only [advance]; omega)
    refine ⟨l :: ts, { t with
      lineno := n, last_offset := lo, offset := t.offset + (totalLength ts : Int) },
      ?_, ?_, ?_, ?_⟩
    · simp only [List.flatten_cons, hts2, List.append_assoc]
    · intro x hx
      rcases List.mem_cons.1 hx with rfl | hx
      · exact hl
      · exact hts1 x hx
    · simp only [runLines, h3, Result.bind_ok]
      exact h4
    · subst ht
      constructor
      case off =>
        simp only [advance, hso]
        rw [← length_flatten_bytes ts, hts2]
        simp only [List.length_append, Nat.cast_add]
      all_goals simp_all [advance, inOstream, Clean]
  | trailer_line _ hre hl0 =>
    simp only [advance, List.length_append, Nat.cast_add] at hroom
    refine sync_intro hl (step_of_cases (by omega) (StepOk.trailer_line hs hre hl0)) rfl ?_
    constructor <;> simp_all [advance, inOstream, Clean]
  | _ => simp_all

theorem sim_step_done {s1 s1' s2 : QdfFixer} {l : Bytes} (hinv : Inv s1) (hsim : Sim s1 s2)
    (hl : IsLine l) (hst : s1.state = .st_done) (hc : StepOk s1 l s1')
    (hroom : (s1'.out.length : Int) ≤ OFFSET_MAX) :
    ∃ (c : List Bytes) (s2' : QdfFixer), s1'.out = s1.out ++ c.flatten ∧ (∀ x ∈ c, IsLine x) ∧
      runLines s2 c = .ok s2' ∧ Sim s1' s2' := by
  obtain ⟨hs, hx, hlo⟩ := hsim.plain (by rw [hst]; rfl)
  have hlen := hinv.acct.xref_len
  obtain ⟨hsout, hso, hxoff, hf1, hf2', hslen, hext, hcl, -, hsstart, -, -⟩ := hsim
  rw [hst] at hs
  cases hc with
  | done _ =>
    refine silent_intro rfl ?_
    constructor <;> simp_all [advance, inOstream, Clean]
  | _ => simp_all

theorem ExtW.getD {e : Bytes} (h : ExtW e) (l : Bytes) : ExtW ((re_extends l).getD e) := by
  cases hr : re_extends l with
  | none => simpa using h
  | some m => exact Or.inr (re_extends_shape l m hr)

theorem take_dropLast_concat {α : Type} (xs : List α) (c : α) (k : Nat) (h : k < xs.length) :
    (xs.dropLast ++ [c]).take k = xs.take k := by
  rw [List.take_append_of_le_length (by simp; omega), List.dropLast_eq_take, List.take_take]
  congr 1
  omega

theorem take_concat {α : Type} (xs : List α) (c : α) (k : Nat) (h : k ≤ xs.length) :
    (xs ++ [c]).take k = xs.take k :=
  List.take_append_of_le_length h

theorem replay_step {s1 s1' : QdfFixer} {l : Bytes} (hinv : Inv s1) (hc : StepOk s1 l s1')
    (hst' : s1'.state = .st_in_ostream_outer ∨ s1'.state = .st_in_ostream_obj)
    (hr : s1.state = .st_in_ostream_outer ∨ s1.state = .st_in_ostream_obj → Replay s1) :
    Replay s1' := by
  have hA := hinv.acct.acct
  have hlen := hinv.acct.xref_len
  cases hc with
  | offsets_marker hst d hre hn hlt =>
    simp only [Acct, hst] at hA
    obtain ⟨-, hA2, hA3, hA4, -, hA6⟩ := hA
    intro a a1 a2 a3 a4 a5 a6 a7 a8
    simp only [advance] at a5 a6 a7 a8
    have hx : a.xref = s1.xref := by
      rw [a7, take_concat _ _ _ (by omega), List.take_of_length_le (by omega)]
    rw [hA2] at a8
    simp only [List.nil_append, totalLength_cons, totalLength_nil, Nat.add_zero] at a8
    obtain ⟨t, ht, h1⟩ : ∃ t, t = ({ advance a l with
          last_obj := a.last_obj + 1
          xref := a.xref ++ [XRefEntry.uncompressed a.offset]
          stream_start := a.offset
          state := .st_in_ostream_outer
          ostream := a.ostream ++ [l] } : QdfFixer) ∧ step a l = .ok t :=
      ⟨_, rfl, step_of_cases a8 (StepOk.offsets_marker a1 d hre
        (by rw [a6, ← hA6]; exact hn) (by rw [a6, ← hA6]; exact hlt))⟩
    refine ⟨t, by simp only [advance, hA2, List.nil_append, runLines, h1, Result.bind_ok], ?_⟩
    subst ht
    constructor <;> simp_all [advance]
  | outer_line hst hidx hne =>
    simp only [Acct, hst] at hA
    obtain ⟨hA1, hA2, -, hA4, hA5⟩ := hA
    intro a a1 a2 a3 a4 a5 a6 a7 a8
    simp only [advance] at a5 a6 a7 a8
    have hpos : (0 : Int) ≤ (l.length : Int) := Int.natCast_nonneg _
    simp only [totalLength_append, totalLength_cons, totalLength_nil, Nat.add_zero,
      Nat.cast_add] at a8
    obtain ⟨b, hb, hR⟩ := hr (Or.inl hst) a a1 a2 a3 a4 a5 a6
      (by rw [a7, take_dropLast_concat _ _ _ (by omega)]) (by omega)
    obtain ⟨r1, r2, r3, r4, r5, r6, r7, r8, r9, r10, r11, r12, r13, r14, r15, r16, r17⟩ := hR
    obtain ⟨t, ht, h1⟩ : ∃ t, t = ({ advance b l with
          xref := b.xref.dropLast ++ [XRefEntry.compressed b.ostream_id b.ostream_idx]
          ostream_idx := b.ostream_idx + 1
          ostream_offsets := b.ostream_offsets ++ [b.offset - b.stream_start]
          state := .st_in_ostream_obj
          ostream := b.ostream ++ [l] } : QdfFixer) ∧ step b l = .ok t :=
      ⟨_, rfl, step_of_cases (by omega) (StepOk.outer_line (r1.trans hst)
        (by rw [r4]; exact hidx) (by
          intro h0
          rw [h0] at r8
          exact hne (List.length_eq_zero.1 r8.symm)))⟩
    refine ⟨t, by simp only [advance, runLines_append, hb, Result.bind_ok, runLines, h1], ?_⟩
    subst ht
    constructor
    case offsets =>
      simp only [advance, r3]
      congr 2
      omega
    case offset =>
      simp only [advance, totalLength_append, totalLength_cons, totalLength_nil, Nat.add_zero,
        Nat.cast_add]
      omega
    all_goals simp_all [advance]
  | obj_marker hst d hre hn hlt =>
    simp only [Acct, hst] at hA
    obtain ⟨hA1, hA2, -, hA4, hA5⟩ := hA
    intro a a1 a2 a3 a4 a5 a6 a7 a8
    simp only [advance] at a5 a6 a7 a8
    have hpos : (0 : Int) ≤ (l.length : Int) := Int.natCast_nonneg _
    simp only [totalLength_append, totalLength_cons, totalLength_nil, Nat.add_zero,
      Nat.cast_add] at a8
    obtain ⟨b, hb, hR⟩ := hr (Or.inr hst) a a1 a2 a3 a4 a5 a6
      (by rw [a7, take_concat _ _ _ (by omega)]) (by omega)
    obtain ⟨r1, r2, r3, r4, r5, r6, r7, r8, r9, r10, r11, r12, r13, r14, r15, r16, r17⟩ := hR
    obtain ⟨t, ht, h1⟩ : ∃ t, t = ({ advance b l with
          ostream := b.ostream ++ [l]
          last_obj := b.last_obj + 1
          xref := b.xref ++ [XRefEntry.uncompressed b.offset]
          state := .st_in_ostream_outer } : QdfFixer) ∧ step b l = .ok t :=
      ⟨_, rfl, step_of_cases (by omega) (StepOk.obj_marker (r1.trans hst) d hre
        (by rw [r6]; exact hn) (by rw [r6]; exact hlt))⟩
    refine ⟨t, by simp only [advance, runLines_append, hb, Result.bind_ok, runLines, h1], ?_⟩
    subst ht
    have r9' := r9 hst
    constructor
    case offset =>
      simp only [advance, totalLength_append, totalLength_cons, totalLength_nil, Nat.add_zero,
        Nat.cast_add]
      omega
    all_goals simp_all [advance]
  | obj_line hst hre hl0 =>
    simp only [Acct, hst] at hA
    obtain ⟨hA1, hA2, -, hA4, hA5⟩ := hA
    intro a a1 a2 a3 a4 a5 a6 a7 a8
    simp only [advance] at a5 a6 a7 a8
    have hpos : (0 : Int) ≤ (l.length : Int) := Int.natCast_nonneg _
    simp only [totalLength_append, totalLength_cons, totalLength_nil, Nat.add_zero,
      Nat.cast_add] at a8
    obtain ⟨b, hb, hR⟩ := hr (Or.inr hst) a a1 a2 a3 a4 a5 a6 a7 (by omega)
    obtain ⟨r1, r2, r3, r4, r5, r6, r7, r8, r9, r10, r11, r12, r13, r14, r15, r16, r17⟩ := hR
    obtain ⟨t, ht, h1⟩ : ∃ t, t = ({ advance b l with
          ostream := b.ostream ++ [l] } : QdfFixer) ∧ step b l = .ok t :=
      ⟨_, rfl, step_of_cases (by omega) (StepOk.obj_line (r1.trans hst) hre hl0)⟩
    refine ⟨t, by simp only [advance, runLines_append, hb, Result.bind_ok, runLines, h1], ?_⟩
    subst ht
    have r9' := r9 hst
    constructor
    case offset =>
      simp only [advance, totalLength_append, totalLength_cons, totalLength_nil, Nat.add_zero,
        Nat.cast_add]
      omega
    all_goals simp_all [advance]
  | _ => simp_all [advance]

theorem dictLines_not_stream (L n : Nat) (F : Int) (e : Bytes) :
    ∀ x ∈ dictLines L n F e, x ≠ "stream\n".toList := by
  intro x hx
  unfold dictLines at hx
  simp only [List.mem_append, List.mem_cons, List.mem_singleton, List.not_mem_nil,
    or_false] at hx
  rcases hx with ((rfl | rfl | rfl) | hx) | rfl
  · simp
  · simp
  · simp
  · split_ifs at hx
    · simp only [List.mem_singleton] at hx
      subst hx
      simp
    · cases hx
  · decide

theorem dictLines_extends (L n : Nat) (F : Int) {e : Bytes} (he : ExtW e) :
    extendsAfter [] (dictLines L n F e) = e := by
  have h1 : re_extends ("  /Length ".toList ++ toDec L ++ "\n".toList) = none :=
    re_extends_none_of_not_mem (by
      simp only [List.mem_append, not_or]
      exact ⟨⟨by decide, toDec_no_x _⟩, by decide⟩)
  have h2 : re_extends ("  /N ".toList ++ toDec n ++ "\n".toList) = none :=
    re_extends_none_of_not_mem (by
      simp only [List.mem_append, not_or]
      exact ⟨⟨by decide, toDec_no_x _⟩, by decide⟩)
  have h3 : re_extends ("  /First ".toList ++ intToDec F ++ "\n".toList) = none :=
    re_extends_none_of_not_mem (by
      simp only [List.mem_append, not_or]
      exact ⟨⟨by decide, intToDec_no_x _⟩, by decide⟩)
  have h4 : re_extends ">>\n".toList = none := by decide
  rcases he with rfl | ⟨M, hne, hM, rfl⟩
  · simp only [dictLines, extendsAfter, ne_eq, not_true_eq_false, if_false, List.append_nil,
      List.cons_append, List.nil_append, List.foldl_cons, List.foldl_nil, h1, h2, h3, h4,
      Option.getD_none]
  · have hne2 : M ++ " 0 R".toList ≠ [] := by simp
    simp only [dictLines, extendsAfter, ne_eq, hne2, not_false_eq_true, if_true,
      List.cons_append, List.nil_append, List.foldl_cons, List.foldl_nil, h1, h2, h3, h4,
      Option.getD_none, re_extends_line M hM hne, Option.getD_some]

theorem headerLines_not_marker (first : Int) : ∀ (offs : List Int) (onum : Nat),
    ∀ x ∈ headerLines onum first offs, re_ostream_obj x = none := by
  intro offs
  induction offs with
  | nil => intro onum x hx; cases hx
  | cons a rest ih =>
    intro onum x hx
    simp only [headerLines, List.mem_cons] at hx
    rcases hx with rfl | hx
    · have hd := toDec_digits (onum + 1)
      have hne := toDec_ne_nil (onum + 1)
      cases hcs : toDec (onum + 1) with
      | nil => exact absurd hcs hne
      | cons c cs =>
        have hc : c.isDigit = true := hd c (by rw [hcs]; simp)
        have hcp : ('%' == c) = false := by
          cases h : ('%' == c) with
          | false => rfl
          | true =>
            have : c = '%' := (beq_iff_eq.1 h).symm
            rw [this] at hc
            exact absurd hc (by decide)
        simp [re_ostream_obj, List.isPrefixOf, hcp]
    · exact ih _ x hx

/-- The step that closes an object stream, taken from another state with the
same buffers. -/
theorem flush_transport {s1 s1' b : QdfFixer} {l : Bytes} (hc : StepOk s1 l s1')
    (hst : s1.state = .st_in_ostream_obj) (hl0 : l = "endstream\n".toList)
    (e0 : b.state = .st_in_ostream_obj)
    (e1 : b.offset - b.stream_start = s1.offset - s1.stream_start)
    (e2 : b.ostream_id = s1.ostream_id) (e3 : b.ostream_offsets = s1.ostream_offsets)
    (e4 : b.ostream_extends = s1.ostream_extends) (e5 : b.ostream = s1.ostream)
    (e6 : b.out = s1.out) (hov : b.offset + (l.length : Int) ≤ OFFSET_MAX)
    (hfl : b.offset + (s1'.out.length : Int) - (totalLength b.ostream_discarded : Int) -
      (s1.out.length : Int) - 7 - (totalLength s1.ostream : Int) ≤ OFFSET_MAX) :
    ∃ t, step b l = .ok t ∧ t.out = s1'.out ∧ t.state = .st_in_obj ∧ t.xref = b.xref ∧
      t.last_obj = b.last_obj ∧ Clean t ∧ t.stream_length = s1'.stream_length ∧
      t.xref_offset = b.xref_offset ∧ t.xref_f1_nbytes = b.xref_f1_nbytes ∧
      t.xref_f2_nbytes = b.xref_f2_nbytes ∧
      t.offset = b.offset + (s1'.out.length : Int) - (totalLength b.ostream_discarded : Int) -
        (s1.out.length : Int) - 7 - (totalLength s1.ostream : Int) ∧
      s1'.state = .st_in_obj ∧ s1'.xref = s1.xref ∧ s1'.last_obj = s1.last_obj ∧
      s1'.ostream_extends = [] ∧ s1'.xref_offset = s1.xref_offset ∧
      s1'.xref_f1_nbytes = s1.xref_f1_nbytes ∧ s1'.xref_f2_nbytes = s1.xref_f2_nbytes := by
  cases hc with
  | obj_flush _ _ hge first rest hoffs hmax hfirst hadj hoff =>
    have hlen : ((s1.out ++
          (ostreamDict ((s1.offset - s1.stream_start).toNat +
              (ostreamHeader s1.ostream_id first s1.ostream_offsets).length)
            s1.ostream_offsets.length
            (first + ((ostreamHeader s1.ostream_id first s1.ostream_offsets).length : Int))
            s1.ostream_extends ++ "stream\n".toList ++
            ostreamHeader s1.ostream_id first s1.ostream_offsets) ++
          (s1.ostream ++ [l]).flatten).length : Int) =
        (s1.out.length : Int) +
          ((ostreamDict ((s1.offset - s1.stream_start).toNat +
              (ostreamHeader s1.ostream_id first s1.ostream_offsets).length)
            s1.ostream_offsets.length
            (first + ((ostreamHeader s1.ostream_id first s1.ostream_offsets).length : Int))
            s1.ostream_extends).length : Int) + 7 +
          ((ostreamHeader s1.ostream_id first s1.ostream_offsets).length : Int) +
          (totalLength s1.ostream : Int) + (l.length : Int) := by
      simp only [List.length_append, Nat.cast_add, length_flatten_bytes, totalLength_append,
        totalLength_cons, totalLength_nil, Nat.add_zero]
      have : ("stream\n".toList.length : Int) = 7 := rfl
      omega
    simp only [advance] at hfl
    rw [hlen] at hfl
    refine ⟨_, step_of_cases hov (StepOk.obj_flush e0 hl0 (by rw [e1]; exact hge) first rest
      (by rw [e3]; exact hoffs) (by rw [e2, e3]; exact hmax) (by rw [e2, e3]; exact hfirst)
      (by rw [e1, e2, e3, e4]; exact hadj) (by rw [e1, e2, e3, e4]; omega)), ?_⟩
    refine ⟨?_, rfl, rfl, rfl, ?_, ?_, rfl, rfl, rfl, ?_, rfl, rfl, rfl, rfl, rfl, rfl, rfl⟩
    · simp only [advance, e1, e2, e3, e4, e5, e6]
    · simp [Clean]
    · simp only [advance, e1, e2, e3]
    · simp only [advance]
      rw [hlen, e1, e2, e3, e4]
      omega
  | obj_marker _ d hre =>
    have hn : re_ostream_obj "endstream\n".toList = none := by decide
    rw [hl0, hn] at hre
    cases hre
  | obj_line _ hre hl1 => exact absurd hl0 hl1
  | _ => simp_all

theorem flush_shape {s1 s1' : QdfFixer} {l : Bytes} (hc : StepOk s1 l s1')
    (hst : s1.state = .st_in_ostream_obj) (hl0 : l = "endstream\n".toList)
    (he : ExtW s1.ostream_extends) :
    ∃ D H : List Bytes, (∀ x ∈ D, IsLine x) ∧ (∀ x ∈ H, IsLine x) ∧
      (∀ x ∈ D, x ≠ "stream\n".toList) ∧ extendsAfter [] D = s1.ostream_extends ∧
      (∀ x ∈ H, re_ostream_obj x = none) ∧
      s1'.out = s1.out ++ (D ++ ["stream\n".toList] ++ H ++ s1.ostream ++ [l]).flatten := by
  cases hc with
  | obj_flush _ _ hge first rest hoffs hmax hfirst hadj hoff =>
    refine ⟨dictLines ((s1.offset - s1.stream_start).toNat +
          (ostreamHeader s1.ostream_id first s1.ostream_offsets).length)
        s1.ostream_offsets.length
        (first + ((ostreamHeader s1.ostream_id first s1.ostream_offsets).length : Int))
        s1.ostream_extends,
      headerLines s1.ostream_id first s1.ostream_offsets, dictLines_isLine _ _ _ he,
      headerLines_isLine _ _ _, dictLines_not_stream _ _ _ _, dictLines_extends _ _ _ he,
      headerLines_not_marker _ _ _, ?_⟩
    simp only [List.flatten_append, dictLines_flatten, headerLines_flatten, List.flatten_cons,
      List.flatten_nil, List.append_nil, List.append_assoc]
  | obj_marker _ d hre =>
    have hn : re_ostream_obj "endstream\n".toList = none := by decide
    rw [hl0, hn] at hre
    cases hre
  | obj_line _ hre hl1 => exact absurd hl0 hl1
  | _ => simp_all

theorem sim_step_flush {s1 s1' s2 : QdfFixer} {l : Bytes} (hinv : Inv s1) (hsim : Sim s1 s2)
    (hl : IsLine l) (hst : s1.state = .st_in_ostream_obj) (hl0 : l = "endstream\n".toList)
    (hc : StepOk s1 l s1') (hroom : (s1'.out.length : Int) ≤ OFFSET_MAX) :
    ∃ (c : List Bytes) (s2' : QdfFixer), s1'.out = s1.out ++ c.flatten ∧ (∀ x ∈ c, IsLine x) ∧
      runLines s2 c = .ok s2' ∧ Sim s1' s2' := by
  obtain ⟨o1, o2, o3, o4, o5⟩ := hsim.ostm (by rw [hst]; rfl)
  have hrep := hsim.replay (Or.inr hst)
  have hA := hinv.acct.acct
  simp only [Acct, hst] at hA
  obtain ⟨hA1, hA2, -, hA4, hA5⟩ := hA
  obtain ⟨hsout, hso, hxoff, hf1, hf2', hslen, hext, hcl, -, -, -, -⟩ := hsim
  obtain ⟨k1, k2, k3, k4, k5⟩ := hcl
  obtain ⟨D, H, hD1, hH1, hD3, hD4, hH3, hout⟩ := flush_shape hc hst hl0 hext
  have hroomZ : (s1.out.length : Int) + (totalLength D : Int) + 7 + (totalLength H : Int) +
      (totalLength s1.ostream : Int) + (l.length : Int) ≤ OFFSET_MAX := by
    rw [hout] at hroom
    simp only [List.length_append, Nat.cast_add, length_flatten_bytes, totalLength_append,
      totalLength_cons, totalLength_nil, Nat.add_zero] at hroom
    have : ("stream\n".toList.length : Int) = 7 := rfl
    omega
  have p1 : (0 : Int) ≤ (totalLength D : Int) := Int.natCast_nonneg _
  have p2 : (0 : Int) ≤ (totalLength H : Int) := Int.natCast_nonneg _
  have p3 : (0 : Int) ≤ (totalLength s1.ostream : Int) := Int.natCast_nonneg _
  have p4 : (0 : Int) ≤ (l.length : Int) := Int.natCast_nonneg _
  obtain ⟨n1, lo1, h1⟩ := runLines_dict_lines D s2 o1 hD3 (by rw [hso]; omega)
  obtain ⟨s2a, e_a, h1⟩ : ∃ t, t = ({ s2 with
        lineno := n1, last_offset := lo1, offset := s2.offset + (totalLength D : Int)
        ostream_discarded := s2.ostream_discarded ++ D
        ostream_extends := extendsAfter s2.ostream_extends D } : QdfFixer) ∧
      runLines s2 D = .ok t := ⟨_, rfl, h1⟩
  have a_state : s2a.state = .st_in_ostream_dict := by rw [e_a]; exact o1
  have a_off : s2a.offset = (s1.out.length : Int) + (totalLength D : Int) := by
    rw [e_a]
    simp only [hso]
  obtain ⟨s2b, e_b, h2⟩ : ∃ t, t = ({ advance s2a "stream\n".toList with
        state := .st_in_ostream_offsets } : QdfFixer) ∧
      step s2a "stream\n".toList = .ok t :=
    ⟨_, rfl, step_of_cases (by
      rw [a_off]
      have : ("stream\n".toList.length : Int) = 7 := rfl
      omega) (StepOk.dict_stream a_state rfl)⟩
  have b_off : s2b.offset = (s1.out.length : Int) + (totalLength D : Int) + 7 := by
    rw [e_b]
    simp only [advance, a_off]
    rfl
  obtain ⟨n3, lo3, h3⟩ := runLines_offsets_lines H s2b (by rw [e_b]) hH3
    (by rw [b_off]; omega)
  obtain ⟨s2c, e_c, h3⟩ : ∃ t, t = ({ s2b with
        lineno := n3, last_offset := lo3, offset := s2b.offset + (totalLength H : Int)
        ostream_discarded := s2b.ostream_discarded ++ H } : QdfFixer) ∧
      runLines s2b H = .ok t := ⟨_, rfl, h3⟩
  have c1 : s2c.state = .st_in_ostream_offsets := by rw [e_c, e_b]
  have c2 : s2c.ostream = [] := by rw [e_c, e_b, e_a]; exact k1
  have c3 : s2c.ostream_offsets = [] := by rw [e_c, e_b, e_a]; exact k2
  have c4 : s2c.ostream_idx = 0 := by rw [e_c, e_b, e_a]; exact k4
  have c5 : s2c.ostream_id = s1.ostream_id := by rw [e_c, e_b, e_a]; exact o2
  have c6 : s2c.last_obj = s1.ostream_id := by rw [e_c, e_b, e_a]; exact o3
  have c7 : s2c.xref = s1.xref.take s1.ostream_id := by rw [e_c, e_b, e_a]; exact o4
  have c8 : s2c.offset = (s1.out.length : Int) + (totalLength D : Int) + 7 +
      (totalLength H : Int) := by
    rw [e_c]
    simp only [b_off]
  have c9 : s2c.ostream_discarded = D ++ H := by
    rw [e_c, e_b, e_a]
    simp only [advance, k3, List.nil_append]
  have c10 : s2c.out = s1.out := by rw [e_c, e_b, e_a]; exact hsout
  have c11 : s2c.ostream_extends = s1.ostream_extends := by
    rw [e_c, e_b, e_a]
    simp only [advance, k5, hD4]
  have c12 : s2c.xref_offset = s1.xref_offset := by rw [e_c, e_b, e_a]; exact hxoff
  have c13 : s2c.xref_f1_nbytes = s1.xref_f1_nbytes := by rw [e_c, e_b, e_a]; exact hf1
  have c14 : s2c.xref_f2_nbytes = s1.xref_f2_nbytes := by rw [e_c, e_b, e_a]; exact hf2'
  obtain ⟨b, hb, hR⟩ := hrep s2c c1 c2 c3 c4 c5 c6 c7 (by rw [c8]; omega)
  obtain ⟨r1, r2, r3, r4, r5, r6, r7, r8, r9, r10, r11, r12, r13, r14, r15, r16, r17⟩ := hR
  obtain ⟨t, ht, t1, t2, t3, t4, t5, t6, t7, t8, t9, t10, u1, u2, u3, u4, u5, u6, u7⟩ :=
    flush_transport (b := b) hc hst hl0 (r1.trans hst) (by rw [r13, r14, hA1, hA2]; omega) r5 r3
      (r12.trans c11) r2 (r10.trans c10) (by rw [r13, c8]; omega)
      (by
        rw [r13, c8, r11, c9, totalLength_append]
        push_cast
        omega)
  refine ⟨D ++ ["stream\n".toList] ++ H ++ s1.ostream ++ [l], t, hout, ?_, ?_, ?_⟩
  · intro x hx
    simp only [List.mem_append, List.mem_singleton] at hx
    rcases hx with (((hx | rfl) | hx) | hx) | rfl
    · exact hD1 x hx
    · exact ⟨"stream".toList, rfl, by decide⟩
    · exact hH1 x hx
    · exact o5 x hx
    · exact hl
  · simp only [runLines_append, h1, Result.bind_ok, runLines, h2, h3, hb, ht]
  · have r9' := r9 hst
    constructor
    case out => exact t1
    case off =>
      rw [t10, r13, c8, r11, c9, totalLength_append]
      push_cast
      omega
    case xoff => rw [t7, r15, c12, u5]
    case f1 => rw [t8, r16, c13, u6]
    case f2 => rw [t9, r17, c14, u7]
    case slen => exact t6
    case ext => rw [u4]; exact Or.inl rfl
    case clean => exact t5
    case plain =>
      intro _
      exact ⟨t2.trans u1.symm, by rw [t3, r9', u2], by rw [t4, r6, u3]⟩
    case sstart => intro h; rw [u1] at h; cases h
    case ostm => intro h; rw [u1] at h; cases h
    case replay =>
      intro h
      rw [u1] at h
      rcases h with h | h <;> cases h

theorem sim_step_ostream {s1 s1' s2 : QdfFixer} {l : Bytes} (hinv : Inv s1) (hsim : Sim s1 s2)
    (hl : IsLine l) (hst : inOstream s1.state = true) (hc : StepOk s1 l s1')
    (hroom : (s1'.out.length : Int) ≤ OFFSET_MAX) :
    ∃ (c : List Bytes) (s2' : QdfFixer), s1'.out = s1.out ++ c.flatten ∧ (∀ x ∈ c, IsLine x) ∧
      runLines s2 c = .ok s2' ∧ Sim s1' s2' := by
  by_cases hfl : s1.state = .st_in_ostream_obj ∧ l = "endstream\n".toList
  · exact sim_step_flush hinv hsim hl hfl.1 hfl.2 hc hroom
  obtain ⟨o1, o2, o3, o4, o5⟩ := hsim.ostm hst
  have hrep := fun h' => replay_step hinv hc h' hsim.replay
  have hA := hinv.acct.acct
  have hlen := hinv.acct.xref_len
  obtain ⟨hsout, hso, hxoff, hf1, hf2', hslen, hext, hcl, -, -, -, -⟩ := hsim
  have o5' : ∀ x : Bytes, x ∈ s1.ostream ∨ x = l → IsLine x := by
    rintro x (hx | rfl)
    · exact o5 x hx
    · exact hl
  cases hc with
  | dict_stream hs hl0 =>
    refine silent_intro rfl ?_
    constructor <;> simp_all [advance, inOstream]
  | dict_line hs hl0 =>
    have := hext.getD l
    refine silent_intro rfl ?_
    constructor <;> simp_all [advance, inOstream]
  | offsets_marker hs d hre hn hlt =>
    simp only [Acct, hs] at hA
    obtain ⟨-, hA2, hA3, hA4, -, hA6⟩ := hA
    have hrep' := hrep (Or.inl rfl)
    have htk := take_concat s1.xref (XRefEntry.uncompressed s1.offset) s1.ostream_id (by omega)
    refine silent_intro rfl ?_
    clear hrep
    constructor <;> simp_all [advance, inOstream]
  | offsets_other hs hre =>
    refine silent_intro rfl ?_
    constructor <;> simp_all [advance, inOstream]
  | outer_line hs hidx hne =>
    simp only [Acct, hs] at hA
    obtain ⟨hA1, hA2, -, hA4, hA5⟩ := hA
    have hrep' := hrep (Or.inr rfl)
    have htk := take_dropLast_concat s1.xref
      (XRefEntry.compressed s1.ostream_id s1.ostream_idx) s1.ostream_id (by omega)
    refine silent_intro rfl ?_
    clear hrep
    constructor <;> simp_all [advance, inOstream]
  | obj_marker hs d hre hn hlt =>
    simp only [Acct, hs] at hA
    obtain ⟨hA1, hA2, -, hA4, hA5⟩ := hA
    have hrep' := hrep (Or.inl rfl)
    have htk := take_concat s1.xref (XRefEntry.uncompressed s1.offset) s1.ostream_id (by omega)
    refine silent_intro rfl ?_
    clear hrep
    constructor <;> simp_all [advance, inOstream]
  | obj_flush hs hl0 => exact absurd ⟨hs, hl0⟩ hfl
  | obj_line hs hre hl0 =>
    have hrep' := hrep (Or.inr hs)
    refine silent_intro rfl ?_
    clear hrep
    constructor <;> simp_all [advance, inOstream]
  | _ => simp_all [inOstream]

/-- One line of the first run against the lines that it writes: the second run
reads them and arrives at a state that matches again. -/
theorem sim_step {s1 s1' s2 : QdfFixer} {l : Bytes} (hinv : Inv s1) (hsim : Sim s1 s2)
    (hl : IsLine l) (h : step s1 l = .ok s1') (hroom : (s1'.out.length : Int) ≤ OFFSET_MAX) :
    ∃ (c : List Bytes) (s2' : QdfFixer), s1'.out = s1.out ++ c.flatten ∧ (∀ x ∈ c, IsLine x) ∧
      runLines s2 c = .ok s2' ∧ Sim s1' s2' := by
  obtain ⟨-, hc⟩ := step_cases h
  cases hst : s1.state with
  | st_top => exact sim_step_top hinv hsim hl hst hc hroom
  | st_in_obj => exact sim_step_in_obj hinv hsim hl hst hc hroom
  | st_in_ostream_dict => exact sim_step_ostream hinv hsim hl (by rw [hst]; rfl) hc hroom
  | st_in_ostream_offsets => exact sim_step_ostream hinv hsim hl (by rw [hst]; rfl) hc hroom
  | st_in_ostream_outer => exact sim_step_ostream hinv hsim hl (by rw [hst]; rfl) hc hroom
  | st_in_ostream_obj => exact sim_step_ostream hinv hsim hl (by rw [hst]; rfl) hc hroom
  | st_in_xref_stream_dict => exact sim_step_in_xref_stream_dict hinv hsim hl hst hc hroom
  | st_in_stream => exact sim_step_in_stream hinv hsim hl hst hc hroom
  | st_after_stream => exact sim_step_after_stream hinv hsim hl hst hc hroom
  | st_in_length => exact sim_step_in_length hinv hsim hl hst hc hroom
  | st_at_xref => exact sim_step_at_xref hinv hsim hl hst hc hroom
  | st_before_trailer => exact sim_step_before_trailer hinv hsim hl hst hc hroom
  | st_in_trailer => exact sim_step_in_trailer hinv hsim hl hst hc hroom
  | st_done => exact sim_step_done hinv hsim hl hst hc hroom

theorem sim_run : ∀ (ls : List Bytes) {s1 s1' s2 : QdfFixer}, Inv s1 → Sim s1 s2 →
    (∀ l ∈ ls, IsLine l) → runLines s1 ls = .ok s1' → (s1'.out.length : Int) ≤ OFFSET_MAX →
    ∃ (c : List Bytes) (s2' : QdfFixer), s1'.out = s1.out ++ c.flatten ∧ (∀ x ∈ c, IsLine x) ∧
      runLines s2 c = .ok s2' ∧ Sim s1' s2' := by
  intro ls
  induction ls with
  | nil =>
    intro s1 s1' s2 _ hsim _ h _
    simp only [runLines, Result.ok.injEq] at h
    subst h
    exact ⟨[], s2, by simp, by simp, rfl, hsim⟩
  | cons l rest ih =>
    intro s1 s1' s2 hinv hsim hl h hroom
    simp only [runLines] at h
    cases hs : step s1 l with
    | fail e w => rw [hs] at h; cases h
    | ok sm =>
      rw [hs, Result.bind_ok] at h
      obtain ⟨-, -, w, hw⟩ := runLines_frame rest h
      have hroom1 : (sm.out.length : Int) ≤ OFFSET_MAX := by
        rw [hw, List.length_append] at hroom
        push_cast at hroom
        have : (0 : Int) ≤ (w.length : Int) := Int.natCast_nonneg _
        omega
      obtain ⟨c1, t1, a1, a2, a3, a4⟩ := sim_step hinv hsim (hl l (by simp)) hs hroom1
      obtain ⟨c2, t2, b1, b2, b3, b4⟩ := ih (step_inv hinv hs) a4
        (fun x hx => hl x (by simp [hx])) h hroom
      refine ⟨c1 ++ c2, t2, ?_, ?_, ?_, b4⟩
      · rw [b1, a1, List.flatten_append, List.append_assoc]
      · intro x hx
        rcases List.mem_append.1 hx with hx | hx
        · exact a2 x hx
        · exact b2 x hx
      · rw [runLines_append, a3, Result.bind_ok, b3]

theorem sim_init (f g : Bytes) : Sim (QdfFixer.init f) (QdfFixer.init g) := by
  constructor <;> simp [QdfFixer.init, Clean, inOstream, ExtW]

theorem re_num_newline {r : Bytes} (h : re_num r = true) : '\n' ∈ r := by
  simp only [re_num, decide_eq_true_eq] at h
  have : '\n' ∈ r.dropWhile Char.isDigit := by rw [h.2]; simp
  exact (List.dropWhile_suffix _).subset this

theorem re_n_0_obj_newline {r d : Bytes} (h : re_n_0_obj r = some d) : '\n' ∈ r := by
  simp only [re_n_0_obj] at h
  split_ifs at h with hc
  have : '\n' ∈ r.dropWhile Char.isDigit := by rw [hc.2]; decide
  exact (List.dropWhile_suffix _).subset this

theorem re_size_n_newline {r : Bytes} (h : re_size_n r = true) : '\n' ∈ r := by
  simp only [re_size_n, Bool.and_eq_true] at h
  exact List.mem_of_mem_drop (re_num_newline h.2)

theorem last_sync {s1 s1' s2 s2' : QdfFixer} {r : Bytes} (hr : '\n' ∉ r)
    (hs : StepOk s2 r s2') (hov : s2.offset + (r.length : Int) ≤ OFFSET_MAX)
    (hout : s1'.out = s1.out ++ r) (hout2 : s2'.out = s1'.out) :
    ∃ (w : Bytes) (s2' : QdfFixer), s1'.out = s1.out ++ w ∧
      runLines s2 (splitLines w) = .ok s2' ∧ s2'.out = s1'.out :=
  ⟨r, s2', hout, by
    rw [splitLines_no_newline r hr]
    simp only [runLines, step_of_cases hov hs, Result.bind_ok], hout2⟩

theorem last_gen {s1 s1' s2 s2' : QdfFixer} (s2m : QdfFixer) (c : List Bytes) (hc : ∀ x ∈ c, IsLine x)
    (hrun : runLines s2 c = .ok s2m) (hs : StepOk s2m [] s2')
    (hov : s2m.offset ≤ OFFSET_MAX)
    (hout : s1'.out = s1.out ++ c.flatten) (hout2 : s2'.out = s1'.out) :
    ∃ (w : Bytes) (s2' : QdfFixer), s1'.out = s1.out ++ w ∧
      runLines s2 (splitLines w) = .ok s2' ∧ s2'.out = s1'.out :=
  ⟨c.flatten, s2', hout, by
    have := splitLines_lines c [] hc (by simp)
    rw [List.append_nil] at this
    rw [this, runLines_append, hrun]
    simp only [Result.bind_ok, runLines, step_of_cases (by simpa using hov) hs], hout2⟩

theorem last_silent {s1 s1' s2 s2' : QdfFixer} (hs : StepOk s2 [] s2')
    (hov : s2.offset ≤ OFFSET_MAX) (hout : s1'.out = s1.out) (hout2 : s2'.out = s1'.out) :
    ∃ (w : Bytes) (s2' : QdfFixer), s1'.out = s1.out ++ w ∧
      runLines s2 (splitLines w) = .ok s2' ∧ s2'.out = s1'.out :=
  last_gen s2 [] (by simp) rfl hs hov (by simpa using hout) hout2

/-- The last line of the input, which no newline ends, against what the first
run writes for it. -/
theorem sim_last {s1 s1' s2 : QdfFixer} {r : Bytes} (hinv : Inv s1) (hsim : Sim s1 s2)
    (hr : '\n' ∉ r) (hx : hasSub "/Type /XRef".toList r = false) (h : step s1 r = .ok s1')
    (hroom : (s1'.out.length : Int) ≤ OFFSET_MAX) :
    ∃ (w : Bytes) (s2' : QdfFixer), s1'.out = s1.out ++ w ∧
      runLines s2 (splitLines w) = .ok s2' ∧ s2'.out = s1'.out := by
  obtain ⟨-, hc⟩ := step_cases h
  have hlen := hinv.acct.xref_len
  obtain ⟨hsout, hso, hxoff, hf1, hf2', hslen, hext, hcl, hplain, -, hostm, -⟩ := hsim
  have hdict : inOstream s1.state = true → s1'.out = s1.out →
      ∃ (w : Bytes) (s2' : QdfFixer), s1'.out = s1.out ++ w ∧
        runLines s2 (splitLines w) = .ok s2' ∧ s2'.out = s1'.out := by
    intro hst ho
    refine last_silent (StepOk.dict_line (hostm hst).1 (by decide)) ?_ ho
      (by simp only [advance, hsout, ho])
    rw [hso, ← ho]
    exact hroom
  cases hc with
  | top_header hst d hre => exact absurd (re_n_0_obj_newline hre) hr
  | top_xref hst hl => subst hl; exact absurd (by decide) hr
  | top_other hst hre hl =>
    obtain ⟨hs, -, -⟩ := hplain (by rw [hst]; rfl)
    simp only [advance, List.length_append, Nat.cast_add] at hroom
    exact last_sync hr (StepOk.top_other (hs.trans hst) hre hl) (by omega) rfl
      (by simp only [advance, hsout])
  | obj_stream hst hl => subst hl; exact absurd (by decide) hr
  | obj_endobj hst hl => subst hl; exact absurd (by decide) hr
  | obj_ostm hst hl1 hl2 h3 =>
    obtain ⟨hs, -, -⟩ := hplain (by rw [hst]; rfl)
    simp only [advance, List.length_append, Nat.cast_add] at hroom
    exact last_sync hr (StepOk.obj_ostm (hs.trans hst) hl1 hl2 h3) (by omega) rfl
      (by simp only [advance, hsout])
  | obj_xref hst hl1 hl2 h3 h4 => rw [hx] at h4; cases h4
  | obj_other hst hl1 hl2 h3 h4 =>
    obtain ⟨hs, -, -⟩ := hplain (by rw [hst]; rfl)
    simp only [advance, List.length_append, Nat.cast_add] at hroom
    exact last_sync hr (StepOk.obj_other (hs.trans hst) hl1 hl2 h3 h4) (by omega) rfl
      (by simp only [advance, hsout])
  | stream_end hst hl => subst hl; exact absurd (by decide) hr
  | stream_other hst hl =>
    obtain ⟨hs, -, -⟩ := hplain (by rw [hst]; rfl)
    simp only [advance, List.length_append, Nat.cast_add] at hroom
    exact last_sync hr (StepOk.stream_other (hs.trans hst) hl) (by omega) rfl
      (by simp only [advance, hsout])
  | after_marker hst hl => subst hl; exact absurd (by decide) hr
  | after_header hst d hre => exact absurd (re_n_0_obj_newline hre) hr
  | after_other hst hl hre =>
    obtain ⟨hs, -, -⟩ := hplain (by rw [hst]; rfl)
    simp only [advance, List.length_append, Nat.cast_add] at hroom
    exact last_sync hr (StepOk.after_other (hs.trans hst) hl hre) (by omega) rfl
      (by simp only [advance, hsout])
  | in_length hst hre => exact absurd (re_num_newline hre) hr
  | dict_stream hst hl => subst hl; exact absurd (by decide) hr
  | dict_line hst hl => exact hdict (by rw [hst]; rfl) rfl
  | offsets_marker hst d hre hn hlt => exact hdict (by rw [hst]; rfl) rfl
  | offsets_other hst hre => exact hdict (by rw [hst]; rfl) rfl
  | outer_line hst hidx hne => exact hdict (by rw [hst]; rfl) rfl
  | obj_marker hst d hre hn hlt => exact hdict (by rw [hst]; rfl) rfl
  | obj_flush hst hl => subst hl; exact absurd (by decide) hr
  | obj_line hst hre hl => exact hdict (by rw [hst]; rfl) rfl
  | xdict_skip hst h1 =>
    obtain ⟨hs, -, -⟩ := hplain (by rw [hst]; rfl)
    simp only [advance] at hroom
    exact last_silent (StepOk.xdict_line (hs.trans hst) (by decide) (by decide) (by decide))
      (by omega) rfl (by simp only [advance, hsout, List.append_nil])
  | xdict_size hst h1 h2 =>
    obtain ⟨hs, hxr, -⟩ := hplain (by rw [hst]; rfl)
    simp only [advance, List.length_append, Nat.cast_add] at hroom
    obtain ⟨t, ht, h3⟩ : ∃ t, t = ({ advance s2
          ("  /Size ".toList ++ toDec (1 + s1.xref.length) ++ "\n".toList) with
          out := s2.out ++ ("  /Size ".toList ++ toDec (1 + s2.xref.length) ++ "\n".toList) } :
            QdfFixer) ∧
        step s2 ("  /Size ".toList ++ toDec (1 + s1.xref.length) ++ "\n".toList) = .ok t :=
      ⟨_, rfl, step_of_cases (by rw [hso]; simp only [List.length_append, Nat.cast_add]; omega)
        (StepOk.xdict_size (hs.trans hst) (size_line_skip _) (size_line_size _))⟩
    refine last_gen t ["  /Size ".toList ++ toDec (1 + s1.xref.length) ++ "\n".toList]
      (by
        intro x hx
        rw [List.mem_singleton.1 hx]
        exact size_line_isLine _)
      (by simp only [runLines, h3, Result.bind_ok])
      (StepOk.xdict_line (by rw [ht]; exact hs.trans hst) (by decide) (by decide) (by decide))
      ?_ (by simp only [List.flatten_cons, List.flatten_nil, List.append_nil]) ?_
    · rw [ht]
      simp only [advance, hso, List.length_append, Nat.cast_add]
      omega
    · rw [ht]
      simp only [advance, hsout, hxr, List.append_nil]
  | xdict_line hst h1 h2 hl =>
    obtain ⟨hs, -, -⟩ := hplain (by rw [hst]; rfl)
    simp only [advance, List.length_append, Nat.cast_add] at hroom
    exact last_sync hr (StepOk.xdict_line (hs.trans hst) h1 h2 hl) (by omega) rfl
      (by simp only [advance, hsout])
  | xdict_stream hst hl => subst hl; exact absurd (by decide) hr
  | at_xref hst hall =>
    obtain ⟨hs, hxr, -⟩ := hplain (by rw [hst]; rfl)
    have hroom1 : (s1.out.length : Int) +
        (("0 ".toList ++ toDec (1 + s1.xref.length) ++ "\n".toList).length : Int) +
        (totalLength ("0000000000 65535 f \n".toList :: tableLines s1.xref) : Int) ≤
        OFFSET_MAX := by
      rw [← length_flatten_bytes, List.flatten_cons, tableLines_flatten]
      simp only [advance, List.length_append, Nat.cast_add] at hroom ⊢
      simp only [String.toList, List.length_cons, List.length_nil] at hroom ⊢
      omega
    have hpos : (0 : Int) ≤
        (totalLength ("0000000000 65535 f \n".toList :: tableLines s1.xref) : Int) :=
      Int.natCast_nonneg _
    obtain ⟨t, ht, h3⟩ : ∃ t, t = ({ advance s2
          ("0 ".toList ++ toDec (1 + s1.xref.length) ++ "\n".toList) with
          state := .st_before_trailer
          out := s2.out ++ ("0 ".toList ++ toDec (1 + s2.xref.length) ++
            "\n0000000000 65535 f \n".toList) ++ tableText s2.xref } : QdfFixer) ∧
        step s2 ("0 ".toList ++ toDec (1 + s1.xref.length) ++ "\n".toList) = .ok t :=
      ⟨_, rfl, step_of_cases (by omega)
        (StepOk.at_xref (hs.trans hst) (by rw [hxr]; exact hall))⟩
    obtain ⟨n, lo, h4⟩ := runLines_before_trailer _ t (by rw [ht])
      (tableLines_not_trailer s1.xref) (by rw [ht]; simp only [advance]; omega)
    refine last_gen { t with
        lineno := n, last_offset := lo
        offset := t.offset +
          (totalLength ("0000000000 65535 f \n".toList :: tableLines s1.xref) : Int) }
      (("0 ".toList ++ toDec (1 + s1.xref.length) ++ "\n".toList) ::
        "0000000000 65535 f \n".toList :: tableLines s1.xref)
      ?_ (by simp only [runLines, h3, Result.bind_ok]; exact h4)
      (StepOk.before_other (by rw [ht]) (by decide)) ?_ ?_ ?_
    · intro x hx
      rcases List.mem_cons.1 hx with rfl | hx
      · exact IsLine.of_body _ (by
          simp only [List.mem_append, not_or]
          exact ⟨by decide, toDec_no_newline _⟩)
      · rcases List.mem_cons.1 hx with rfl | hx
        · exact ⟨"0000000000 65535 f ".toList, rfl, by decide⟩
        · exact tableLines_isLine _ x hx
    · rw [ht]
      simp only [advance]
      omega
    · simp only [List.flatten_cons, tableLines_flatten]
      simp [List.append_assoc]
    · rw [ht]
      simp only [advance, hsout, hxr]
  | before_start hst hl => subst hl; exact absurd (by decide) hr
  | before_other hst hl =>
    obtain ⟨hs, -, -⟩ := hplain (by rw [hst]; rfl)
    simp only [advance] at hroom
    exact last_silent (StepOk.before_other (hs.trans hst) (by decide))
      (by omega) rfl (by simp only [advance, hsout])
  | trailer_size hst hre => exact absurd (re_size_n_newline hre) hr
  | trailer_end hst hl => subst hl; exact absurd (by decide) hr
  | trailer_line hst hre hl =>
    obtain ⟨hs, -, -⟩ := hplain (by rw [hst]; rfl)
    simp only [advance, List.length_append, Nat.cast_add] at hroom
    exact last_sync hr (StepOk.trailer_line (hs.trans hst) hre hl) (by omega) rfl
      (by simp only [advance, hsout])
  | done hst =>
    obtain ⟨hs, -, -⟩ := hplain (by rw [hst]; rfl)
    simp only [advance] at hroom
    exact last_silent (StepOk.done (hs.trans hst)) (by omega) rfl (by simp only [advance, hsout])

theorem splitLines_flatten_append (c : List Bytes) (w : Bytes) (hc : ∀ l ∈ c, IsLine l) :
    splitLines (c.flatten ++ w) = c ++ splitLines w := by
  obtain ⟨ts, r, h1, h2, h3⟩ := splitLines_shape w
  have hw := splitLines_flatten w
  rw [h1] at hw
  simp only [List.flatten_append, List.flatten_cons, List.flatten_nil, List.append_nil] at hw
  have := splitLines_lines (c ++ ts) r (by
    intro l hl
    rcases List.mem_append.1 hl with hl | hl
    · exact hc l hl
    · exact h2 l hl) h3
  rw [List.flatten_append, List.append_assoc, hw] at this
  rw [this, h1, List.append_assoc]

/-- C3 (amended): idempotence on its own output.  Take an input `x` whose part
after the last newline does not contain `/Type /XRef`, on which `processLines`
finishes without error and writes `y`, with `y` at most `2^63 - 1` bytes long.
Then `processLines` on `y`, whatever the filename, also finishes without error
and writes exactly `y`. -/
theorem idempotence (f g x : Bytes) (s1 : QdfFixer)
    (hrun : processLines f x = .ok s1)
    (hlast : hasSub "/Type /XRef".toList (lastLine x) = false)
    (hroom : (s1.out.length : Int) ≤ OFFSET_MAX) :
    outputOf (processLines g s1.out) = some s1.out := by
  obtain ⟨ts, r, h1, h2, h3⟩ := splitLines_shape x
  have hl : lastLine x = r := by simp [lastLine, h1]
  rw [hl] at hlast
  have e1 : processLines f x = runLines (QdfFixer.init f) (splitLines x) := rfl
  rw [e1, h1, runLines_append] at hrun
  cases hm : runLines (QdfFixer.init f) ts with
  | fail e w => rw [hm] at hrun; cases hrun
  | ok sm =>
    rw [hm, Result.bind_ok] at hrun
    have hstep : step sm r = .ok s1 := by
      simp only [runLines] at hrun
      cases hs : step sm r with
      | fail e w => rw [hs] at hrun; cases hrun
      | ok t => rw [hs] at hrun; exact hrun
    obtain ⟨-, -, w0, hw0⟩ := step_frame hstep
    have hroom1 : (sm.out.length : Int) ≤ OFFSET_MAX := by
      rw [hw0, List.length_append] at hroom
      push_cast at hroom
      have : (0 : Int) ≤ (w0.length : Int) := Int.natCast_nonneg _
      omega
    obtain ⟨c, s2, a1, a2, a3, a4⟩ := sim_run ts (inv_init f) (sim_init f g) h2 hm hroom1
    obtain ⟨w, s2', b1, b2, b3⟩ := sim_last (runLines_inv (inv_init f) hm) a4 h3 hlast hstep hroom
    have hout : s1.out = c.flatten ++ w := by
      rw [b1, a1]
      rfl
    have e2 : processLines g s1.out = runLines (QdfFixer.init g) (splitLines s1.out) := rfl
    rw [e2, hout, splitLines_flatten_append c w a2, runLines_append, a3, Result.bind_ok, b2]
    simp only [outputOf, Result.toOption, Option.map_some', b3, hout]

set_option maxRecDepth 100000 in
/-- Witness of C3: the output for `inputRound`, which has an object stream, a
stream length and an XRef stream, is written again unchanged. -/
theorem idempotence_witness :
    outputOf (processLines "out.qdf".toList
      (processLines "in.qdf".toList inputRound).final.out) =
      some (processLines "in.qdf".toList inputRound).final.out :=
  idempotence "in.qdf".toList "out.qdf".toList inputRound
    (processLines "in.qdf".toList inputRound).final rfl (by decide) (by decide)

set_option maxRecDepth 100000 in
/-- Counterexample to C3 as stated: the input `1 0 obj\n/Type /XRef` ends inside
a line, the `/Length` line is written right behind it, and a second run inserts
another `/Length` line. -/
theorem idempotence_claim_counterexample :
    outputOf (processLines "in.qdf".toList "1 0 obj\n/Type /XRef".toList) =
        some "1 0 obj\n/Type /XRef  /Length 4\n  /W [ 1 0 1 ]\n".toList ∧
      outputOf (processLines "in.qdf".toList
          "1 0 obj\n/Type /XRef  /Length 4\n  /W [ 1 0 1 ]\n".toList) =
        some "1 0 obj\n/Type /XRef  /Length 4\n  /Length 4\n  /W [ 1 0 1 ]\n".toList := by
  decide

/-- C21: Offset accounting invariant.  Take the state `s` in which a loop
iteration starts, that is, the state after any number `k` of lines of any input
has been read without error.  If `s` is one of the states `st_top`, `st_in_obj`,
`st_in_stream` and `st_after_stream`, then `offset` equals the number of bytes
written so far, and so does `last_offset` once the head of the loop has run for
the next line.  In particular the iteration that rewrites a length line ends in
`st_top` with `offset` equal to the number of bytes written, and the iteration
in which `writeOstream` flushes an object stream ends in `st_in_obj` with
`offset` equal to the number of bytes written.  No condition on `/Type /XRef`
lines is needed: after such a line has started the XRef stream, none of the four
states is entered again. -/
theorem offset_accounting (filename input : Bytes) (k : Nat) (s : QdfFixer)
    (hrun : runLines (QdfFixer.init filename) ((splitLines input).take k) = .ok s) :
    (s.state = .st_top ∨ s.state = .st_in_obj ∨ s.state = .st_in_stream ∨
        s.state = .st_after_stream →
      s.offset = (s.out.length : Int) ∧
        ∀ l : Bytes, (advance s l).last_offset = (s.out.length : Int)) ∧
    (∀ (l : Bytes) (s1 : QdfFixer), s.state = .st_in_length → step s l = .ok s1 →
      s1.state = .st_top ∧ s1.offset = (s1.out.length : Int)) ∧
    (∀ (l : Bytes) (s1 : QdfFixer), s.state = .st_in_ostream_obj → l = "endstream\n".toList →
      step s l = .ok s1 → s1.state = .st_in_obj ∧ s1.offset = (s1.out.length : Int)) ∧
    (∀ (l : Bytes) (s1 : QdfFixer), step s l = .ok s1 →
      s1.state = .st_in_xref_stream_dict ∨ s1.state = .st_done →
      ∀ (more : List Bytes) (s2 : QdfFixer), runLines s1 more = .ok s2 →
        s2.state = .st_in_xref_stream_dict ∨ s2.state = .st_done) := by
  have hi := runLines_inv (inv_init filename) hrun
  refine ⟨?_, ?_, ?_, ?_⟩
  · intro hst
    have ha := hi.acct.acct
    have : s.offset = (s.out.length : Int) := by
      rcases hst with h | h | h | h <;> simp only [Acct, h] at ha <;> exact ha.1
    exact ⟨this, fun l => this⟩
  · intro l s1 hst h
    have hi1 := step_inv hi h
    obtain ⟨-, hc⟩ := step_cases h
    have hs1 : s1.state = .st_top := by
      cases hc <;> simp_all [advance]
    have ha := hi1.acct.acct
    simp only [Acct, hs1] at ha
    exact ⟨hs1, ha.1⟩
  · intro l s1 hst hl h
    have hi1 := step_inv hi h
    obtain ⟨-, hc⟩ := step_cases h
    have hs1 : s1.state = .st_in_obj := by
      have hn : re_ostream_obj "endstream\n".toList = none := by decide
      cases hc <;> simp_all [advance]
    have ha := hi1.acct.acct
    simp only [Acct, hs1] at ha
    exact ⟨hs1, ha.1⟩
  · intro l s1 hstep hs1 more
    clear hrun hi hstep
    induction more generalizing s1 with
    | nil =>
      intro s2 h2
      simp only [runLines, Result.ok.injEq] at h2
      subst h2
      exact hs1
    | cons m rest ih =>
      intro s2 h2
      simp only [runLines] at h2
      cases hm : step s1 m with
      | fail e w => rw [hm] at h2; cases h2
      | ok t =>
        rw [hm, Result.bind_ok] at h2
        refine ih t ?_ s2 h2
        obtain ⟨-, hc⟩ := step_cases hm
        rcases hs1 with hs1 | hs1 <;> cases hc <;> simp_all [advance]

set_option maxRecDepth 100000 in
/-- Witness of C21 (scenario S3): after the header of object 2 the state is
`st_in_obj` and `offset` is the number of bytes written. -/
theorem offset_accounting_witness :
    (stateS3 4).offset = ((stateS3 4).out.length : Int) :=
  ((offset_accounting "in.qdf".toList inputS3 4 (stateS3 4) rfl).1
    (Or.inr (Or.inl rfl))).1

theorem step_xref_detail {s s1 : QdfFixer} {l : Bytes} (hi : Inv s) (h : step s l = .ok s1) :
    s1.xref = s.xref ∨
      (∃ d, (re_n_0_obj l = some d ∨ re_ostream_obj l = some d) ∧
        stoi d = some (s.xref.length + 1) ∧
        s1.xref = s.xref ++ [XRefEntry.uncompressed s.offset]) ∨
      (∃ p, s.xref.getLast? = some (XRefEntry.uncompressed p) ∧
        s1.xref = s.xref.dropLast ++ [XRefEntry.compressed s.ostream_id s.ostream_idx]) := by
  have hlen := hi.acct.xref_len
  obtain ⟨-, hc⟩ := step_cases h
  cases hc with
  | top_header hst d hre hn hlt =>
    exact Or.inr (Or.inl ⟨d, Or.inl hre, by rw [hlen]; exact hn, rfl⟩)
  | after_header hst d hre hn hlt =>
    exact Or.inr (Or.inl ⟨d, Or.inl hre, by rw [hlen]; exact hn, rfl⟩)
  | offsets_marker hst d hre hn hlt =>
    exact Or.inr (Or.inl ⟨d, Or.inr hre, by rw [hlen]; exact hn, rfl⟩)
  | obj_marker hst d hre hn hlt =>
    exact Or.inr (Or.inl ⟨d, Or.inr hre, by rw [hlen]; exact hn, rfl⟩)
  | outer_line hst hidx hne =>
    obtain ⟨p, hp⟩ := hi.buffers.provisional hst
    exact Or.inr (Or.inr ⟨p, hp, rfl⟩)
  | _ => exact Or.inl rfl

theorem step_xref_stable {s s1 : QdfFixer} {l : Bytes} (h : step s l = .ok s1) :
    s.xref.length ≤ s1.xref.length ∧
      ∀ i, i + 1 < s.xref.length → s1.xref[i]? = s.xref[i]? := by
  rcases step_xref h with h1 | ⟨e, h1⟩ | ⟨-, hne, e, h1⟩
  · rw [h1]
    exact ⟨le_refl _, fun _ _ => rfl⟩
  · rw [h1]
    refine ⟨by simp, fun i hi => ?_⟩
    rw [List.getElem?_append_left (by omega)]
  · rw [h1]
    have hpos : 0 < s.xref.length := List.length_pos.2 hne
    refine ⟨by simp; omega, fun i hi => ?_⟩
    rw [List.getElem?_append_left (by simp; omega), List.dropLast_eq_take,
      List.getElem?_take_of_lt (by omega)]

theorem runLines_xref_stable (ls : List Bytes) : ∀ {s s1 : QdfFixer}, runLines s ls = .ok s1 →
    s.xref.length ≤ s1.xref.length ∧
      ∀ i, i + 1 < s.xref.length → s1.xref[i]? = s.xref[i]? := by
  induction ls with
  | nil =>
    intro s s1 h
    simp only [runLines, Result.ok.injEq] at h
    subst h
    exact ⟨le_refl _, fun _ _ => rfl⟩
  | cons l rest ih =>
    intro s s1 h
    simp only [runLines] at h
    cases hs : step s l with
    | fail e w => rw [hs] at h; cases h
    | ok t =>
      rw [hs, Result.bind_ok] at h
      obtain ⟨a1, a2⟩ := step_xref_stable hs
      obtain ⟨b1, b2⟩ := ih h
      exact ⟨le_trans a1 b1, fun i hi => by rw [b2 i (by omega), a2 i hi]⟩

theorem take_succ_of_getElem? {α : Type} {xs : List α} {k : Nat} {x : α}
    (h : xs[k]? = some x) : xs.take (k + 1) = xs.take k ++ [x] := by
  rw [List.take_succ, h]
  rfl

/-- C22: XRef table invariant.  Let `s` be the state after `k` lines of an input
and `s1` the state after the next line `l`, both reached without error.  Then
the table of `s1` has exactly `last_obj` entries, and the step from `s` to `s1`
left the table unchanged, or appended one type-1 entry for a line `l` that
matches `^(\d+) 0 obj\n$` or `^%% Object stream: object (\d+)` and whose number
is the new entry's position plus one, or replaced the last entry, of type 1, by
a type-2 entry.  Whatever the step did, and whatever the rest of the run does,
the table never gets shorter and the entries in front of the last one stay what
and where they are. -/
theorem xref_table_invariant (filename input : Bytes) (k : Nat) (s s1 : QdfFixer) (l : Bytes)
    (hrun : runLines (QdfFixer.init filename) ((splitLines input).take k) = .ok s)
    (hline : (splitLines input)[k]? = some l)
    (hrun1 : runLines (QdfFixer.init filename) ((splitLines input).take (k + 1)) = .ok s1) :
    s1.xref.length = s1.last_obj ∧
    (s1.xref = s.xref ∨
      (∃ d, (re_n_0_obj l = some d ∨ re_ostream_obj l = some d) ∧
        stoi d = some (s.xref.length + 1) ∧
        s1.xref = s.xref ++ [XRefEntry.uncompressed s.offset]) ∨
      (∃ p, s.xref.getLast? = some (XRefEntry.uncompressed p) ∧
        s1.xref = s.xref.dropLast ++ [XRefEntry.compressed s.ostream_id s.ostream_idx])) ∧
    s.xref.length ≤ s1.xref.length ∧
    (∀ i, i + 1 < s.xref.length → s1.xref[i]? = s.xref[i]?) ∧
    (∀ (more : List Bytes) (s2 : QdfFixer), runLines s1 more = .ok s2 →
      s1.xref.length ≤ s2.xref.length ∧
        ∀ i, i + 1 < s1.xref.length → s2.xref[i]? = s1.xref[i]?) := by
  have hi := runLines_inv (inv_init filename) hrun
  have hi1 := runLines_inv (inv_init filename) hrun1
  have hstep : step s l = .ok s1 := by
    rw [take_succ_of_getElem? hline, runLines_append, hrun, Result.bind_ok] at hrun1
    simp only [runLines] at hrun1
    cases hs : step s l with
    | fail e w => rw [hs] at hrun1; cases hrun1
    | ok t => rw [hs] at hrun1; exact hrun1
  obtain ⟨a1, a2⟩ := step_xref_stable hstep
  exact ⟨hi1.acct.xref_len, step_xref_detail hi hstep, a1, a2,
    fun more s2 h2 => runLines_xref_stable more h2⟩

set_option maxRecDepth 100000 in
/-- Witness of C22 (scenario S3): the header of object 2 appends the entry of
object 2 to the table. -/
theorem xref_table_invariant_witness :
    (stateS3 4).xref.length = (stateS3 4).last_obj ∧
      (stateS3 3).xref.length ≤ (stateS3 4).xref.length :=
  have h := xref_table_invariant "in.qdf".toList inputS3 3 (stateS3 3) (stateS3 4)
    "2 0 obj\n".toList rfl rfl rfl
  ⟨h.1, h.2.2.1⟩

theorem isWidth_bind {α β : Type} {r : Result α} {k : α → Result β}
    (hr : r.isWidth = false) (hk : ∀ a, (k a).isWidth = false) : (r.bind k).isWidth = false := by
  cases r with
  | ok a => exact hk a
  | fail e w => simpa [Result.bind, Result.isWidth] using hr

theorem checkObjId_notWidth (s : QdfFixer) (d : Bytes) : (checkObjId s d).isWidth = false := by
  unfold checkObjId
  cases stoi d with
  | none => rfl
  | some n =>
    dsimp only
    split_ifs <;> rfl

theorem adjustOstreamXref_notWidth (s : QdfFixer) : (adjustOstreamXref s).isWidth = false := by
  unfold adjustOstreamXref
  split_ifs
  · rfl
  · cases s.xref <;> rfl

theorem writeOstream_notWidth (s : QdfFixer) : (writeOstream s).isWidth = false := by
  unfold writeOstream
  cases s.ostream_offsets with
  | nil => rfl
  | cons a rest =>
    dsimp only
    split_ifs <;> rfl

theorem writeBinary_notWidth (s : QdfFixer) (v : Nat) {b : Nat} (hb : b ≤ 8) :
    ∃ data, s.writeBinary v b = .ok (s.write data) := by
  unfold QdfFixer.writeBinary FixQdf.writeBinary
  rw [if_neg (by simp only [SIZEOF_ULL]; omega)]
  exact ⟨_, rfl⟩

theorem writeRow_notWidth (s : QdfFixer) (t a b : Nat) (h1 : s.xref_f1_nbytes ≤ 8)
    (h2 : s.xref_f2_nbytes ≤ 8) : ∃ data, writeRow s t a b = .ok (s.write data) := by
  unfold writeRow
  obtain ⟨d0, e0⟩ := writeBinary_notWidth s t (b := 1) (by omega)
  obtain ⟨d1, e1⟩ := writeBinary_notWidth (s.write d0) a (b := (s.write d0).xref_f1_nbytes) h1
  obtain ⟨d2, e2⟩ := writeBinary_notWidth ((s.write d0).write d1) b
    (b := ((s.write d0).write d1).xref_f2_nbytes) h2
  rw [e0, Result.bind_ok, e1, Result.bind_ok, e2]
  exact ⟨d0 ++ d1 ++ d2, by simp [QdfFixer.write]⟩

theorem writeXRefRows_notWidth (xs : List XRefEntry) : ∀ s : QdfFixer,
    s.xref_f1_nbytes ≤ 8 → s.xref_f2_nbytes ≤ 8 → (writeXRefRows s xs).isWidth = false := by
  induction xs with
  | nil => intro s _ _; rfl
  | cons e rest ih =>
    intro s h1 h2
    cases e with
    | uncompressed o =>
      simp only [writeXRefRows]
      split_ifs
      · rfl
      · obtain ⟨d, hd⟩ := writeRow_notWidth s 1 o.toNat 0 h1 h2
        rw [hd, Result.bind_ok]
        exact ih _ h1 h2
    | compressed sn idx =>
      simp only [writeXRefRows]
      obtain ⟨d, hd⟩ := writeRow_notWidth s 2 sn idx h1 h2
      rw [hd, Result.bind_ok]
      exact ih _ h1 h2

theorem writeXRefTable_notWidth (xs : List XRefEntry) : ∀ s : QdfFixer,
    (writeXRefTable s xs).isWidth = false := by
  induction xs with
  | nil => intro s; rfl
  | cons e rest ih =>
    intro s
    simp only [writeXRefTable]
    cases e.getOffset with
    | none => rfl
    | some o => exact ih _

theorem startXRefStream_notWidth (s : QdfFixer) : (startXRefStream s).isWidth = false := by
  unfold startXRefStream
  cases s.xref.getLast? with
  | none => rfl
  | some e =>
    dsimp only
    cases e.getOffset with
    | none => rfl
    | some o =>
      dsimp only
      split_ifs <;> rfl

theorem stepInXRefStreamDict_notWidth (s : QdfFixer) (l : Bytes) (h1 : s.xref_f1_nbytes ≤ 8)
    (h2 : s.xref_f2_nbytes ≤ 8) : (stepInXRefStreamDict s l).isWidth = false := by
  unfold stepInXRefStreamDict
  dsimp only
  have key : ∀ u : QdfFixer, u.xref_f1_nbytes ≤ 8 → u.xref_f2_nbytes ≤ 8 →
      ((writeRow u 0 0 0).bind fun s1 =>
        (writeXRefRows s1 s1.xref).bind fun s2 =>
          Result.ok ({ s2 with state := .st_done }.write
            ("\nendstream\nendobj\n\n".toList ++ "startxref\n".toList ++
              intToDec s2.xref_offset ++ "\n%%EOF\n".toList))).isWidth = false := by
    intro u g1 g2
    obtain ⟨d, hd⟩ := writeRow_notWidth u 0 0 0 g1 g2
    rw [hd, Result.bind_ok]
    exact isWidth_bind (writeXRefRows_notWidth _ _ g1 g2) fun _ => rfl
  split_ifs <;> first
    | rfl
    | exact key _ h1 h2

/-- The exception of `writeBinary` can only come from the state
`st_in_xref_stream_dict`, and only with a width above 8. -/
theorem step_notWidth (s : QdfFixer) (l : Bytes)
    (h : s.state = .st_in_xref_stream_dict → s.xref_f1_nbytes ≤ 8 ∧ s.xref_f2_nbytes ≤ 8) :
    (step s l).isWidth = false := by
  unfold step
  split_ifs
  · rfl
  unfold dispatch
  obtain ⟨st, hst⟩ : ∃ st, s.state = st := ⟨_, rfl⟩
  simp only [advance, hst]
  cases st with
  | st_top =>
    dsimp only
    unfold stepTop
    dsimp only
    cases re_n_0_obj l with
    | none => dsimp only; split_ifs <;> rfl
    | some d => exact isWidth_bind (checkObjId_notWidth _ _) fun _ => rfl
  | st_in_obj =>
    dsimp only
    unfold stepInObj
    dsimp only
    split_ifs <;> first | rfl | exact startXRefStream_notWidth _
  | st_in_ostream_dict =>
    dsimp only
    unfold stepInOstreamDict
    split_ifs
    · rfl
    · dsimp only
      cases re_extends l <;> rfl
  | st_in_ostream_offsets =>
    dsimp only
    unfold stepInOstreamOffsets
    cases re_ostream_obj l with
    | none => rfl
    | some d => exact isWidth_bind (checkObjId_notWidth _ _) fun _ => rfl
  | st_in_ostream_outer =>
    dsimp only
    unfold stepInOstreamOuter
    exact isWidth_bind (adjustOstreamXref_notWidth _) fun _ => rfl
  | st_in_ostream_obj =>
    dsimp only
    unfold stepInOstreamObj
    dsimp only
    cases re_ostream_obj l with
    | some d => exact isWidth_bind (checkObjId_notWidth _ _) fun _ => rfl
    | none =>
      dsimp only
      split_ifs
      · rfl
      · exact isWidth_bind (writeOstream_notWidth _) fun _ => rfl
      · rfl
  | st_in_xref_stream_dict =>
    dsimp only
    exact stepInXRefStreamDict_notWidth _ _ (h hst).1 (h hst).2
  | st_in_stream =>
    dsimp only
    unfold stepInStream
    split_ifs <;> rfl
  | st_after_stream =>
    dsimp only
    unfold stepAfterStream
    split_ifs
    · rfl
    · rfl
    · cases re_n_0_obj l with
      | none => rfl
      | some d => exact isWidth_bind (checkObjId_notWidth _ _) fun _ => rfl
  | st_in_length =>
    dsimp only
    unfold stepInLength
    dsimp only
    split_ifs <;> rfl
  | st_at_xref =>
    dsimp only
    unfold stepAtXRef
    exact isWidth_bind (writeXRefTable_notWidth _ _) fun _ => rfl
  | st_before_trailer =>
    dsimp only
    unfold stepBeforeTrailer
    split_ifs <;> rfl
  | st_in_trailer =>
    dsimp only
    unfold stepInTrailer
    dsimp only
    split_ifs <;> rfl
  | st_done => rfl

theorem tableRange_init (fn : Bytes) : TableRange (QdfFixer.init fn) := by
  constructor <;> simp [QdfFixer.init]

theorem step_tableRange {s s1 : QdfFixer} {l : Bytes} (hi : Inv s) (hj : TableRange s)
    (h : step s l = .ok s1) : TableRange s1 := by
  have hle := hi.acct.off_le
  have hA := hi.acct.acct
  have hlen := hi.acct.xref_len
  have hobj := hi.acct.obj_le
  obtain ⟨j1, j2⟩ := hj
  have happ : TableRange { s with xref := s.xref ++ [XRefEntry.uncompressed s.offset] } := by
    constructor
    · intro o ho
      simp only [List.mem_append, List.mem_singleton, XRefEntry.uncompressed.injEq] at ho
      rcases ho with ho | rfl
      · exact j1 o ho
      · exact hle
    · intro sn idx ho
      simp only [List.mem_append, List.mem_singleton] at ho
      rcases ho with ho | ho
      · exact j2 sn idx ho
      · cases ho
  obtain ⟨-, hc⟩ := step_cases h
  cases hc with
  | top_header hst d hre hn hlt => exact ⟨happ.1, happ.2⟩
  | after_header hst d hre hn hlt => exact ⟨happ.1, happ.2⟩
  | offsets_marker hst d hre hn hlt => exact ⟨happ.1, happ.2⟩
  | obj_marker hst d hre hn hlt => exact ⟨happ.1, happ.2⟩
  | outer_line hst hidx hne =>
    constructor
    · intro o ho
      simp only [List.mem_append, List.mem_singleton] at ho
      rcases ho with ho | ho
      · exact j1 o (List.mem_of_mem_dropLast ho)
      · cases ho
    · intro sn idx ho
      simp only [List.mem_append, List.mem_singleton, XRefEntry.compressed.injEq] at ho
      rcases ho with ho | ⟨-, rfl⟩
      · exact j2 sn idx (List.mem_of_mem_dropLast ho)
      · exact hidx
  | _ => exact ⟨j1, j2⟩

theorem runLines_tableRange (ls : List Bytes) : ∀ {s s1 : QdfFixer}, Inv s → TableRange s →
    runLines s ls = .ok s1 → TableRange s1 := by
  induction ls with
  | nil =>
    intro s s1 _ hj h
    simp only [runLines, Result.ok.injEq] at h
    subst h
    exact hj
  | cons l rest ih =>
    intro s s1 hi hj h
    simp only [runLines] at h
    cases hs : step s l with
    | fail e w => rw [hs] at h; cases h
    | ok t =>
      rw [hs, Result.bind_ok] at h
      exact ih (step_inv hi hs) (step_tableRange hi hj hs) h

/-- In a reachable state that reads the dictionary of the XRef stream the first
width is at most 8 and the second one at most 4. -/
theorem widths_le {s : QdfFixer} (hi : Inv s) (hj : TableRange s)
    (hst : s.state = .st_in_xref_stream_dict) :
    s.xref_f1_nbytes ≤ 8 ∧ s.xref_f2_nbytes ≤ 4 := by
  have ha := hi.acct.acct
  simp only [Acct, hst] at ha
  obtain ⟨p, hlast, hp0, -, hf1, hf2⟩ := ha
  obtain ⟨hne, hl⟩ := getLast?_getElem? _ _ hlast
  have hlt : s.xref.length - 1 < s.xref.length := by
    have := List.length_pos.2 hne
    omega
  rw [List.getElem?_eq_getElem hlt] at hl
  simp only [Option.some.injEq] at hl
  have hmem : XRefEntry.uncompressed p ∈ s.xref := hl ▸ List.getElem_mem hlt
  have hp := hj.offs p hmem
  constructor
  · rw [hf1]
    apply nbytes_le
    have : p.toNat ≤ 9223372036854775807 := by
      simp only [OFFSET_MAX] at hp
      omega
    calc p.toNat ≤ 9223372036854775807 := this
      _ < 256 ^ 8 := by norm_num
  · rw [hf2]
    apply nbytes_le
    rw [maxObjects_eq]
    have hm : maxType2Index s.xref ≤ INT_MAX := by
      unfold maxType2Index
      apply (foldl_max_nat _ 0).2.2 _ (Nat.zero_le _)
      intro x hx
      rw [List.mem_filterMap] at hx
      obtain ⟨e, he, hex⟩ := hx
      cases e with
      | uncompressed o => simp [XRefEntry.getObjStreamIndex] at hex
      | compressed sn idx =>
        simp only [XRefEntry.getObjStreamIndex, Option.some.injEq] at hex
        subst hex
        exact hj.idxs sn _ he
    simp only [INT_MAX] at hm
    have : max 1 (maxType2Index s.xref) ≤ 2147483647 := by omega
    calc max 1 (maxType2Index s.xref) ≤ 2147483647 := this
      _ < 256 ^ 4 := by norm_num

theorem runLines_notWidth (ls : List Bytes) : ∀ {s : QdfFixer}, Inv s → TableRange s →
    (runLines s ls).isWidth = false := by
  induction ls with
  | nil => intro s _ _; rfl
  | cons l rest ih =>
    intro s hi hj
    simp only [runLines]
    cases hs : step s l with
    | fail e w =>
      have := step_notWidth s l fun hst => by
        have := widths_le hi hj hst
        exact ⟨this.1, by omega⟩
      rw [hs] at this
      exact this
    | ok t =>
      rw [Result.bind_ok]
      exact ih (step_inv hi hs) (step_tableRange hi hj hs)

/-- C23: Width overflow is unreachable.  The calls of `writeBinary` are made
when the line `stream` is read in state `st_in_xref_stream_dict`, with the
widths 1, `xref_f1_nbytes` and `xref_f2_nbytes`.  In every state of that kind
that a run reaches, on any input, the first width is at most 8 and the second
one at most 4, every call of `writeBinary` for a row returns, and no run ends
with the exception `called with too many bytes`.  The length of the input does
not matter: an offset beyond `2^63 - 1` would be a signed overflow, which ends a
run differently. -/
theorem width_overflow_unreachable (filename input : Bytes) :
    (∀ (k : Nat) (s : QdfFixer),
      runLines (QdfFixer.init filename) ((splitLines input).take k) = .ok s →
      s.state = .st_in_xref_stream_dict →
      s.xref_f1_nbytes ≤ 8 ∧ s.xref_f2_nbytes ≤ 4 ∧
        ∀ type f1 f2 : Nat, ∃ data, writeRow s type f1 f2 = .ok (s.write data)) ∧
    (∀ w, processLines filename input ≠ .fail widthError w) ∧
    ∀ (k : Nat) (w : Bytes),
      runLines (QdfFixer.init filename) ((splitLines input).take k) ≠ .fail widthError w := by
  refine ⟨?_, ?_, ?_⟩
  · intro k s hrun hst
    have hi := runLines_inv (inv_init filename) hrun
    have hj := runLines_tableRange _ (inv_init filename) (tableRange_init filename) hrun
    obtain ⟨h1, h2⟩ := widths_le hi hj hst
    exact ⟨h1, h2, fun t a b => writeRow_notWidth s t a b h1 (by omega)⟩
  · intro w hc
    have e1 : processLines filename input =
        runLines (QdfFixer.init filename) (splitLines input) := rfl
    have := runLines_notWidth (splitLines input) (inv_init filename) (tableRange_init filename)
    rw [← e1, hc] at this
    simp [Result.isWidth] at this
  · intro k w hc
    have := runLines_notWidth ((splitLines input).take k) (inv_init filename)
      (tableRange_init filename)
    rw [hc] at this
    simp [Result.isWidth] at this

set_option maxRecDepth 100000 in
/-- Witness of C23 (scenario S4/S5): when the line `stream` of the XRef stream is
about to be read, the widths are within the bounds. -/
theorem width_overflow_unreachable_witness :
    (stateS4 21).xref_f1_nbytes ≤ 8 ∧ (stateS4 21).xref_f2_nbytes ≤ 4 :=
  have h := (width_overflow_unreachable "in.qdf".toList inputS4).1 21 (stateS4 21) rfl rfl
  ⟨h.1, h.2.1⟩

theorem beEncode_zero : ∀ w : Nat, beEncode w 0 = List.replicate w (Char.ofNat 0) := by
  intro w
  induction w with
  | zero => rfl
  | succ n ih =>
    simp only [beEncode, Nat.zero_div, Nat.zero_mod, ih]
    rw [List.replicate_succ']

theorem beValue_replicate_zero : ∀ n : Nat, beValue (List.replicate n (Char.ofNat 0)) = 0 := by
  intro n
  unfold beValue
  have key : ∀ (m a : Nat), a = 0 →
      (List.replicate m (Char.ofNat 0)).foldl (fun acc c => 256 * acc + c.toNat) a = 0 := by
    intro m
    induction m with
    | zero => intro a ha; simpa using ha
    | succ k ih =>
      intro a ha
      rw [List.replicate_succ, List.foldl_cons]
      apply ih
      rw [ha]
      rfl
  exact key n 0 rfl

theorem packXRef_null (w1 w2 : Nat) (xref : List XRefEntry) :
    packXRef w1 w2 xref =
      nullRow w1 w2 ++ ((xref.map entryFields).map (packRow w1 w2)).flatten := by
  simp only [packXRef, List.map_cons, List.flatten_cons, packRow, beEncode_zero, nullRow,
    List.replicate_add]

theorem firstRow_null (w1 w2 : Nat) (rest : Bytes) :
    firstRow w1 w2 (nullRow w1 w2 ++ rest) = some (0, 0, 0) := by
  have hne : nullRow w1 w2 ++ rest ≠ [] := by
    intro h
    have := congrArg List.length h
    simp [nullRow] at this
  obtain ⟨n, hn⟩ : ∃ n, (nullRow w1 w2 ++ rest).length = n + 1 := by
    cases hl : (nullRow w1 w2 ++ rest).length with
    | zero => exact absurd (List.length_eq_zero.1 hl) hne
    | succ n => exact ⟨n, rfl⟩
  have e1 : (nullRow w1 w2 ++ rest).take 1 = List.replicate 1 (Char.ofNat 0) := by
    rw [nullRow, List.take_append_of_le_length (by simp; omega), List.take_replicate]
    congr 1
    omega
  have e2 : ((nullRow w1 w2 ++ rest).drop 1).take w1 = List.replicate w1 (Char.ofNat 0) := by
    rw [nullRow, List.drop_append_of_le_length (by simp; omega), List.drop_replicate,
      List.take_append_of_le_length (by simp; omega), List.take_replicate]
    congr 1
    omega
  have e3 : ((nullRow w1 w2 ++ rest).drop (1 + w1)).take w2 =
      List.replicate w2 (Char.ofNat 0) := by
    rw [nullRow, List.drop_append_of_le_length (by simp), List.drop_replicate,
      List.take_append_of_le_length (by simp), List.take_replicate]
    congr 1
    omega
  unfold firstRow decodeXRef
  rw [hn]
  simp only [decodeRows, if_neg hne, List.head?_cons, e1, e2, e3, beValue_replicate_zero]

/-- C24 (amended): Entry for object 0.  In a classic table the first entry line
is `0000000000 65535 f`, that is `(type 0, 0, 65535)`.  In an XRef stream the
first row of the body consists of zero bytes and decodes to type 0, first field
0 and second field 0: the three calls `writeBinary(0, ...)` write the value 0
in each field.  Here `s` is the state in which a loop iteration starts, `l` the
line it reads and `s1` the state in which it ends without error: the table is
written when `s` is `st_at_xref`, the body of the XRef stream when `s` is
`st_in_xref_stream_dict` and `l` is `stream`. -/
theorem object_zero_entry (s s1 : QdfFixer) (l : Bytes) (hstep : step s l = .ok s1) :
    (s.state = .st_at_xref →
      s1.out = s.out ++ ("0 ".toList ++ toDec (1 + s.xref.length) ++ "\n".toList) ++
        "0000000000 65535 f \n".toList ++ tableText s.xref) ∧
    (s.state = .st_in_xref_stream_dict → l = "stream\n".toList →
      s1.out = s.out ++ "stream\n".toList ++
          packXRef s.xref_f1_nbytes s.xref_f2_nbytes s.xref ++ xrefStreamTail s.xref_offset ∧
        (packXRef s.xref_f1_nbytes s.xref_f2_nbytes s.xref).take
            (1 + s.xref_f1_nbytes + s.xref_f2_nbytes) =
          nullRow s.xref_f1_nbytes s.xref_f2_nbytes ∧
        firstRow s.xref_f1_nbytes s.xref_f2_nbytes
            (packXRef s.xref_f1_nbytes s.xref_f2_nbytes s.xref) = some (0, 0, 0)) := by
  obtain ⟨-, hc⟩ := step_cases hstep
  constructor
  · intro hst
    cases hc with
    | at_xref _ hall =>
      show s.out ++ ("0 ".toList ++ toDec (1 + s.xref.length) ++
        "\n0000000000 65535 f \n".toList) ++ tableText s.xref = _
      simp [List.append_assoc]
    | _ => simp_all
  · intro hst hl
    have hout : s1.out = s.out ++ "stream\n".toList ++
        packXRef s.xref_f1_nbytes s.xref_f2_nbytes s.xref ++ xrefStreamTail s.xref_offset := by
      cases hc with
      | xdict_stream _ hl0 hf1 hf2 hnn => rw [hl0]
      | xdict_skip _ h1 => rw [hl] at h1; exact absurd h1 (by decide)
      | xdict_size _ h1 h2 => rw [hl] at h2; exact absurd h2 (by decide)
      | xdict_line _ h1 h2 hl0 => exact absurd hl hl0
      | _ => simp_all
    refine ⟨hout, ?_, ?_⟩
    · rw [packXRef_null, List.take_append_of_le_length (by simp [nullRow]),
        List.take_of_length_le (by simp [nullRow])]
    · rw [packXRef_null]
      exact firstRow_null _ _ _

set_option maxRecDepth 100000 in
/-- Witness of C24 (scenario S4/S5): the first row of the XRef stream of
`inputS4` decodes to `(0, 0, 0)`. -/
theorem object_zero_entry_witness :
    firstRow (stateS4 21).xref_f1_nbytes (stateS4 21).xref_f2_nbytes
      (packXRef (stateS4 21).xref_f1_nbytes (stateS4 21).xref_f2_nbytes (stateS4 21).xref) =
        some (0, 0, 0) :=
  ((object_zero_entry (stateS4 21) (stateS4 22) "stream\n".toList rfl).2 rfl rfl).2.2

set_option maxRecDepth 100000 in
/-- Counterexample to C24 as stated (scenario S4/S5): the widths are `(1, 1, 1)`,
the three bytes that follow the line `stream` in the output are zero, and the
first row of the XRef stream decodes to `(0, 0, 0)`, not to `(0, 0, 65535)`. -/
theorem object_zero_claim_counterexample :
    ((stateS4 21).xref_f1_nbytes, (stateS4 21).xref_f2_nbytes) = (1, 1) ∧
      ((stateS4 22).out.drop ((stateS4 21).out.length + 7)).take 3 =
        [Char.ofNat 0, Char.ofNat 0, Char.ofNat 0] ∧
      firstRow 1 1 (((stateS4 22).out.drop ((stateS4 21).out.length + 7)).take 15) =
        some (0, 0, 0) ∧
      firstRow 1 1 (((stateS4 22).out.drop ((stateS4 21).out.length + 7)).take 15) ≠
        some (0, 0, 65535) := by
  decide

theorem saturatedLength_eq (c k : Nat) : saturatedLength c k = ((c - k : Nat) : Int) := by
  unfold saturatedLength
  omega

/-- C25: The ignore_newline decrement saturates and repeats.  Start in state
`st_in_obj` and read `stream`, the lines `body` of the stream (none of them
`endstream`), `endstream`, the lines `mid` (none of them an object header), the
header `hdr` of the next object and a line `num` that matches `^\d+\n$`.  With
`c` the byte count of `body` and `k` the number of lines of `mid` that are
`%QDF: ignore_newline`, the run goes through, the length recorded after `mid` and
written in place of `num` is `max(0, c - k)`, and for an empty body it is 0
whatever the number of marker lines.  The offsets are taken to stay in the
range of a signed 64-bit integer. -/
theorem ignore_newline_saturates (s0 : QdfFixer) (body mid : List Bytes) (hdr num d : Bytes)
    (hst : s0.state = .st_in_obj)
    (hbody : ∀ l ∈ body, l ≠ "endstream\n".toList)
    (hmid : ∀ l ∈ mid, re_n_0_obj l = none)
    (hhdr : re_n_0_obj hdr = some d) (hnext : stoi d = some (s0.last_obj + 1))
    (hnum : re_num num = true)
    (h0 : 0 ≤ s0.offset)
    (hov : s0.offset + (7 + totalLength body + 10 + totalLength mid + hdr.length + num.length
      + 20 : Nat) ≤ OFFSET_MAX) :
    ∃ s4 s6 : QdfFixer,
      runLines s0 (["stream\n".toList] ++ body ++ ["endstream\n".toList] ++ mid) = .ok s4 ∧
      runLines s4 [hdr, num] = .ok s6 ∧
      s4.state = .st_after_stream ∧
      (s4.stream_length : Int) = saturatedLength (totalLength body) (mid.count ignoreMarker) ∧
      s6.stream_length = s4.stream_length ∧
      s6.out = s4.out ++ hdr ++ toDec s4.stream_length ++ "\n".toList ∧
      s4.out = s0.out ++ "stream\n".toList ++ body.flatten ++ "endstream\n".toList ++
        mid.flatten ∧
      (totalLength body = 0 → s6.out = s4.out ++ hdr ++ "0\n".toList) := by
  simp only [Nat.cast_add, Nat.cast_ofNat] at hov
  have p1 : (0 : Int) ≤ (totalLength body : Int) := Int.natCast_nonneg _
  have p2 : (0 : Int) ≤ (totalLength mid : Int) := Int.natCast_nonneg _
  have p3 : (0 : Int) ≤ (hdr.length : Int) := Int.natCast_nonneg _
  have p4 : (0 : Int) ≤ (num.length : Int) := Int.natCast_nonneg _
  have l7 : (("stream\n".toList.length : Nat) : Int) = 7 := rfl
  have l10 : (("endstream\n".toList.length : Nat) : Int) = 10 := rfl
  -- the line `stream`
  obtain ⟨a1, e1, h1⟩ : ∃ a, a = ({ advance s0 "stream\n".toList with
        out := s0.out ++ "stream\n".toList
        state := .st_in_stream
        stream_start := s0.offset + (("stream\n".toList.length : Nat) : Int) } : QdfFixer) ∧
      step s0 "stream\n".toList = .ok a :=
    ⟨_, rfl, step_of_cases (by omega) (StepOk.obj_stream hst rfl)⟩
  have a1off : a1.offset = s0.offset + 7 := by rw [e1]; rfl
  -- the stream body
  obtain ⟨n2, lo2, h2⟩ := runLines_in_stream body a1 (by rw [e1]) hbody (by rw [a1off]; omega)
  obtain ⟨a2, e2, h2⟩ : ∃ a, a = ({ a1 with
        lineno := n2, last_offset := lo2
        offset := a1.offset + totalLength body
        out := a1.out ++ body.flatten } : QdfFixer) ∧ runLines a1 body = .ok a := ⟨_, rfl, h2⟩
  have a2off : a2.offset = s0.offset + 7 + totalLength body := by rw [e2]; simp only [a1off]
  have a2start : a2.stream_start = s0.offset + 7 := by rw [e2, e1]; rfl
  -- the line `endstream`
  obtain ⟨a3, e3, h3⟩ : ∃ a, a = ({ advance a2 "endstream\n".toList with
        stream_length := (a2.offset - a2.stream_start).toNat
        state := .st_after_stream
        out := a2.out ++ "endstream\n".toList } : QdfFixer) ∧
      step a2 "endstream\n".toList = .ok a :=
    ⟨_, rfl, step_of_cases (by rw [a2off]; omega)
      (StepOk.stream_end (by rw [e2, e1]) rfl (by rw [a2off, a2start]; omega))⟩
  have a3off : a3.offset = s0.offset + 7 + totalLength body + 10 := by
    rw [e3]
    simp only [advance, a2off]
    rfl
  have a3len : a3.stream_length = totalLength body := by
    rw [e3]
    simp only [a2off, a2start]
    omega
  -- the lines after `endstream`
  obtain ⟨n4, lo4, h4⟩ := runLines_after_stream mid a3 (by rw [e3]) hmid (by rw [a3off]; omega)
  obtain ⟨a4, e4, h4⟩ : ∃ a, a = ({ a3 with
        lineno := n4, last_offset := lo4
        offset := a3.offset + totalLength mid
        out := a3.out ++ mid.flatten
        stream_length := a3.stream_length - mid.count ignoreMarker } : QdfFixer) ∧
      runLines a3 mid = .ok a := ⟨_, rfl, h4⟩
  have a4off : a4.offset = s0.offset + 7 + totalLength body + 10 + totalLength mid := by
    rw [e4]
    simp only [a3off]
  have a4len : a4.stream_length = totalLength body - mid.count ignoreMarker := by
    rw [e4]
    simp only [a3len]
  have a4obj : a4.last_obj = s0.last_obj := by rw [e4, e3, e2, e1]; rfl
  have a4st : a4.state = .st_after_stream := by rw [e4, e3]
  have a4out : a4.out = s0.out ++ "stream\n".toList ++ body.flatten ++ "endstream\n".toList ++
      mid.flatten := by
    rw [e4, e3, e2, e1]
  -- the object header
  have hlt : s0.last_obj < INT_MAX := by
    unfold stoi at hnext
    split_ifs at hnext with hle
    simp only [Option.some.injEq] at hnext
    omega
  obtain ⟨a5, e5, h5⟩ : ∃ a, a = ({ advance a4 hdr with
        last_obj := a4.last_obj + 1
        xref := a4.xref ++ [XRefEntry.uncompressed a4.offset]
        state := .st_in_length
        out := a4.out ++ hdr } : QdfFixer) ∧ step a4 hdr = .ok a :=
    ⟨_, rfl, step_of_cases (by rw [a4off]; omega)
      (StepOk.after_header a4st d hhdr (by rw [a4obj]; exact hnext) (by rw [a4obj]; exact hlt))⟩
  have a5off : a5.offset = s0.offset + 7 + totalLength body + 10 + totalLength mid +
      hdr.length := by
    rw [e5]
    simp only [advance, a4off]
  have a5len : a5.stream_length = a4.stream_length := by rw [e5]; rfl
  -- the length line
  have hL : ((a4.stream_length : Nat) : Int) ≤ OFFSET_MAX := by
    rw [a4len]
    omega
  have hlen := toDec_length_le hL
  obtain ⟨a6, e6, h6⟩ : ∃ a, a = ({ advance a5 num with
        offset := a5.offset + (((toDec a5.stream_length).length + 1 : Nat) : Int)
        state := .st_top
        out := a5.out ++ (toDec a5.stream_length ++ "\n".toList) } : QdfFixer) ∧
      step a5 num = .ok a :=
    ⟨_, rfl, step_of_cases (by rw [a5off]; omega)
      (StepOk.in_length (by rw [e5]) hnum (by
        rw [a5off, a5len]
        push_cast
        omega))⟩
  have a6out : a6.out = a4.out ++ hdr ++ toDec a4.stream_length ++ "\n".toList := by
    rw [e6]
    simp only [a5len]
    rw [e5]
    simp only [List.append_assoc]
  refine ⟨a4, a6, ?_, ?_, a4st, ?_, ?_, a6out, a4out, ?_⟩
  · have hlines : ["stream\n".toList] ++ body ++ ["endstream\n".toList] ++ mid =
        "stream\n".toList :: (body ++ ("endstream\n".toList :: mid)) := by
      simp
    rw [hlines, runLines, h1, Result.bind_ok, runLines_append, h2, Result.bind_ok, runLines, h3,
      Result.bind_ok, h4]
  · simp only [runLines, h5, Result.bind_ok, h6]
  · rw [a4len, saturatedLength_eq]
  · rw [e6]
    exact a5len
  · intro hz
    have : a4.stream_length = 0 := by
      rw [a4len, hz]
      omega
    rw [a6out, this]
    simp only [List.append_assoc]
    rfl

set_option maxRecDepth 100000 in
/-- Witness of C25: the empty stream of object 1 followed by two marker lines is
written with length 0. -/
theorem ignore_newline_saturates_witness :
    outputOf (runLines (stateS3 1)
      ["stream\n".toList, "endstream\n".toList, ignoreMarker, ignoreMarker, "endobj\n".toList,
        "2 0 obj\n".toList, "7\n".toList]) =
      some ((stateS3 1).out ++ "stream\nendstream\n".toList ++ ignoreMarker ++ ignoreMarker ++
        "endobj\n2 0 obj\n0\n".toList) := by
  obtain ⟨s4, s6, h1, h2, -, -, -, -, h7, h8⟩ :=
    ignore_newline_saturates (stateS3 1) [] [ignoreMarker, ignoreMarker, "endobj\n".toList]
      "2 0 obj\n".toList "7\n".toList "2".toList rfl (by decide) (by decide) rfl rfl rfl
      (by decide) (by decide)
  have hr : runLines (stateS3 1)
      ["stream\n".toList, "endstream\n".toList, ignoreMarker, ignoreMarker, "endobj\n".toList,
        "2 0 obj\n".toList, "7\n".toList] = .ok s6 := by
    have := runLines_append (["stream\n".toList] ++ [] ++ ["endstream\n".toList] ++
      [ignoreMarker, ignoreMarker, "endobj\n".toList]) ["2 0 obj\n".toList, "7\n".toList]
      (stateS3 1)
    rw [h1, Result.bind_ok, h2] at this
    exact this
  rw [hr]
  simp only [outputOf, Result.toOption, Option.map_some', h8 rfl, h7]
  rfl

/-- Lines that are no marker, read in the dictionary or in front of the first
marker of an object stream, are discarded: nothing is written and the state
stays one of these two. -/
theorem runLines_swallow (rest : List Bytes) : ∀ a : QdfFixer,
    a.state = .st_in_ostream_dict ∨ a.state = .st_in_ostream_offsets →
    (∀ x ∈ rest, re_ostream_obj x = none) →
    a.offset + (totalLength rest : Int) ≤ OFFSET_MAX →
    ∃ s, runLines a rest = .ok s ∧ s.out = a.out ∧
      (s.state = .st_in_ostream_dict ∨ s.state = .st_in_ostream_offsets) := by
  induction rest with
  | nil =>
    intro a ha _ _
    exact ⟨a, rfl, rfl, ha⟩
  | cons x rest ih =>
    intro a ha hx hov
    simp only [totalLength_cons, Nat.cast_add] at hov
    have hpos : (0 : Int) ≤ (totalLength rest : Int) := Int.natCast_nonneg _
    have hnext : ∃ t, step a x = .ok t ∧ t.out = a.out ∧
        t.offset = a.offset + (x.length : Int) ∧
        (t.state = .st_in_ostream_dict ∨ t.state = .st_in_ostream_offsets) := by
      rcases ha with ha | ha
      · by_cases hs : x = "stream\n".toList
        · exact ⟨_, step_of_cases (by omega) (StepOk.dict_stream ha hs), rfl, rfl, Or.inr rfl⟩
        · exact ⟨_, step_of_cases (by omega) (StepOk.dict_line ha hs), rfl, rfl, Or.inl ha⟩
      · exact ⟨_, step_of_cases (by omega) (StepOk.offsets_other ha (hx x (by simp))), rfl, rfl,
          Or.inr ha⟩
    obtain ⟨t, h1, h2, h3, h4⟩ := hnext
    obtain ⟨s, g1, g2, g3⟩ := ih t h4 (fun y hy => hx y (by simp [hy])) (by rw [h3]; omega)
    exact ⟨s, by simp only [runLines, h1, Result.bind_ok, g1], by rw [g2, h2], g3⟩

theorem totalLength_take_le (rest : List Bytes) (k : Nat) :
    totalLength (rest.take k) ≤ totalLength rest := by
  have h := List.take_append_drop k rest
  have := congrArg totalLength h
  rw [totalLength_append] at this
  omega

/-- C26: An object stream without contained-object markers swallows the rest of
the input.  Let the lines of an input be `pre`, a line `l` that contains
`/Type /ObjStm` and is read in state `st_in_obj`, and the lines `rest`, none of
which matches `^%% Object stream: object (\d+)`.  Then after `l` and any number
of lines of `rest` the run has not stopped, the output is what it was after
`l`, and the state is `st_in_ostream_dict` or `st_in_ostream_offsets`, so never
`st_done`; the whole run ends without error and its output ends with `l`.  The
offsets are taken to stay in the range of a signed 64-bit integer. -/
theorem ostream_swallows (filename input : Bytes) (pre rest : List Bytes) (l : Bytes)
    (s0 : QdfFixer)
    (hsplit : splitLines input = pre ++ l :: rest)
    (hrun : runLines (QdfFixer.init filename) pre = .ok s0)
    (hst : s0.state = .st_in_obj)
    (hl : hasSub "/Type /ObjStm".toList l = true)
    (hrest : ∀ x ∈ rest, re_ostream_obj x = none)
    (hov : s0.offset + ((l.length + totalLength rest : Nat) : Int) ≤ OFFSET_MAX) :
    (∀ k, ∃ s, runLines (QdfFixer.init filename) (pre ++ l :: rest.take k) = .ok s ∧
      s.out = s0.out ++ l ∧
      (s.state = .st_in_ostream_dict ∨ s.state = .st_in_ostream_offsets) ∧
      s.state ≠ .st_done) ∧
    outputOf (processLines filename input) = some (s0.out ++ l) := by
  simp only [Nat.cast_add] at hov
  have hpos : (0 : Int) ≤ (totalLength rest : Int) := Int.natCast_nonneg _
  have hl1 : l ≠ "stream\n".toList := by
    intro h
    rw [h] at hl
    exact absurd hl (by decide)
  have hl2 : l ≠ "endobj\n".toList := by
    intro h
    rw [h] at hl
    exact absurd hl (by decide)
  obtain ⟨t, ht, h1⟩ : ∃ t, t = ({ advance s0 l with
        out := s0.out ++ l
        state := .st_in_ostream_dict
        ostream_id := s0.last_obj } : QdfFixer) ∧ step s0 l = .ok t :=
    ⟨_, rfl, step_of_cases (by omega) (StepOk.obj_ostm hst hl1 hl2 hl)⟩
  have tout : t.out = s0.out ++ l := by rw [ht]
  have toff : t.offset = s0.offset + (l.length : Int) := by rw [ht]; rfl
  have key : ∀ ls : List Bytes, (∀ x ∈ ls, re_ostream_obj x = none) →
      totalLength ls ≤ totalLength rest →
      ∃ s, runLines (QdfFixer.init filename) (pre ++ l :: ls) = .ok s ∧ s.out = s0.out ++ l ∧
        (s.state = .st_in_ostream_dict ∨ s.state = .st_in_ostream_offsets) := by
    intro ls hls hle
    obtain ⟨s, g1, g2, g3⟩ := runLines_swallow ls t (Or.inl (by rw [ht])) hls
      (by rw [toff]; omega)
    refine ⟨s, ?_, by rw [g2, tout], g3⟩
    rw [runLines_append, hrun, Result.bind_ok]
    simp only [runLines, h1, Result.bind_ok, g1]
  constructor
  · intro k
    obtain ⟨s, g1, g2, g3⟩ := key (rest.take k)
      (fun x hx => hrest x (List.mem_of_mem_take hx)) (totalLength_take_le rest k)
    refine ⟨s, g1, g2, g3, ?_⟩
    rcases g3 with g3 | g3 <;> rw [g3] <;> decide
  · obtain ⟨s, g1, g2, -⟩ := key rest hrest (le_refl _)
    have e1 : processLines filename input =
        runLines (QdfFixer.init filename) (splitLines input) := rfl
    rw [e1, hsplit, g1]
    simp only [outputOf, Result.toOption, Option.map_some', g2]

set_option maxRecDepth 100000 in
/-- Witness of C26: in `inputSwallow` the object stream has no marker line, and
the output is the first two lines of the input; the `xref` section and the
trailer are not reached. -/
theorem ostream_swallows_witness :
    outputOf (processLines "in.qdf".toList inputSwallow) =
      some "1 0 obj\n<< /Type /ObjStm >>\n".toList :=
  (ostream_swallows "in.qdf".toList inputSwallow ["1 0 obj\n".toList]
    ["stream\n".toList, "<<>>\n".toList, "endstream\n".toList, "endobj\n".toList,
      "xref\n".toList, "0 1\n".toList, "0000000000 65535 f \n".toList, "trailer <<\n".toList,
      ">>\n".toList, []]
    "<< /Type /ObjStm >>\n".toList
    (runLines (QdfFixer.init "in.qdf".toList) ["1 0 obj\n".toList]).final
    (by decide) rfl rfl (by decide) (by decide) (by decide)).2

end FixQdf
